import Mathlib

/-! TheForceEngine level editor: level loading and ray tracing

A shallow embedding of `TFE_Editor/LevelEditor/levelEditorData.cpp`, and of the delta image
drawing of `TFE_DarkForces/Landru/ldraw.cpp` and the frame rate table of
`TFE_DarkForces/Landru/cutscene_player.cpp`.

Conventions of the embedding.

* `f32` values are rationals (`ℚ`). The arithmetic of `traceRay` is that of `f32`: every
  sum, difference and product is rounded to the nearest `f32`, ties to even (`fadd`, `fsub`,
  `fmul`, from `F32.round`), one operation at a time and in the order of the source
  expression, with no wider intermediate precision and no fused multiply-add; comparisons,
  `min`, `max` and negation are exact, as they are in `f32`. `FLT_MAX` and `FLT_EPSILON`
  have their `<cfloat>` values. The embedding covers the finite range of `f32`: there is no
  NaN, and a result beyond `FLT_MAX`, an infinity in the source, stays the rational it
  rounds to. The arithmetic of `rayHitAABB` is taken exact; it is used on values for which
  it is exact in `f32`.
* `s32` values are integers (`Int`); where the source computes with them the result is
  reduced to 32 bits by `wrap32`.
* `std::vector` is `List`; an index outside a vector is an explicit fault (`none`, or
  `LoadResult.fault`), never a default value.
* Functions of the repository whose source file is not part of the development
  (`TFE_Math`, `TFE_Polygon`, `AssetBrowser`, `FileUtil`) and `sqrtf` are fields of an
  environment structure, so that every general theorem holds for each implementation of
  them; `specEnv` holds them as modelled from the spec, for the concrete traces.
* `TFE_Parser::readLine` and `sscanf` are modelled on lines already split into a key and
  fields (`Line`, `sscanf`).
-/

namespace LevelEditor

/-! ## Data model -/

/-- The largest finite `f32`, `(2 - 2^-23) * 2^127`. -/
def FLT_MAX : ℚ := 340282346638528859811704183484516925440

/-- The `f32` machine epsilon, `2^-23`. -/
def FLT_EPSILON : ℚ := 1 / 8388608

/-- The largest `s32`. -/
def INT_MAX : Int := 2147483647

/-- The power of two `2^e`, for an integer exponent. -/
def F32.pow2 (e : Int) : ℚ :=
  if 0 ≤ e then ((2 ^ e.toNat : Nat) : ℚ) else 1 / ((2 ^ (-e).toNat : Nat) : ℚ)

/-- The number of halvings that take `n` below 2, in at most `fuel` steps. -/
def F32.log2Loop : Nat → Nat → Nat
  | 0, _ => 0
  | fuel + 1, n => if n < 2 then 0 else F32.log2Loop fuel (n / 2) + 1

/-- The position of the leading bit of `n`: `2^(log2 n) ≤ n < 2^(log2 n + 1)` for
`n ≥ 1`. -/
def F32.log2 (n : Nat) : Nat := F32.log2Loop n n

/-- The binary exponent of a rational other than 0: the `e` with `2^e ≤ |q| < 2^(e+1)`. -/
def F32.exponent (q : ℚ) : Int :=
  if q.num.natAbs * 2 ^ F32.log2 q.den < q.den * 2 ^ F32.log2 q.num.natAbs then
    (F32.log2 q.num.natAbs : Int) - (F32.log2 q.den : Int) - 1
  else (F32.log2 q.num.natAbs : Int) - (F32.log2 q.den : Int)

/-- The spacing of the `f32` values around `q`: 24 significant bits, and the least exponent
-126, below which the values are the subnormal multiples of `2^-149`. -/
def F32.ulp (q : ℚ) : ℚ := F32.pow2 (max (F32.exponent q) (-126) - 23)

/-- The integer nearest to `q`, the even one of the two when `q` is half way between. -/
def F32.nearestEven (q : ℚ) : Int :=
  if q - (Rat.floor q : ℚ) < 1 / 2 then Rat.floor q
  else if 1 / 2 < q - (Rat.floor q : ℚ) then Rat.floor q + 1
  else if Rat.floor q % 2 = 0 then Rat.floor q
  else Rat.floor q + 1

/-- The `f32` a real result is rounded to: the nearest multiple of the spacing around it,
ties to even (the IEEE 754 default rounding). An `f32` value is its own rounding. -/
def F32.round (q : ℚ) : ℚ :=
  if q = 0 then 0 else (F32.nearestEven (q / F32.ulp q) : ℚ) * F32.ulp q

/-- The `f32` sum `a + b`. Adding zero changes nothing, as for every `f32`; the case is
written out so that it holds for every rational. -/
def fadd (a b : ℚ) : ℚ := if b = 0 then a else if a = 0 then b else F32.round (a + b)

/-- The `f32` difference `a - b`. -/
def fsub (a b : ℚ) : ℚ := if b = 0 then a else if a = 0 then -b else F32.round (a - b)

/-- The `f32` product `a * b`. -/
def fmul (a b : ℚ) : ℚ := F32.round (a * b)

/-- Reduction of an integer to the range of `s32` (two's complement). -/
def wrap32 (v : Int) : Int := (v + 2147483648) % 4294967296 - 2147483648

structure Vec2f where
  x : ℚ
  z : ℚ
deriving DecidableEq

structure Vec3f where
  x : ℚ
  y : ℚ
  z : ℚ
deriving DecidableEq

/-- Modelled from the spec: an asset handle is an opaque handle or the "no asset" sentinel
`NULL_ASSET` (here `none`); `editorAsset.h` is not part of the development. -/
abbrev AssetHandle := Option Nat

def NULL_ASSET : AssetHandle := none

/-- A texture binding: a 2D offset and an asset handle. -/
structure LevelTexture where
  offset : Vec2f
  handle : AssetHandle
deriving DecidableEq

/-- `EditorWall`; `idx0`, `idx1` are `idx[0]`, `idx[1]`, the four bindings are
`tex[WP_MID]`, `tex[WP_TOP]`, `tex[WP_BOT]`, `tex[WP_SIGN]`, and `flags0..2` is `flags[3]`. -/
structure EditorWall where
  idx0 : Int
  idx1 : Int
  texMid : LevelTexture
  texTop : LevelTexture
  texBot : LevelTexture
  texSign : LevelTexture
  adjoinId : Int
  mirrorId : Int
  flags0 : Int
  flags1 : Int
  flags2 : Int
  wallLight : Int
deriving DecidableEq

/-- `Polygon`: vertex ring, edge list, 2D bounds and cached triangulation. -/
structure Polygon where
  edge : List (Int × Int)
  vtx : List Vec2f
  bounds0 : Vec2f
  bounds1 : Vec2f
  triVtx : List Vec2f
  triIdx : List Int
deriving DecidableEq

structure EditorSector where
  id : Int
  name : String
  ambient : Int
  floorTex : LevelTexture
  ceilTex : LevelTexture
  floorHeight : ℚ
  ceilHeight : ℚ
  secHeight : ℚ
  flags0 : Int
  flags1 : Int
  flags2 : Int
  layer : Int
  vtx : List Vec2f
  walls : List EditorWall
  bounds0 : Vec3f
  bounds1 : Vec3f
  poly : Polygon
deriving DecidableEq

inductive FeatureSet where
  | FSET_VANILLA
  | FSET_OTHER (tag : Nat)
deriving DecidableEq

structure EditorLevel where
  name : String
  palette : String
  parallax : Vec2f
  featureSet : FeatureSet
  bounds0 : Vec3f
  bounds1 : Vec3f
  layerRange0 : Int
  layerRange1 : Int
  sectors : List EditorSector
deriving DecidableEq

structure Ray where
  origin : Vec3f
  dir : Vec3f
  maxDist : ℚ
  layer : Int
deriving DecidableEq

inductive HitPart where
  | HP_MID
  | HP_TOP
  | HP_BOT
  | HP_SIGN
  | HP_FLOOR
  | HP_CEIL
deriving DecidableEq

structure RayHitInfo where
  hitSectorId : Int
  hitWallId : Int
  hitPart : HitPart
  hitPos : Vec3f
  dist : ℚ
deriving DecidableEq

/-- The value-initialised wall (`memset(wall, 0, sizeof(EditorWall))`). -/
def EditorWall.zero : EditorWall :=
  { idx0 := 0, idx1 := 0,
    texMid := ⟨⟨0, 0⟩, NULL_ASSET⟩, texTop := ⟨⟨0, 0⟩, NULL_ASSET⟩,
    texBot := ⟨⟨0, 0⟩, NULL_ASSET⟩, texSign := ⟨⟨0, 0⟩, NULL_ASSET⟩,
    adjoinId := 0, mirrorId := 0, flags0 := 0, flags1 := 0, flags2 := 0, wallLight := 0 }

/-- The empty polygon. -/
def Polygon.zero : Polygon :=
  { edge := [], vtx := [], bounds0 := ⟨0, 0⟩, bounds1 := ⟨0, 0⟩, triVtx := [], triIdx := [] }

/-- The value-initialised sector (`*sector = {}`). -/
def EditorSector.zero : EditorSector :=
  { id := 0, name := "", ambient := 0,
    floorTex := ⟨⟨0, 0⟩, NULL_ASSET⟩, ceilTex := ⟨⟨0, 0⟩, NULL_ASSET⟩,
    floorHeight := 0, ceilHeight := 0, secHeight := 0,
    flags0 := 0, flags1 := 0, flags2 := 0, layer := 0,
    vtx := [], walls := [], bounds0 := ⟨0, 0, 0⟩, bounds1 := ⟨0, 0, 0⟩, poly := Polygon.zero }

/-- Element `i` of a vector indexed by an `s32`; `none` when `i` is outside the vector. -/
def vecAt {α : Type} (v : List α) (i : Int) : Option α :=
  if 0 ≤ i then v[i.toNat]? else none

/-! ## Ray tracing (`traceRay`) -/

/-- The functions and constants `traceRay` takes from other files of the repository
(`TFE_System/math.h`, `TFE_Polygon`, `rwall.h`, `levelEditorData.h`) and from `<cmath>`.
`lineSegmentIntersect a0 a1 b0 b1` is `some (s, t)` when the source function returns true
with the out-parameters `s` (along `a0 a1`) and `t` (along `b0 b1`);
`lineYPlaneIntersect p0 p1 h` is `some hitPoint` when the source function returns true. -/
structure TraceEnv where
  lineSegmentIntersect : Vec2f → Vec2f → Vec2f → Vec2f → Option (ℚ × ℚ)
  lineYPlaneIntersect : Vec3f → Vec3f → ℚ → Option Vec3f
  pointInsidePolygon : Polygon → Vec2f → Bool
  sqrtf : ℚ → ℚ
  WF1_ADJ_MID_TEX : Int
  LAYER_ANY : Int

/-- `TFE_Math::dot` on `Vec2f`: the sum of the two products, each operation rounded to
`f32`. -/
def dot2 (a b : Vec2f) : ℚ := fadd (fmul a.x b.x) (fmul a.z b.z)

/-- `TFE_Math::dot` on `Vec3f`: the sum of the three products, taken from left to right,
each operation rounded to `f32`. -/
def dot3 (a b : Vec3f) : ℚ :=
  fadd (fadd (fmul a.x b.x) (fmul a.y b.y)) (fmul a.z b.z)

/-- The start `p0xz` of the 2D segment of the ray (line 509). -/
def Ray.p0xz (ray : Ray) : Vec2f := ⟨ray.origin.x, ray.origin.z⟩

/-- The end `p1xz = { origin.x + dir.x * maxDist, origin.z + dir.z * maxDist }` of the 2D
segment of the ray (line 510). -/
def Ray.p1xz (ray : Ray) : Vec2f :=
  ⟨fadd ray.origin.x (fmul ray.dir.x ray.maxDist),
    fadd ray.origin.z (fmul ray.dir.z ray.maxDist)⟩

def Ray.dirxz (ray : Ray) : Vec2f := ⟨ray.dir.x, ray.dir.z⟩

/-- The test `wall->flags[0] & WF1_ADJ_MID_TEX`. -/
def adjMidTex (env : TraceEnv) (wall : EditorWall) : Bool :=
  decide (Int.land wall.flags0 env.WF1_ADJ_MID_TEX ≠ 0)

/-- The outward normal `nrm = { -(v1->z - v0->z), v1->x - v0->x }` that `traceRay` computes
for a wall from `v0` to `v1` (line 538). -/
def wallNormal (v0 v1 : Vec2f) : Vec2f := ⟨-(fsub v1.z v0.z), fsub v1.x v0.x⟩

/-- The height `yAtHit = origin.y + ray->dir.y * s * maxDist` (line 546) the wall loop
computes for the ray at parameter `s` of its 2D segment. -/
def Ray.yAt (ray : Ray) (s : ℚ) : ℚ :=
  fadd ray.origin.y (fmul (fmul ray.dir.y s) ray.maxDist)

/-- The body of the wall loop of `traceRay` (lines 536-562) for wall number `w`, on the
pair `(closestHit, closestWallId)`; `none` when a vertex index or the adjoin index is
outside its vector. -/
def wallTest (env : TraceEnv) (ray : Ray) (level : EditorLevel) (sector : EditorSector)
    (closest : ℚ × Int) (w : Nat) (wall : EditorWall) : Option (ℚ × Int) :=
  match vecAt sector.vtx wall.idx0, vecAt sector.vtx wall.idx1 with
  | some v0, some v1 =>
    if dot2 ray.dirxz (wallNormal v0 v1) < 0 then some closest
    else
      match env.lineSegmentIntersect ray.p0xz ray.p1xz v0 v1 with
      | none => some closest
      | some (s, _) =>
        if s < closest.1 then
          if ray.yAt s > fsub sector.floorHeight FLT_EPSILON
              ∧ ray.yAt s < fadd sector.ceilHeight FLT_EPSILON then
            if wall.adjoinId ≥ 0 then
              match vecAt level.sectors wall.adjoinId with
              | none => none
              | some next =>
                if ray.yAt s ≤ next.floorHeight ∨ ray.yAt s ≥ next.ceilHeight
                    ∨ adjMidTex env wall = true then some (s, (w : Int))
                else some closest
            else some (s, (w : Int))
          else some closest
        else some closest
  | _, _ => none

/-- The wall loop of `traceRay` (lines 534-563) from wall number `w` on. -/
def wallLoop (env : TraceEnv) (ray : Ray) (level : EditorLevel) (sector : EditorSector) :
    Nat → List EditorWall → ℚ × Int → Option (ℚ × Int)
  | _, [], closest => some closest
  | w, wall :: rest, closest =>
    match wallTest env ray level sector closest w wall with
    | none => none
    | some closest1 => wallLoop env ray level sector (w + 1) rest closest1

/-- The running state of `traceRay` across sectors. -/
structure TraceState where
  overallClosestHit : ℚ
  hitInfo : RayHitInfo
deriving DecidableEq

/-- The point `origin + dir * d`, as lines 570 and 608 compute it. -/
def Ray.pointAt (ray : Ray) (d : ℚ) : Vec3f :=
  ⟨fadd ray.origin.x (fmul ray.dir.x d), fadd ray.origin.y (fmul ray.dir.y d),
    fadd ray.origin.z (fmul ray.dir.z d)⟩

/-- "Test the closest wall" (lines 565-605): records the wall the wall loop selected when
it is closer than the closest hit found so far. -/
def testClosestWall (env : TraceEnv) (ray : Ray) (level : EditorLevel) (sector : EditorSector)
    (closest : ℚ × Int) (st : TraceState) : Option TraceState :=
  if closest.2 ≥ 0 then
    let closestHit := fmul closest.1 ray.maxDist
    let hitPoint := ray.pointAt closestHit
    match vecAt sector.walls closest.2 with
    | none => none
    | some wall =>
      if wall.adjoinId ≥ 0 then
        match vecAt level.sectors wall.adjoinId with
        | none => none
        | some next =>
          if (hitPoint.y ≤ next.floorHeight ∨ hitPoint.y ≥ next.ceilHeight)
              ∧ closestHit < st.overallClosestHit then
            some ⟨closestHit,
              ⟨sector.id, closest.2,
                if hitPoint.y ≤ next.floorHeight then HitPart.HP_BOT else HitPart.HP_TOP,
                hitPoint, closestHit⟩⟩
          else if adjMidTex env wall = true ∧ closestHit < st.overallClosestHit then
            some ⟨closestHit, ⟨sector.id, closest.2, HitPart.HP_MID, hitPoint, closestHit⟩⟩
          else some st
      else if closestHit < st.overallClosestHit then
        some ⟨closestHit, ⟨sector.id, closest.2, HitPart.HP_MID, hitPoint, closestHit⟩⟩
      else some st
  else some st

/-- The squared distance `dot(&offset, &offset)` from the ray origin to `hitPoint`. -/
def Ray.distSq (ray : Ray) (hitPoint : Vec3f) : ℚ :=
  dot3
    ⟨fsub hitPoint.x ray.origin.x, fsub hitPoint.y ray.origin.y, fsub hitPoint.z ray.origin.z⟩
    ⟨fsub hitPoint.x ray.origin.x, fsub hitPoint.y ray.origin.y, fsub hitPoint.z ray.origin.z⟩

/-- The inner part of a plane test (lines 612-627 and 631-646), once the plane is hit at
`hitPoint`. -/
def recordPlane (env : TraceEnv) (ray : Ray) (sector : EditorSector) (part : HitPart)
    (hitPoint : Vec3f) (st : TraceState) : TraceState :=
  if st.overallClosestHit = FLT_MAX
      ∨ ray.distSq hitPoint < fmul st.overallClosestHit st.overallClosestHit then
    if env.pointInsidePolygon sector.poly ⟨hitPoint.x, hitPoint.z⟩ = true then
      ⟨env.sqrtf (ray.distSq hitPoint),
        ⟨sector.id, -1, part, hitPoint, env.sqrtf (ray.distSq hitPoint)⟩⟩
    else st
  else st

/-- The floor plane test (lines 608-628). -/
def testFloor (env : TraceEnv) (ray : Ray) (sector : EditorSector) (st : TraceState) :
    TraceState :=
  if ray.origin.y > sector.floorHeight ∧ ray.dir.y < 0 then
    match env.lineYPlaneIntersect ray.origin (ray.pointAt ray.maxDist) sector.floorHeight with
    | some hitPoint => recordPlane env ray sector HitPart.HP_FLOOR hitPoint st
    | none => st
  else st

/-- The ceiling plane test (lines 629-647). -/
def testCeil (env : TraceEnv) (ray : Ray) (sector : EditorSector) (st : TraceState) :
    TraceState :=
  if ray.origin.y < sector.ceilHeight ∧ ray.dir.y > 0 then
    match env.lineYPlaneIntersect ray.origin (ray.pointAt ray.maxDist) sector.ceilHeight with
    | some hitPoint => recordPlane env ray sector HitPart.HP_CEIL hitPoint st
    | none => st
  else st

/-- The body of the sector loop of `traceRay` (lines 523-650). -/
def traceSector (env : TraceEnv) (ray : Ray) (level : EditorLevel) (st : TraceState)
    (sector : EditorSector) : Option TraceState :=
  if ray.layer ≠ env.LAYER_ANY ∧ ray.layer ≠ sector.layer then some st
  else
    match wallLoop env ray level sector 0 sector.walls (FLT_MAX, -1) with
    | none => none
    | some closest =>
      match testClosestWall env ray level sector closest st with
      | none => none
      | some st1 => some (testCeil env ray sector (testFloor env ray sector st1))

/-- The sector loop of `traceRay` (lines 521-651). -/
def sectorLoop (env : TraceEnv) (ray : Ray) (level : EditorLevel) :
    List EditorSector → TraceState → Option TraceState
  | [], st => some st
  | sector :: rest, st =>
    match traceSector env ray level st sector with
    | none => none
    | some st1 => sectorLoop env ray level rest st1

/-- The "no hit" values `traceRay` writes before the sector loop (lines 514-518). -/
def noHit : RayHitInfo :=
  { hitSectorId := -1, hitWallId := -1, hitPart := HitPart.HP_MID, hitPos := ⟨0, 0, 0⟩,
    dist := FLT_MAX }

/-- `traceRay(ray, level, hitInfo)`: the returned flag and the contents of `*hitInfo` after
the call; `none` when the source indexes a vector outside its range. -/
def traceRay (env : TraceEnv) (ray : Ray) (level : EditorLevel) (hitInfo : RayHitInfo) :
    Option (Bool × RayHitInfo) :=
  if level.sectors.isEmpty then some (false, hitInfo)
  else
    match sectorLoop env ray level level.sectors ⟨FLT_MAX, noHit⟩ with
    | none => none
    | some st => some (decide (st.hitInfo.hitSectorId ≥ 0), st.hitInfo)

/-! ## Level file lines (`TFE_Parser::readLine` and `sscanf`) -/

/-- The literal text a pattern of the loader starts with; `NONE` is a line that starts with
none of them. -/
inductive Key where
  | LEV | LEVELNAME | PALETTE | MUSIC | PARALLAX | TEXTURES | TEXTURE | NUMSECTORS
  | SECTOR | NAME | AMBIENT | FLOOR_TEXTURE | FLOOR_ALTITUDE | CEILING_TEXTURE
  | CEILING_ALTITUDE | SECOND_ALTITUDE | FLAGS | LAYER | VERTICES | VERTEX | WALLS | WALL
  | NONE
deriving DecidableEq

/-- A field of a line, as the conversion that reads it: `%d`, `%f` or `%s`. -/
inductive Arg where
  | int (v : Int)
  | flt (v : ℚ)
  | str (v : String)
deriving DecidableEq

/-- A conversion specifier of a pattern. -/
inductive Conv where
  | d | f | s
deriving DecidableEq

/-- Modelled from the spec: a logical line of the level file (comments stripped, upper
case), abstracted to the literal text it starts with and the fields that follow while
the literals between them agree with the pattern of that key. `TFE_System/parser.h` is not
part of the development. -/
structure Line where
  key : Key
  args : List Arg
deriving DecidableEq

/-- Whether a conversion accepts a field. -/
def Arg.accepts : Conv → Arg → Bool
  | Conv.d, Arg.int _ => true
  | Conv.f, Arg.flt _ => true
  | Conv.s, Arg.str _ => true
  | _, _ => false

/-- The fields a pattern converts: the longest prefix of the fields each accepted by its
conversion. -/
def convert : List Conv → List Arg → List Arg
  | c :: cs, a :: as => if Arg.accepts c a then a :: convert cs as else []
  | _, _ => []

/-- Modelled from the spec: `sscanf(line, pattern, ...)` for the pattern that starts with
`key` and has the conversions `fmt`. The result lists the converted fields, so its length is
the value `sscanf` returns and the out-parameters past it are not written. -/
def sscanf (line : Line) (key : Key) (fmt : List Conv) : List Arg :=
  if line.key = key then convert fmt line.args else []

/-- The out-parameter number `i` of a `%d` conversion: the converted value, or `cur` (what
the variable held) when `sscanf` stopped before it. -/
def argInt (a : List Arg) (i : Nat) (cur : Int) : Int :=
  match a[i]? with
  | some (Arg.int v) => v
  | _ => cur

/-- The out-parameter number `i` of a `%f` conversion. -/
def argFlt (a : List Arg) (i : Nat) (cur : ℚ) : ℚ :=
  match a[i]? with
  | some (Arg.flt v) => v
  | _ => cur

/-- The out-parameter number `i` of a `%s` conversion. -/
def argStr (a : List Arg) (i : Nat) (cur : String) : String :=
  match a[i]? with
  | some (Arg.str v) => v
  | _ => cur

/-- Modelled from the spec: `parser.readLine(bufferPos)` yields the next line and advances
the cursor; past the end of the buffer it yields a line no pattern matches. -/
def readLine (buf : List Line) : Line × List Line :=
  match buf with
  | [] => (⟨Key.NONE, []⟩, [])
  | line :: rest => (line, rest)

/-! ## Level loading (`loadLevelFromAsset`, `sectorToPolygon`) -/

def LevVersionMin : Int := 15
def LevVersionMax : Int := 21

/-- The functions `loadLevelFromAsset` and `sectorToPolygon` take from other files of the
repository (`AssetBrowser`, `FileUtil`, `TFE_Polygon`). `loadTexture` is the source function
of that name, whose body only forwards to `AssetBrowser`. -/
structure LoaderEnv where
  loadTexture : String → AssetHandle
  replaceExtension : String → String → String
  getFileNameFromPath : String → String
  computeTriangulation : Polygon → Polygon

/-- The outcome of `loadLevelFromAsset`: it returned true, with the level and the loader's
texture list `s_textureList`; it returned false, with the level as the call left it; or it
indexed or resized a vector outside its range. -/
inductive LoadResult where
  | loaded (level : EditorLevel) (textureList : List AssetHandle)
  | failed (level : EditorLevel)
  | fault
deriving DecidableEq

/-- Update the sector's polygon from the sector data (lines 371-403). -/
def sectorToPolygon (env : LoaderEnv) (sector : EditorSector) : EditorSector :=
  { sector with
    poly := env.computeTriangulation
      { edge := sector.walls.map fun wall => (wall.idx0, wall.idx1)
        vtx := sector.vtx
        bounds0 := sector.vtx.foldl (fun b v => ⟨min b.x v.x, min b.z v.z⟩) ⟨FLT_MAX, FLT_MAX⟩
        bounds1 := sector.vtx.foldl (fun b v => ⟨max b.x v.x, max b.z v.z⟩)
          ⟨-FLT_MAX, -FLT_MAX⟩
        triVtx := []
        triIdx := [] } }

/-- The version `versionMajor * 10 + versionMinor`, computed in `s32`. -/
def levVersion (versionMajor versionMinor : Int) : Int :=
  wrap32 (wrap32 (versionMajor * 10) + versionMinor)

/-- The header check (lines 94-105): true when the load goes on to the LEVELNAME record. -/
def headerPasses (line : Line) : Bool :=
  match sscanf line Key.LEV [Conv.d, Conv.d] with
  | [Arg.int versionMajor, Arg.int versionMinor] =>
    !(decide (levVersion versionMajor versionMinor < LevVersionMin)
      || decide (levVersion versionMajor versionMinor > LevVersionMax))
  | _ => false

/-- `std::vector::resize(n)` with value-initialised new elements. -/
def resize {α : Type} (v : List α) (n : Nat) (zero : α) : List α :=
  v.take n ++ List.replicate (n - v.length) zero

/-- The texture name loop (lines 152-163): reads `count` lines and appends one handle for
each; returns the list, the last line read and the cursor. -/
def readTextures (env : LoaderEnv) :
    Nat → Line → List Line → List AssetHandle → List AssetHandle × Line × List Line
  | 0, line, buf, list => (list, line, buf)
  | n + 1, _, buf, list =>
    let line := (readLine buf).1
    let textureName := argStr (sscanf line Key.TEXTURE [Conv.s]) 0 "DEFAULT.BM"
    readTextures env n line (readLine buf).2
      (list ++ [env.loadTexture (env.replaceExtension textureName "BM")])

/-- The loop over extra textures (lines 165-174): while the current line is a texture
line, appends its handle and reads the next line; returns the list, the current line, the
cursor and `readNext`. -/
def readExtraTextures (env : LoaderEnv) :
    Line → List Line → List AssetHandle → Bool → List AssetHandle × Line × List Line × Bool
  | line, [], list, readNext =>
    match sscanf line Key.TEXTURE [Conv.s] with
    | [Arg.str textureName] =>
      (list ++ [env.loadTexture (env.replaceExtension textureName "BM")],
        (readLine []).1, [], false)
    | _ => (list, line, [], readNext)
  | line, next :: rest, list, readNext =>
    match sscanf line Key.TEXTURE [Conv.s] with
    | [Arg.str textureName] =>
      readExtraTextures env next rest
        (list ++ [env.loadTexture (env.replaceExtension textureName "BM")]) false
    | _ => (list, line, next :: rest, readNext)

/-- The vertex loop (lines 286-296): reads `count` lines; the value `sscanf` returns is not
looked at, so a coordinate that is not converted keeps the zero of `resize`. -/
def readVertices : Nat → List Line → EditorSector → EditorSector × List Line
  | 0, buf, sector => (sector, buf)
  | n + 1, buf, sector =>
    let a := sscanf (readLine buf).1 Key.VERTEX [Conv.f, Conv.f]
    let vtx : Vec2f := ⟨argFlt a 0 0, argFlt a 1 0⟩
    readVertices n (readLine buf).2
      { sector with
        vtx := sector.vtx ++ [vtx]
        bounds0 := ⟨min sector.bounds0.x vtx.x, sector.bounds0.y, min sector.bounds0.z vtx.z⟩
        bounds1 := ⟨max sector.bounds1.x vtx.x, sector.bounds1.y, max sector.bounds1.z vtx.z⟩ }

/-- The conversions of the wall pattern (line 314). -/
def wallFmt : List Conv :=
  [Conv.d, Conv.d,
   Conv.d, Conv.f, Conv.f, Conv.d,
   Conv.d, Conv.f, Conv.f, Conv.d,
   Conv.d, Conv.f, Conv.f, Conv.d,
   Conv.d, Conv.f, Conv.f,
   Conv.d, Conv.d, Conv.d, Conv.d, Conv.d, Conv.d, Conv.d]

/-- The wall after `memset` and `sscanf` (lines 308-319): each field holds its converted
value, or zero when `sscanf` stopped before it. The texture handles are set later. -/
def wallOfArgs (a : List Arg) : EditorWall :=
  { idx0 := argInt a 0 0, idx1 := argInt a 1 0,
    texMid := ⟨⟨argFlt a 3 0, argFlt a 4 0⟩, NULL_ASSET⟩,
    texTop := ⟨⟨argFlt a 7 0, argFlt a 8 0⟩, NULL_ASSET⟩,
    texBot := ⟨⟨argFlt a 11 0, argFlt a 12 0⟩, NULL_ASSET⟩,
    texSign := ⟨⟨argFlt a 15 0, argFlt a 16 0⟩, NULL_ASSET⟩,
    adjoinId := argInt a 17 0, mirrorId := argInt a 18 0,
    flags0 := argInt a 20 0, flags1 := argInt a 21 0, flags2 := argInt a 22 0,
    wallLight := argInt a 23 0 }

/-- The handle of a wall texture (lines 329-332): `texId >= 0 ? s_textureList[texId] :
NULL_ASSET`; the outer `none` is an index outside the list. -/
def wallTexHandle (textureList : List AssetHandle) (texId : Int) : Option AssetHandle :=
  if texId ≥ 0 then vecAt textureList texId else some NULL_ASSET

/-- Lines 324-337 for one wall: the light is re-biased and the texture handles are looked
up; `none` when a texture id is outside the texture list. -/
def finishWall (textureList : List AssetHandle) (a : List Arg) (wall : EditorWall) :
    Option EditorWall :=
  match wallTexHandle textureList (argInt a 2 0), wallTexHandle textureList (argInt a 6 0),
    wallTexHandle textureList (argInt a 10 0), wallTexHandle textureList (argInt a 14 0) with
  | some mid, some top, some bot, some sign =>
    some { wall with
      wallLight := if wall.wallLight ≥ 32768 then wrap32 (wall.wallLight - 65536)
        else wall.wallLight
      texMid := ⟨wall.texMid.offset, mid⟩
      texTop := ⟨wall.texTop.offset, top⟩
      texBot := ⟨wall.texBot.offset, bot⟩
      texSign := ⟨if sign = NULL_ASSET then ⟨0, 0⟩ else wall.texSign.offset, sign⟩ }
  | _, _, _, _ => none

/-- The outcome of a loop of the loader over the records of one sector. -/
inductive SectorResult where
  | ok (sector : EditorSector) (buf : List Line)
  | failed (sector : EditorSector)
  | fault
deriving DecidableEq

/-- The wall loop (lines 306-338) from wall number `w` on, `n` walls left. -/
def readWalls (textureList : List AssetHandle) :
    Nat → Nat → List Line → EditorSector → SectorResult
  | 0, _, buf, sector => SectorResult.ok sector buf
  | n + 1, w, buf, sector =>
    let a := sscanf (readLine buf).1 Key.WALL wallFmt
    if a.length < 23 then
      SectorResult.failed { sector with walls := sector.walls.set w (wallOfArgs a) }
    else
      match finishWall textureList a (wallOfArgs a) with
      | none => SectorResult.fault
      | some wall =>
        readWalls textureList n (w + 1) (readLine buf).2
          { sector with walls := sector.walls.set w wall }

/-- Negation of a loaded height, "only if non-zero" (lines 254-256). -/
def negateHeight (h : ℚ) : ℚ := if h ≠ 0 then -h else h

/-- Lines 272-338 of the sector record: the VERTICES record on `line`, the vertices, the
WALLS record and the walls. -/
def loadSectorGeometry (textureList : List AssetHandle) (line : Line) (buf : List Line)
    (sector : EditorSector) : SectorResult :=
  match sscanf line Key.VERTICES [Conv.d] with
  | [Arg.int vertexCount] =>
    if vertexCount < 0 then SectorResult.fault
    else
      let sector1 : EditorSector :=
        { sector with
          bounds0 := ⟨FLT_MAX, min sector.floorHeight sector.ceilHeight, FLT_MAX⟩
          bounds1 := ⟨-FLT_MAX, max sector.floorHeight sector.ceilHeight, -FLT_MAX⟩ }
      let r := readVertices vertexCount.toNat buf sector1
      match sscanf (readLine r.2).1 Key.WALLS [Conv.d] with
      | [Arg.int wallCount] =>
        if wallCount < 0 then SectorResult.fault
        else
          readWalls textureList wallCount.toNat 0 (readLine r.2).2
            { r.1 with walls := List.replicate wallCount.toNat EditorWall.zero }
      | _ => SectorResult.failed r.1
  | _ => SectorResult.failed sector

/-- Lines 245-270 of the sector record: the optional SECOND ALTITUDE record, the negation
of the heights, the FLAGS record and the optional LAYER record; then the geometry. -/
def loadSectorFlags (textureList : List AssetHandle) (buf : List Line)
    (sector : EditorSector) : SectorResult :=
  let line0 := (readLine buf).1
  let buf0 := (readLine buf).2
  let sec := sscanf line0 Key.SECOND_ALTITUDE [Conv.f]
  let line1 := if sec.length = 1 then (readLine buf0).1 else line0
  let buf1 := if sec.length = 1 then (readLine buf0).2 else buf0
  let flags := sscanf line1 Key.FLAGS [Conv.d, Conv.d, Conv.d]
  let sector1 : EditorSector :=
    { sector with
      floorHeight := negateHeight sector.floorHeight
      ceilHeight := negateHeight sector.ceilHeight
      secHeight := negateHeight (argFlt sec 0 sector.secHeight)
      flags0 := argInt flags 0 sector.flags0
      flags1 := argInt flags 1 sector.flags1
      flags2 := argInt flags 2 sector.flags2 }
  if flags.length ≠ 3 then SectorResult.failed sector1
  else
    let line2 := (readLine buf1).1
    let buf2 := (readLine buf1).2
    let layer := sscanf line2 Key.LAYER [Conv.d]
    let sector2 : EditorSector := { sector1 with layer := argInt layer 0 sector1.layer }
    if layer.length = 1 then
      loadSectorGeometry textureList (readLine buf2).1 (readLine buf2).2 sector2
    else loadSectorGeometry textureList line2 buf2 sector2

/-- Lines 232-243 of the sector record: the CEILING TEXTURE and CEILING ALTITUDE records. -/
def loadSectorCeiling (textureList : List AssetHandle) (buf : List Line)
    (sector : EditorSector) : SectorResult :=
  let tex := sscanf (readLine buf).1 Key.CEILING_TEXTURE [Conv.d, Conv.f, Conv.f, Conv.d]
  let sector1 : EditorSector :=
    { sector with
      ceilTex := ⟨⟨argFlt tex 1 sector.ceilTex.offset.x, argFlt tex 2 sector.ceilTex.offset.z⟩,
        sector.ceilTex.handle⟩ }
  if tex.length ≠ 4 then SectorResult.failed sector1
  else
    match sscanf (readLine (readLine buf).2).1 Key.CEILING_ALTITUDE [Conv.f] with
    | [Arg.flt ceilHeight] =>
      match vecAt textureList (argInt tex 0 0) with
      | none => SectorResult.fault
      | some handle =>
        loadSectorFlags textureList (readLine (readLine buf).2).2
          { sector1 with
            ceilHeight := ceilHeight
            ceilTex := ⟨sector1.ceilTex.offset, handle⟩ }
    | _ => SectorResult.failed sector1

/-- Lines 217-230 of the sector record: the FLOOR TEXTURE and FLOOR ALTITUDE records. -/
def loadSectorFloor (textureList : List AssetHandle) (buf : List Line)
    (sector : EditorSector) : SectorResult :=
  let tex := sscanf (readLine buf).1 Key.FLOOR_TEXTURE [Conv.d, Conv.f, Conv.f, Conv.d]
  let sector1 : EditorSector :=
    { sector with
      floorTex := ⟨⟨argFlt tex 1 sector.floorTex.offset.x,
        argFlt tex 2 sector.floorTex.offset.z⟩, sector.floorTex.handle⟩ }
  if tex.length ≠ 4 then SectorResult.failed sector1
  else
    match sscanf (readLine (readLine buf).2).1 Key.FLOOR_ALTITUDE [Conv.f] with
    | [Arg.flt floorHeight] =>
      match vecAt textureList (argInt tex 0 0) with
      | none => SectorResult.fault
      | some handle =>
        loadSectorCeiling textureList (readLine (readLine buf).2).2
          { sector1 with
            floorHeight := floorHeight
            floorTex := ⟨sector1.floorTex.offset, handle⟩ }
    | _ => SectorResult.failed sector1

/-- The body of the sector loop (lines 191-338): one sector record, read into a
value-initialised sector. -/
def loadSector (textureList : List AssetHandle) (buf : List Line) : SectorResult :=
  match sscanf (readLine buf).1 Key.SECTOR [Conv.d] with
  | [Arg.int id] =>
    let buf1 := (readLine buf).2
    let name := sscanf (readLine buf1).1 Key.NAME [Conv.s]
    let sector1 : EditorSector :=
      { EditorSector.zero with id := id, name := argStr name 0 EditorSector.zero.name }
    let buf2 := (readLine buf1).2
    match sscanf (readLine buf2).1 Key.AMBIENT [Conv.d] with
    | [Arg.int ambient] =>
      loadSectorFloor textureList (readLine buf2).2 { sector1 with ambient := ambient }
    | _ => SectorResult.failed sector1
  | _ => SectorResult.failed EditorSector.zero

/-- The outcome of the sector loop. -/
inductive SectorsResult where
  | ok (sectors : List EditorSector)
  | failed (sectors : List EditorSector)
  | fault
deriving DecidableEq

/-- The sector loop (lines 189-339) from sector number `i` on, `n` sectors left, on the
sector list of the level. -/
def loadSectors (textureList : List AssetHandle) :
    Nat → Nat → List Line → List EditorSector → SectorsResult
  | 0, _, _, sectors => SectorsResult.ok sectors
  | n + 1, i, buf, sectors =>
    match loadSector textureList buf with
    | SectorResult.fault => SectorsResult.fault
    | SectorResult.failed sector => SectorsResult.failed (sectors.set i sector)
    | SectorResult.ok sector buf1 =>
      loadSectors textureList n (i + 1) buf1 (sectors.set i sector)

/-- Lines 341-367: the feature set, the bounds and layer range of the level, and the
polygon of each sector. -/
def finishLevel (env : LoaderEnv) (level : EditorLevel) : EditorLevel :=
  { level with
    featureSet := FeatureSet.FSET_VANILLA
    bounds0 := level.sectors.foldl
      (fun b sector => ⟨min b.x sector.bounds0.x, min b.y sector.bounds0.y,
        min b.z sector.bounds0.z⟩) ⟨FLT_MAX, FLT_MAX, FLT_MAX⟩
    bounds1 := level.sectors.foldl
      (fun b sector => ⟨max b.x sector.bounds1.x, max b.y sector.bounds1.y,
        max b.z sector.bounds1.z⟩) ⟨-FLT_MAX, -FLT_MAX, -FLT_MAX⟩
    layerRange0 := level.sectors.foldl (fun r sector => min r sector.layer) INT_MAX
    layerRange1 := level.sectors.foldl (fun r sector => max r sector.layer) (-INT_MAX)
    sectors := level.sectors.map (sectorToPolygon env) }

/-- Lines 142-367: the TEXTURES record on `line`, the texture names, the NUMSECTORS record,
the sectors and the closing computations. -/
def loadTexturesAndSectors (env : LoaderEnv) (level : EditorLevel) (line : Line)
    (buf : List Line) : LoadResult :=
  match sscanf line Key.TEXTURES [Conv.d] with
  | [Arg.int textureCount] =>
    if textureCount < 0 then LoadResult.fault
    else
      let t := readTextures env textureCount.toNat line buf []
      let e := readExtraTextures env t.2.1 t.2.2 t.1 true
      let line1 := if e.2.2.2 = true then (readLine e.2.2.1).1 else e.2.1
      let buf1 := if e.2.2.2 = true then (readLine e.2.2.1).2 else e.2.2.1
      match sscanf line1 Key.NUMSECTORS [Conv.d] with
      | [Arg.int sectorCount] =>
        if sectorCount < 0 then LoadResult.fault
        else
          match loadSectors e.1 sectorCount.toNat 0 buf1
              (resize level.sectors sectorCount.toNat EditorSector.zero) with
          | SectorsResult.fault => LoadResult.fault
          | SectorsResult.failed sectors => LoadResult.failed { level with sectors := sectors }
          | SectorsResult.ok sectors =>
            LoadResult.loaded (finishLevel env { level with sectors := sectors }) e.1
      | _ => LoadResult.failed level
  | _ => LoadResult.failed level

/-- Lines 125-140: the optional MUSIC record and the optional PARALLAX record; then the
textures and sectors. -/
def loadSky (env : LoaderEnv) (level : EditorLevel) (buf : List Line) : LoadResult :=
  let line0 := (readLine buf).1
  let buf0 := (readLine buf).2
  let music := sscanf line0 Key.MUSIC [Conv.s]
  let line1 := if music.length = 1 then (readLine buf0).1 else line0
  let buf1 := if music.length = 1 then (readLine buf0).2 else buf0
  match sscanf line1 Key.PARALLAX [Conv.f, Conv.f] with
  | [Arg.flt x, Arg.flt z] =>
    loadTexturesAndSectors env { level with parallax := ⟨x, z⟩ } (readLine buf1).1
      (readLine buf1).2
  | _ => loadTexturesAndSectors env { level with parallax := ⟨1024, 1024⟩ } line1 buf1

/-- `loadLevelFromAsset(asset, level)` on the lines `fileData` of the asset's buffer; an
asset that cannot be read, or is empty, has no lines. -/
def loadLevelFromAsset (env : LoaderEnv) (level : EditorLevel) (fileData : List Line) :
    LoadResult :=
  if fileData.isEmpty then LoadResult.failed level
  else if headerPasses (readLine fileData).1 = false then LoadResult.failed level
  else
    let buf := (readLine fileData).2
    match sscanf (readLine buf).1 Key.LEVELNAME [Conv.s] with
    | [Arg.str name] =>
      let buf1 := (readLine buf).2
      match sscanf (readLine buf1).1 Key.PALETTE [Conv.s] with
      | [Arg.str palette] =>
        loadSky env { level with name := name, palette := env.getFileNameFromPath palette }
          (readLine buf1).2
      | _ => LoadResult.failed { level with name := name }
    | _ => LoadResult.failed level

/-! ## Reference implementations of the helpers, and example inputs -/

/-- Modelled from the spec: `TFE_Math::lineSegmentIntersect`, the intersection of the 2D
segment `a0 a1` with the 2D segment `b0 b1`, with the parametric distance `s` along the
first and `t` along the second. `TFE_System/math.h` is not part of the development. -/
def TFE_Math.lineSegmentIntersect (a0 a1 b0 b1 : Vec2f) : Option (ℚ × ℚ) :=
  let den := (a1.x - a0.x) * (b1.z - b0.z) - (a1.z - a0.z) * (b1.x - b0.x)
  if den = 0 then none
  else
    let s := ((b0.x - a0.x) * (b1.z - b0.z) - (b0.z - a0.z) * (b1.x - b0.x)) / den
    let t := ((b0.x - a0.x) * (a1.z - a0.z) - (b0.z - a0.z) * (a1.x - a0.x)) / den
    if 0 ≤ s ∧ s ≤ 1 ∧ 0 ≤ t ∧ t ≤ 1 then some (s, t) else none

/-- Modelled from the spec: `TFE_Math::lineYPlaneIntersect`, the "simple parametric
line/plane intersection along Y" of the segment `p0 p1` with the plane `y = planeHeight`. -/
def TFE_Math.lineYPlaneIntersect (p0 p1 : Vec3f) (planeHeight : ℚ) : Option Vec3f :=
  if p1.y - p0.y = 0 then none
  else
    let s := (planeHeight - p0.y) / (p1.y - p0.y)
    if 0 ≤ s ∧ s ≤ 1 then
      some ⟨p0.x + s * (p1.x - p0.x), planeHeight, p0.z + s * (p1.z - p0.z)⟩
    else none

/-- Modelled from the spec: `TFE_Polygon::pointInsidePolygon`, the "standard even-odd test
over the edge list"; an edge with an index outside the vertex ring is passed over. -/
def TFE_Polygon.pointInsidePolygon (poly : Polygon) (p : Vec2f) : Bool :=
  poly.edge.foldl
    (fun inside e =>
      match vecAt poly.vtx e.1, vecAt poly.vtx e.2 with
      | some v0, some v1 =>
        if (decide (v0.z > p.z) != decide (v1.z > p.z))
            ∧ p.x < (v1.x - v0.x) * (p.z - v0.z) / (v1.z - v0.z) + v0.x then !inside
        else inside
      | _, _ => inside)
    false

/-- The environment of `traceRay` with the helpers as modelled from the spec, the square
root exact on squares of rationals, `WF1_ADJ_MID_TEX` the lowest flag bit and `LAYER_ANY`
a value no level file uses as a layer. -/
def specEnv : TraceEnv :=
  { lineSegmentIntersect := TFE_Math.lineSegmentIntersect
    lineYPlaneIntersect := TFE_Math.lineYPlaneIntersect
    pointInsidePolygon := TFE_Polygon.pointInsidePolygon
    sqrtf := fun v => Rat.sqrt v
    WF1_ADJ_MID_TEX := 1
    LAYER_ANY := -256 }

/-- An environment of the loader: a texture's handle is the length of its name,
`replaceExtension` and `getFileNameFromPath` keep the name, and no triangles are computed. -/
def exLoaderEnv : LoaderEnv :=
  { loadTexture := fun name => some name.length
    replaceExtension := fun name _ => name
    getFileNameFromPath := fun path => path
    computeTriangulation := fun poly => poly }

/-- A level as it may be before a load: named, with bounds, no sectors. -/
def exLevel : EditorLevel :=
  { name := "OLD", palette := "OLD.PAL", parallax := ⟨0, 0⟩,
    featureSet := FeatureSet.FSET_OTHER 1,
    bounds0 := ⟨0, 0, 0⟩, bounds1 := ⟨1, 1, 1⟩, layerRange0 := 0, layerRange1 := 0,
    sectors := [] }

/-- A level file with one texture and one sector of one vertex and one wall, with the
header line, the vertex line and the floor texture id left open. -/
def exFile (header vertexLine : Line) (floorTexId : Int) : List Line :=
  [ header,
    ⟨Key.LEVELNAME, [Arg.str "SECBASE"]⟩,
    ⟨Key.PALETTE, [Arg.str "SECBASE.PAL"]⟩,
    ⟨Key.MUSIC, [Arg.str "AVENGE.GMD"]⟩,
    ⟨Key.PARALLAX, [Arg.flt 1024, Arg.flt 1024]⟩,
    ⟨Key.TEXTURES, [Arg.int 1]⟩,
    ⟨Key.TEXTURE, [Arg.str "DEFAULT.BM"]⟩,
    ⟨Key.NUMSECTORS, [Arg.int 1]⟩,
    ⟨Key.SECTOR, [Arg.int 0]⟩,
    ⟨Key.NAME, [Arg.str "START"]⟩,
    ⟨Key.AMBIENT, [Arg.int 31]⟩,
    ⟨Key.FLOOR_TEXTURE, [Arg.int floorTexId, Arg.flt 0, Arg.flt 0, Arg.int 2]⟩,
    ⟨Key.FLOOR_ALTITUDE, [Arg.flt 0]⟩,
    ⟨Key.CEILING_TEXTURE, [Arg.int 0, Arg.flt 0, Arg.flt 0, Arg.int 2]⟩,
    ⟨Key.CEILING_ALTITUDE, [Arg.flt (-8)]⟩,
    ⟨Key.SECOND_ALTITUDE, [Arg.flt 0]⟩,
    ⟨Key.FLAGS, [Arg.int 0, Arg.int 0, Arg.int 0]⟩,
    ⟨Key.LAYER, [Arg.int 0]⟩,
    ⟨Key.VERTICES, [Arg.int 1]⟩,
    vertexLine,
    ⟨Key.WALLS, [Arg.int 1]⟩,
    ⟨Key.WALL, [Arg.int 0, Arg.int 0, Arg.int 0, Arg.flt 0, Arg.flt 0, Arg.int 0,
      Arg.int (-1), Arg.flt 0, Arg.flt 0, Arg.int 0,
      Arg.int (-1), Arg.flt 0, Arg.flt 0, Arg.int 0,
      Arg.int (-1), Arg.flt 0, Arg.flt 0,
      Arg.int (-1), Arg.int (-1), Arg.int 0, Arg.int 0, Arg.int 0, Arg.int 0, Arg.int 0]⟩ ]

/-- The header line `LEV <major>.<minor>`. -/
def levLine (major minor : Int) : Line := ⟨Key.LEV, [Arg.int major, Arg.int minor]⟩

/-- The vertex line `X: <x> Z: <z>`. -/
def vertexLine (x z : ℚ) : Line := ⟨Key.VERTEX, [Arg.flt x, Arg.flt z]⟩

/-- A line that matches no pattern of the loader. -/
def garbageLine : Line := ⟨Key.NONE, []⟩

/-- Whether a load returned true. -/
def LoadResult.isLoaded : LoadResult → Bool
  | LoadResult.loaded _ _ => true
  | _ => false

/-- The loader's texture list after a load that returned true. -/
def LoadResult.textureList? : LoadResult → Option (List AssetHandle)
  | LoadResult.loaded _ textureList => some textureList
  | _ => none

/-- The level of a load that returned true. -/
def LoadResult.level? : LoadResult → Option EditorLevel
  | LoadResult.loaded level _ => some level
  | _ => none

/-- The fields of a level that `loadLevelFromAsset` writes only after the last sector is
loaded: feature set, bounds and layer range. -/
def EditorLevel.sameExtent (a b : EditorLevel) : Prop :=
  a.featureSet = b.featureSet ∧ a.bounds0 = b.bounds0 ∧ a.bounds1 = b.bounds1
    ∧ a.layerRange0 = b.layerRange0 ∧ a.layerRange1 = b.layerRange1

/-! ## Candidates of a trace -/

/-- The wall conditions of the wall loop of `traceRay`, short of the comparison with the
closest hit of the sector: `some s` when both vertices of the wall are in the sector, the
wall is not back-facing, the 2D segment of the ray crosses it at parameter `s`, the height
of the ray there is inside the band of the sector, and the wall is not adjoined, or the
height is outside the band of the adjoining sector, or the wall is flagged opaque-mid. -/
def wallCandidate (env : TraceEnv) (ray : Ray) (level : EditorLevel) (sector : EditorSector)
    (wall : EditorWall) : Option ℚ :=
  match vecAt sector.vtx wall.idx0, vecAt sector.vtx wall.idx1 with
  | some v0, some v1 =>
    if dot2 ray.dirxz (wallNormal v0 v1) < 0 then none
    else
      match env.lineSegmentIntersect ray.p0xz ray.p1xz v0 v1 with
      | none => none
      | some (s, _) =>
        if ray.yAt s > fsub sector.floorHeight FLT_EPSILON
            ∧ ray.yAt s < fadd sector.ceilHeight FLT_EPSILON then
          if wall.adjoinId ≥ 0 then
            match vecAt level.sectors wall.adjoinId with
            | none => none
            | some next =>
              if ray.yAt s ≤ next.floorHeight ∨ ray.yAt s ≥ next.ceilHeight
                  ∨ adjMidTex env wall = true then some s
              else none
          else some s
        else none
  | _, _ => none

/-- The floor conditions of `traceRay`, short of the comparison with the closest hit: the
point where the ray hits the floor plane of the sector, when the origin is above the floor,
the ray points down, the plane is hit and the point is inside the polygon of the sector. -/
def floorCandidate (env : TraceEnv) (ray : Ray) (sector : EditorSector) : Option Vec3f :=
  if ray.origin.y > sector.floorHeight ∧ ray.dir.y < 0 then
    match env.lineYPlaneIntersect ray.origin (ray.pointAt ray.maxDist) sector.floorHeight with
    | some hitPoint =>
      if env.pointInsidePolygon sector.poly ⟨hitPoint.x, hitPoint.z⟩ = true then some hitPoint
      else none
    | none => none
  else none

/-- The ceiling conditions of `traceRay`, short of the comparison with the closest hit. -/
def ceilCandidate (env : TraceEnv) (ray : Ray) (sector : EditorSector) : Option Vec3f :=
  if ray.origin.y < sector.ceilHeight ∧ ray.dir.y > 0 then
    match env.lineYPlaneIntersect ray.origin (ray.pointAt ray.maxDist) sector.ceilHeight with
    | some hitPoint =>
      if env.pointInsidePolygon sector.poly ⟨hitPoint.x, hitPoint.z⟩ = true then some hitPoint
      else none
    | none => none
  else none

/-- The layer filter of `traceRay` lets the sector through. -/
def layerMatches (env : TraceEnv) (ray : Ray) (sector : EditorSector) : Prop :=
  ray.layer = env.LAYER_ANY ∨ ray.layer = sector.layer

instance (env : TraceEnv) (ray : Ray) (sector : EditorSector) :
    Decidable (layerMatches env ray sector) := by
  unfold layerMatches
  exact inferInstance

/-- The state `traceRay` records for a plane hit at `hitPoint`. -/
def planeRecord (env : TraceEnv) (ray : Ray) (sector : EditorSector) (part : HitPart)
    (hitPoint : Vec3f) : TraceState :=
  ⟨env.sqrtf (ray.distSq hitPoint),
    ⟨sector.id, -1, part, hitPoint, env.sqrtf (ray.distSq hitPoint)⟩⟩

/-- The indices of a wall are inside their vectors: both vertex indices in the vertex list
of the sector, and the adjoin index, when not negative, in the sector list of the level. -/
def wallInRange (level : EditorLevel) (sector : EditorSector) (wall : EditorWall) : Prop :=
  (vecAt sector.vtx wall.idx0).isSome = true ∧ (vecAt sector.vtx wall.idx1).isSome = true
    ∧ (0 ≤ wall.adjoinId → (vecAt level.sectors wall.adjoinId).isSome = true)

instance (level : EditorLevel) (sector : EditorSector) (wall : EditorWall) :
    Decidable (wallInRange level sector wall) := by
  unfold wallInRange
  exact inferInstance

/-- Every wall of every sector of the level has its indices inside their vectors. -/
def levelInRange (level : EditorLevel) : Prop :=
  ∀ sector ∈ level.sectors, ∀ wall ∈ sector.walls, wallInRange level sector wall

instance (level : EditorLevel) : Decidable (levelInRange level) := by
  unfold levelInRange
  exact inferInstance

/-- The part of a wall `traceRay` reports for a hit at height `y` (lines 572-604): bottom
at or below the floor of the adjoining sector, top at or above its ceiling, mid between
them and for a wall that is not adjoined. -/
def wallHitPart (level : EditorLevel) (wall : EditorWall) (y : ℚ) : HitPart :=
  if wall.adjoinId ≥ 0 then
    match vecAt level.sectors wall.adjoinId with
    | some next =>
      if y ≤ next.floorHeight then HitPart.HP_BOT
      else if y ≥ next.ceilHeight then HitPart.HP_TOP
      else HitPart.HP_MID
    | none => HitPart.HP_MID
  else HitPart.HP_MID

/-- The state `traceRay` records for a hit of wall number `w` at parameter `s`. -/
def wallRecord (ray : Ray) (level : EditorLevel) (sector : EditorSector) (w : Int)
    (wall : EditorWall) (s : ℚ) : TraceState :=
  ⟨fmul s ray.maxDist,
    ⟨sector.id, w, wallHitPart level wall (ray.pointAt (fmul s ray.maxDist)).y,
      ray.pointAt (fmul s ray.maxDist), fmul s ray.maxDist⟩⟩

/-- The gate of "test the closest wall" (lines 572-604), short of the comparison with the
closest hit so far, for the selected wall with the hit point at height `y`: the wall is not
adjoined, or it is flagged opaque-mid, or `y` is outside the band of the adjoining sector.
The height is that of the hit point `origin.y + dir.y * closestHit`, which need not be the
`yAtHit` of the wall loop. -/
def wallRecorded (env : TraceEnv) (level : EditorLevel) (wall : EditorWall) (y : ℚ) : Prop :=
  wall.adjoinId ≥ 0 → adjMidTex env wall = true
    ∨ ∀ next ∈ vecAt level.sectors wall.adjoinId, y ≤ next.floorHeight ∨ y ≥ next.ceilHeight

instance (env : TraceEnv) (level : EditorLevel) (wall : EditorWall) (y : ℚ) :
    Decidable (wallRecorded env level wall y) := by
  unfold wallRecorded
  exact inferInstance

/-! ## Geometry of a convex sector -/

/-- The two end points of a wall, when both its vertex indices are in the sector. -/
def wallEnds (sector : EditorSector) (wall : EditorWall) : Option (Vec2f × Vec2f) :=
  match vecAt sector.vtx wall.idx0, vecAt sector.vtx wall.idx1 with
  | some v0, some v1 => some (v0, v1)
  | _, _ => none

/-- The side of the line through `v0` and `v1` the point `p` is on, in exact arithmetic:
positive on the side the normal `(-(v1.z - v0.z), v1.x - v0.x)` points to, zero on the
line. -/
def sideOf (v0 v1 p : Vec2f) : ℚ :=
  (p.x - v0.x) * (-(v1.z - v0.z)) + (p.z - v0.z) * (v1.x - v0.x)

/-- A convex sector whose walls are wound so that the normal `traceRay` computes points
outward: each wall lies on the inner side of the line of every wall, and on the line of no
other wall. -/
def EditorSector.convex (sector : EditorSector) : Prop :=
  ∀ i, i < sector.walls.length → ∀ j, j < sector.walls.length →
    ∀ a ∈ sector.walls[i]?.bind (wallEnds sector), ∀ b ∈ sector.walls[j]?.bind (wallEnds sector),
      sideOf a.1 a.2 b.1 ≤ 0 ∧ sideOf a.1 a.2 b.2 ≤ 0
        ∧ (i ≠ j → sideOf a.1 a.2 b.1 < 0 ∨ sideOf a.1 a.2 b.2 < 0)

instance (sector : EditorSector) : Decidable sector.convex := by
  unfold EditorSector.convex
  exact inferInstance

/-- The point `p` is strictly inside the sector: on the inner side of the line of every
wall. -/
def EditorSector.inside (sector : EditorSector) (p : Vec2f) : Prop :=
  ∀ wall ∈ sector.walls, ∀ a ∈ wallEnds sector wall, sideOf a.1 a.2 p < 0

instance (sector : EditorSector) (p : Vec2f) : Decidable (sector.inside p) := by
  unfold EditorSector.inside
  exact inferInstance

/-- What the theorem on a convex sector takes from `lineSegmentIntersect`, for the segment
of this ray and the walls of this sector only: where it reports a crossing, the parameter
`s` it returns is not negative, and the point at `s` on the segment of the ray is the point
at `t` on the wall, exactly. -/
def lsiSoundOn (env : TraceEnv) (ray : Ray) (sector : EditorSector) : Prop :=
  ∀ wall ∈ sector.walls, ∀ e ∈ wallEnds sector wall,
    ∀ r ∈ env.lineSegmentIntersect ray.p0xz ray.p1xz e.1 e.2,
      0 ≤ r.1
        ∧ ray.p0xz.x + r.1 * (ray.p1xz.x - ray.p0xz.x) = e.1.x + r.2 * (e.2.x - e.1.x)
        ∧ ray.p0xz.z + r.1 * (ray.p1xz.z - ray.p0xz.z) = e.1.z + r.2 * (e.2.z - e.1.z)

instance (env : TraceEnv) (ray : Ray) (sector : EditorSector) :
    Decidable (lsiSoundOn env ray sector) := by
  unfold lsiSoundOn
  exact inferInstance

/-! ## Example levels and rays -/

/-- A wall from vertex `i0` to vertex `i1` with the adjoin `adjoinId` and the first flag
word `flags0`. -/
def exWall (i0 i1 adjoinId flags0 : Int) : EditorWall :=
  { EditorWall.zero with
    idx0 := i0
    idx1 := i1
    adjoinId := adjoinId
    mirrorId := -1
    flags0 := flags0 }

/-- A sector over the vertex ring `vtx` with the walls `walls`, floor and ceiling at
`floorHeight` and `ceilHeight`, on layer 0, with the polygon of its vertices and walls. -/
def exSector (id : Int) (floorHeight ceilHeight : ℚ) (vtx : List Vec2f)
    (walls : List EditorWall) : EditorSector :=
  { EditorSector.zero with
    id := id
    floorHeight := floorHeight
    ceilHeight := ceilHeight
    vtx := vtx
    walls := walls
    poly :=
      { Polygon.zero with
        edge := walls.map fun wall => (wall.idx0, wall.idx1)
        vtx := vtx } }

/-- A level of the sectors `sectors`. -/
def exLevelOf (sectors : List EditorSector) : EditorLevel :=
  { name := "EX", palette := "EX.PAL", parallax := ⟨1024, 1024⟩,
    featureSet := FeatureSet.FSET_VANILLA,
    bounds0 := ⟨0, 0, 0⟩, bounds1 := ⟨0, 0, 0⟩, layerRange0 := 0, layerRange1 := 0,
    sectors := sectors }

/-- The square room `0 ≤ x ≤ 4`, `0 ≤ z ≤ 4`, `0 ≤ y ≤ 8`, wound so that the normals of
`traceRay` point outward; wall 2 is the side `x = 4` and wall 3 the side `z = 0`, with the
adjoin and first flag word given. -/
def exRoom (id : Int) (adjoin2 flags2 adjoin3 flags3 : Int) : EditorSector :=
  exSector id 0 8 [⟨0, 0⟩, ⟨0, 4⟩, ⟨4, 4⟩, ⟨4, 0⟩]
    [exWall 0 1 (-1) 0, exWall 1 2 (-1) 0, exWall 2 3 adjoin2 flags2, exWall 3 0 adjoin3 flags3]

/-- The same square room wound the other way round. -/
def exRoomReversed (id : Int) : EditorSector :=
  exSector id 0 8 [⟨0, 0⟩, ⟨4, 0⟩, ⟨4, 4⟩, ⟨0, 4⟩]
    [exWall 0 1 (-1) 0, exWall 1 2 (-1) 0, exWall 2 3 (-1) 0, exWall 3 0 (-1) 0]

/-- The square room `4 ≤ x ≤ 8`, `0 ≤ z ≤ 4` next to `exRoom`, with the given floor and
ceiling; its wall 0 is the side `x = 4`. -/
def exNextRoom (id : Int) (floorHeight ceilHeight : ℚ) : EditorSector :=
  exSector id floorHeight ceilHeight [⟨4, 0⟩, ⟨4, 4⟩, ⟨8, 4⟩, ⟨8, 0⟩]
    [exWall 0 1 0 0, exWall 1 2 (-1) 0, exWall 2 3 (-1) 0, exWall 3 0 (-1) 0]

/-- A ray from `origin` along `dir` of length `maxDist`, with the layer filter of
`specEnv` that lets every layer through. -/
def exRay (origin dir : Vec3f) (maxDist : ℚ) : Ray :=
  { origin := origin, dir := dir, maxDist := maxDist, layer := -256 }

/-- A `RayHitInfo` left over from an earlier hit. -/
def exStaleHit : RayHitInfo :=
  { hitSectorId := 5, hitWallId := 3, hitPart := HitPart.HP_TOP, hitPos := ⟨1, 2, 3⟩,
    dist := 7 }

/-! ## Scan order and distances of a trace -/

/-- Within the sector, wall number `w` crossed at parameter `s` is the first of the closest
wall candidates: every candidate before it in the wall list is strictly farther, every
candidate after it is not closer. -/
def firstClosestWall (env : TraceEnv) (ray : Ray) (level : EditorLevel) (sector : EditorSector)
    (w : Nat) (s : ℚ) : Prop :=
  ∀ j, j < sector.walls.length → ∀ wall1 ∈ sector.walls[j]?,
    ∀ s1 ∈ wallCandidate env ray level sector wall1, (j < w → s < s1) ∧ (w < j → s ≤ s1)

instance (env : TraceEnv) (ray : Ray) (level : EditorLevel) (sector : EditorSector)
    (w : Nat) (s : ℚ) : Decidable (firstClosestWall env ray level sector w s) := by
  unfold firstClosestWall
  exact inferInstance

/-- Against the distance `d` of a hit in sector number `a`: every wall candidate of a
sector scanned before is strictly farther and every wall candidate of a sector scanned
after is not closer, in the distance `s * maxDist` that `traceRay` compares for walls. -/
def otherWallsFarther (env : TraceEnv) (ray : Ray) (level : EditorLevel) (a : Nat) (d : ℚ) :
    Prop :=
  ∀ b, b < level.sectors.length → ∀ sector ∈ level.sectors[b]?, layerMatches env ray sector →
    ∀ wall1 ∈ sector.walls, ∀ s1 ∈ wallCandidate env ray level sector wall1,
      (b < a → d < fmul s1 ray.maxDist) ∧ (a < b → d ≤ fmul s1 ray.maxDist)

instance (env : TraceEnv) (ray : Ray) (level : EditorLevel) (a : Nat) (d : ℚ) :
    Decidable (otherWallsFarther env ray level a d) := by
  unfold otherWallsFarther
  exact inferInstance

/-- Against the distance `d` of a wall hit in sector number `a`: a plane candidate
`hitPoint` of a sector scanned before is strictly farther in the distance `traceRay`
records for it, the square root of its squared distance; a plane candidate of sector `a` or
of a sector scanned after is not closer in the squared distance `traceRay` compares with the
`f32` square of `d`. -/
def planeFarther (env : TraceEnv) (ray : Ray) (a b : Nat) (d : ℚ) (hitPoint : Vec3f) : Prop :=
  (b < a → d < env.sqrtf (ray.distSq hitPoint)) ∧ (a ≤ b → fmul d d ≤ ray.distSq hitPoint)

instance (env : TraceEnv) (ray : Ray) (a b : Nat) (d : ℚ) (hitPoint : Vec3f) :
    Decidable (planeFarther env ray a b d hitPoint) := by
  unfold planeFarther
  exact inferInstance

/-- Every plane candidate of the level is farther than the wall hit at distance `d` in
sector number `a`, in the sense of `planeFarther`. -/
def otherPlanesFarther (env : TraceEnv) (ray : Ray) (level : EditorLevel) (a : Nat) (d : ℚ) :
    Prop :=
  ∀ b, b < level.sectors.length → ∀ sector ∈ level.sectors[b]?, layerMatches env ray sector →
    (∀ hitPoint ∈ floorCandidate env ray sector, planeFarther env ray a b d hitPoint)
      ∧ (∀ hitPoint ∈ ceilCandidate env ray sector, planeFarther env ray a b d hitPoint)

instance (env : TraceEnv) (ray : Ray) (level : EditorLevel) (a : Nat) (d : ℚ) :
    Decidable (otherPlanesFarther env ray level a d) := by
  unfold otherPlanesFarther
  exact inferInstance

/-! ## The candidates of a level and the closest one -/

/-- The distances `traceRay` records for the candidates of a sector the layer filter lets
through: `s * maxDist` for each wall candidate, and the square root of the squared distance
of the hit point for the floor candidate and for the ceiling candidate. -/
def candidateDists (env : TraceEnv) (ray : Ray) (level : EditorLevel) (sector : EditorSector) :
    List ℚ :=
  if layerMatches env ray sector then
    sector.walls.filterMap
        (fun wall => (wallCandidate env ray level sector wall).map fun s => fmul s ray.maxDist)
      ++ ((floorCandidate env ray sector).toList.map fun hp => env.sqrtf (ray.distSq hp))
      ++ ((ceilCandidate env ray sector).toList.map fun hp => env.sqrtf (ray.distSq hp))
  else []

/-- The wall tests of `traceRay` agree with each other on the sector. For every wall
candidate, crossed at parameter `s`: `s` and the distance `s * maxDist` are below `FLT_MAX`,
the values the searches start from; and the hit point passes the gate of "test the closest
wall", as the height `yAtHit` passed the one of the wall loop. -/
def wallsConsistent (env : TraceEnv) (ray : Ray) (level : EditorLevel)
    (sector : EditorSector) : Prop :=
  ∀ wall ∈ sector.walls, ∀ s ∈ wallCandidate env ray level sector wall,
    s < FLT_MAX ∧ fmul s ray.maxDist < FLT_MAX
      ∧ wallRecorded env level wall (ray.pointAt (fmul s ray.maxDist)).y

instance (env : TraceEnv) (ray : Ray) (level : EditorLevel) (sector : EditorSector) :
    Decidable (wallsConsistent env ray level sector) := by
  unfold wallsConsistent
  exact inferInstance

/-- The plane test of `traceRay` at the hit point `hp`, against the closest hit `d`, agrees
with the distance it records: the test `distSq < d * d` of lines 614 and 633 holds only if
the recorded distance `sqrtf(distSq)` is at most `d`, and fails only if it is at least
`d`. -/
def planeConsistent (env : TraceEnv) (ray : Ray) (d : ℚ) (hp : Vec3f) : Prop :=
  (ray.distSq hp < fmul d d → env.sqrtf (ray.distSq hp) ≤ d)
    ∧ (¬ ray.distSq hp < fmul d d → d ≤ env.sqrtf (ray.distSq hp))

instance (env : TraceEnv) (ray : Ray) (d : ℚ) (hp : Vec3f) :
    Decidable (planeConsistent env ray d hp) := by
  unfold planeConsistent
  exact inferInstance

/-- The plane tests of `traceRay` on the sector agree with the recorded distances: the
distance of the floor candidate and of the ceiling candidate is below `FLT_MAX`, and the
test against the distance of each candidate of the level is consistent. -/
def planesConsistent (env : TraceEnv) (ray : Ray) (level : EditorLevel)
    (sector : EditorSector) : Prop :=
  ∀ hp ∈ (floorCandidate env ray sector).toList ++ (ceilCandidate env ray sector).toList,
    env.sqrtf (ray.distSq hp) < FLT_MAX
      ∧ ∀ sector1 ∈ level.sectors, ∀ d ∈ candidateDists env ray level sector1,
          planeConsistent env ray d hp

instance (env : TraceEnv) (ray : Ray) (level : EditorLevel) (sector : EditorSector) :
    Decidable (planesConsistent env ray level sector) := by
  unfold planesConsistent
  exact inferInstance

/-- The comparisons of `traceRay` are consistent on the level: `maxDist` is not negative,
so that the wall crossed at the least parameter `s` has the least distance `s * maxDist`,
and the wall tests and the plane tests are consistent on every sector the layer filter of
the ray lets through. -/
def traceConsistent (env : TraceEnv) (ray : Ray) (level : EditorLevel) : Prop :=
  0 ≤ ray.maxDist
    ∧ ∀ sector ∈ level.sectors, layerMatches env ray sector →
      wallsConsistent env ray level sector ∧ planesConsistent env ray level sector

instance (env : TraceEnv) (ray : Ray) (level : EditorLevel) :
    Decidable (traceConsistent env ray level) := by
  unfold traceConsistent
  exact inferInstance

/-- The state of a trace holds the closest of the records `P` of the candidates scanned so
far: either nothing is recorded and there is no candidate, or the state is the record of a
candidate, its distance is below `FLT_MAX`, and no candidate has a record with a smaller
distance. -/
def closestRec (P : TraceState → Prop) (st : TraceState) : Prop :=
  (st = ⟨FLT_MAX, noHit⟩ ∧ ∀ st1, ¬ P st1)
    ∨ (st.overallClosestHit < FLT_MAX ∧ P st
      ∧ ∀ st1, P st1 → st.overallClosestHit ≤ st1.overallClosestHit)

/-- The box `x0 ≤ x ≤ x1`, `z0 ≤ z ≤ z1` between `floorHeight` and `ceilHeight`, wound so
that the normals of `traceRay` point outward, with no adjoins; wall 0 is the side `x = x0`
and wall 2 the side `x = x1`. -/
def exBox (id : Int) (x0 x1 z0 z1 floorHeight ceilHeight : ℚ) : EditorSector :=
  exSector id floorHeight ceilHeight [⟨x0, z0⟩, ⟨x0, z1⟩, ⟨x1, z1⟩, ⟨x1, z0⟩]
    [exWall 0 1 (-1) 0, exWall 1 2 (-1) 0, exWall 2 3 (-1) 0, exWall 3 0 (-1) 0]

/-! ## Helpers on a ray of length zero, and what a trace records -/

/-- What the theorem on `maxDist = 0` takes from the helpers: a segment of length zero
crosses no segment, and it meets no plane `y = h` its point is not on. -/
def degenerateMiss (env : TraceEnv) : Prop :=
  (∀ a b0 b1 : Vec2f, env.lineSegmentIntersect a a b0 b1 = none)
    ∧ (∀ (p : Vec3f) (h : ℚ), p.y ≠ h → env.lineYPlaneIntersect p p h = none)

/-- The state is the record `traceRay` writes for a candidate of the sector: a wall
candidate, the floor candidate or the ceiling candidate of a sector the layer filter lets
through. -/
def recordedBy (env : TraceEnv) (ray : Ray) (level : EditorLevel) (sector : EditorSector)
    (st : TraceState) : Prop :=
  layerMatches env ray sector
    ∧ ((∃ (j : Nat) (wall : EditorWall) (s : ℚ), sector.walls[j]? = some wall
          ∧ wallCandidate env ray level sector wall = some s
          ∧ st = wallRecord ray level sector (j : Int) wall s)
      ∨ (∃ hitPoint, floorCandidate env ray sector = some hitPoint
          ∧ st = planeRecord env ray sector HitPart.HP_FLOOR hitPoint)
      ∨ (∃ hitPoint, ceilCandidate env ray sector = some hitPoint
          ∧ st = planeRecord env ray sector HitPart.HP_CEIL hitPoint))

/-- The state is the record `traceRay` writes for a hit in the sector: the record of a plane
candidate, or the record of a wall candidate whose hit point passes the gate of "test the
closest wall", of a sector the layer filter lets through. -/
def writtenBy (env : TraceEnv) (ray : Ray) (level : EditorLevel) (sector : EditorSector)
    (st : TraceState) : Prop :=
  layerMatches env ray sector
    ∧ ((∃ (j : Nat) (wall : EditorWall) (s : ℚ), sector.walls[j]? = some wall
          ∧ wallCandidate env ray level sector wall = some s
          ∧ wallRecorded env level wall (ray.pointAt (fmul s ray.maxDist)).y
          ∧ st = wallRecord ray level sector (j : Int) wall s)
      ∨ (∃ hitPoint, floorCandidate env ray sector = some hitPoint
          ∧ st = planeRecord env ray sector HitPart.HP_FLOOR hitPoint)
      ∨ (∃ hitPoint, ceilCandidate env ray sector = some hitPoint
          ∧ st = planeRecord env ray sector HitPart.HP_CEIL hitPoint))

/-! ## The polygon of a sector -/

/-- What the theorems on `sectorToPolygon` take from `TFE_Polygon::computeTriangulation`:
it fills the triangle buffers of the polygon and leaves its vertex ring, edge list and
bounds as they are. -/
def triangulationKeepsRing (env : LoaderEnv) : Prop :=
  ∀ poly : Polygon, (env.computeTriangulation poly).vtx = poly.vtx
    ∧ (env.computeTriangulation poly).edge = poly.edge
    ∧ (env.computeTriangulation poly).bounds0 = poly.bounds0
    ∧ (env.computeTriangulation poly).bounds1 = poly.bounds1

/-- The polygon `sectorToPolygon` hands to the triangulation: the vertices and wall index
pairs of the sector, the bounds of the vertices, and no triangles. -/
def ringPolygon (sector : EditorSector) : Polygon :=
  { edge := sector.walls.map fun wall => (wall.idx0, wall.idx1)
    vtx := sector.vtx
    bounds0 := sector.vtx.foldl (fun b v => ⟨min b.x v.x, min b.z v.z⟩) ⟨FLT_MAX, FLT_MAX⟩
    bounds1 := sector.vtx.foldl (fun b v => ⟨max b.x v.x, max b.z v.z⟩) ⟨-FLT_MAX, -FLT_MAX⟩
    triVtx := []
    triIdx := [] }

/-- Both vertex indices of every wall of the sector are inside its vertex list. -/
def wallIndicesInRange (sector : EditorSector) : Prop :=
  ∀ wall ∈ sector.walls, (0 ≤ wall.idx0 ∧ wall.idx0 < sector.vtx.length)
    ∧ (0 ≤ wall.idx1 ∧ wall.idx1 < sector.vtx.length)

instance (sector : EditorSector) : Decidable (wallIndicesInRange sector) := by
  unfold wallIndicesInRange
  exact inferInstance

/-- Both indices of every edge of the polygon are inside its vertex ring. -/
def edgesInRange (poly : Polygon) : Prop :=
  ∀ e ∈ poly.edge, (0 ≤ e.1 ∧ e.1 < poly.vtx.length) ∧ (0 ≤ e.2 ∧ e.2 < poly.vtx.length)

instance (poly : Polygon) : Decidable (edgesInRange poly) := by
  unfold edgesInRange
  exact inferInstance

/-- A polygon left over from other geometry: a stale ring, edge, bounds and triangles. -/
def exStalePolygon : Polygon :=
  { edge := [(7, 9)], vtx := [⟨100, 100⟩], bounds0 := ⟨-5, -5⟩, bounds1 := ⟨5, 5⟩,
    triVtx := [⟨1, 1⟩, ⟨2, 2⟩, ⟨3, 3⟩], triIdx := [0, 1, 2] }

/-- The wall line of a level file for a wall from vertex `left` to vertex `right` with no
textures past the first, no adjoin and the light `light`. -/
def exWallLine (left right light : Int) : Line :=
  ⟨Key.WALL, [Arg.int left, Arg.int right, Arg.int 0, Arg.flt 0, Arg.flt 0, Arg.int 0,
    Arg.int (-1), Arg.flt 0, Arg.flt 0, Arg.int 0,
    Arg.int (-1), Arg.flt 0, Arg.flt 0, Arg.int 0,
    Arg.int (-1), Arg.flt 0, Arg.flt 0,
    Arg.int (-1), Arg.int (-1), Arg.int 0, Arg.int 0, Arg.int 0, Arg.int 0, Arg.int light]⟩

/-- A level file with one texture and one sector of one vertex and one wall, with the
number of the SECTOR record, the altitudes and the wall line left open; `secondAltitude`
is the SECOND ALTITUDE record, when the file has one. -/
def exFileOf (sectorId : Int) (floorAltitude ceilingAltitude : ℚ) (secondAltitude : Option ℚ)
    (wallLine : Line) : List Line :=
  [ levLine 2 1,
    ⟨Key.LEVELNAME, [Arg.str "SECBASE"]⟩,
    ⟨Key.PALETTE, [Arg.str "SECBASE.PAL"]⟩,
    ⟨Key.MUSIC, [Arg.str "AVENGE.GMD"]⟩,
    ⟨Key.PARALLAX, [Arg.flt 1024, Arg.flt 1024]⟩,
    ⟨Key.TEXTURES, [Arg.int 1]⟩,
    ⟨Key.TEXTURE, [Arg.str "DEFAULT.BM"]⟩,
    ⟨Key.NUMSECTORS, [Arg.int 1]⟩,
    ⟨Key.SECTOR, [Arg.int sectorId]⟩,
    ⟨Key.NAME, [Arg.str "START"]⟩,
    ⟨Key.AMBIENT, [Arg.int 31]⟩,
    ⟨Key.FLOOR_TEXTURE, [Arg.int 0, Arg.flt 0, Arg.flt 0, Arg.int 2]⟩,
    ⟨Key.FLOOR_ALTITUDE, [Arg.flt floorAltitude]⟩,
    ⟨Key.CEILING_TEXTURE, [Arg.int 0, Arg.flt 0, Arg.flt 0, Arg.int 2]⟩,
    ⟨Key.CEILING_ALTITUDE, [Arg.flt ceilingAltitude]⟩ ]
  ++ (match secondAltitude with
      | some h => [⟨Key.SECOND_ALTITUDE, [Arg.flt h]⟩]
      | none => [])
  ++ [ ⟨Key.FLAGS, [Arg.int 0, Arg.int 0, Arg.int 0]⟩,
    ⟨Key.LAYER, [Arg.int 0]⟩,
    ⟨Key.VERTICES, [Arg.int 1]⟩,
    vertexLine 3 5,
    ⟨Key.WALLS, [Arg.int 1]⟩,
    wallLine ]

/-! ## The records a loaded sector was read from -/

/-- Line number `k` after the cursor `buf`, counted from 0. -/
def lineAt (buf : List Line) (k : Nat) : Line := (readLine (buf.drop k)).1

/-- The fields of a sector other than its geometry (vertices, walls, bounds, polygon) are
the same in both sectors. -/
def sameHeader (a b : EditorSector) : Prop :=
  a.id = b.id ∧ a.name = b.name ∧ a.ambient = b.ambient ∧ a.floorTex = b.floorTex
    ∧ a.ceilTex = b.ceilTex ∧ a.floorHeight = b.floorHeight ∧ a.ceilHeight = b.ceilHeight
    ∧ a.secHeight = b.secHeight ∧ a.flags0 = b.flags0 ∧ a.flags1 = b.flags1
    ∧ a.flags2 = b.flags2 ∧ a.layer = b.layer

/-- The line is the FLAGS record of the sector. -/
def flagsRead (line : Line) (sector : EditorSector) : Prop :=
  sscanf line Key.FLAGS [Conv.d, Conv.d, Conv.d]
    = [Arg.int sector.flags0, Arg.int sector.flags1, Arg.int sector.flags2]

/-- Line `k` after the cursor is the SECOND ALTITUDE record of the sector, whose second
height is the negation of its value, and the next line is its FLAGS record; or line `k` is
no SECOND ALTITUDE record, the second height of the sector is zero, and line `k` itself is
its FLAGS record. -/
def secondAltitudeRead (buf : List Line) (k : Nat) (sector : EditorSector) : Prop :=
  (∃ h, sscanf (lineAt buf k) Key.SECOND_ALTITUDE [Conv.f] = [Arg.flt h]
      ∧ sector.secHeight = -h ∧ flagsRead (lineAt buf (k + 1)) sector)
    ∨ ((sscanf (lineAt buf k) Key.SECOND_ALTITUDE [Conv.f]).length ≠ 1
      ∧ sector.secHeight = 0 ∧ flagsRead (lineAt buf k) sector)

/-- The heights of the sector are the negations of the values of the records of the sector
record that starts at the cursor `buf`: FLOOR ALTITUDE on line 4, CEILING ALTITUDE on line
6, and SECOND ALTITUDE on line 7 when the file has it. -/
def heightsRead (buf : List Line) (sector : EditorSector) : Prop :=
  (∃ h, sscanf (lineAt buf 4) Key.FLOOR_ALTITUDE [Conv.f] = [Arg.flt h]
      ∧ sector.floorHeight = -h)
    ∧ (∃ h, sscanf (lineAt buf 6) Key.CEILING_ALTITUDE [Conv.f] = [Arg.flt h]
      ∧ sector.ceilHeight = -h)
    ∧ secondAltitudeRead buf 7 sector

/-- The wall is what the loader makes of the wall line `line`: at least 23 fields are
converted, and the wall is the one of the fields with its textures looked up and its light
re-biased. -/
def wallRead (textureList : List AssetHandle) (line : Line) (wall : EditorWall) : Prop :=
  23 ≤ (sscanf line Key.WALL wallFmt).length
    ∧ finishWall textureList (sscanf line Key.WALL wallFmt)
        (wallOfArgs (sscanf line Key.WALL wallFmt)) = some wall

/-- Every wall of the sector is read from a wall line after the cursor `buf`. -/
def wallsRead (textureList : List AssetHandle) (buf : List Line) (sector : EditorSector) :
    Prop :=
  ∀ wall ∈ sector.walls, ∃ line ∈ buf, wallRead textureList line wall

/-- The signed 16-bit reading of `v`. -/
def asInt16 (v : Int) : Int := if v < 32768 then v else v - 65536

/-! ## The optional PARALLAX record, and the texture records -/

/-- The position of the line the loader tests for the PARALLAX record, when line `k` after
the cursor `buf` is the line that follows the PALETTE record: line `k + 1` when line `k` is
a MUSIC record, line `k` otherwise. -/
def skyLineFrom (buf : List Line) (k : Nat) : Nat :=
  if (sscanf (lineAt buf k) Key.MUSIC [Conv.s]).length = 1 then k + 1 else k

/-- The line `PARALLAX 1024 1024`. -/
def parallaxDefault : Line := ⟨Key.PARALLAX, [Arg.flt 1024, Arg.flt 1024]⟩

/-- The lines `buf` with `line` inserted at position `k`. -/
def insertLine (buf : List Line) (k : Nat) (line : Line) : List Line :=
  buf.take k ++ line :: buf.drop k

/-- The texture line `TEXTURE: <name>`. -/
def textureLine (name : String) : Line := ⟨Key.TEXTURE, [Arg.str name]⟩

/-- A level file with no sectors whose TEXTURES record declares as many textures as
`declared` has names, plus one for `last`: the texture lines of `declared`, of `last` and of
`extra`, then the record `NUMSECTORS 0` and the lines `rest`. -/
def textureFile (declared : List String) (last : String) (extra : List String)
    (rest : List Line) : List Line :=
  [ levLine 2 1,
    ⟨Key.LEVELNAME, [Arg.str "SECBASE"]⟩,
    ⟨Key.PALETTE, [Arg.str "SECBASE.PAL"]⟩,
    ⟨Key.PARALLAX, [Arg.flt 1024, Arg.flt 1024]⟩,
    ⟨Key.TEXTURES, [Arg.int (declared.length + 1)]⟩ ]
  ++ declared.map textureLine ++ [textureLine last] ++ extra.map textureLine
  ++ ⟨Key.NUMSECTORS, [Arg.int 0]⟩ :: rest

/-- The handle the loader stores for the texture named `name` (lines 160-162). -/
def textureHandle (env : LoaderEnv) (name : String) : AssetHandle :=
  env.loadTexture (env.replaceExtension name "BM")

/-! ## Sector lookup by position (`findSector2d`) -/

/-- The loop of `findSector2d` (lines 418-426) from position `i` on. -/
def findSectorLoop (env : TraceEnv) (layer : Int) (pos : Vec2f) :
    Nat → List EditorSector → Int
  | _, [] => -1
  | i, sector :: rest =>
    if sector.layer ≠ layer then findSectorLoop env layer pos (i + 1) rest
    else if env.pointInsidePolygon sector.poly pos = true then (i : Int)
    else findSectorLoop env layer pos (i + 1) rest

/-- `findSector2d(level, layer, pos)` (lines 411-427); the loop runs over the first
`sectorCount = (s32)level->sectors.size()` sectors. -/
def findSector2d (env : TraceEnv) (level : EditorLevel) (layer : Int) (pos : Vec2f) : Int :=
  if level.sectors.isEmpty then -1
  else
    findSectorLoop env layer pos 0
      (level.sectors.take (wrap32 (level.sectors.length : Int)).toNat)

/-- The sector is on the layer and its polygon contains the point. -/
def containsOnLayer (env : TraceEnv) (layer : Int) (pos : Vec2f) (sector : EditorSector) :
    Prop :=
  sector.layer = layer ∧ env.pointInsidePolygon sector.poly pos = true

instance (env : TraceEnv) (layer : Int) (pos : Vec2f) (sector : EditorSector) :
    Decidable (containsOnLayer env layer pos sector) := by
  unfold containsOnLayer
  exact inferInstance

/-! ## The box pretest (`rayHitAABB`) -/

inductive Quadrant where
  | LEFT
  | RIGHT
  | MID
deriving DecidableEq

/-- Component `m[i]` of a vector. -/
def Vec3f.m (v : Vec3f) : Nat → ℚ
  | 0 => v.x
  | 1 => v.y
  | _ => v.z

/-- The entry `quadrant[i]` after the first loop of `rayHitAABB` (lines 442-458): the second
test compares the origin with `bounds[0]` as the first does. -/
def quadrant (ray : Ray) (bounds0 : Vec3f) (i : Nat) : Quadrant :=
  if ray.origin.m i < bounds0.m i then Quadrant.LEFT
  else if ray.origin.m i > bounds0.m i then Quadrant.RIGHT
  else Quadrant.MID

/-- The entry `candidatePlane[i]` after the first loop; `none` where the source leaves it
unset. -/
def candidatePlane (ray : Ray) (bounds0 bounds1 : Vec3f) (i : Nat) : Option ℚ :=
  match quadrant ray bounds0 i with
  | Quadrant.LEFT => some (bounds0.m i)
  | Quadrant.RIGHT => some (bounds1.m i)
  | Quadrant.MID => none

/-- The entry `maxT[i]` (lines 464-471). -/
def maxT (ray : Ray) (bounds0 bounds1 : Vec3f) (i : Nat) : ℚ :=
  match candidatePlane ray bounds0 bounds1 i with
  | some plane => if ray.dir.m i ≠ 0 then (plane - ray.origin.m i) / ray.dir.m i else -1
  | none => -1

/-- The index `planeId` of the largest `maxT` (lines 474-478). -/
def planeId (ray : Ray) (bounds0 bounds1 : Vec3f) : Nat :=
  let p1 := if maxT ray bounds0 bounds1 0 < maxT ray bounds0 bounds1 1 then 1 else 0
  if maxT ray bounds0 bounds1 p1 < maxT ray bounds0 bounds1 2 then 2 else p1

/-- The test of the last loop for axis `i` (lines 484-496): false when the source returns
false there. -/
def coordInside (ray : Ray) (bounds0 bounds1 : Vec3f) (i : Nat) : Bool :=
  if planeId ray bounds0 bounds1 ≠ i then
    let coord := ray.origin.m i
      + maxT ray bounds0 bounds1 (planeId ray bounds0 bounds1) * ray.dir.m i
    !(decide (coord < bounds0.m i) || decide (coord > bounds1.m i))
  else true

/-- `rayHitAABB(ray, bounds)` (lines 429-498). -/
def rayHitAABB (ray : Ray) (bounds0 bounds1 : Vec3f) : Bool :=
  if quadrant ray bounds0 0 = Quadrant.MID ∧ quadrant ray bounds0 1 = Quadrant.MID
      ∧ quadrant ray bounds0 2 = Quadrant.MID then true
  else if maxT ray bounds0 bounds1 (planeId ray bounds0 bounds1) < 0 then false
  else
    coordInside ray bounds0 bounds1 0 && coordInside ray bounds0 bounds1 1
      && coordInside ray bounds0 bounds1 2

/-- The point is in the box, faces included. -/
def inBox (bounds0 bounds1 p : Vec3f) : Prop :=
  bounds0.x ≤ p.x ∧ p.x ≤ bounds1.x ∧ bounds0.y ≤ p.y ∧ p.y ≤ bounds1.y
    ∧ bounds0.z ≤ p.z ∧ p.z ≤ bounds1.z

instance (bounds0 bounds1 p : Vec3f) : Decidable (inBox bounds0 bounds1 p) := by
  unfold inBox
  exact inferInstance

/-! ## Cutscene frame rate (`cutscenePlayer_setFramerate`) -/

def MIN_FPS : Int := 4
def MAX_FPS : Int := 20

/-- The table `c_frameRateDelay` (`cutscene_player.cpp`, lines 31-50). -/
def c_frameRateDelay : List Int :=
  [42, 49, 40, 35, 31, 28, 25, 23, 20, 19, 17, 16, 15, 14, 13, 12, 12]

/-- `cutscenePlayer_setFramerate(fps)` (lines 66-71): the value it stores in `s_frameDelay`
and hands to `ltime_setFrameRate`; `none` when the index is outside the table. `clamp` is
the function of that name of `TFE_System/types.h`, which is not part of the development. -/
def cutscenePlayer_setFramerate (clamp : Int → Int → Int → Int) (fps : Int) : Option Int :=
  vecAt c_frameRateDelay (wrap32 (clamp fps MIN_FPS MAX_FPS - MIN_FPS))

/-- What the theorem on the frame rate takes from `clamp`: it limits its first argument to
the range of the other two. -/
def clampsToRange (clamp : Int → Int → Int → Int) : Prop :=
  ∀ x lo hi : Int, lo ≤ hi →
    (x < lo → clamp x lo hi = lo) ∧ (hi < x → clamp x lo hi = hi)
      ∧ (lo ≤ x → x ≤ hi → clamp x lo hi = x)

/-- Modelled from the spec: `clamp(x, a, b)`, the value of `x` limited to `[a, b]`. -/
def clampInt (x lo hi : Int) : Int := max lo (min x hi)

/-! ## Rays with a layer filter -/

/-- A ray from `origin` along `dir` of length `maxDist` that is let through by the sectors
of the layer `layer` only. -/
def exLayerRay (origin dir : Vec3f) (maxDist : ℚ) (layer : Int) : Ray :=
  { origin := origin, dir := dir, maxDist := maxDist, layer := layer }

/-! ## A level file of one room -/

/-- The wall line of a level file for a wall from vertex `left` to vertex `right` with the
adjoin `adjoin`, no mirror, no textures past the first and no flags. -/
def exWallLineAdjoin (left right adjoin : Int) : Line :=
  ⟨Key.WALL, [Arg.int left, Arg.int right, Arg.int 0, Arg.flt 0, Arg.flt 0, Arg.int 0,
    Arg.int (-1), Arg.flt 0, Arg.flt 0, Arg.int 0,
    Arg.int (-1), Arg.flt 0, Arg.flt 0, Arg.int 0,
    Arg.int (-1), Arg.flt 0, Arg.flt 0,
    Arg.int adjoin, Arg.int (-1), Arg.int 0, Arg.int 0, Arg.int 0, Arg.int 0, Arg.int 0]⟩

/-- A level file with one texture and one sector, the square room `0 ≤ x ≤ 4`, `0 ≤ z ≤ 4`
with the floor altitude 0 and the ceiling altitude -8, on the layer `layer`; its wall 2, the
side `x = 4`, has the adjoin `adjoin2`. -/
def exRoomFile (adjoin2 layer : Int) : List Line :=
  [ levLine 2 1,
    ⟨Key.LEVELNAME, [Arg.str "SECBASE"]⟩,
    ⟨Key.PALETTE, [Arg.str "SECBASE.PAL"]⟩,
    ⟨Key.MUSIC, [Arg.str "AVENGE.GMD"]⟩,
    ⟨Key.PARALLAX, [Arg.flt 1024, Arg.flt 1024]⟩,
    ⟨Key.TEXTURES, [Arg.int 1]⟩,
    ⟨Key.TEXTURE, [Arg.str "DEFAULT.BM"]⟩,
    ⟨Key.NUMSECTORS, [Arg.int 1]⟩,
    ⟨Key.SECTOR, [Arg.int 0]⟩,
    ⟨Key.NAME, [Arg.str "START"]⟩,
    ⟨Key.AMBIENT, [Arg.int 31]⟩,
    ⟨Key.FLOOR_TEXTURE, [Arg.int 0, Arg.flt 0, Arg.flt 0, Arg.int 2]⟩,
    ⟨Key.FLOOR_ALTITUDE, [Arg.flt 0]⟩,
    ⟨Key.CEILING_TEXTURE, [Arg.int 0, Arg.flt 0, Arg.flt 0, Arg.int 2]⟩,
    ⟨Key.CEILING_ALTITUDE, [Arg.flt (-8)]⟩,
    ⟨Key.SECOND_ALTITUDE, [Arg.flt 0]⟩,
    ⟨Key.FLAGS, [Arg.int 0, Arg.int 0, Arg.int 0]⟩,
    ⟨Key.LAYER, [Arg.int layer]⟩,
    ⟨Key.VERTICES, [Arg.int 4]⟩,
    vertexLine 0 0,
    vertexLine 0 4,
    vertexLine 4 4,
    vertexLine 4 0,
    ⟨Key.WALLS, [Arg.int 4]⟩,
    exWallLineAdjoin 0 1 (-1),
    exWallLineAdjoin 1 2 (-1),
    exWallLineAdjoin 2 3 adjoin2,
    exWallLineAdjoin 3 0 (-1) ]

/-! ## Bounds of a loaded sector -/

/-- The value is in the range of the finite `f32` values. -/
def isF32 (v : ℚ) : Prop := -FLT_MAX ≤ v ∧ v ≤ FLT_MAX

instance (v : ℚ) : Decidable (isF32 v) := by
  unfold isF32
  exact inferInstance

/-- The bounds of the sector are what the vertex loop of the loader accumulates (lines
279-296) over the vertex list of the sector, from `FLT_MAX` and `-FLT_MAX`, with the
heights `y0` and `y1`. -/
def boundsAccumulated (sector : EditorSector) (y0 y1 : ℚ) : Prop :=
  sector.bounds0 = ⟨sector.vtx.foldl (fun b v => min b v.x) FLT_MAX, y0,
      sector.vtx.foldl (fun b v => min b v.z) FLT_MAX⟩
    ∧ sector.bounds1 = ⟨sector.vtx.foldl (fun b v => max b v.x) (-FLT_MAX), y1,
      sector.vtx.foldl (fun b v => max b v.z) (-FLT_MAX)⟩

/-- The bounds and the layer range of the level are what the closing loop of the loader
accumulates (lines 344-365) over the sectors of the level. -/
def extentAccumulated (level : EditorLevel) : Prop :=
  level.bounds0 = ⟨level.sectors.foldl (fun b sector => min b sector.bounds0.x) FLT_MAX,
      level.sectors.foldl (fun b sector => min b sector.bounds0.y) FLT_MAX,
      level.sectors.foldl (fun b sector => min b sector.bounds0.z) FLT_MAX⟩
    ∧ level.bounds1 = ⟨level.sectors.foldl (fun b sector => max b sector.bounds1.x) (-FLT_MAX),
      level.sectors.foldl (fun b sector => max b sector.bounds1.y) (-FLT_MAX),
      level.sectors.foldl (fun b sector => max b sector.bounds1.z) (-FLT_MAX)⟩
    ∧ level.layerRange0 = level.sectors.foldl (fun r sector => min r sector.layer) INT_MAX
    ∧ level.layerRange1 = level.sectors.foldl (fun r sector => max r sector.layer) (-INT_MAX)

/-! ## Delta images (`ldraw.cpp`: `drawDeltaIntoBitmap`, `deltaImage`, `deltaClip`)

The source image is the list of the bytes from the pointer `data` on, the bitmap `s_bitmap`
the list of its bytes, and a pointer into either is the index it points to. A read outside
the image and a write outside the bitmap are faults (`none`). The loops run on a fuel that
counts source bytes: each turn of a loop that can go on reads at least one. -/

/-- Reduction of an integer to the range of `s16` (two's complement). -/
def wrap16 (v : Int) : Int := (v + 32768) % 65536 - 32768

/-- The `s16` at byte offset `pos` of the source bytes `src`, low byte first. -/
def readS16 (src : List Nat) (pos : Nat) : Option Int :=
  match src[pos]?, src[pos + 1]? with
  | some lo, some hi => some (wrap16 ((lo : Int) + 256 * (hi : Int)))
  | _, _ => none

/-- The assignment `framebuffer[idx] = v`. -/
def writePixel (fb : List Nat) (idx : Int) (v : Nat) : Option (List Nat) :=
  if 0 ≤ idx ∧ idx < (fb.length : Int) then some (fb.set idx.toNat v) else none

/-- The flag `rle` of a delta line: `sizeAndType & 1`. -/
def deltaRle (sizeAndType : Int) : Bool := decide (Int.land sizeAndType 1 ≠ 0)

/-- The pixel count of a delta line: `(sizeAndType >> 1) & 0x3fff`. -/
def deltaPixelCount (sizeAndType : Int) : Int :=
  Int.land (Int.shiftRight sizeAndType 1) 0x3fff

/-- The copy loop of `drawDeltaIntoBitmap` (lines 95-98 and 114-117): `count` times
`*dstImage = *srcImage` with both pointers advancing; returns the source left and the
bitmap. -/
def copyPixels : Nat → List Nat → Int → List Nat → Option (List Nat × List Nat)
  | 0, src, _, fb => some (src, fb)
  | _ + 1, [], _, _ => none
  | n + 1, b :: src, dst, fb =>
    match writePixel fb dst b with
    | none => none
    | some fb1 => copyPixels n src (dst + 1) fb1

/-- The fill loop of `drawDeltaIntoBitmap` (lines 105-108): `count` times
`*dstImage = pixel`. -/
def fillPixels : Nat → Nat → Int → List Nat → Option (List Nat)
  | 0, _, _, fb => some fb
  | n + 1, pixel, dst, fb =>
    match writePixel fb dst pixel with
    | none => none
    | some fb1 => fillPixels n pixel (dst + 1) fb1

/-- The loop `while (pixelCount > 0)` of `drawDeltaIntoBitmap` (lines 85-120) for one delta
line, with `dst` the index `dstImage` points to; returns the source left and the bitmap. -/
def drawLine (rle : Bool) :
    Nat → Int → List Nat → Int → List Nat → Option (List Nat × List Nat)
  | 0, _, _, _, _ => none
  | fuel + 1, pixelCount, src, dst, fb =>
    if pixelCount > 0 then
      if rle = true then
        match src with
        | [] => none
        | count :: src1 =>
          if count % 2 = 0 then
            match copyPixels (count / 2) src1 dst fb with
            | none => none
            | some (src2, fb1) =>
              drawLine rle fuel (pixelCount - ((count / 2 : Nat) : Int)) src2
                (dst + ((count / 2 : Nat) : Int)) fb1
          else
            match src1 with
            | [] => none
            | pixel :: src2 =>
              match fillPixels (count / 2) pixel dst fb with
              | none => none
              | some fb1 =>
                drawLine rle fuel (pixelCount - ((count / 2 : Nat) : Int)) src2
                  (dst + ((count / 2 : Nat) : Int)) fb1
      else copyPixels pixelCount.toNat src dst fb
    else some (src, fb)

/-- The loop `while (1)` of `drawDeltaIntoBitmap` (lines 70-121) over the delta lines. -/
def drawDeltaLoop (x y stride : Int) : Nat → List Nat → List Nat → Option (List Nat)
  | 0, _, _ => none
  | fuel + 1, src, fb =>
    match readS16 src 0 with
    | none => none
    | some sizeAndType =>
      if sizeAndType = 0 then some fb
      else
        match readS16 src 2, readS16 src 4 with
        | some dx, some dy =>
          match drawLine (deltaRle sizeAndType) fuel (deltaPixelCount sizeAndType)
              (src.drop 6) (wrap16 (dy + y) * stride + wrap16 (dx + x)) fb with
          | none => none
          | some (src1, fb1) => drawDeltaLoop x y stride fuel src1 fb1
        | _, _ => none

/-- `drawDeltaIntoBitmap(data, x, y, framebuffer, stride)` (lines 67-122): the bitmap after
the call. -/
def drawDeltaIntoBitmap (data : List Nat) (x y : Int) (framebuffer : List Nat)
    (stride : Int) : Option (List Nat) :=
  drawDeltaLoop x y stride (data.length + 1) data framebuffer

/-- `deltaImage(data, x, y)` (lines 124-127) on the bitmap `s_bitmap` of width
`s_bitmapWidth`. -/
def deltaImage (s_bitmap : List Nat) (s_bitmapWidth : Int) (data : List Nat) (x y : Int) :
    Option (List Nat) :=
  drawDeltaIntoBitmap data x y s_bitmap s_bitmapWidth

/-- The clip rectangle `lcanvas_getClip` hands out. -/
structure LRect where
  left : Int
  top : Int
  right : Int
  bottom : Int
deriving DecidableEq

/-- The test `writeRow && xCur >= clipRect.left && xCur < clipRect.right`. -/
def clipTest (clipRect : LRect) (writeRow : Bool) (xCur : Int) : Bool :=
  writeRow && decide (xCur ≥ clipRect.left) && decide (xCur < clipRect.right)

/-- The copy loop of `deltaClip` (lines 161-167 and 186-192): `count` times the guarded
`dstImage[xCur] = *srcImage`, the source pointer and the `s16` `xCur` advancing; the source
is read only when the guard holds. Returns the source left, `xCur` and the bitmap. -/
def copyPixelsClip (clipRect : LRect) (writeRow : Bool) (dst : Int) :
    Nat → List Nat → Int → List Nat → Option (List Nat × Int × List Nat)
  | 0, src, xCur, fb => some (src, xCur, fb)
  | n + 1, src, xCur, fb =>
    if clipTest clipRect writeRow xCur = true then
      match src with
      | [] => none
      | b :: _ =>
        match writePixel fb (dst + xCur) b with
        | none => none
        | some fb1 => copyPixelsClip clipRect writeRow dst n (src.drop 1) (wrap16 (xCur + 1)) fb1
    else copyPixelsClip clipRect writeRow dst n (src.drop 1) (wrap16 (xCur + 1)) fb

/-- The fill loop of `deltaClip` (lines 174-180). -/
def fillPixelsClip (clipRect : LRect) (writeRow : Bool) (dst : Int) (pixel : Nat) :
    Nat → Int → List Nat → Option (Int × List Nat)
  | 0, xCur, fb => some (xCur, fb)
  | n + 1, xCur, fb =>
    if clipTest clipRect writeRow xCur = true then
      match writePixel fb (dst + xCur) pixel with
      | none => none
      | some fb1 => fillPixelsClip clipRect writeRow dst pixel n (wrap16 (xCur + 1)) fb1
    else fillPixelsClip clipRect writeRow dst pixel n (wrap16 (xCur + 1)) fb

/-- The loop `while (pixelCount > 0)` of `deltaClip` (lines 153-195) for one delta line,
with `dst` the index `dstImage` points to. -/
def clipLine (clipRect : LRect) (writeRow : Bool) (dst : Int) (rle : Bool) :
    Nat → Int → List Nat → Int → List Nat → Option (List Nat × List Nat)
  | 0, _, _, _, _ => none
  | fuel + 1, pixelCount, src, xCur, fb =>
    if pixelCount > 0 then
      if rle = true then
        match src with
        | [] => none
        | count :: src1 =>
          if count % 2 = 0 then
            match copyPixelsClip clipRect writeRow dst (count / 2) src1 xCur fb with
            | none => none
            | some (src2, xCur1, fb1) =>
              clipLine clipRect writeRow dst rle fuel
                (pixelCount - ((count / 2 : Nat) : Int)) src2 xCur1 fb1
          else
            match src1 with
            | [] => none
            | pixel :: src2 =>
              match fillPixelsClip clipRect writeRow dst pixel (count / 2) xCur fb with
              | none => none
              | some (xCur1, fb1) =>
                clipLine clipRect writeRow dst rle fuel
                  (pixelCount - ((count / 2 : Nat) : Int)) src2 xCur1 fb1
      else
        match copyPixelsClip clipRect writeRow dst pixelCount.toNat src xCur fb with
        | none => none
        | some (src1, _, fb1) => some (src1, fb1)
    else some (src, fb)

/-- The loop `while (1)` of `deltaClip` (lines 139-196): the three words of the delta line
are read before the first is tested; `dstImage` is `&framebuffer[yStart*stride]` with the
product taken in `u32`. -/
def deltaClipLoop (clipRect : LRect) (x y stride : Int) :
    Nat → List Nat → List Nat → Option (List Nat)
  | 0, _, _ => none
  | fuel + 1, src, fb =>
    match readS16 src 0, readS16 src 2, readS16 src 4 with
    | some sizeAndType, some dx, some dy =>
      if sizeAndType = 0 then some fb
      else
        match clipLine clipRect
            (decide (wrap16 (dy + y) ≥ clipRect.top) && decide (wrap16 (dy + y) < clipRect.bottom))
            (wrap16 (dy + y) * stride % 4294967296) (deltaRle sizeAndType) fuel
            (deltaPixelCount sizeAndType) (src.drop 6) (wrap16 (dx + x)) fb with
        | none => none
        | some (src1, fb1) => deltaClipLoop clipRect x y stride fuel src1 fb1
    | _, _, _ => none

/-- `deltaClip(data, x, y)` (lines 131-197) on the bitmap `s_bitmap` of width
`s_bitmapWidth`, with the clip rectangle of the canvas: the bitmap after the call. -/
def deltaClip (s_bitmap : List Nat) (s_bitmapWidth : Int) (clipRect : LRect)
    (data : List Nat) (x y : Int) : Option (List Nat) :=
  deltaClipLoop clipRect x y s_bitmapWidth (data.length + 1) data s_bitmap

/-! ### The pixels of a delta image -/

/-- A pixel of a delta image placed at an offset: column, row and colour. -/
structure Pixel where
  x : Int
  y : Int
  color : Nat
deriving DecidableEq

/-- The pixels of a direct run of `count` bytes from column `px` of row `py`, and the source
left. -/
def runDirect (py : Int) : Nat → List Nat → Int → Option (List Nat × List Pixel)
  | 0, src, _ => some (src, [])
  | _ + 1, [], _ => none
  | n + 1, b :: src, px =>
    match runDirect py n src (px + 1) with
    | none => none
    | some (src1, pixels) => some (src1, ⟨px, py, b⟩ :: pixels)

/-- The pixels of a run of `count` times the colour `pixel` from column `px` of row `py`. -/
def runFill (py : Int) (pixel : Nat) : Nat → Int → List Pixel
  | 0, _ => []
  | n + 1, px => ⟨px, py, pixel⟩ :: runFill py pixel n (px + 1)

/-- The pixels of one delta line whose runs start at column `px` of row `py`: with `rle`,
count bytes each followed by that many colours (even count byte, halved) or by one colour
to repeat (odd count byte, halved), until `pixelCount` is used up; without, `pixelCount`
colours. -/
def linePixels (py : Int) (rle : Bool) :
    Nat → Int → List Nat → Int → Option (List Nat × List Pixel)
  | 0, _, _, _ => none
  | fuel + 1, pixelCount, src, px =>
    if pixelCount > 0 then
      if rle = true then
        match src with
        | [] => none
        | count :: src1 =>
          if count % 2 = 0 then
            match runDirect py (count / 2) src1 px with
            | none => none
            | some (src2, run) =>
              match linePixels py rle fuel (pixelCount - ((count / 2 : Nat) : Int)) src2
                  (px + ((count / 2 : Nat) : Int)) with
              | none => none
              | some (src3, pixels) => some (src3, run ++ pixels)
          else
            match src1 with
            | [] => none
            | pixel :: src2 =>
              match linePixels py rle fuel (pixelCount - ((count / 2 : Nat) : Int)) src2
                  (px + ((count / 2 : Nat) : Int)) with
              | none => none
              | some (src3, pixels) => some (src3, runFill py pixel (count / 2) px ++ pixels)
      else runDirect py pixelCount.toNat src px
    else some (src, [])

/-- The pixels of the delta lines up to the line whose first word is zero, and the bytes
that follow that word. -/
def imagePixels (x y : Int) : Nat → List Nat → Option (List Pixel × List Nat)
  | 0, _ => none
  | fuel + 1, src =>
    match readS16 src 0 with
    | none => none
    | some sizeAndType =>
      if sizeAndType = 0 then some ([], src.drop 2)
      else
        match readS16 src 2, readS16 src 4 with
        | some dx, some dy =>
          match linePixels (wrap16 (dy + y)) (deltaRle sizeAndType) fuel
              (deltaPixelCount sizeAndType) (src.drop 6) (wrap16 (dx + x)) with
          | none => none
          | some (src1, line) =>
            match imagePixels x y fuel src1 with
            | none => none
            | some (pixels, rest) => some (line ++ pixels, rest)
        | _, _ => none

/-- The meaning of a delta image placed at the offset `(x, y)`: the pixels it draws, in
drawing order, and the bytes after its terminating zero word; `none` when the image is not
well formed, that is when a delta line or a run is cut off by the end of the image. -/
def deltaPixels (data : List Nat) (x y : Int) : Option (List Pixel × List Nat) :=
  imagePixels x y (data.length + 1) data

/-- The pixel is inside the clip rectangle: `left ≤ x < right` and `top ≤ y < bottom`. -/
def inClip (clipRect : LRect) (px py : Int) : Prop :=
  clipRect.left ≤ px ∧ px < clipRect.right ∧ clipRect.top ≤ py ∧ py < clipRect.bottom

instance (clipRect : LRect) (px py : Int) : Decidable (inClip clipRect px py) := by
  unfold inClip
  exact inferInstance

/-- Drawing the pixels in order into a bitmap of width `stride`. -/
def plotAll (stride : Int) : List Pixel → List Nat → Option (List Nat)
  | [], fb => some fb
  | p :: pixels, fb =>
    match writePixel fb (p.y * stride + p.x) p.color with
    | none => none
    | some fb1 => plotAll stride pixels fb1

/-- The pixels of a delta image placed at an offset all lie in the bitmap of width `stride`
and height `height`: every run stays within one row of the bitmap. -/
def pixelsInBitmap (stride height : Int) (pixels : List Pixel) : Prop :=
  ∀ p ∈ pixels, 0 ≤ p.x ∧ p.x < stride ∧ 0 ≤ p.y ∧ p.y < height

instance (stride height : Int) (pixels : List Pixel) :
    Decidable (pixelsInBitmap stride height pixels) := by
  unfold pixelsInBitmap
  exact inferInstance

/-- The bitmap `fbClip` is the bitmap `fbImage` masked by the clip rectangle over the bitmap
`fb`: the three have the same size, and each pixel of `fbClip` is that of `fbImage` inside
the clip rectangle and that of `fb` outside. -/
def maskedBy (clipRect : LRect) (stride : Int) (fb fbImage fbClip : List Nat) : Prop :=
  fbImage.length = fb.length ∧ fbClip.length = fb.length
    ∧ ∀ idx, idx < fb.length →
        (inClip clipRect ((idx : Int) % stride) ((idx : Int) / stride) →
          fbClip[idx]? = fbImage[idx]?)
        ∧ (¬ inClip clipRect ((idx : Int) % stride) ((idx : Int) / stride) →
          fbClip[idx]? = fb[idx]?)

instance (clipRect : LRect) (stride : Int) (fb fbImage fbClip : List Nat) :
    Decidable (maskedBy clipRect stride fb fbImage fbClip) := by
  unfold maskedBy
  exact inferInstance

/-- Drawing the pixels in order as `deltaClip` does: a pixel is written when its row and its
column pass the test of the clip rectangle, at the index of its column after
`&framebuffer[y*stride]`, the product taken in `u32`. -/
def plotClip (clipRect : LRect) (stride : Int) : List Pixel → List Nat → Option (List Nat)
  | [], fb => some fb
  | p :: pixels, fb =>
    if clipTest clipRect (decide (p.y ≥ clipRect.top) && decide (p.y < clipRect.bottom)) p.x
        = true then
      match writePixel fb (p.y * stride % 4294967296 + p.x) p.color with
      | none => none
      | some fb1 => plotClip clipRect stride pixels fb1
    else plotClip clipRect stride pixels fb

/-- A delta image of two delta lines: three colours 7, 8, 9 from column 0 of row 1, not
run-length encoded; then four pixels from column 0 of row 0, run-length encoded as the
colour 3 twice and the colours 1, 2; the terminating zero word and four more bytes. -/
def exDelta : List Nat :=
  [6, 0, 0, 0, 1, 0, 7, 8, 9,
   9, 0, 0, 0, 0, 0, 5, 3, 4, 1, 2,
   0, 0, 0, 0, 0, 0]

/-- The clip rectangle of the columns 1 and 2 of the rows 0 and 1. -/
def exClip : LRect := ⟨1, 0, 3, 2⟩

/-- The cursor at which the sector loop (lines 189-339) starts the sector record number `i`,
counted from 0, when the first record starts at `buf`: the cursor the loop body leaves
behind after each of the `i` records before. -/
def sectorCursor (textureList : List AssetHandle) : Nat → List Line → Option (List Line)
  | 0, buf => some buf
  | i + 1, buf =>
    match loadSector textureList buf with
    | SectorResult.ok _ next => sectorCursor textureList i next
    | _ => none

/-! # Theorems -/

/-! ## The rounding of `f32` -/

/-- The rounding on sample values: `1/5` and `1/3` round to their nearest `f32`; the sum
`8 + FLT_EPSILON` rounds to 8 and `1 + FLT_EPSILON` is exact; a value half way between two
`f32` rounds to the one with the even significand, down from `1 + 2^-24` and up from
`1 + 3 * 2^-24`; `FLT_MAX`, the least subnormal `2^-149` and integers up to `2^24` are their
own rounding, `2^24 + 1` rounds to `2^24` and `2^-150` to 0; the rounding of `-q` is the
opposite of that of `q`. -/
theorem F32.round_samples :
    F32.round (1 / 5) = 13421773 / 67108864
    ∧ F32.round (1 / 3) = 11184811 / 33554432
    ∧ F32.round (8 + FLT_EPSILON) = 8
    ∧ F32.round (1 + FLT_EPSILON) = 1 + FLT_EPSILON
    ∧ F32.round (1 + 1 / 16777216) = 1
    ∧ F32.round (1 + 3 / 16777216) = 1 + 4 / 16777216
    ∧ F32.round FLT_MAX = FLT_MAX
    ∧ F32.round (1 / 2 ^ 149) = 1 / 2 ^ 149
    ∧ F32.round (1 / 2 ^ 150) = 0
    ∧ F32.round 16777215 = 16777215
    ∧ F32.round 16777217 = 16777216
    ∧ F32.round (-(1 + 3 / 16777216)) = -(1 + 4 / 16777216)
    ∧ fmul (F32.round (1 / 5)) 10 = 2
    ∧ fadd 1 (fmul (fmul (1 / 2 ^ 30) (1 / 512)) 1024) = 1 := by
  decide!

/-! ## The rounding keeps the order -/

/-- The floor of the rationals is the floor of the ordered field. -/
theorem F32.floor_eq_floor (q : ℚ) : Rat.floor q = ⌊q⌋ := rfl

/-- With enough fuel the halving loop finds the position of the leading bit. -/
theorem F32.log2Loop_spec : ∀ (fuel n : Nat), 1 ≤ n → n ≤ fuel →
    2 ^ F32.log2Loop fuel n ≤ n ∧ n < 2 ^ (F32.log2Loop fuel n + 1) := by
  intro fuel
  induction fuel with
  | zero => intro n h1 h2; omega
  | succ fuel ih =>
    intro n h1 h2
    simp only [F32.log2Loop]
    by_cases h : n < 2
    · simp only [h, if_true]
      constructor
      · simpa using h1
      · simpa using h
    · simp only [h, if_false]
      have hn : 2 ≤ n := by omega
      have h3 : 1 ≤ n / 2 := by omega
      have h4 : n / 2 ≤ fuel := by omega
      obtain ⟨i1, i2⟩ := ih (n / 2) h3 h4
      constructor
      · rw [pow_succ]
        omega
      · rw [pow_succ]
        omega

/-- The position of the leading bit: `2^(log2 n) ≤ n < 2^(log2 n + 1)` for `n ≥ 1`. -/
theorem F32.log2_spec (n : Nat) (h : 1 ≤ n) :
    2 ^ F32.log2 n ≤ n ∧ n < 2 ^ (F32.log2 n + 1) :=
  F32.log2Loop_spec n n h (le_refl n)

/-- The power of two of the embedding is the integer power of the field. -/
theorem F32.pow2_eq (e : Int) : F32.pow2 e = (2 : ℚ) ^ e := by
  unfold F32.pow2
  by_cases h : 0 ≤ e
  · rw [if_pos h]
    obtain ⟨n, rfl⟩ := Int.eq_ofNat_of_zero_le h
    simp
  · rw [if_neg h]
    obtain ⟨n, hn⟩ := Int.exists_eq_neg_ofNat (le_of_lt (not_le.mp h))
    subst hn
    simp

/-- The absolute value of a rational, from its numerator and denominator. -/
theorem F32.abs_eq_div (q : ℚ) : |q| = (q.num.natAbs : ℚ) / (q.den : ℚ) := by
  have h1 : (q.num.natAbs : ℚ) = |(q.num : ℚ)| := by
    rw [Nat.cast_natAbs, Int.cast_abs]
  rw [h1]
  have h2 : (0 : ℚ) < q.den := by exact_mod_cast q.den_pos
  conv_lhs => rw [← Rat.num_div_den q]
  rw [abs_div, abs_of_pos h2]

/-- The binary exponent of a rational other than 0: `2^e ≤ |q| < 2^(e+1)`. -/
theorem F32.exponent_spec (q : ℚ) (hq : q ≠ 0) :
    (2 : ℚ) ^ F32.exponent q ≤ |q| ∧ |q| < (2 : ℚ) ^ (F32.exponent q + 1) := by
  have ha1 : 1 ≤ q.num.natAbs := by
    have : q.num ≠ 0 := Rat.num_ne_zero.mpr hq
    omega
  have hb1 : 1 ≤ q.den := q.den_pos
  obtain ⟨ha, ha'⟩ := F32.log2_spec q.num.natAbs ha1
  obtain ⟨hb, hb'⟩ := F32.log2_spec q.den hb1
  rw [F32.abs_eq_div]
  unfold F32.exponent
  generalize F32.log2 q.num.natAbs = la at ha ha' ⊢
  generalize F32.log2 q.den = lb at hb hb' ⊢
  have hbq : (0 : ℚ) < q.den := by exact_mod_cast q.den_pos
  have haq : ((2 : ℚ) ^ la) ≤ (q.num.natAbs : ℚ) := by exact_mod_cast ha
  have haq' : (q.num.natAbs : ℚ) < (2 : ℚ) ^ (la + 1) := by exact_mod_cast ha'
  have hbq1 : ((2 : ℚ) ^ lb) ≤ (q.den : ℚ) := by exact_mod_cast hb
  have hbq' : (q.den : ℚ) < (2 : ℚ) ^ (lb + 1) := by exact_mod_cast hb'
  have h2 : (2 : ℚ) ≠ 0 := by norm_num
  have hpa : (0 : ℚ) < 2 ^ la := by positivity
  have hpb : (0 : ℚ) < 2 ^ lb := by positivity
  split
  · rename_i hc
    have hcq : (q.num.natAbs : ℚ) * 2 ^ lb < (q.den : ℚ) * 2 ^ la := by exact_mod_cast hc
    have e1 : (2 : ℚ) ^ ((la : ℤ) - (lb : ℤ) - 1) = 2 ^ la / 2 ^ (lb + 1) := by
      rw [show (la : ℤ) - (lb : ℤ) - 1 = (la : ℤ) - ((lb + 1 : ℕ) : ℤ) by push_cast; ring]
      rw [zpow_sub₀ h2, zpow_natCast, zpow_natCast]
    have e2 : (2 : ℚ) ^ ((la : ℤ) - (lb : ℤ) - 1 + 1) = 2 ^ la / 2 ^ lb := by
      rw [show (la : ℤ) - (lb : ℤ) - 1 + 1 = (la : ℤ) - (lb : ℤ) by ring]
      rw [zpow_sub₀ h2, zpow_natCast, zpow_natCast]
    rw [e1, e2]
    constructor
    · rw [div_le_div_iff₀ (by positivity) hbq]
      calc (2 : ℚ) ^ la * q.den ≤ q.num.natAbs * q.den :=
            mul_le_mul_of_nonneg_right haq (le_of_lt hbq)
        _ ≤ q.num.natAbs * 2 ^ (lb + 1) :=
            mul_le_mul_of_nonneg_left (le_of_lt hbq') (by positivity)
    · rw [div_lt_div_iff₀ hbq hpb]
      linarith
  · rename_i hc
    have hcq : (q.den : ℚ) * 2 ^ la ≤ (q.num.natAbs : ℚ) * 2 ^ lb := by
      exact_mod_cast not_lt.mp hc
    have e1 : (2 : ℚ) ^ ((la : ℤ) - (lb : ℤ)) = 2 ^ la / 2 ^ lb := by
      rw [zpow_sub₀ h2, zpow_natCast, zpow_natCast]
    have e2 : (2 : ℚ) ^ ((la : ℤ) - (lb : ℤ) + 1) = 2 ^ (la + 1) / 2 ^ lb := by
      rw [show (la : ℤ) - (lb : ℤ) + 1 = ((la + 1 : ℕ) : ℤ) - (lb : ℤ) by push_cast; ring]
      rw [zpow_sub₀ h2, zpow_natCast, zpow_natCast]
    rw [e1, e2]
    constructor
    · rw [div_le_div_iff₀ hpb hbq]
      linarith
    · rw [div_lt_div_iff₀ hbq hpb]
      calc (q.num.natAbs : ℚ) * 2 ^ lb < 2 ^ (la + 1) * 2 ^ lb :=
            mul_lt_mul_of_pos_right haq' hpb
        _ ≤ 2 ^ (la + 1) * q.den :=
            mul_le_mul_of_nonneg_left hbq1 (by positivity)

/-- Rounding to the nearest integer gives the floor or the integer above it. -/
theorem F32.nearestEven_bounds (x : ℚ) :
    ⌊x⌋ ≤ F32.nearestEven x ∧ F32.nearestEven x ≤ ⌊x⌋ + 1 := by
  unfold F32.nearestEven
  rw [F32.floor_eq_floor]
  split_ifs <;> constructor <;> omega

/-- An integer is its own nearest integer. -/
theorem F32.nearestEven_intCast (n : ℤ) : F32.nearestEven (n : ℚ) = n := by
  unfold F32.nearestEven
  rw [F32.floor_eq_floor, Int.floor_intCast]
  simp

/-- Rounding to the nearest integer does not go below an integer the value is not below. -/
theorem F32.le_nearestEven (n : ℤ) (x : ℚ) (h : (n : ℚ) ≤ x) : n ≤ F32.nearestEven x :=
  le_trans (Int.le_floor.mpr h) (F32.nearestEven_bounds x).1

/-- Rounding to the nearest integer does not go above an integer the value is not above. -/
theorem F32.nearestEven_le (n : ℤ) (x : ℚ) (h : x ≤ (n : ℚ)) : F32.nearestEven x ≤ n := by
  rcases eq_or_lt_of_le h with h1 | h1
  · rw [h1, F32.nearestEven_intCast]
  · have : ⌊x⌋ < n := Int.floor_lt.mpr h1
    have := (F32.nearestEven_bounds x).2
    omega

/-- Rounding to the nearest integer, ties to even, keeps the order. -/
theorem F32.nearestEven_mono (x y : ℚ) (h : x ≤ y) :
    F32.nearestEven x ≤ F32.nearestEven y := by
  have hf : ⌊x⌋ ≤ ⌊y⌋ := Int.floor_mono h
  rcases eq_or_lt_of_le hf with h1 | h1
  · unfold F32.nearestEven
    simp only [F32.floor_eq_floor]
    rw [← h1]
    have hxy : x - (⌊x⌋ : ℚ) ≤ y - (⌊x⌋ : ℚ) := by linarith
    split_ifs <;> first | omega | (exfalso; linarith)
  · have h2 := (F32.nearestEven_bounds x).2
    have h3 := (F32.nearestEven_bounds y).1
    omega

/-- Rounding to the nearest integer, ties to even, is symmetric about 0. -/
theorem F32.nearestEven_neg (x : ℚ) : F32.nearestEven (-x) = -F32.nearestEven x := by
  by_cases hx : (⌊x⌋ : ℚ) = x
  · rw [← hx, ← Int.cast_neg, F32.nearestEven_intCast, F32.nearestEven_intCast]
  · have h1 : (⌊x⌋ : ℚ) < x := lt_of_le_of_ne (Int.floor_le x) hx
    have h2 : x < (⌊x⌋ : ℚ) + 1 := Int.lt_floor_add_one x
    have h3 : ⌊-x⌋ = -⌊x⌋ - 1 := by
      rw [Int.floor_eq_iff]
      push_cast
      constructor <;> linarith
    unfold F32.nearestEven
    simp only [F32.floor_eq_floor]
    rw [h3]
    push_cast
    split_ifs <;> first | omega | (exfalso; linarith)

/-- The binary exponent does not depend on the sign. -/
theorem F32.exponent_neg (q : ℚ) : F32.exponent (-q) = F32.exponent q := by
  unfold F32.exponent
  simp only [Rat.neg_num, Rat.neg_den, Int.natAbs_neg]

/-- The spacing of the `f32` values does not depend on the sign. -/
theorem F32.ulp_neg (q : ℚ) : F32.ulp (-q) = F32.ulp q := by
  unfold F32.ulp
  rw [F32.exponent_neg]

/-- The spacing of the `f32` values around `q` as a power of two. -/
theorem F32.ulp_eq (q : ℚ) : F32.ulp q = (2 : ℚ) ^ (max (F32.exponent q) (-126) - 23) :=
  F32.pow2_eq _

/-- The spacing of the `f32` values is positive. -/
theorem F32.ulp_pos (q : ℚ) : 0 < F32.ulp q := by
  rw [F32.ulp_eq]
  positivity

/-- The rounding to `f32` is symmetric about 0. -/
theorem F32.round_neg (q : ℚ) : F32.round (-q) = -F32.round q := by
  unfold F32.round
  by_cases h : q = 0
  · simp [h]
  · rw [if_neg h, if_neg (neg_ne_zero.mpr h), F32.ulp_neg, neg_div, F32.nearestEven_neg]
    push_cast
    ring

/-- The rounding of a value that is not negative is not negative. -/
theorem F32.round_nonneg (q : ℚ) (h : 0 ≤ q) : 0 ≤ F32.round q := by
  unfold F32.round
  split_ifs
  · exact le_refl 0
  · have h1 : (0 : ℤ) ≤ F32.nearestEven (q / F32.ulp q) :=
      F32.le_nearestEven 0 _ (by simpa using div_nonneg h (le_of_lt (F32.ulp_pos q)))
    have h2 : (0 : ℚ) ≤ (F32.nearestEven (q / F32.ulp q) : ℚ) := by exact_mod_cast h1
    exact mul_nonneg h2 (le_of_lt (F32.ulp_pos q))

/-- The binary exponent keeps the order of the positive rationals. -/
theorem F32.exponent_mono (a b : ℚ) (ha : 0 < a) (h : a ≤ b) :
    F32.exponent a ≤ F32.exponent b := by
  have hb : 0 < b := lt_of_lt_of_le ha h
  obtain ⟨a1, _⟩ := F32.exponent_spec a (ne_of_gt ha)
  obtain ⟨_, b2⟩ := F32.exponent_spec b (ne_of_gt hb)
  rw [abs_of_pos ha] at a1
  rw [abs_of_pos hb] at b2
  have h1 : (2 : ℚ) ^ F32.exponent a < (2 : ℚ) ^ (F32.exponent b + 1) :=
    lt_of_le_of_lt (le_trans a1 h) b2
  have h2 := (zpow_lt_zpow_iff_right₀ (by norm_num : (1 : ℚ) < 2)).mp h1
  omega

/-- A significand of `2^24` at the exponent `E` is the power `2^(E+1)`. -/
theorem F32.pow2_shift24 (E : ℤ) :
    (((2 : ℤ) ^ 24 : ℤ) : ℚ) * 2 ^ (E - 23) = 2 ^ (E + 1) := by
  have h : (2 : ℚ) ^ (E + 1) = 2 ^ (24 : ℤ) * 2 ^ (E - 23) := by
    rw [← zpow_add₀ (by norm_num : (2 : ℚ) ≠ 0)]
    congr 1
    ring
  rw [h]
  norm_num

/-- A significand of `2^23` at the exponent `E` is the power `2^E`. -/
theorem F32.pow2_shift23 (E : ℤ) :
    (((2 : ℤ) ^ 23 : ℤ) : ℚ) * 2 ^ (E - 23) = 2 ^ E := by
  have h : (2 : ℚ) ^ E = 2 ^ (23 : ℤ) * 2 ^ (E - 23) := by
    rw [← zpow_add₀ (by norm_num : (2 : ℚ) ≠ 0)]
    congr 1
    ring
  rw [h]
  norm_num

/-- The rounding to `f32` keeps the order of the positive rationals: within one binade by
the order of the significands, across binades through the power of two between the two
values. -/
theorem F32.round_mono_pos (a b : ℚ) (ha : 0 < a) (h : a ≤ b) :
    F32.round a ≤ F32.round b := by
  have hb : 0 < b := lt_of_lt_of_le ha h
  have he := F32.exponent_mono a b ha h
  obtain ⟨_, a2⟩ := F32.exponent_spec a (ne_of_gt ha)
  obtain ⟨b1, _⟩ := F32.exponent_spec b (ne_of_gt hb)
  rw [abs_of_pos ha] at a2
  rw [abs_of_pos hb] at b1
  unfold F32.round
  rw [if_neg (ne_of_gt ha), if_neg (ne_of_gt hb), F32.ulp_eq, F32.ulp_eq]
  generalize F32.exponent a = ea at he a2 ⊢
  generalize F32.exponent b = eb at he b1 ⊢
  have h2 : (2 : ℚ) ≠ 0 := by norm_num
  have h12 : (1 : ℚ) ≤ 2 := by norm_num
  rcases eq_or_lt_of_le (max_le_max_right (-126) he) with h3 | h3
  · rw [← h3]
    have hu : (0 : ℚ) < 2 ^ (max ea (-126) - 23) := by positivity
    have h4 : a / 2 ^ (max ea (-126) - 23) ≤ b / 2 ^ (max ea (-126) - 23) :=
      div_le_div_of_nonneg_right h (le_of_lt hu)
    have h5 := F32.nearestEven_mono _ _ h4
    have h6 : (F32.nearestEven (a / 2 ^ (max ea (-126) - 23)) : ℚ)
        ≤ (F32.nearestEven (b / 2 ^ (max ea (-126) - 23)) : ℚ) := by exact_mod_cast h5
    exact mul_le_mul_of_nonneg_right h6 (le_of_lt hu)
  · have hEb : max eb (-126) = eb := by omega
    have hEa : ea + 1 ≤ max ea (-126) + 1 := by omega
    have hEab : max ea (-126) + 1 ≤ eb := by omega
    rw [hEb]
    generalize max ea (-126) = E at hEa hEab ⊢
    have hua : (0 : ℚ) < 2 ^ (E - 23) := by positivity
    have hub : (0 : ℚ) < 2 ^ (eb - 23) := by positivity
    have a3 : a ≤ 2 ^ (E + 1) :=
      le_trans (le_of_lt a2) (zpow_le_zpow_right₀ h12 hEa)
    have a4 : a / 2 ^ (E - 23) ≤ ((2 ^ 24 : ℤ) : ℚ) := by
      rw [div_le_iff₀ hua]
      have : (((2 : ℤ) ^ 24 : ℤ) : ℚ) * 2 ^ (E - 23) = 2 ^ (E + 1) := by
        exact F32.pow2_shift24 E
      rw [this]
      exact a3
    have a5 : (F32.nearestEven (a / 2 ^ (E - 23)) : ℚ) ≤ ((2 ^ 24 : ℤ) : ℚ) := by
      exact_mod_cast F32.nearestEven_le _ _ a4
    have a6 : (F32.nearestEven (a / 2 ^ (E - 23)) : ℚ) * 2 ^ (E - 23) ≤ 2 ^ (E + 1) := by
      have := mul_le_mul_of_nonneg_right a5 (le_of_lt hua)
      have e : (((2 : ℤ) ^ 24 : ℤ) : ℚ) * 2 ^ (E - 23) = 2 ^ (E + 1) := by
        exact F32.pow2_shift24 E
      rw [e] at this
      exact this
    have b4 : ((2 ^ 23 : ℤ) : ℚ) ≤ b / 2 ^ (eb - 23) := by
      rw [le_div_iff₀ hub]
      have : (((2 : ℤ) ^ 23 : ℤ) : ℚ) * 2 ^ (eb - 23) = 2 ^ eb := by
        exact F32.pow2_shift23 eb
      rw [this]
      exact b1
    have b5 : ((2 ^ 23 : ℤ) : ℚ) ≤ (F32.nearestEven (b / 2 ^ (eb - 23)) : ℚ) := by
      exact_mod_cast F32.le_nearestEven _ _ b4
    have b6 : (2 : ℚ) ^ eb ≤ (F32.nearestEven (b / 2 ^ (eb - 23)) : ℚ) * 2 ^ (eb - 23) := by
      have := mul_le_mul_of_nonneg_right b5 (le_of_lt hub)
      have e : (((2 : ℤ) ^ 23 : ℤ) : ℚ) * 2 ^ (eb - 23) = 2 ^ eb := by
        exact F32.pow2_shift23 eb
      rw [e] at this
      exact this
    exact le_trans a6 (le_trans (zpow_le_zpow_right₀ h12 hEab) b6)

/-- Zero is its own rounding. -/
theorem F32.round_zero : F32.round 0 = 0 := by
  unfold F32.round
  rw [if_pos rfl]

/-- The rounding to `f32` keeps the order: `a ≤ b` gives `round a ≤ round b`. -/
theorem F32.round_mono (a b : ℚ) (h : a ≤ b) : F32.round a ≤ F32.round b := by
  rcases lt_trichotomy 0 a with ha | ha | ha
  · exact F32.round_mono_pos a b ha h
  · subst ha
    rw [F32.round_zero]
    exact F32.round_nonneg b h
  · have ha1 : F32.round a ≤ 0 := by
      have := F32.round_nonneg (-a) (by linarith)
      rw [F32.round_neg] at this
      linarith
    rcases le_or_lt 0 b with hb | hb
    · exact le_trans ha1 (F32.round_nonneg b hb)
    · have := F32.round_mono_pos (-b) (-a) (by linarith) (by linarith)
      rw [F32.round_neg, F32.round_neg] at this
      linarith

/-- The `f32` product by a factor that is not negative keeps the order. -/
theorem fmul_mono_left (s s1 m : ℚ) (hm : 0 ≤ m) (h : s ≤ s1) : fmul s m ≤ fmul s1 m :=
  F32.round_mono _ _ (mul_le_mul_of_nonneg_right h hm)


/-! ## Level loading -/

theorem loadTexturesAndSectors_failed (env : LoaderEnv) (level level1 : EditorLevel)
    (line : Line) (buf : List Line)
    (h : loadTexturesAndSectors env level line buf = LoadResult.failed level1) :
    level1.sameExtent level ∧ level1.name = level.name ∧ level1.palette = level.palette
      ∧ level1.parallax = level.parallax := by
  unfold loadTexturesAndSectors at h
  split at h
  · split at h
    · exact absurd h (by simp)
    · simp only at h
      split at h
      · split at h
        · exact absurd h (by simp)
        · split at h
          · exact absurd h (by simp)
          · injection h with h
            subst h
            simp [EditorLevel.sameExtent]
          · exact absurd h (by simp)
      · injection h with h
        subst h
        simp [EditorLevel.sameExtent]
  · injection h with h
    subst h
    simp [EditorLevel.sameExtent]

theorem loadSky_failed (env : LoaderEnv) (level level1 : EditorLevel) (buf : List Line)
    (h : loadSky env level buf = LoadResult.failed level1) :
    level1.sameExtent level ∧ level1.name = level.name ∧ level1.palette = level.palette := by
  unfold loadSky at h
  simp only at h
  split at h
  · have h1 := loadTexturesAndSectors_failed _ _ _ _ _ h
    exact ⟨by simpa [EditorLevel.sameExtent] using h1.1, h1.2.1, h1.2.2.1⟩
  · have h1 := loadTexturesAndSectors_failed _ _ _ _ _ h
    exact ⟨by simpa [EditorLevel.sameExtent] using h1.1, h1.2.1, h1.2.2.1⟩

/-- C2 (as amended): when `loadLevelFromAsset` returns failure, the feature set, the bounds
and the layer range of the level are as they were before the call, and a failure at the
header check leaves the whole level as it was. Name, palette, parallax and sector list are
not covered: they hold what the records before the failing one wrote. -/
theorem loadLevelFromAsset_failed_keeps_extent (env : LoaderEnv) (level level1 : EditorLevel)
    (fileData : List Line)
    (h : loadLevelFromAsset env level fileData = LoadResult.failed level1) :
    level1.sameExtent level
      ∧ (headerPasses (readLine fileData).1 = false → level1 = level) := by
  unfold loadLevelFromAsset at h
  split at h
  · injection h with h
    subst h
    simp [EditorLevel.sameExtent]
  · split at h
    · injection h with h
      subst h
      simp [EditorLevel.sameExtent]
    · rename_i hp
      simp only at h
      refine ⟨?_, fun hf => absurd hf hp⟩
      split at h
      · split at h
        · simpa [EditorLevel.sameExtent] using (loadSky_failed _ _ _ _ h).1
        · injection h with h
          subst h
          simp [EditorLevel.sameExtent]
      · injection h with h
        subst h
        simp [EditorLevel.sameExtent]

/-- Witness of C2 (as amended): a file that fails at its PALETTE record, loaded into a level
that has bounds. -/
theorem loadLevelFromAsset_failed_keeps_extent_witness :
    loadLevelFromAsset exLoaderEnv exLevel
        [levLine 2 1, ⟨Key.LEVELNAME, [Arg.str "NEW"]⟩, garbageLine]
      = LoadResult.failed { exLevel with name := "NEW" }
    ∧ EditorLevel.sameExtent { exLevel with name := "NEW" } exLevel :=
  ⟨by decide,
    (loadLevelFromAsset_failed_keeps_extent exLoaderEnv exLevel { exLevel with name := "NEW" }
      [levLine 2 1, ⟨Key.LEVELNAME, [Arg.str "NEW"]⟩, garbageLine] (by decide)).1⟩

/-- Counterexample to C2 as stated: a file whose PALETTE record is malformed makes the
load return failure, and the level's name is then the one of the file, not the one the level
had before the call. -/
theorem loadLevelFromAsset_failed_changes_name :
    loadLevelFromAsset exLoaderEnv exLevel
        [levLine 2 1, ⟨Key.LEVELNAME, [Arg.str "NEW"]⟩, garbageLine]
      = LoadResult.failed { exLevel with name := "NEW" }
    ∧ ({ exLevel with name := "NEW" } : EditorLevel) ≠ exLevel := by
  decide

/-- The header check in the range of `s32`: when `major * 10` and `major * 10 + minor` do
not overflow, the check passes exactly for the versions 15 to 21. -/
theorem headerPasses_iff_of_no_overflow (major minor : Int) (rest : List Arg)
    (h1 : -2147483648 ≤ major * 10 ∧ major * 10 ≤ 2147483647)
    (h2 : -2147483648 ≤ major * 10 + minor ∧ major * 10 + minor ≤ 2147483647) :
    headerPasses ⟨Key.LEV, Arg.int major :: Arg.int minor :: rest⟩ = true
      ↔ 15 ≤ major * 10 + minor ∧ major * 10 + minor ≤ 21 := by
  have e1 : wrap32 (major * 10) = major * 10 := by
    unfold wrap32; omega
  have e2 : wrap32 (major * 10 + minor) = major * 10 + minor := by
    unfold wrap32; omega
  simp [headerPasses, sscanf, convert, Arg.accepts, levVersion, e1, e2, LevVersionMin,
    LevVersionMax]

/-- C3 (divergence): the header `LEV 429496730.11` passes the header check, and the file
that starts with it loads, although `429496730 * 10 + 11` is not between 15 and 21: the
version is computed in `s32` and wraps to 15. The headers `LEV 1.4`, `LEV 1.5` and
`LEV 2.1` are treated as the claim says. -/
theorem headerPasses_version_overflow :
    headerPasses (levLine 429496730 11) = true
    ∧ ¬ (15 ≤ (429496730 : Int) * 10 + 11 ∧ (429496730 : Int) * 10 + 11 ≤ 21)
    ∧ (loadLevelFromAsset exLoaderEnv exLevel
        (exFile (levLine 429496730 11) (vertexLine 0 0) 0)).isLoaded = true
    ∧ headerPasses (levLine 1 4) = false
    ∧ headerPasses (levLine 1 5) = true
    ∧ headerPasses (levLine 2 1) = true := by
  decide

/-- C4 (divergence): a level file whose only vertex record matches nothing of the pattern
`X: <x> Z: <z>` is loaded, not rejected: the value `sscanf` returns for a vertex line is not
looked at, and the vertex keeps the coordinates (0, 0). -/
theorem loadLevelFromAsset_accepts_malformed_vertex :
    sscanf garbageLine Key.VERTEX [Conv.f, Conv.f] = []
    ∧ (loadLevelFromAsset exLoaderEnv exLevel (exFile (levLine 2 1) garbageLine 0)).isLoaded
        = true
    ∧ (loadLevelFromAsset exLoaderEnv exLevel (exFile (levLine 2 1) garbageLine 0)).level?.map
        (fun level => level.sectors.map fun sector => sector.vtx) = some [[⟨0, 0⟩]] := by
  decide

/-- C5 (divergence): a level file whose floor texture id is 7 is neither rejected nor
loaded, the loader indexes its texture list at 7; the same file with the floor texture id 0
loads, with a texture list of two entries. -/
theorem loadLevelFromAsset_floor_texture_out_of_range :
    loadLevelFromAsset exLoaderEnv exLevel (exFile (levLine 2 1) (vertexLine 0 0) 7)
        = LoadResult.fault
    ∧ (loadLevelFromAsset exLoaderEnv exLevel
        (exFile (levLine 2 1) (vertexLine 0 0) 0)).textureList?.map List.length = some 2 := by
  decide

/-! ## Ray tracing: the wall loop -/

theorem wallTest_eq (env : TraceEnv) (ray : Ray) (level : EditorLevel) (sector : EditorSector)
    (c r : ℚ × Int) (w : Nat) (wall : EditorWall)
    (h : wallTest env ray level sector c w wall = some r) :
    r = match wallCandidate env ray level sector wall with
        | some s => if s < c.1 then (s, (w : Int)) else c
        | none => c := by
  unfold wallTest at h
  unfold wallCandidate
  cases hv0 : vecAt sector.vtx wall.idx0 with
  | none => simp [hv0] at h
  | some v0 =>
    cases hv1 : vecAt sector.vtx wall.idx1 with
    | none => simp [hv0, hv1] at h
    | some v1 =>
      simp only [hv0, hv1] at h ⊢
      by_cases hd : dot2 ray.dirxz (wallNormal v0 v1) < 0
      · simp only [hd, if_true] at h ⊢
        exact (Option.some.inj h).symm
      · simp only [hd, if_false] at h ⊢
        cases hl : env.lineSegmentIntersect ray.p0xz ray.p1xz v0 v1 with
        | none =>
          simp only [hl] at h ⊢
          exact (Option.some.inj h).symm
        | some st =>
          obtain ⟨s, t⟩ := st
          simp only [hl] at h ⊢
          by_cases hs : s < c.1
          · simp only [hs, if_true] at h
            by_cases hb : ray.yAt s > fsub sector.floorHeight FLT_EPSILON
                ∧ ray.yAt s < fadd sector.ceilHeight FLT_EPSILON
            · simp only [hb, and_self, if_true] at h ⊢
              by_cases ha : wall.adjoinId ≥ 0
              · simp only [ha, if_true] at h ⊢
                cases hn : vecAt level.sectors wall.adjoinId with
                | none => simp [hn] at h
                | some next =>
                  simp only [hn] at h ⊢
                  by_cases hc : ray.yAt s ≤ next.floorHeight ∨ ray.yAt s ≥ next.ceilHeight
                      ∨ adjMidTex env wall = true
                  · simp only [hc, if_true] at h ⊢
                    simp only [hs, if_true]
                    exact (Option.some.inj h).symm
                  · simp only [hc, if_false] at h ⊢
                    exact (Option.some.inj h).symm
              · simp only [ha, if_false] at h ⊢
                simp only [hs, if_true]
                exact (Option.some.inj h).symm
            · simp only [hb, if_false] at h ⊢
              exact (Option.some.inj h).symm
          · simp only [hs, if_false] at h
            have h1 := (Option.some.inj h).symm
            subst h1
            have key : ∀ o : Option ℚ, (∀ s1, o = some s1 → s1 = s) →
                r = (match o with
                  | some s => if s < r.1 then (s, (w : Int)) else r
                  | none => r) := by
              intro o ho
              cases o with
              | none => rfl
              | some s1 =>
                have e := ho s1 rfl
                subst e
                simp [hs]
            apply key
            intro s1 hs1
            split at hs1
            · split at hs1
              · split at hs1
                · exact absurd hs1 (by simp)
                · split at hs1
                  · exact (Option.some.inj hs1).symm
                  · exact absurd hs1 (by simp)
              · exact (Option.some.inj hs1).symm
            · exact absurd hs1 (by simp)

theorem wallTest_fst_le (env : TraceEnv) (ray : Ray) (level : EditorLevel)
    (sector : EditorSector) (c r : ℚ × Int) (w : Nat) (wall : EditorWall)
    (h : wallTest env ray level sector c w wall = some r) : r.1 ≤ c.1 := by
  have e := wallTest_eq env ray level sector c r w wall h
  cases hc : wallCandidate env ray level sector wall with
  | none => rw [hc] at e; simp only at e; rw [e]
  | some s =>
    rw [hc] at e
    simp only at e
    by_cases hs : s < c.1
    · rw [if_pos hs] at e
      rw [e]
      exact le_of_lt hs
    · rw [if_neg hs] at e
      rw [e]

/-- The wall loop, started at wall number `k` with the pair `c`, either keeps `c`, and then
no wall of the list is a candidate below `c.1`; or ends on a candidate of the list below
`c.1` that is the first of the closest candidates of the list. -/
theorem wallLoop_spec (env : TraceEnv) (ray : Ray) (level : EditorLevel) (sector : EditorSector)
    (walls : List EditorWall) :
    ∀ (k : Nat) (c r : ℚ × Int), wallLoop env ray level sector k walls c = some r →
      (r = c ∧ ∀ (i : Nat) (wall : EditorWall) (s : ℚ), walls[i]? = some wall →
          wallCandidate env ray level sector wall = some s → c.1 ≤ s)
      ∨ (∃ (j : Nat) (wall : EditorWall), walls[j]? = some wall
          ∧ wallCandidate env ray level sector wall = some r.1
          ∧ r.2 = ((k + j : Nat) : Int) ∧ r.1 < c.1
          ∧ ∀ (i : Nat) (wall1 : EditorWall) (s : ℚ), walls[i]? = some wall1 →
              wallCandidate env ray level sector wall1 = some s →
              r.1 ≤ s ∧ (i < j → r.1 < s)) := by
  induction walls with
  | nil =>
    intro k c r h
    left
    simp only [wallLoop] at h
    exact ⟨(Option.some.inj h).symm, fun i wall s hi => by simp at hi⟩
  | cons wall rest ih =>
    intro k c r h
    simp only [wallLoop] at h
    cases ht : wallTest env ray level sector c k wall with
    | none => rw [ht] at h; exact absurd h (by simp)
    | some c1 =>
      rw [ht] at h
      simp only at h
      have e := wallTest_eq env ray level sector c c1 k wall ht
      have hle := wallTest_fst_le env ray level sector c c1 k wall ht
      -- what the head contributes
      have hhead : ∀ s, wallCandidate env ray level sector wall = some s → c1.1 ≤ s := by
        intro s hs
        rw [hs] at e
        simp only at e
        by_cases hlt : s < c.1
        · rw [if_pos hlt] at e
          rw [e]
        · rw [if_neg hlt] at e
          rw [e]
          exact not_lt.mp hlt
      rcases ih (k + 1) c1 r h with ⟨hr, hall⟩ | ⟨j, wj, hj, hcand, hidx, hlt, hmin⟩
      · -- the rest keeps `c1`
        cases hc : wallCandidate env ray level sector wall with
        | none =>
          rw [hc] at e
          simp only at e
          left
          refine ⟨by rw [hr, e], ?_⟩
          intro i wall1 s hi hs
          cases i with
          | zero =>
            simp only [List.getElem?_cons_zero, Option.some.injEq] at hi
            subst hi
            rw [hc] at hs
            exact absurd hs (by simp)
          | succ i =>
            simp only [List.getElem?_cons_succ] at hi
            have := hall i wall1 s hi hs
            rw [e] at this
            exact this
        | some s0 =>
          rw [hc] at e
          simp only at e
          by_cases hlt : s0 < c.1
          · rw [if_pos hlt] at e
            right
            refine ⟨0, wall, by simp, ?_, ?_, ?_, ?_⟩
            · rw [hr, e]; exact hc
            · rw [hr, e]; simp
            · rw [hr, e]; exact hlt
            · intro i wall1 s hi hs
              cases i with
              | zero =>
                simp only [List.getElem?_cons_zero, Option.some.injEq] at hi
                subst hi
                rw [hc] at hs
                have hs' := Option.some.inj hs
                subst hs'
                rw [hr, e]
                exact ⟨le_refl _, fun h0 => absurd h0 (by simp)⟩
              | succ i =>
                simp only [List.getElem?_cons_succ] at hi
                have h1 := hall i wall1 s hi hs
                rw [hr]
                exact ⟨h1, fun h0 => absurd h0 (by simp)⟩
          · rw [if_neg hlt] at e
            left
            refine ⟨by rw [hr, e], ?_⟩
            intro i wall1 s hi hs
            cases i with
            | zero =>
              simp only [List.getElem?_cons_zero, Option.some.injEq] at hi
              subst hi
              rw [hc] at hs
              have hs' := Option.some.inj hs
              subst hs'
              exact not_lt.mp hlt
            | succ i =>
              simp only [List.getElem?_cons_succ] at hi
              have := hall i wall1 s hi hs
              rw [e] at this
              exact this
      · -- the rest ends on a candidate below `c1`
        right
        refine ⟨j + 1, wj, by simpa using hj, hcand, ?_, lt_of_lt_of_le hlt hle, ?_⟩
        · rw [hidx]
          congr 1
          omega
        · intro i wall1 s hi hs
          cases i with
          | zero =>
            simp only [List.getElem?_cons_zero, Option.some.injEq] at hi
            subst hi
            have h1 := hhead s hs
            exact ⟨le_of_lt (lt_of_lt_of_le hlt h1), fun _ => lt_of_lt_of_le hlt h1⟩
          | succ i =>
            simp only [List.getElem?_cons_succ] at hi
            have h1 := hmin i wall1 s hi hs
            exact ⟨h1.1, fun h0 => h1.2 (by omega)⟩

theorem wallCandidate_some (env : TraceEnv) (ray : Ray) (level : EditorLevel)
    (sector : EditorSector) (wall : EditorWall) (s : ℚ)
    (h : wallCandidate env ray level sector wall = some s) :
    ∃ v0 v1 t, vecAt sector.vtx wall.idx0 = some v0 ∧ vecAt sector.vtx wall.idx1 = some v1
      ∧ 0 ≤ dot2 ray.dirxz (wallNormal v0 v1)
      ∧ env.lineSegmentIntersect ray.p0xz ray.p1xz v0 v1 = some (s, t)
      ∧ (ray.yAt s > fsub sector.floorHeight FLT_EPSILON
          ∧ ray.yAt s < fadd sector.ceilHeight FLT_EPSILON)
      ∧ (wall.adjoinId ≥ 0 → ∃ next, vecAt level.sectors wall.adjoinId = some next
          ∧ (ray.yAt s ≤ next.floorHeight ∨ ray.yAt s ≥ next.ceilHeight
              ∨ adjMidTex env wall = true)) := by
  unfold wallCandidate at h
  cases hv0 : vecAt sector.vtx wall.idx0 with
  | none => simp [hv0] at h
  | some v0 =>
    cases hv1 : vecAt sector.vtx wall.idx1 with
    | none => simp [hv0, hv1] at h
    | some v1 =>
      simp only [hv0, hv1] at h
      by_cases hd : dot2 ray.dirxz (wallNormal v0 v1) < 0
      · simp [hd] at h
      · simp only [hd, if_false] at h
        cases hl : env.lineSegmentIntersect ray.p0xz ray.p1xz v0 v1 with
        | none => simp [hl] at h
        | some st =>
          obtain ⟨s1, t⟩ := st
          simp only [hl] at h
          by_cases hb : ray.yAt s1 > fsub sector.floorHeight FLT_EPSILON
              ∧ ray.yAt s1 < fadd sector.ceilHeight FLT_EPSILON
          · simp only [hb, and_self, if_true] at h
            by_cases ha : wall.adjoinId ≥ 0
            · simp only [ha, if_true] at h
              cases hn : vecAt level.sectors wall.adjoinId with
              | none => simp [hn] at h
              | some next =>
                simp only [hn] at h
                by_cases hc : ray.yAt s1 ≤ next.floorHeight ∨ ray.yAt s1 ≥ next.ceilHeight
                    ∨ adjMidTex env wall = true
                · simp only [hc, if_true] at h
                  have e := Option.some.inj h
                  subst e
                  exact ⟨v0, v1, t, rfl, rfl, not_lt.mp hd, hl, hb, fun _ => ⟨next, rfl, hc⟩⟩
                · simp [hc] at h
            · simp only [ha, if_false] at h
              have e := Option.some.inj h
              subst e
              exact ⟨v0, v1, t, rfl, rfl, not_lt.mp hd, hl, hb, fun h0 => absurd h0 ha⟩
          · simp [hb] at h

theorem wallCandidate_of (env : TraceEnv) (ray : Ray) (level : EditorLevel)
    (sector : EditorSector) (wall : EditorWall) (v0 v1 : Vec2f) (s t : ℚ)
    (hv0 : vecAt sector.vtx wall.idx0 = some v0) (hv1 : vecAt sector.vtx wall.idx1 = some v1)
    (hd : 0 ≤ dot2 ray.dirxz (wallNormal v0 v1))
    (hl : env.lineSegmentIntersect ray.p0xz ray.p1xz v0 v1 = some (s, t))
    (hb : ray.yAt s > fsub sector.floorHeight FLT_EPSILON
          ∧ ray.yAt s < fadd sector.ceilHeight FLT_EPSILON)
    (ha : wall.adjoinId ≥ 0 → ∃ next, vecAt level.sectors wall.adjoinId = some next
          ∧ (ray.yAt s ≤ next.floorHeight ∨ ray.yAt s ≥ next.ceilHeight
              ∨ adjMidTex env wall = true)) :
    wallCandidate env ray level sector wall = some s := by
  unfold wallCandidate
  simp only [hv0, hv1, not_lt.mpr hd, if_false, hl, hb, and_self, if_true]
  by_cases h0 : wall.adjoinId ≥ 0
  · obtain ⟨next, hn, hc⟩ := ha h0
    simp only [h0, if_true, hn, hc]
  · simp only [h0, if_false]

theorem vecAt_natCast {α : Type} (v : List α) (j : Nat) : vecAt v (j : Int) = v[j]? := by
  simp [vecAt]

/-- "Test the closest wall" on the wall the wall loop selected: the wall is recorded when
its distance `s * maxDist` is below the closest hit so far and the hit point passes the gate
`wallRecorded`, and the state is kept otherwise. -/
theorem testClosestWall_eq (env : TraceEnv) (ray : Ray) (level : EditorLevel)
    (sector : EditorSector) (j : Nat) (wall : EditorWall) (s : ℚ) (st : TraceState)
    (hj : sector.walls[j]? = some wall)
    (hc : wallCandidate env ray level sector wall = some s) :
    testClosestWall env ray level sector (s, (j : Int)) st
      = some (if fmul s ray.maxDist < st.overallClosestHit
            ∧ wallRecorded env level wall (ray.pointAt (fmul s ray.maxDist)).y
          then wallRecord ray level sector (j : Int) wall s else st) := by
  obtain ⟨v0, v1, t, -, -, -, -, -, ha⟩ := wallCandidate_some env ray level sector wall s hc
  unfold testClosestWall wallRecorded
  have h0 : ((j : Int)) ≥ 0 := by omega
  simp only [h0, if_true, vecAt_natCast, hj]
  by_cases hadj : wall.adjoinId ≥ 0
  · obtain ⟨next, hn, -⟩ := ha hadj
    simp only [hadj, if_true, hn, true_implies, Option.mem_def, Option.some.injEq,
      forall_eq']
    by_cases hlt : fmul s ray.maxDist < st.overallClosestHit
    · simp only [hlt, and_true, true_and]
      by_cases hout : (ray.pointAt (fmul s ray.maxDist)).y ≤ next.floorHeight
          ∨ (ray.pointAt (fmul s ray.maxDist)).y ≥ next.ceilHeight
      · simp only [hout, if_true, or_true, wallRecord, wallHitPart, hadj, hn]
        by_cases hf : (ray.pointAt (fmul s ray.maxDist)).y ≤ next.floorHeight
        · simp only [hf, if_true]
        · have hce : (ray.pointAt (fmul s ray.maxDist)).y ≥ next.ceilHeight := by
            rcases hout with h1 | h1
            · exact absurd h1 hf
            · exact h1
          simp only [hf, if_false, hce, if_true]
      · have hf : ¬ (ray.pointAt (fmul s ray.maxDist)).y ≤ next.floorHeight :=
          fun h1 => hout (Or.inl h1)
        have hce : ¬ (ray.pointAt (fmul s ray.maxDist)).y ≥ next.ceilHeight :=
          fun h1 => hout (Or.inr h1)
        simp only [hout, if_false, or_false]
        by_cases hflag : adjMidTex env wall = true
        · simp only [hflag, if_true, wallRecord, wallHitPart, hadj, hn, hf, hce, if_false]
        · simp only [hflag, if_false]
          rfl
    · simp only [hlt, and_false, false_and, if_false]
  · simp only [hadj, if_false, false_implies, and_true]
    by_cases hlt : fmul s ray.maxDist < st.overallClosestHit
    · simp only [hlt, if_true, wallRecord, wallHitPart, hadj, if_false]
    · simp only [hlt, if_false]

theorem testClosestWall_neg (env : TraceEnv) (ray : Ray) (level : EditorLevel)
    (sector : EditorSector) (c : ℚ × Int) (st : TraceState) (h : c.2 < 0) :
    testClosestWall env ray level sector c st = some st := by
  unfold testClosestWall
  have h0 : ¬ c.2 ≥ 0 := by omega
  simp only [h0, if_false]

theorem testFloor_eq (env : TraceEnv) (ray : Ray) (sector : EditorSector) (st : TraceState) :
    testFloor env ray sector st
      = match floorCandidate env ray sector with
        | some hitPoint =>
          if st.overallClosestHit = FLT_MAX
              ∨ ray.distSq hitPoint < fmul st.overallClosestHit st.overallClosestHit
          then planeRecord env ray sector HitPart.HP_FLOOR hitPoint else st
        | none => st := by
  unfold testFloor floorCandidate recordPlane planeRecord
  by_cases h0 : ray.origin.y > sector.floorHeight ∧ ray.dir.y < 0
  · simp only [h0, and_self, if_true]
    cases hl : env.lineYPlaneIntersect ray.origin (ray.pointAt ray.maxDist) sector.floorHeight with
    | none => rfl
    | some hitPoint =>
      simp only
      by_cases hin : env.pointInsidePolygon sector.poly ⟨hitPoint.x, hitPoint.z⟩ = true
      · simp only [hin, if_true]
      · simp only [hin, if_false]
        split <;> rfl
  · simp only [h0, if_false]

theorem testCeil_eq (env : TraceEnv) (ray : Ray) (sector : EditorSector) (st : TraceState) :
    testCeil env ray sector st
      = match ceilCandidate env ray sector with
        | some hitPoint =>
          if st.overallClosestHit = FLT_MAX
              ∨ ray.distSq hitPoint < fmul st.overallClosestHit st.overallClosestHit
          then planeRecord env ray sector HitPart.HP_CEIL hitPoint else st
        | none => st := by
  unfold testCeil ceilCandidate recordPlane planeRecord
  by_cases h0 : ray.origin.y < sector.ceilHeight ∧ ray.dir.y > 0
  · simp only [h0, and_self, if_true]
    cases hl : env.lineYPlaneIntersect ray.origin (ray.pointAt ray.maxDist) sector.ceilHeight with
    | none => rfl
    | some hitPoint =>
      simp only
      by_cases hin : env.pointInsidePolygon sector.poly ⟨hitPoint.x, hitPoint.z⟩ = true
      · simp only [hin, if_true]
      · simp only [hin, if_false]
        split <;> rfl
  · simp only [h0, if_false]

theorem wallTest_isSome (env : TraceEnv) (ray : Ray) (level : EditorLevel)
    (sector : EditorSector) (c : ℚ × Int) (w : Nat) (wall : EditorWall)
    (h : wallInRange level sector wall) :
    ∃ r, wallTest env ray level sector c w wall = some r := by
  obtain ⟨h0, h1, h2⟩ := h
  obtain ⟨v0, hv0⟩ := Option.isSome_iff_exists.mp h0
  obtain ⟨v1, hv1⟩ := Option.isSome_iff_exists.mp h1
  unfold wallTest
  simp only [hv0, hv1]
  split
  · exact ⟨_, rfl⟩
  · split
    · exact ⟨_, rfl⟩
    · split
      · split
        · split
          · rename_i ha
            obtain ⟨next, hn⟩ := Option.isSome_iff_exists.mp (h2 ha)
            simp only [hn]
            split
            · exact ⟨_, rfl⟩
            · exact ⟨_, rfl⟩
          · exact ⟨_, rfl⟩
        · exact ⟨_, rfl⟩
      · exact ⟨_, rfl⟩

theorem wallLoop_isSome (env : TraceEnv) (ray : Ray) (level : EditorLevel)
    (sector : EditorSector) (walls : List EditorWall)
    (h : ∀ wall ∈ walls, wallInRange level sector wall) :
    ∀ (k : Nat) (c : ℚ × Int), ∃ r, wallLoop env ray level sector k walls c = some r := by
  induction walls with
  | nil => intro k c; exact ⟨c, rfl⟩
  | cons wall rest ih =>
    intro k c
    obtain ⟨c1, hc1⟩ := wallTest_isSome env ray level sector c k wall
      (h wall (List.mem_cons_self _ _))
    obtain ⟨r, hr⟩ := ih (fun wall1 hw => h wall1 (List.mem_cons_of_mem _ hw)) (k + 1) c1
    exact ⟨r, by simp only [wallLoop, hc1, hr]⟩

/-- The wall loop of a sector ends on wall number `w` at parameter `s` when that wall is a
candidate, every candidate before it in the wall list is strictly farther and every
candidate after it is not closer. -/
theorem wallLoop_picks (env : TraceEnv) (ray : Ray) (level : EditorLevel)
    (sector : EditorSector) (w : Nat) (wall : EditorWall) (s : ℚ) (r : ℚ × Int)
    (hw : sector.walls[w]? = some wall)
    (hc : wallCandidate env ray level sector wall = some s)
    (hs : s < FLT_MAX)
    (hmin : ∀ (j : Nat) (wall1 : EditorWall) (s1 : ℚ), sector.walls[j]? = some wall1 →
      wallCandidate env ray level sector wall1 = some s1 →
      (j < w → s < s1) ∧ (w < j → s ≤ s1))
    (h : wallLoop env ray level sector 0 sector.walls (FLT_MAX, -1) = some r) :
    r = (s, (w : Int)) := by
  rcases wallLoop_spec env ray level sector sector.walls 0 (FLT_MAX, -1) r h with
    ⟨-, hall⟩ | ⟨j, wj, hj, hcj, hidx, -, hmj⟩
  · exact absurd (hall w wall s hw hc) (not_le.mpr hs)
  · have h1 := hmj w wall s hw hc
    have h2 := hmin j wj r.1 hj hcj
    have hjw : j = w := by
      rcases Nat.lt_trichotomy j w with hlt | heq | hgt
      · exact absurd (h2.1 hlt) (not_lt.mpr h1.1)
      · exact heq
      · exact absurd (h1.2 hgt) (not_lt.mpr (h2.2 hgt))
    subst hjw
    rw [hw] at hj
    have e := Option.some.inj hj
    subst e
    rw [hc] at hcj
    have e2 := Option.some.inj hcj
    have e3 : r.2 = (j : Int) := by rw [hidx]; simp
    exact Prod.ext e2.symm e3

/-- The sector step when the layer filter lets the sector through. -/
theorem traceSector_eq (env : TraceEnv) (ray : Ray) (level : EditorLevel) (st : TraceState)
    (sector : EditorSector) (c : ℚ × Int) (hl : layerMatches env ray sector)
    (hc : wallLoop env ray level sector 0 sector.walls (FLT_MAX, -1) = some c) :
    traceSector env ray level st sector
      = (testClosestWall env ray level sector c st).map
          fun st1 => testCeil env ray sector (testFloor env ray sector st1) := by
  unfold traceSector
  have h0 : ¬ (ray.layer ≠ env.LAYER_ANY ∧ ray.layer ≠ sector.layer) := by
    rcases hl with h1 | h1
    · exact fun h2 => h2.1 h1
    · exact fun h2 => h2.2 h1
  rw [if_neg h0, hc]
  simp only
  cases h : testClosestWall env ray level sector c st <;> simp

theorem traceSector_skip (env : TraceEnv) (ray : Ray) (level : EditorLevel) (st : TraceState)
    (sector : EditorSector) (hl : ¬ layerMatches env ray sector) :
    traceSector env ray level st sector = some st := by
  unfold traceSector
  have h0 : ray.layer ≠ env.LAYER_ANY ∧ ray.layer ≠ sector.layer :=
    ⟨fun h => hl (Or.inl h), fun h => hl (Or.inr h)⟩
  rw [if_pos h0]

/-- What "test the closest wall" can do to the state: keep it, or record a hit of the
sector whose wall number is the one the wall loop selected. -/
theorem testClosestWall_cases (env : TraceEnv) (ray : Ray) (level : EditorLevel)
    (sector : EditorSector) (c : ℚ × Int) (st st1 : TraceState)
    (h : testClosestWall env ray level sector c st = some st1) :
    st1 = st ∨ (st1.hitInfo.hitSectorId = sector.id ∧ st1.hitInfo.hitWallId = c.2) := by
  unfold testClosestWall at h
  split at h
  · simp only at h
    split at h
    · exact absurd h (by simp)
    · split at h
      · split at h
        · exact absurd h (by simp)
        · split at h
          · have e := Option.some.inj h
            subst e
            exact Or.inr ⟨rfl, rfl⟩
          · split at h
            · have e := Option.some.inj h
              subst e
              exact Or.inr ⟨rfl, rfl⟩
            · exact Or.inl (Option.some.inj h).symm
      · split at h
        · have e := Option.some.inj h
          subst e
          exact Or.inr ⟨rfl, rfl⟩
        · exact Or.inl (Option.some.inj h).symm
  · exact Or.inl (Option.some.inj h).symm

/-- What a plane test can do to the state: keep it, or record a hit of the sector with no
wall. -/
theorem testFloor_cases (env : TraceEnv) (ray : Ray) (sector : EditorSector) (st : TraceState) :
    testFloor env ray sector st = st
      ∨ ((testFloor env ray sector st).hitInfo.hitSectorId = sector.id
          ∧ (testFloor env ray sector st).hitInfo.hitWallId = -1) := by
  rw [testFloor_eq]
  split
  · split
    · exact Or.inr ⟨rfl, rfl⟩
    · exact Or.inl rfl
  · exact Or.inl rfl

theorem testCeil_cases (env : TraceEnv) (ray : Ray) (sector : EditorSector) (st : TraceState) :
    testCeil env ray sector st = st
      ∨ ((testCeil env ray sector st).hitInfo.hitSectorId = sector.id
          ∧ (testCeil env ray sector st).hitInfo.hitWallId = -1) := by
  rw [testCeil_eq]
  split
  · split
    · exact Or.inr ⟨rfl, rfl⟩
    · exact Or.inl rfl
  · exact Or.inl rfl

/-- What the sector step can do to the state: keep it, or record a hit of the sector,
whose wall number is -1 or the one the wall loop selected. -/
theorem traceSector_cases (env : TraceEnv) (ray : Ray) (level : EditorLevel)
    (st st1 : TraceState) (sector : EditorSector)
    (h : traceSector env ray level st sector = some st1) :
    st1 = st ∨ (st1.hitInfo.hitSectorId = sector.id
      ∧ (st1.hitInfo.hitWallId = -1
        ∨ ∃ c, wallLoop env ray level sector 0 sector.walls (FLT_MAX, -1) = some c
            ∧ st1.hitInfo.hitWallId = c.2)) := by
  by_cases hl : layerMatches env ray sector
  · cases hc : wallLoop env ray level sector 0 sector.walls (FLT_MAX, -1) with
    | none =>
      unfold traceSector at h
      simp only [hc] at h
      split at h
      · exact Or.inl (Option.some.inj h).symm
      · exact absurd h (by simp)
    | some c =>
      rw [traceSector_eq env ray level st sector c hl hc] at h
      cases hw : testClosestWall env ray level sector c st with
      | none => rw [hw] at h; exact absurd h (by simp)
      | some st2 =>
        rw [hw] at h
        simp only [Option.map_some'] at h
        have e := Option.some.inj h
        have hA := testClosestWall_cases env ray level sector c st st2 hw
        have hB := testFloor_cases env ray sector st2
        have hC := testCeil_cases env ray sector (testFloor env ray sector st2)
        generalize testFloor env ray sector st2 = st3 at e hB hC
        generalize testCeil env ray sector st3 = st4 at e hC
        subst e
        rcases hC with hC | ⟨hC1, hC2⟩
        · subst hC
          rcases hB with hB | ⟨hB1, hB2⟩
          · subst hB
            rcases hA with hA | ⟨hA1, hA2⟩
            · exact Or.inl hA
            · exact Or.inr ⟨hA1, Or.inr ⟨c, rfl, hA2⟩⟩
          · exact Or.inr ⟨hB1, Or.inl hB2⟩
        · exact Or.inr ⟨hC1, Or.inl hC2⟩
  · rw [traceSector_skip env ray level st sector hl] at h
    exact Or.inl (Option.some.inj h).symm

/-! ## Ray tracing: the sector loop -/

/-- Induction along the sector loop: a property of the state that may depend on the number
of sectors scanned so far, and that every sector step carries on, holds at the end. -/
theorem sectorLoop_suffix (env : TraceEnv) (ray : Ray) (level : EditorLevel)
    (K : Nat → TraceState → Prop)
    (hstep : ∀ (i : Nat) (sector : EditorSector) (st st1 : TraceState),
      level.sectors[i]? = some sector → K i st →
      traceSector env ray level st sector = some st1 → K (i + 1) st1) :
    ∀ (rest : List EditorSector) (k : Nat) (st st1 : TraceState),
      (∀ (i : Nat) (sector : EditorSector), rest[i]? = some sector →
        level.sectors[k + i]? = some sector) →
      sectorLoop env ray level rest st = some st1 → K k st → K (k + rest.length) st1 := by
  intro rest
  induction rest with
  | nil =>
    intro k st st1 _ h hk
    simp only [sectorLoop] at h
    have e := Option.some.inj h
    subst e
    simpa using hk
  | cons sector rest ih =>
    intro k st st1 hpos h hk
    simp only [sectorLoop] at h
    cases ht : traceSector env ray level st sector with
    | none => rw [ht] at h; exact absurd h (by simp)
    | some st2 =>
      rw [ht] at h
      simp only at h
      have h1 : K (k + 1) st2 := hstep k sector st st2 (by simpa using hpos 0 sector (by simp)) hk ht
      have h2 := ih (k + 1) st2 st1
        (fun i sector1 hi => by
          have := hpos (i + 1) sector1 (by simpa using hi)
          rw [← this]
          congr 1
          omega) h h1
      have e : k + (sector :: rest).length = k + 1 + rest.length := by
        simp only [List.length_cons]
        omega
      rw [e]
      exact h2

theorem sectorLoop_induct (env : TraceEnv) (ray : Ray) (level : EditorLevel)
    (K : Nat → TraceState → Prop)
    (hstep : ∀ (i : Nat) (sector : EditorSector) (st st1 : TraceState),
      level.sectors[i]? = some sector → K i st →
      traceSector env ray level st sector = some st1 → K (i + 1) st1)
    (st st1 : TraceState)
    (h : sectorLoop env ray level level.sectors st = some st1) (h0 : K 0 st) :
    K level.sectors.length st1 := by
  have := sectorLoop_suffix env ray level K hstep level.sectors 0 st st1
    (fun i sector hi => by simpa using hi) h h0
  simpa using this

/-- What `traceRay` returns on a level with sectors, in terms of the sector loop. -/
theorem traceRay_eq_some (env : TraceEnv) (ray : Ray) (level : EditorLevel)
    (hitInfo : RayHitInfo) (b : Bool) (hi : RayHitInfo) (hne : level.sectors ≠ [])
    (h : traceRay env ray level hitInfo = some (b, hi)) :
    ∃ st, sectorLoop env ray level level.sectors ⟨FLT_MAX, noHit⟩ = some st
      ∧ hi = st.hitInfo ∧ b = decide (st.hitInfo.hitSectorId ≥ 0) := by
  unfold traceRay at h
  have he : level.sectors.isEmpty = false := by
    cases hs : level.sectors with
    | nil => exact absurd hs hne
    | cons a l => rfl
  simp only [he] at h
  cases hl : sectorLoop env ray level level.sectors ⟨FLT_MAX, noHit⟩ with
  | none => rw [hl] at h; simp at h
  | some st =>
    rw [hl] at h
    simp only [Bool.false_eq_true, if_false, Option.some.injEq, Prod.mk.injEq] at h
    exact ⟨st, rfl, h.2.symm, h.1.symm⟩

/-- C7 (as amended): on a level with at least one sector and no negative sector id, whenever
`traceRay` returns false the `RayHitInfo` holds the "no hit" values (`hitSectorId = -1`,
`hitWallId = -1`, `dist = FLT_MAX`), whatever it held before the call; on a level with no
sectors `traceRay` returns false and leaves the `RayHitInfo` as it was. -/
theorem traceRay_false_noHit (env : TraceEnv) (ray : Ray) (level : EditorLevel)
    (hitInfo hi : RayHitInfo)
    (hid : ∀ sector ∈ level.sectors, 0 ≤ sector.id)
    (h : traceRay env ray level hitInfo = some (false, hi)) :
    (level.sectors ≠ [] → hi = noHit) ∧ (level.sectors = [] → hi = hitInfo) := by
  constructor
  · intro hne
    obtain ⟨st, hl, hhi, hb⟩ := traceRay_eq_some env ray level hitInfo false hi hne h
    have hK := sectorLoop_induct env ray level
      (fun _ st => st.hitInfo.hitSectorId < 0 → st.hitInfo = noHit)
      (fun i sector st0 st1 hi0 hk ht => by
        intro hneg
        rcases traceSector_cases env ray level st0 st1 sector ht with e | ⟨e, -⟩
        · subst e
          exact hk hneg
        · have := hid sector (List.getElem?_mem hi0)
          omega)
      ⟨FLT_MAX, noHit⟩ st hl (fun _ => rfl)
    rw [hhi]
    apply hK
    have : ¬ st.hitInfo.hitSectorId ≥ 0 := by
      intro hge
      simp [hge] at hb
    omega
  · intro he
    unfold traceRay at h
    simp only [he, List.isEmpty_nil, if_true, Option.some.injEq, Prod.mk.injEq, true_and] at h
    exact h.symm

theorem traceSector_isSome (env : TraceEnv) (ray : Ray) (level : EditorLevel)
    (st : TraceState) (sector : EditorSector)
    (h : ∀ wall ∈ sector.walls, wallInRange level sector wall) :
    ∃ st1, traceSector env ray level st sector = some st1 := by
  by_cases hl : layerMatches env ray sector
  · obtain ⟨c, hc⟩ := wallLoop_isSome env ray level sector sector.walls h 0 (FLT_MAX, -1)
    rw [traceSector_eq env ray level st sector c hl hc]
    rcases wallLoop_spec env ray level sector sector.walls 0 (FLT_MAX, -1) c hc with
      ⟨e, -⟩ | ⟨j, wj, hj, hcj, hidx, -, -⟩
    · rw [testClosestWall_neg env ray level sector c st (by rw [e]; decide)]
      exact ⟨_, rfl⟩
    · have e : c = (c.1, (j : Int)) := Prod.ext rfl (by rw [hidx]; simp)
      rw [e, testClosestWall_eq env ray level sector j wj c.1 st hj hcj]
      exact ⟨_, rfl⟩
  · exact ⟨st, traceSector_skip env ray level st sector hl⟩

theorem sectorLoop_isSome (env : TraceEnv) (ray : Ray) (level : EditorLevel)
    (rest : List EditorSector)
    (h : ∀ sector ∈ rest, ∀ wall ∈ sector.walls, wallInRange level sector wall) :
    ∀ st : TraceState, ∃ st1, sectorLoop env ray level rest st = some st1 := by
  induction rest with
  | nil => intro st; exact ⟨st, rfl⟩
  | cons sector rest ih =>
    intro st
    obtain ⟨st2, h2⟩ := traceSector_isSome env ray level st sector
      (h sector (List.mem_cons_self _ _))
    obtain ⟨st1, h1⟩ := ih (fun s hs => h s (List.mem_cons_of_mem _ hs)) st2
    exact ⟨st1, by simp only [sectorLoop, h2, h1]⟩

/-- C9 (as amended): for two adjoined sectors A and B whose shared wall number `w` (in A) is
not flagged opaque-mid, and a ray whose 2D segment crosses `w` at a parameter `s` for which
the height the wall loop computes, `yAtHit = origin.y + dir.y * s * maxDist` rounded to
`f32` after each operation, is strictly between the floor and the ceiling of B, `traceRay`
records no hit at wall `w`: the scan of sector A leaves the hit as it was or records a hit
whose wall number is not `w`, and when no other sector of the level carries the id of A the
result never has `hitSectorId` = the id of A together with `hitWallId = w`. -/
theorem traceRay_portal_no_hit (env : TraceEnv) (ray : Ray) (level : EditorLevel)
    (a w : Nat) (A B : EditorSector) (wall : EditorWall) (v0 v1 : Vec2f) (s t : ℚ)
    (hA : level.sectors[a]? = some A) (hw : A.walls[w]? = some wall)
    (hB : vecAt level.sectors wall.adjoinId = some B)
    (hflag : adjMidTex env wall = false)
    (hv0 : vecAt A.vtx wall.idx0 = some v0) (hv1 : vecAt A.vtx wall.idx1 = some v1)
    (hcross : env.lineSegmentIntersect ray.p0xz ray.p1xz v0 v1 = some (s, t))
    (hy : B.floorHeight < ray.yAt s ∧ ray.yAt s < B.ceilHeight) :
    (∀ st st1 : TraceState, traceSector env ray level st A = some st1 →
        st1 = st ∨ st1.hitInfo.hitWallId ≠ (w : Int))
    ∧ ((∀ (j : Nat) (sector : EditorSector), level.sectors[j]? = some sector → j ≠ a →
          sector.id ≠ A.id) →
        ∀ (hitInfo hi : RayHitInfo) (b : Bool),
          traceRay env ray level hitInfo = some (b, hi) →
          ¬ (hi.hitSectorId = A.id ∧ hi.hitWallId = (w : Int))) := by
  have hadj : wall.adjoinId ≥ 0 := by
    by_contra hneg
    unfold vecAt at hB
    rw [if_neg hneg] at hB
    exact absurd hB (by simp)
  -- the wall loop of A never ends on `w`
  have hloop : ∀ c, wallLoop env ray level A 0 A.walls (FLT_MAX, -1) = some c →
      c.2 ≠ (w : Int) := by
    intro c hc
    rcases wallLoop_spec env ray level A A.walls 0 (FLT_MAX, -1) c hc with
      ⟨e, -⟩ | ⟨j, wj, hj, hcj, hidx, -, -⟩
    · rw [e]
      simp only
      omega
    · intro hcw
      have hjw : j = w := by
        rw [hidx] at hcw
        simp only [Nat.zero_add] at hcw
        exact_mod_cast hcw
      subst hjw
      rw [hw] at hj
      have e := Option.some.inj hj
      subst e
      obtain ⟨u0, u1, t1, hu0, hu1, -, hl, -, hcan⟩ :=
        wallCandidate_some env ray level A wall c.1 hcj
      rw [hv0] at hu0
      rw [hv1] at hu1
      have e0 := Option.some.inj hu0
      have e1 := Option.some.inj hu1
      subst e0
      subst e1
      rw [hcross] at hl
      have e2 : s = c.1 := by
        have := Option.some.inj hl
        exact congrArg Prod.fst this
      obtain ⟨next, hn, hc3⟩ := hcan hadj
      rw [hB] at hn
      have e3 := Option.some.inj hn
      subst e3
      rw [← e2] at hc3
      rcases hc3 with h1 | h1 | h1
      · exact absurd hy.1 (not_lt.mpr h1)
      · exact absurd hy.2 (not_lt.mpr h1)
      · rw [hflag] at h1
        exact absurd h1 (by simp)
  have hstepA : ∀ st st1 : TraceState, traceSector env ray level st A = some st1 →
      st1 = st ∨ st1.hitInfo.hitWallId ≠ (w : Int) := by
    intro st st1 h
    rcases traceSector_cases env ray level st st1 A h with e | ⟨-, e | ⟨c, hc, e⟩⟩
    · exact Or.inl e
    · right
      rw [e]
      omega
    · right
      rw [e]
      exact hloop c hc
  refine ⟨hstepA, ?_⟩
  intro huniq hitInfo hi b h
  have hne : level.sectors ≠ [] := by
    intro he
    rw [he] at hA
    simp at hA
  obtain ⟨st, hl, hhi, -⟩ := traceRay_eq_some env ray level hitInfo b hi hne h
  have hK := sectorLoop_induct env ray level
    (fun _ st => ¬ (st.hitInfo.hitSectorId = A.id ∧ st.hitInfo.hitWallId = (w : Int)))
    (fun i sector st0 st1 hi0 hk ht => by
      by_cases hia : i = a
      · subst hia
        rw [hA] at hi0
        have e := Option.some.inj hi0
        subst e
        rcases hstepA st0 st1 ht with e | e
        · rw [e]
          exact hk
        · exact fun h2 => e h2.2
      · rcases traceSector_cases env ray level st0 st1 sector ht with e | ⟨e, -⟩
        · rw [e]
          exact hk
        · intro h2
          rw [e] at h2
          exact huniq i sector hi0 hia h2.1)
    ⟨FLT_MAX, noHit⟩ st hl
    (by
      intro h2
      simp only [noHit] at h2
      omega)
  rw [hhi]
  exact hK

/-- Witness of C9 (as amended): the ray from the middle of `exRoom` along `x` crosses wall
2, adjoined to `exNextRoom` and not flagged, at height 4 inside the band of `exNextRoom`;
the trace goes on to the far wall of `exNextRoom`. -/
theorem traceRay_portal_no_hit_witness :
    traceRay specEnv (exRay ⟨2, 4, 2⟩ ⟨1, 0, 0⟩ 8)
        (exLevelOf [exRoom 0 1 0 (-1) 0, exNextRoom 1 0 8]) exStaleHit
      = some (true, ⟨1, 2, HitPart.HP_MID, ⟨8, 4, 2⟩, 6⟩)
    ∧ ¬ ((⟨1, 2, HitPart.HP_MID, ⟨8, 4, 2⟩, 6⟩ : RayHitInfo).hitSectorId
          = (exRoom 0 1 0 (-1) 0).id
        ∧ (⟨1, 2, HitPart.HP_MID, ⟨8, 4, 2⟩, 6⟩ : RayHitInfo).hitWallId = ((2 : Nat) : Int)) :=
  ⟨by decide!,
    (traceRay_portal_no_hit specEnv (exRay ⟨2, 4, 2⟩ ⟨1, 0, 0⟩ 8)
      (exLevelOf [exRoom 0 1 0 (-1) 0, exNextRoom 1 0 8]) 0 2 (exRoom 0 1 0 (-1) 0)
      (exNextRoom 1 0 8) (exWall 2 3 1 0) ⟨4, 4⟩ ⟨4, 0⟩ (1 / 4) (1 / 2)
      (by decide!) (by decide!) (by decide!) (by decide!) (by decide!) (by decide!)
      (by decide!) (by decide!)).2
      (by
        intro j sector hj hne
        match j, hj, hne with
        | 1, hj, _ =>
          simp only [exLevelOf, List.getElem?_cons_succ, List.getElem?_cons_zero,
            Option.some.injEq] at hj
          subst hj
          decide
        | j + 2, hj, _ => simp [exLevelOf] at hj)
      exStaleHit ⟨1, 2, HitPart.HP_MID, ⟨8, 4, 2⟩, 6⟩ true (by decide!)⟩

/-- Counterexample to C9 as stated: wall 2 of `exRoom` is adjoined to `exNextRoom`, whose
floor is at height 1, and not flagged. The ray from (2, 1, 2) with the direction
(1, 2^-30, 0) and `maxDist = 1024` crosses the wall at the parameter 1/512, at the height
1 + 2^-29, strictly between the floor and the ceiling of `exNextRoom`. In `f32` the sum
1 + 2^-29 is 1, so `yAtHit` is 1, on the floor of `exNextRoom`: the wall loop selects the
wall and `traceRay` reports it, as a hit of its bottom part. -/
theorem traceRay_portal_hit_by_rounding :
    (exLevelOf [exRoom 0 1 0 (-1) 0, exNextRoom 1 1 8]).sectors[0]?
      = some (exRoom 0 1 0 (-1) 0)
    ∧ (exRoom 0 1 0 (-1) 0).walls[2]? = some (exWall 2 3 1 0)
    ∧ vecAt (exLevelOf [exRoom 0 1 0 (-1) 0, exNextRoom 1 1 8]).sectors (exWall 2 3 1 0).adjoinId
      = some (exNextRoom 1 1 8)
    ∧ adjMidTex specEnv (exWall 2 3 1 0) = false
    ∧ specEnv.lineSegmentIntersect (exRay ⟨2, 1, 2⟩ ⟨1, 1 / 2 ^ 30, 0⟩ 1024).p0xz
        (exRay ⟨2, 1, 2⟩ ⟨1, 1 / 2 ^ 30, 0⟩ 1024).p1xz ⟨4, 4⟩ ⟨4, 0⟩ = some (1 / 512, 1 / 2)
    ∧ (exNextRoom 1 1 8).floorHeight
        < (exRay ⟨2, 1, 2⟩ ⟨1, 1 / 2 ^ 30, 0⟩ 1024).origin.y
          + (exRay ⟨2, 1, 2⟩ ⟨1, 1 / 2 ^ 30, 0⟩ 1024).dir.y * (1 / 512)
            * (exRay ⟨2, 1, 2⟩ ⟨1, 1 / 2 ^ 30, 0⟩ 1024).maxDist
    ∧ (exRay ⟨2, 1, 2⟩ ⟨1, 1 / 2 ^ 30, 0⟩ 1024).origin.y
          + (exRay ⟨2, 1, 2⟩ ⟨1, 1 / 2 ^ 30, 0⟩ 1024).dir.y * (1 / 512)
            * (exRay ⟨2, 1, 2⟩ ⟨1, 1 / 2 ^ 30, 0⟩ 1024).maxDist
        < (exNextRoom 1 1 8).ceilHeight
    ∧ (exRay ⟨2, 1, 2⟩ ⟨1, 1 / 2 ^ 30, 0⟩ 1024).yAt (1 / 512) = 1
    ∧ traceRay specEnv (exRay ⟨2, 1, 2⟩ ⟨1, 1 / 2 ^ 30, 0⟩ 1024)
        (exLevelOf [exRoom 0 1 0 (-1) 0, exNextRoom 1 1 8]) exStaleHit
      = some (true, ⟨0, 2, HitPart.HP_BOT, ⟨4, 1, 2⟩, 2⟩) := by
  decide!

/-- C6 (divergence): in a level whose only sector has the id -2, the ray from the middle of
the room along `x` has a wall candidate, wall 2 at parameter 1/5, and `traceRay` records it
(wall 2, distance 2) but returns false, because the recorded sector id is negative. -/
theorem traceRay_negative_id_returns_false :
    wallCandidate specEnv (exRay ⟨2, 4, 2⟩ ⟨1, 0, 0⟩ 10)
        (exLevelOf [exRoom (-2) (-1) 0 (-1) 0]) (exRoom (-2) (-1) 0 (-1) 0) (exWall 2 3 (-1) 0)
      = some (1 / 5)
    ∧ traceRay specEnv (exRay ⟨2, 4, 2⟩ ⟨1, 0, 0⟩ 10)
        (exLevelOf [exRoom (-2) (-1) 0 (-1) 0]) noHit
      = some (false, ⟨-2, 2, HitPart.HP_MID, ⟨4, 4, 2⟩, 2⟩) := by
  decide!

/-- Witness of C7 (as amended): a ray too short to reach a wall of `exRoom`, traced with a
`RayHitInfo` left over from an earlier hit. -/
theorem traceRay_false_noHit_witness :
    traceRay specEnv (exRay ⟨2, 4, 2⟩ ⟨1, 0, 0⟩ 1) (exLevelOf [exRoom 0 (-1) 0 (-1) 0])
        exStaleHit = some (false, noHit)
    ∧ ((exLevelOf [exRoom 0 (-1) 0 (-1) 0]).sectors ≠ [] → noHit = noHit)
    ∧ ((exLevelOf [exRoom 0 (-1) 0 (-1) 0]).sectors = [] → noHit = exStaleHit) :=
  ⟨by decide!,
    traceRay_false_noHit specEnv (exRay ⟨2, 4, 2⟩ ⟨1, 0, 0⟩ 1)
      (exLevelOf [exRoom 0 (-1) 0 (-1) 0]) exStaleHit noHit (by decide) (by decide!)⟩

/-- Counterexample to C7 as stated: on the level with no sectors `traceRay` returns false
and the `RayHitInfo` still holds the values of an earlier hit, not the "no hit" values. -/
theorem traceRay_empty_level_keeps_hitInfo :
    traceRay specEnv (exRay ⟨2, 4, 2⟩ ⟨1, 0, 0⟩ 10) (exLevelOf []) exStaleHit
      = some (false, exStaleHit)
    ∧ exStaleHit ≠ noHit
    ∧ exStaleHit.hitSectorId ≠ -1 := by
  decide!

/-! ## Ray tracing: a convex sector -/

theorem wallEnds_eq_some (sector : EditorSector) (wall : EditorWall) (v0 v1 : Vec2f) :
    wallEnds sector wall = some (v0, v1)
      ↔ vecAt sector.vtx wall.idx0 = some v0 ∧ vecAt sector.vtx wall.idx1 = some v1 := by
  unfold wallEnds
  cases h0 : vecAt sector.vtx wall.idx0 with
  | none => simp
  | some a =>
    cases h1 : vecAt sector.vtx wall.idx1 with
    | none => simp
    | some b => simp

theorem sideOf_on_line (a0 a1 : Vec2f) (t : ℚ) :
    sideOf a0 a1 ⟨a0.x + t * (a1.x - a0.x), a0.z + t * (a1.z - a0.z)⟩ = 0 := by
  simp only [sideOf]
  ring

theorem sideOf_segment (a0 a1 b0 b1 : Vec2f) (t : ℚ) :
    sideOf a0 a1 ⟨b0.x + t * (b1.x - b0.x), b0.z + t * (b1.z - b0.z)⟩
      = (1 - t) * sideOf a0 a1 b0 + t * sideOf a0 a1 b1 := by
  simp only [sideOf]
  ring

/-- Along a segment from `p0` to `p1` the side of a line changes linearly. -/
theorem sideOf_along (a0 a1 p0 p1 : Vec2f) (s : ℚ) :
    sideOf a0 a1 ⟨p0.x + s * (p1.x - p0.x), p0.z + s * (p1.z - p0.z)⟩
      = sideOf a0 a1 p0 + s * (sideOf a0 a1 p1 - sideOf a0 a1 p0) := by
  simp only [sideOf]
  ring

theorem fmul_zero_left (b : ℚ) : fmul 0 b = 0 := by
  simp [fmul, F32.round]

theorem fmul_zero_right (a : ℚ) : fmul a 0 = 0 := by
  simp [fmul, F32.round]

theorem fadd_zero_right (a : ℚ) : fadd a 0 = a := by
  simp [fadd]

/-- The height the wall loop computes for a horizontal ray is the height of its origin. -/
theorem Ray.yAt_horizontal (ray : Ray) (s : ℚ) (h : ray.dir.y = 0) :
    ray.yAt s = ray.origin.y := by
  simp only [Ray.yAt, h, fmul_zero_left, fadd_zero_right]

/-- In a convex sector, a ray from strictly inside that crosses the interior of wall `w` at
parameter `s` crosses the line of every other wall it is a candidate of strictly later. -/
theorem convex_other_wall_later (env : TraceEnv) (ray : Ray) (level : EditorLevel)
    (sector : EditorSector) (w j : Nat) (wall wall1 : EditorWall) (b0 b1 : Vec2f) (s t s1 : ℚ)
    (hsound : lsiSoundOn env ray sector) (hconvex : sector.convex)
    (hinside : sector.inside ray.p0xz)
    (hw : sector.walls[w]? = some wall) (hends : wallEnds sector wall = some (b0, b1))
    (hcross : env.lineSegmentIntersect ray.p0xz ray.p1xz b0 b1 = some (s, t))
    (ht : 0 < t ∧ t < 1)
    (hj : sector.walls[j]? = some wall1)
    (hc : wallCandidate env ray level sector wall1 = some s1) (hne : j ≠ w) :
    s < s1 := by
  obtain ⟨a0, a1, t1, ha0, ha1, -, hl, -, -⟩ := wallCandidate_some env ray level sector wall1 s1 hc
  have hends1 : wallEnds sector wall1 = some (a0, a1) :=
    (wallEnds_eq_some sector wall1 a0 a1).mpr ⟨ha0, ha1⟩
  obtain ⟨hs1, hx1, hz1⟩ := hsound wall1 (List.getElem?_mem hj) (a0, a1)
    (by simpa using hends1) (s1, t1) (by simpa using hl)
  obtain ⟨-, hx, hz⟩ := hsound wall (List.getElem?_mem hw) (b0, b1)
    (by simpa using hends) (s, t) (by simpa using hcross)
  simp only at hs1 hx1 hz1 hx hz
  -- the origin is strictly inside the line of `wall1`
  have hf0 : sideOf a0 a1 ray.p0xz < 0 :=
    hinside wall1 (List.getElem?_mem hj) (a0, a1) (by simpa using hends1)
  -- the crossing of `wall1` is on its line
  have h1 : sideOf a0 a1 ray.p0xz
      + s1 * (sideOf a0 a1 ray.p1xz - sideOf a0 a1 ray.p0xz) = 0 := by
    rw [← sideOf_along, hx1, hz1]
    exact sideOf_on_line a0 a1 t1
  -- the crossing of `w` is strictly inside the line of `wall1`
  have hjl : j < sector.walls.length := by
    rcases Nat.lt_or_ge j sector.walls.length with h | h
    · exact h
    · rw [List.getElem?_eq_none h] at hj
      exact absurd hj (by simp)
  have hwl : w < sector.walls.length := by
    rcases Nat.lt_or_ge w sector.walls.length with h | h
    · exact h
    · rw [List.getElem?_eq_none h] at hw
      exact absurd hw (by simp)
  obtain ⟨hc0, hc1, hc2⟩ := hconvex j hjl w hwl (a0, a1)
    (by rw [hj]; simpa using hends1) (b0, b1) (by rw [hw]; simpa using hends)
  have h2 : sideOf a0 a1 ray.p0xz
      + s * (sideOf a0 a1 ray.p1xz - sideOf a0 a1 ray.p0xz) < 0 := by
    rw [← sideOf_along, hx, hz, sideOf_segment]
    simp only at hc0 hc1 hc2
    rcases hc2 hne with h | h
    · have : (1 - t) * sideOf a0 a1 b0 < 0 := mul_neg_of_pos_of_neg (by linarith [ht.2]) h
      have : t * sideOf a0 a1 b1 ≤ 0 := mul_nonpos_of_nonneg_of_nonpos (le_of_lt ht.1) hc1
      linarith
    · have : (1 - t) * sideOf a0 a1 b0 ≤ 0 :=
        mul_nonpos_of_nonneg_of_nonpos (by linarith [ht.2]) hc0
      have : t * sideOf a0 a1 b1 < 0 := mul_neg_of_pos_of_neg ht.1 h
      linarith
  by_contra hle
  have hle : s1 ≤ s := not_lt.mp hle
  -- the segment moves outward across the line of `wall1`
  have hg : 0 < sideOf a0 a1 ray.p1xz - sideOf a0 a1 ray.p0xz := by
    by_contra hg
    have hg : sideOf a0 a1 ray.p1xz - sideOf a0 a1 ray.p0xz ≤ 0 := not_lt.mp hg
    have : s1 * (sideOf a0 a1 ray.p1xz - sideOf a0 a1 ray.p0xz) ≤ 0 :=
      mul_nonpos_of_nonneg_of_nonpos hs1 hg
    linarith
  have : s1 * (sideOf a0 a1 ray.p1xz - sideOf a0 a1 ray.p0xz)
      ≤ s * (sideOf a0 a1 ray.p1xz - sideOf a0 a1 ray.p0xz) :=
    mul_le_mul_of_nonneg_right hle (le_of_lt hg)
  linarith

theorem testFloor_horizontal (env : TraceEnv) (ray : Ray) (sector : EditorSector)
    (st : TraceState) (h : ray.dir.y = 0) : testFloor env ray sector st = st := by
  unfold testFloor
  have h0 : ¬ (ray.origin.y > sector.floorHeight ∧ ray.dir.y < 0) := by
    rw [h]
    exact fun h1 => absurd h1.2 (lt_irrefl 0)
  rw [if_neg h0]

theorem testCeil_horizontal (env : TraceEnv) (ray : Ray) (sector : EditorSector)
    (st : TraceState) (h : ray.dir.y = 0) : testCeil env ray sector st = st := by
  unfold testCeil
  have h0 : ¬ (ray.origin.y < sector.ceilHeight ∧ ray.dir.y > 0) := by
    rw [h]
    exact fun h1 => absurd h1.2 (lt_irrefl 0)
  rw [if_neg h0]

/-- C8 (as amended): for a level of a single strictly convex sector (no two walls on one
line), wound so that the wall normals of `traceRay` point outward, with a non-negative id,
on a layer the ray's filter lets through, none of whose walls is adjoined, and a horizontal
ray that starts strictly inside the sector, at a height that passes the band test of line
547 as the code evaluates it (`floorHeight - FLT_EPSILON < origin.y` and
`origin.y < ceilHeight + FLT_EPSILON` in `f32`), and that crosses the interior of wall `w`,
which passes the back-face test of line 539, at a parameter `s` with `s` and `s * maxDist`
below `FLT_MAX`: `traceRay` returns true with `hitPart = HP_MID` and `hitWallId = w`, at the
point and distance the code computes from `s`. Of `lineSegmentIntersect` the proof uses only
`lsiSoundOn`: its results for the walls of the sector are exact. -/
theorem traceRay_convex_sector_hit (env : TraceEnv) (ray : Ray) (level : EditorLevel)
    (sector : EditorSector) (w : Nat) (wall : EditorWall) (b0 b1 : Vec2f) (s t : ℚ)
    (hitInfo : RayHitInfo)
    (hlevel : level.sectors = [sector])
    (hid : 0 ≤ sector.id)
    (hlayer : layerMatches env ray sector)
    (hsound : lsiSoundOn env ray sector)
    (hrange : ∀ wall ∈ sector.walls, (wallEnds sector wall).isSome = true)
    (hnoadj : ∀ wall ∈ sector.walls, wall.adjoinId < 0)
    (hconvex : sector.convex)
    (hinside : sector.inside ray.p0xz)
    (hheight : fsub sector.floorHeight FLT_EPSILON < ray.origin.y
      ∧ ray.origin.y < fadd sector.ceilHeight FLT_EPSILON)
    (hhoriz : ray.dir.y = 0)
    (hw : sector.walls[w]? = some wall) (hends : wallEnds sector wall = some (b0, b1))
    (hfront : 0 ≤ dot2 ray.dirxz (wallNormal b0 b1))
    (hcross : env.lineSegmentIntersect ray.p0xz ray.p1xz b0 b1 = some (s, t))
    (ht : 0 < t ∧ t < 1)
    (hs : s < FLT_MAX) (hd : fmul s ray.maxDist < FLT_MAX) :
    ∃ hi, traceRay env ray level hitInfo = some (true, hi)
      ∧ hi.hitPart = HitPart.HP_MID ∧ hi.hitWallId = (w : Int)
      ∧ hi.hitSectorId = sector.id ∧ hi.hitPos = ray.pointAt (fmul s ray.maxDist)
      ∧ hi.dist = fmul s ray.maxDist := by
  obtain ⟨hb0, hb1⟩ := (wallEnds_eq_some sector wall b0 b1).mp hends
  have hwin : wall ∈ sector.walls := List.getElem?_mem hw
  -- wall `w` is a candidate
  have hcand : wallCandidate env ray level sector wall = some s :=
    wallCandidate_of env ray level sector wall b0 b1 s t hb0 hb1 hfront hcross
      (by
        rw [Ray.yAt_horizontal ray s hhoriz]
        exact hheight)
      (fun h => absurd (hnoadj wall hwin) (not_lt.mpr h))
  -- the wall loop ends on `w`
  have hwr : ∀ wall1 ∈ sector.walls, wallInRange level sector wall1 := by
    intro wall1 h1
    obtain ⟨e, he⟩ := Option.isSome_iff_exists.mp (hrange wall1 h1)
    obtain ⟨h2, h3⟩ := (wallEnds_eq_some sector wall1 e.1 e.2).mp (by simpa using he)
    exact ⟨by rw [h2]; rfl, by rw [h3]; rfl, fun h => absurd (hnoadj wall1 h1) (not_lt.mpr h)⟩
  obtain ⟨c, hc⟩ := wallLoop_isSome env ray level sector sector.walls hwr 0 (FLT_MAX, -1)
  have hpick : c = (s, (w : Int)) :=
    wallLoop_picks env ray level sector w wall s c hw hcand hs
      (fun j wall1 s1 hj hc1 =>
        ⟨fun hlt => convex_other_wall_later env ray level sector w j wall wall1 b0 b1 s t s1
            hsound hconvex hinside hw hends hcross ht hj hc1 (by omega),
          fun hlt => le_of_lt (convex_other_wall_later env ray level sector w j wall wall1 b0 b1
            s t s1 hsound hconvex hinside hw hends hcross ht hj hc1 (by omega))⟩)
      hc
  -- the sector step records it
  have hrec : wallRecorded env level wall (ray.pointAt (fmul s ray.maxDist)).y :=
    fun h => absurd (hnoadj wall hwin) (not_lt.mpr h)
  have hstep : traceSector env ray level ⟨FLT_MAX, noHit⟩ sector
      = some (wallRecord ray level sector (w : Int) wall s) := by
    rw [traceSector_eq env ray level _ sector c hlayer hc, hpick,
      testClosestWall_eq env ray level sector w wall s _ hw hcand]
    simp only [hd, hrec, and_self, if_true, Option.map_some',
      testFloor_horizontal env ray sector _ hhoriz,
      testCeil_horizontal env ray sector _ hhoriz]
  refine ⟨(wallRecord ray level sector (w : Int) wall s).hitInfo, ?_, ?_, rfl, rfl, rfl, rfl⟩
  · unfold traceRay
    rw [hlevel]
    simp only [List.isEmpty_cons, Bool.false_eq_true, if_false, sectorLoop, hstep]
    simp [wallRecord, hid]
  · simp only [wallRecord, wallHitPart]
    rw [if_neg (not_le.mpr (hnoadj wall hwin))]

/-- Witness of C8 (as amended): the ray from the middle of `exRoom` along `x`, straight at
the middle of wall 2, which it crosses at the parameter 1/4 of its length 8. -/
theorem traceRay_convex_sector_hit_witness :
    traceRay specEnv (exRay ⟨2, 4, 2⟩ ⟨1, 0, 0⟩ 8) (exLevelOf [exRoom 0 (-1) 0 (-1) 0])
        exStaleHit = some (true, ⟨0, 2, HitPart.HP_MID, ⟨4, 4, 2⟩, 2⟩)
    ∧ ∃ hi, traceRay specEnv (exRay ⟨2, 4, 2⟩ ⟨1, 0, 0⟩ 8)
          (exLevelOf [exRoom 0 (-1) 0 (-1) 0]) exStaleHit = some (true, hi)
      ∧ hi.hitPart = HitPart.HP_MID ∧ hi.hitWallId = ((2 : Nat) : Int)
      ∧ hi.hitSectorId = (exRoom 0 (-1) 0 (-1) 0).id
      ∧ hi.hitPos = (exRay ⟨2, 4, 2⟩ ⟨1, 0, 0⟩ 8).pointAt
          (fmul (1 / 4) (exRay ⟨2, 4, 2⟩ ⟨1, 0, 0⟩ 8).maxDist)
      ∧ hi.dist = fmul (1 / 4) (exRay ⟨2, 4, 2⟩ ⟨1, 0, 0⟩ 8).maxDist :=
  ⟨by decide!,
    traceRay_convex_sector_hit specEnv (exRay ⟨2, 4, 2⟩ ⟨1, 0, 0⟩ 8)
      (exLevelOf [exRoom 0 (-1) 0 (-1) 0]) (exRoom 0 (-1) 0 (-1) 0) 2 (exWall 2 3 (-1) 0)
      ⟨4, 4⟩ ⟨4, 0⟩ (1 / 4) (1 / 2) exStaleHit rfl (by decide) (by decide) (by decide!)
      (by decide!) (by decide!) (by decide!) (by decide!) (by decide!) (by decide!)
      (by decide!) (by decide!) (by decide!) (by decide!) (by decide!) (by decide!)
      (by decide!)⟩

/-- Counterexample to C8 as stated: the same square room with its walls wound the other way
round is a single convex sector with no adjoins, and the same ray, from its middle straight
at the middle of the wall `x = 4` (wall 1), returns false: every wall is rejected as
back-facing. -/
theorem traceRay_reversed_room_no_hit :
    traceRay specEnv (exRay ⟨2, 4, 2⟩ ⟨1, 0, 0⟩ 10) (exLevelOf [exRoomReversed 0]) noHit
      = some (false, noHit)
    ∧ wallEnds (exRoomReversed 0) (exWall 1 2 (-1) 0) = some (⟨4, 0⟩, ⟨4, 4⟩)
    ∧ specEnv.lineSegmentIntersect (exRay ⟨2, 4, 2⟩ ⟨1, 0, 0⟩ 10).p0xz
        (exRay ⟨2, 4, 2⟩ ⟨1, 0, 0⟩ 10).p1xz ⟨4, 0⟩ ⟨4, 4⟩ = some (1 / 5, 1 / 2) := by
  decide!

/-- The band test at the ceiling: in `f32` the sum `8 + FLT_EPSILON` is 8, so the horizontal
ray at the height of the ceiling of `exRoom`, aimed at wall 2 from inside, fails the test
`yAtHit < ceilHeight + FLT_EPSILON` and `traceRay` returns false; at the height of the floor,
0, the difference `0 - FLT_EPSILON` is exact and the wall is hit. -/
theorem traceRay_at_ceiling_height_no_hit :
    fadd (exRoom 0 (-1) 0 (-1) 0).ceilHeight FLT_EPSILON = 8
    ∧ traceRay specEnv (exRay ⟨2, 8, 2⟩ ⟨1, 0, 0⟩ 8) (exLevelOf [exRoom 0 (-1) 0 (-1) 0]) noHit
      = some (false, noHit)
    ∧ fsub (exRoom 0 (-1) 0 (-1) 0).floorHeight FLT_EPSILON = -FLT_EPSILON
    ∧ traceRay specEnv (exRay ⟨2, 0, 2⟩ ⟨1, 0, 0⟩ 8) (exLevelOf [exRoom 0 (-1) 0 (-1) 0]) noHit
      = some (true, ⟨0, 2, HitPart.HP_MID, ⟨4, 0, 2⟩, 2⟩) := by
  decide!

/-! ## Ray tracing: what a sector step records -/

/-- The sector step on a sector the layer filter lets through, in its three phases. -/
theorem traceSector_phases (env : TraceEnv) (ray : Ray) (level : EditorLevel)
    (st st1 : TraceState) (sector : EditorSector) (hl : layerMatches env ray sector)
    (h : traceSector env ray level st sector = some st1) :
    ∃ c st2, wallLoop env ray level sector 0 sector.walls (FLT_MAX, -1) = some c
      ∧ testClosestWall env ray level sector c st = some st2
      ∧ st1 = testCeil env ray sector (testFloor env ray sector st2) := by
  cases hc : wallLoop env ray level sector 0 sector.walls (FLT_MAX, -1) with
  | none =>
    unfold traceSector at h
    simp only [hc] at h
    split at h
    · rename_i h0
      rcases hl with h1 | h1
      · exact absurd h1 h0.1
      · exact absurd h1 h0.2
    · exact absurd h (by simp)
  | some c =>
    rw [traceSector_eq env ray level st sector c hl hc] at h
    cases hw : testClosestWall env ray level sector c st with
    | none => rw [hw] at h; exact absurd h (by simp)
    | some st2 =>
      rw [hw] at h
      simp only [Option.map_some'] at h
      exact ⟨c, st2, rfl, hw, (Option.some.inj h).symm⟩

/-- The wall phase of a sector step: either no wall of the sector is a candidate below
`FLT_MAX` and the state is kept, or the closest candidate of the sector is recorded when
its distance `s * maxDist` is below the closest hit so far and its hit point passes the gate
`wallRecorded`. -/
theorem wallPhase_spec (env : TraceEnv) (ray : Ray) (level : EditorLevel)
    (sector : EditorSector) (c : ℚ × Int) (st st2 : TraceState)
    (hc : wallLoop env ray level sector 0 sector.walls (FLT_MAX, -1) = some c)
    (hw : testClosestWall env ray level sector c st = some st2) :
    (st2 = st ∧ ∀ (i : Nat) (wi : EditorWall) (si : ℚ), sector.walls[i]? = some wi →
        wallCandidate env ray level sector wi = some si → FLT_MAX ≤ si)
    ∨ (∃ (j : Nat) (wj : EditorWall), sector.walls[j]? = some wj
        ∧ wallCandidate env ray level sector wj = some c.1
        ∧ c.1 < FLT_MAX
        ∧ (∀ (i : Nat) (wi : EditorWall) (si : ℚ), sector.walls[i]? = some wi →
            wallCandidate env ray level sector wi = some si → c.1 ≤ si)
        ∧ st2 = (if fmul c.1 ray.maxDist < st.overallClosestHit
              ∧ wallRecorded env level wj (ray.pointAt (fmul c.1 ray.maxDist)).y
            then wallRecord ray level sector (j : Int) wj c.1 else st)) := by
  rcases wallLoop_spec env ray level sector sector.walls 0 (FLT_MAX, -1) c hc with
    ⟨e, hall⟩ | ⟨j, wj, hj, hcj, hidx, hlt, hmin⟩
  · left
    rw [testClosestWall_neg env ray level sector c st (by rw [e]; decide)] at hw
    exact ⟨(Option.some.inj hw).symm, hall⟩
  · right
    have e : c = (c.1, (j : Int)) := Prod.ext rfl (by rw [hidx]; simp)
    rw [e, testClosestWall_eq env ray level sector j wj c.1 st hj hcj] at hw
    exact ⟨j, wj, hj, hcj, hlt, fun i wi si hi hs => (hmin i wi si hi hs).1,
      (Option.some.inj hw).symm⟩

/-- The closest hit a sector step leaves is the one it found, the distance `s * maxDist`
of a wall candidate of the sector, or the square root of the squared distance of a plane
candidate of the sector. -/
theorem traceSector_overall_cases (env : TraceEnv) (ray : Ray) (level : EditorLevel)
    (st st1 : TraceState) (sector : EditorSector)
    (h : traceSector env ray level st sector = some st1) :
    st1.overallClosestHit = st.overallClosestHit
    ∨ (layerMatches env ray sector
      ∧ ((∃ (j : Nat) (wj : EditorWall) (s1 : ℚ), sector.walls[j]? = some wj
            ∧ wallCandidate env ray level sector wj = some s1
            ∧ st1.overallClosestHit = fmul s1 ray.maxDist)
        ∨ (∃ hp, (floorCandidate env ray sector = some hp
              ∨ ceilCandidate env ray sector = some hp)
            ∧ st1.overallClosestHit = env.sqrtf (ray.distSq hp)))) := by
  by_cases hl : layerMatches env ray sector
  · obtain ⟨c, st2, hc, hw, e⟩ := traceSector_phases env ray level st st1 sector hl h
    have h2 : st2.overallClosestHit = st.overallClosestHit
        ∨ ∃ (j : Nat) (wj : EditorWall) (s1 : ℚ), sector.walls[j]? = some wj
            ∧ wallCandidate env ray level sector wj = some s1
            ∧ st2.overallClosestHit = fmul s1 ray.maxDist := by
      rcases wallPhase_spec env ray level sector c st st2 hc hw with
        ⟨e2, -⟩ | ⟨j, wj, hj, hcj, -, -, e2⟩
      · exact Or.inl (by rw [e2])
      · by_cases hlt : fmul c.1 ray.maxDist < st.overallClosestHit
            ∧ wallRecorded env level wj (ray.pointAt (fmul c.1 ray.maxDist)).y
        · rw [if_pos hlt] at e2
          exact Or.inr ⟨j, wj, c.1, hj, hcj, by rw [e2]; rfl⟩
        · rw [if_neg hlt] at e2
          exact Or.inl (by rw [e2])
    have h3 : (testFloor env ray sector st2).overallClosestHit = st2.overallClosestHit
        ∨ ∃ hp, floorCandidate env ray sector = some hp
            ∧ (testFloor env ray sector st2).overallClosestHit = env.sqrtf (ray.distSq hp) := by
      rw [testFloor_eq]
      cases hf : floorCandidate env ray sector with
      | none => exact Or.inl rfl
      | some hp =>
        simp only
        split
        · exact Or.inr ⟨hp, rfl, rfl⟩
        · exact Or.inl rfl
    have h4 : st1.overallClosestHit = (testFloor env ray sector st2).overallClosestHit
        ∨ ∃ hp, ceilCandidate env ray sector = some hp
            ∧ st1.overallClosestHit = env.sqrtf (ray.distSq hp) := by
      rw [e, testCeil_eq]
      cases hf : ceilCandidate env ray sector with
      | none => exact Or.inl rfl
      | some hp =>
        simp only
        split
        · exact Or.inr ⟨hp, rfl, rfl⟩
        · exact Or.inl rfl
    rcases h4 with h4 | ⟨hp, hp1, hp2⟩
    · rcases h3 with h3 | ⟨hp, hp1, hp2⟩
      · rcases h2 with h2 | ⟨j, wj, s1, hj, hcj, e2⟩
        · exact Or.inl (by rw [h4, h3, h2])
        · exact Or.inr ⟨hl, Or.inl ⟨j, wj, s1, hj, hcj, by rw [h4, h3, e2]⟩⟩
      · exact Or.inr ⟨hl, Or.inr ⟨hp, Or.inl hp1, by rw [h4, hp2]⟩⟩
    · exact Or.inr ⟨hl, Or.inr ⟨hp, Or.inr hp1, hp2⟩⟩
  · rw [traceSector_skip env ray level st sector hl] at h
    exact Or.inl (by rw [← Option.some.inj h])

/-- A plane test keeps the state when the plane candidate, if any, is not closer. -/
theorem testFloor_keep (env : TraceEnv) (ray : Ray) (sector : EditorSector) (st : TraceState)
    (h : ∀ hp, floorCandidate env ray sector = some hp →
      ¬ (st.overallClosestHit = FLT_MAX
        ∨ ray.distSq hp < fmul st.overallClosestHit st.overallClosestHit)) :
    testFloor env ray sector st = st := by
  rw [testFloor_eq]
  cases hf : floorCandidate env ray sector with
  | none => rfl
  | some hp =>
    simp only
    rw [if_neg (h hp hf)]

theorem testCeil_keep (env : TraceEnv) (ray : Ray) (sector : EditorSector) (st : TraceState)
    (h : ∀ hp, ceilCandidate env ray sector = some hp →
      ¬ (st.overallClosestHit = FLT_MAX
        ∨ ray.distSq hp < fmul st.overallClosestHit st.overallClosestHit)) :
    testCeil env ray sector st = st := by
  rw [testCeil_eq]
  cases hf : ceilCandidate env ray sector with
  | none => rfl
  | some hp =>
    simp only
    rw [if_neg (h hp hf)]

/-- A sector step keeps the state when no candidate of the sector is closer than the
closest hit so far. -/
theorem traceSector_keep (env : TraceEnv) (ray : Ray) (level : EditorLevel)
    (st st1 : TraceState) (sector : EditorSector)
    (h : traceSector env ray level st sector = some st1)
    (hwalls : layerMatches env ray sector → ∀ (j : Nat) (wj : EditorWall) (s1 : ℚ),
      sector.walls[j]? = some wj → wallCandidate env ray level sector wj = some s1 →
      ¬ fmul s1 ray.maxDist < st.overallClosestHit)
    (hplanes : layerMatches env ray sector → ∀ hp,
      (floorCandidate env ray sector = some hp ∨ ceilCandidate env ray sector = some hp) →
      ¬ (st.overallClosestHit = FLT_MAX
        ∨ ray.distSq hp < fmul st.overallClosestHit st.overallClosestHit)) :
    st1 = st := by
  by_cases hl : layerMatches env ray sector
  · obtain ⟨c, st2, hc, hw, e⟩ := traceSector_phases env ray level st st1 sector hl h
    have h2 : st2 = st := by
      rcases wallPhase_spec env ray level sector c st st2 hc hw with
        ⟨e2, -⟩ | ⟨j, wj, hj, hcj, -, -, e2⟩
      · exact e2
      · rw [if_neg (fun h1 => hwalls hl j wj c.1 hj hcj h1.1)] at e2
        exact e2
    subst h2
    rw [e, testFloor_keep env ray sector st2 (fun hp hf => hplanes hl hp (Or.inl hf)),
      testCeil_keep env ray sector st2 (fun hp hf => hplanes hl hp (Or.inr hf))]
  · rw [traceSector_skip env ray level st sector hl] at h
    exact (Option.some.inj h).symm

theorem lt_of_getElem?_eq_some {α : Type} {l : List α} {i : Nat} {x : α} (h : l[i]? = some x) :
    i < l.length := by
  rcases Nat.lt_or_ge i l.length with h1 | h1
  · exact h1
  · rw [List.getElem?_eq_none h1] at h
    exact absurd h (by simp)

/-- C10 (as amended): for an adjoined wall `w` flagged opaque-mid, in a sector A with a
non-negative id that the layer filter of the ray lets through, in a level whose wall indices
are all in range, and a ray whose 2D segment crosses `w`, which passes the back-face test of
line 539, at a parameter `s` where the height `yAtHit` passes the band test of line 547 for
A as the code evaluates it in `f32`, such that every candidate `traceRay` scans before `w`
is strictly farther and every candidate it scans after `w` is not closer, `traceRay` returns
true with `hitWallId = w` and `hitSectorId` the id of A, whatever the floor and ceiling of
the adjoining sector are. Distances are the ones `traceRay` compares, in `f32` and all below
`FLT_MAX`: `s * maxDist` for a wall, and for a plane the square root of the squared
distance when it is scanned before `w`, the squared distance, against the square of
`s * maxDist`, when it is scanned after. -/
theorem traceRay_opaque_adjoin_hit (env : TraceEnv) (ray : Ray) (level : EditorLevel)
    (a w : Nat) (A : EditorSector) (wall : EditorWall) (v0 v1 : Vec2f) (s t : ℚ)
    (hitInfo : RayHitInfo)
    (hrange : levelInRange level)
    (hA : level.sectors[a]? = some A) (hid : 0 ≤ A.id) (hlayer : layerMatches env ray A)
    (hw : A.walls[w]? = some wall)
    (hadj : 0 ≤ wall.adjoinId) (hflag : adjMidTex env wall = true)
    (hv0 : vecAt A.vtx wall.idx0 = some v0) (hv1 : vecAt A.vtx wall.idx1 = some v1)
    (hfront : 0 ≤ dot2 ray.dirxz (wallNormal v0 v1))
    (hcross : env.lineSegmentIntersect ray.p0xz ray.p1xz v0 v1 = some (s, t))
    (hband : ray.yAt s > fsub A.floorHeight FLT_EPSILON ∧ ray.yAt s < fadd A.ceilHeight FLT_EPSILON)
    (hs : s < FLT_MAX) (hd : fmul s ray.maxDist < FLT_MAX)
    (hsame : firstClosestWall env ray level A w s)
    (hwalls : otherWallsFarther env ray level a (fmul s ray.maxDist))
    (hplanes : otherPlanesFarther env ray level a (fmul s ray.maxDist)) :
    ∃ hi, traceRay env ray level hitInfo = some (true, hi)
      ∧ hi.hitWallId = (w : Int) ∧ hi.hitSectorId = A.id
      ∧ hi.hitPos = ray.pointAt (fmul s ray.maxDist) := by
  have hAin : A ∈ level.sectors := List.getElem?_mem hA
  have hwin : wall ∈ A.walls := List.getElem?_mem hw
  have hsame : ∀ (j : Nat) (wall1 : EditorWall) (s1 : ℚ), A.walls[j]? = some wall1 →
      wallCandidate env ray level A wall1 = some s1 → (j < w → s < s1) ∧ (w < j → s ≤ s1) :=
    fun j wall1 s1 hj hc => hsame j (lt_of_getElem?_eq_some hj) wall1 hj s1 hc
  have hwalls : ∀ (b : Nat) (sector : EditorSector) (j : Nat) (wall1 : EditorWall) (s1 : ℚ),
      level.sectors[b]? = some sector → layerMatches env ray sector →
      sector.walls[j]? = some wall1 → wallCandidate env ray level sector wall1 = some s1 →
      (b < a → fmul s ray.maxDist < fmul s1 ray.maxDist)
        ∧ (a < b → fmul s ray.maxDist ≤ fmul s1 ray.maxDist) :=
    fun b sector j wall1 s1 hb hl hj hc =>
      hwalls b (lt_of_getElem?_eq_some hb) sector hb hl wall1 (List.getElem?_mem hj) s1 hc
  have hplanes : ∀ (b : Nat) (sector : EditorSector) (hp : Vec3f),
      level.sectors[b]? = some sector → layerMatches env ray sector →
      (floorCandidate env ray sector = some hp ∨ ceilCandidate env ray sector = some hp) →
      (b < a → fmul s ray.maxDist < env.sqrtf (ray.distSq hp))
        ∧ (a ≤ b → fmul (fmul s ray.maxDist) (fmul s ray.maxDist) ≤ ray.distSq hp) :=
    fun b sector hp hb hl hhp => by
      have h1 := hplanes b (lt_of_getElem?_eq_some hb) sector hb hl
      rcases hhp with h2 | h2
      · exact h1.1 hp h2
      · exact h1.2 hp h2
  -- wall `w` is a candidate, whatever the heights of the adjoining sector
  have hcand : wallCandidate env ray level A wall = some s := by
    obtain ⟨next, hn⟩ := Option.isSome_iff_exists.mp ((hrange A hAin wall hwin).2.2 hadj)
    exact wallCandidate_of env ray level A wall v0 v1 s t hv0 hv1 hfront hcross hband
      (fun _ => ⟨next, hn, Or.inr (Or.inr hflag)⟩)
  -- the state after the scan of A
  have hkeepA : ∀ st : TraceState, st.overallClosestHit = fmul s ray.maxDist →
      testCeil env ray A (testFloor env ray A st) = st := by
    intro st hst
    have hno : ∀ hp, (floorCandidate env ray A = some hp ∨ ceilCandidate env ray A = some hp) →
        ¬ (st.overallClosestHit = FLT_MAX
          ∨ ray.distSq hp < fmul st.overallClosestHit st.overallClosestHit) := by
      intro hp hhp
      rw [hst]
      have := (hplanes a A hp hA hlayer hhp).2 (le_refl a)
      intro h1
      rcases h1 with h1 | h1
      · rw [h1] at hd
        exact absurd hd (lt_irrefl _)
      · exact absurd h1 (not_lt.mpr this)
    rw [testFloor_keep env ray A st (fun hp hf => hno hp (Or.inl hf)),
      testCeil_keep env ray A st (fun hp hf => hno hp (Or.inr hf))]
  have hstepA : ∀ st st1 : TraceState, fmul s ray.maxDist < st.overallClosestHit →
      traceSector env ray level st A = some st1 →
      st1 = wallRecord ray level A (w : Int) wall s := by
    intro st st1 hlt h
    obtain ⟨c, st2, hc, hw2, e⟩ := traceSector_phases env ray level st st1 A hlayer h
    have hpick := wallLoop_picks env ray level A w wall s c hw hcand hs hsame hc
    rw [hpick, testClosestWall_eq env ray level A w wall s st hw hcand,
      if_pos ⟨hlt, fun _ => Or.inl hflag⟩] at hw2
    have e2 := Option.some.inj hw2
    rw [e, ← e2]
    exact hkeepA _ rfl
  -- the sector loop
  obtain ⟨st, hst⟩ := sectorLoop_isSome env ray level level.sectors hrange ⟨FLT_MAX, noHit⟩
  have hK := sectorLoop_induct env ray level
    (fun i st => (i ≤ a → fmul s ray.maxDist < st.overallClosestHit)
      ∧ (a < i → st = wallRecord ray level A (w : Int) wall s))
    (fun i sector st0 st1 hi0 hk ht => by
      rcases Nat.lt_trichotomy i a with hia | hia | hia
      · refine ⟨fun _ => ?_, fun h => absurd h (by omega)⟩
        have h0 := hk.1 (le_of_lt hia)
        rcases traceSector_overall_cases env ray level st0 st1 sector ht with
          e | ⟨hl, ⟨j, wj, s1, hj, hcj, e⟩ | ⟨hp, hhp, e⟩⟩
        · rw [e]
          exact h0
        · rw [e]
          exact (hwalls i sector j wj s1 hi0 hl hj hcj).1 hia
        · rw [e]
          exact (hplanes i sector hp hi0 hl hhp).1 hia
      · subst hia
        rw [hA] at hi0
        have e := Option.some.inj hi0
        subst e
        exact ⟨fun h => absurd h (by omega), fun _ => hstepA st0 st1 (hk.1 (le_refl _)) ht⟩
      · refine ⟨fun h => absurd h (by omega), fun _ => ?_⟩
        have h0 := hk.2 hia
        have hov : st0.overallClosestHit = fmul s ray.maxDist := by rw [h0]; rfl
        have := traceSector_keep env ray level st0 st1 sector ht
          (fun hl j wj s1 hj hcj => by
            rw [hov]
            exact not_lt.mpr ((hwalls i sector j wj s1 hi0 hl hj hcj).2 hia))
          (fun hl hp hhp => by
            rw [hov]
            intro h1
            rcases h1 with h1 | h1
            · rw [h1] at hd
              exact absurd hd (lt_irrefl _)
            · exact absurd h1 (not_lt.mpr ((hplanes i sector hp hi0 hl hhp).2 (le_of_lt hia))))
        rw [this]
        exact h0)
    ⟨FLT_MAX, noHit⟩ st hst ⟨fun _ => hd, fun h => absurd h (by omega)⟩
  have hal : a < level.sectors.length := by
    rcases Nat.lt_or_ge a level.sectors.length with h | h
    · exact h
    · rw [List.getElem?_eq_none h] at hA
      exact absurd hA (by simp)
  have hfin := hK.2 hal
  refine ⟨(wallRecord ray level A (w : Int) wall s).hitInfo, ?_, rfl, rfl, rfl⟩
  unfold traceRay
  have hne : level.sectors.isEmpty = false := by
    cases hsec : level.sectors with
    | nil => rw [hsec] at hal; exact absurd hal (by simp)
    | cons x l => rfl
  rw [hne, hst, hfin]
  simp [wallRecord, hid]

/-- Witness of C10 (as amended): wall 2 of `exRoom` is adjoined to `exNextRoom` and flagged
opaque-mid; the ray from the middle of the room along `x` crosses it at height 4, inside
the band of `exNextRoom`, and is stopped there. -/
theorem traceRay_opaque_adjoin_hit_witness :
    traceRay specEnv (exRay ⟨2, 4, 2⟩ ⟨1, 0, 0⟩ 8)
        (exLevelOf [exRoom 0 1 1 (-1) 0, exNextRoom 1 0 8]) exStaleHit
      = some (true, ⟨0, 2, HitPart.HP_MID, ⟨4, 4, 2⟩, 2⟩)
    ∧ ∃ hi, traceRay specEnv (exRay ⟨2, 4, 2⟩ ⟨1, 0, 0⟩ 8)
          (exLevelOf [exRoom 0 1 1 (-1) 0, exNextRoom 1 0 8]) exStaleHit = some (true, hi)
      ∧ hi.hitWallId = ((2 : Nat) : Int) ∧ hi.hitSectorId = (exRoom 0 1 1 (-1) 0).id
      ∧ hi.hitPos = (exRay ⟨2, 4, 2⟩ ⟨1, 0, 0⟩ 8).pointAt
          (fmul (1 / 4) (exRay ⟨2, 4, 2⟩ ⟨1, 0, 0⟩ 8).maxDist) :=
  ⟨by decide!,
    traceRay_opaque_adjoin_hit specEnv (exRay ⟨2, 4, 2⟩ ⟨1, 0, 0⟩ 8)
      (exLevelOf [exRoom 0 1 1 (-1) 0, exNextRoom 1 0 8]) 0 2 (exRoom 0 1 1 (-1) 0)
      (exWall 2 3 1 1) ⟨4, 4⟩ ⟨4, 0⟩ (1 / 4) (1 / 2) exStaleHit
      (by decide!) (by decide!) (by decide!) (by decide!) (by decide!) (by decide!)
      (by decide!) (by decide!) (by decide!) (by decide!) (by decide!) (by decide!)
      (by decide!) (by decide!) (by decide!) (by decide!) (by decide!)⟩

/-- Counterexample to C10 as stated: wall 3 of `exRoom` is adjoined and flagged opaque-mid,
and the ray from the middle of the room to the corner (4, 0) crosses its front at height 4,
inside the band of the room, at parameter 1/4; no candidate of the level is closer, but wall
2 is crossed at the same parameter and comes first in the wall list, so `traceRay` reports
`hitWallId = 2`, not 3. -/
theorem traceRay_opaque_adjoin_tie :
    wallCandidate specEnv (exRay ⟨2, 4, 2⟩ ⟨1, 0, -1⟩ 8)
        (exLevelOf [exRoom 0 (-1) 0 1 1, exNextRoom 1 0 8]) (exRoom 0 (-1) 0 1 1)
        (exWall 3 0 1 1) = some (1 / 4)
    ∧ adjMidTex specEnv (exWall 3 0 1 1) = true
    ∧ (∀ sector ∈ (exLevelOf [exRoom 0 (-1) 0 1 1, exNextRoom 1 0 8]).sectors,
        (∀ wall1 ∈ sector.walls,
          ∀ s1 ∈ wallCandidate specEnv (exRay ⟨2, 4, 2⟩ ⟨1, 0, -1⟩ 8)
            (exLevelOf [exRoom 0 (-1) 0 1 1, exNextRoom 1 0 8]) sector wall1, 1 / 4 ≤ s1)
        ∧ floorCandidate specEnv (exRay ⟨2, 4, 2⟩ ⟨1, 0, -1⟩ 8) sector = none
        ∧ ceilCandidate specEnv (exRay ⟨2, 4, 2⟩ ⟨1, 0, -1⟩ 8) sector = none)
    ∧ traceRay specEnv (exRay ⟨2, 4, 2⟩ ⟨1, 0, -1⟩ 8)
        (exLevelOf [exRoom 0 (-1) 0 1 1, exNextRoom 1 0 8]) noHit
      = some (true, ⟨0, 2, HitPart.HP_MID, ⟨4, 4, 0⟩, 2⟩) := by
  decide!

/-! ## Ray tracing: the closest candidate -/

theorem closestRec_congr (P Q : TraceState → Prop) (st : TraceState)
    (hpq : ∀ st1, P st1 ↔ Q st1) (h : closestRec P st) : closestRec Q st := by
  rcases h with ⟨h1, h2⟩ | ⟨h1, h2, h3⟩
  · exact Or.inl ⟨h1, fun st1 hq => h2 st1 ((hpq st1).mpr hq)⟩
  · exact Or.inr ⟨h1, (hpq _).mp h2, fun st1 hq => h3 st1 ((hpq st1).mpr hq)⟩

/-- The record of a candidate holds its distance twice: as the closest hit and as the
`dist` of the hit. -/
theorem recordedBy_dist (env : TraceEnv) (ray : Ray) (level : EditorLevel)
    (sector : EditorSector) (st : TraceState) (h : recordedBy env ray level sector st) :
    st.hitInfo.dist = st.overallClosestHit := by
  rcases h.2 with ⟨j, wall, s, -, -, e⟩ | ⟨hp, -, e⟩ | ⟨hp, -, e⟩ <;> rw [e] <;> rfl

/-- The distance of the record of a candidate is among the candidate distances of its
sector. -/
theorem recordedBy_mem_dists (env : TraceEnv) (ray : Ray) (level : EditorLevel)
    (sector : EditorSector) (st : TraceState) (h : recordedBy env ray level sector st) :
    st.overallClosestHit ∈ candidateDists env ray level sector := by
  obtain ⟨hl, hr⟩ := h
  unfold candidateDists
  rw [if_pos hl]
  rcases hr with ⟨j, wall, s, hj, hc, e⟩ | ⟨hp, hf, e⟩ | ⟨hp, hf, e⟩
  · rw [e]
    refine List.mem_append_left _ (List.mem_append_left _ ?_)
    rw [List.mem_filterMap]
    exact ⟨wall, List.getElem?_mem hj, by rw [hc]; rfl⟩
  · rw [e]
    refine List.mem_append_left _ (List.mem_append_right _ ?_)
    rw [hf]
    simp [planeRecord]
  · rw [e]
    refine List.mem_append_right _ ?_
    rw [hf]
    simp [planeRecord]

/-- The wall phase of a sector step keeps the closest record, the records of the wall
candidates of the sector now among the candidates. -/
theorem closestRec_wall (env : TraceEnv) (ray : Ray) (level : EditorLevel)
    (sector : EditorSector) (P : TraceState → Prop) (c : ℚ × Int) (st st2 : TraceState)
    (hm : 0 ≤ ray.maxDist) (hcons : wallsConsistent env ray level sector)
    (hc : wallLoop env ray level sector 0 sector.walls (FLT_MAX, -1) = some c)
    (hw : testClosestWall env ray level sector c st = some st2)
    (hinv : closestRec P st) :
    closestRec (fun st1 => P st1
      ∨ ∃ (j : Nat) (wall : EditorWall) (s : ℚ), sector.walls[j]? = some wall
          ∧ wallCandidate env ray level sector wall = some s
          ∧ st1 = wallRecord ray level sector (j : Int) wall s) st2 := by
  rcases wallPhase_spec env ray level sector c st st2 hc hw with
    ⟨e, hall⟩ | ⟨j, wj, hj, hcj, -, hmin, e⟩
  · -- no wall candidate
    rw [e]
    refine closestRec_congr P _ st (fun st1 => ⟨Or.inl, fun h => ?_⟩) hinv
    rcases h with h | ⟨i, wi, si, hi, hci, -⟩
    · exact h
    · have h1 := (hcons wi (List.getElem?_mem hi) si hci).1
      exact absurd (hall i wi si hi hci) (not_le.mpr h1)
  · obtain ⟨-, hd, hrec⟩ := hcons wj (List.getElem?_mem hj) c.1 hcj
    have hwalls : ∀ (i : Nat) (wi : EditorWall) (si : ℚ), sector.walls[i]? = some wi →
        wallCandidate env ray level sector wi = some si →
        fmul c.1 ray.maxDist ≤ (wallRecord ray level sector (i : Int) wi si).overallClosestHit :=
      fun i wi si hi hci => fmul_mono_left c.1 si ray.maxDist hm (hmin i wi si hi hci)
    by_cases hlt : fmul c.1 ray.maxDist < st.overallClosestHit
    · rw [if_pos ⟨hlt, hrec⟩] at e
      rw [e]
      refine Or.inr ⟨hd, Or.inr ⟨j, wj, c.1, hj, hcj, rfl⟩, ?_⟩
      intro st1 h1
      rcases h1 with h1 | ⟨i, wi, si, hi, hci, e1⟩
      · rcases hinv with ⟨-, h2⟩ | ⟨-, -, h2⟩
        · exact absurd h1 (h2 st1)
        · exact le_trans (le_of_lt hlt) (h2 st1 h1)
      · rw [e1]
        exact hwalls i wi si hi hci
    · rw [if_neg (fun h1 => hlt h1.1)] at e
      rw [e]
      have hle : st.overallClosestHit ≤ fmul c.1 ray.maxDist := not_lt.mp hlt
      rcases hinv with ⟨h1, -⟩ | ⟨h1, h2, h3⟩
      · rw [h1] at hle
        exact absurd hd (not_lt.mpr hle)
      · refine Or.inr ⟨h1, Or.inl h2, ?_⟩
        intro st1 h4
        rcases h4 with h4 | ⟨i, wi, si, hi, hci, e1⟩
        · exact h3 st1 h4
        · rw [e1]
          exact le_trans hle (hwalls i wi si hi hci)

/-- A plane test keeps the closest record, the record of the plane candidate now among the
candidates. -/
theorem closestRec_plane (env : TraceEnv) (ray : Ray) (sector : EditorSector) (part : HitPart)
    (P : TraceState → Prop) (cand : Option Vec3f) (st st1 : TraceState)
    (he : st1 = match cand with
      | some hitPoint =>
        if st.overallClosestHit = FLT_MAX
            ∨ ray.distSq hitPoint < fmul st.overallClosestHit st.overallClosestHit
        then planeRecord env ray sector part hitPoint else st
      | none => st)
    (hb : ∀ hp, cand = some hp → env.sqrtf (ray.distSq hp) < FLT_MAX)
    (hcons : ∀ hp, cand = some hp → ∀ st0, P st0 →
      planeConsistent env ray st0.overallClosestHit hp)
    (hinv : closestRec P st) :
    closestRec (fun st0 => P st0
      ∨ ∃ hp, cand = some hp ∧ st0 = planeRecord env ray sector part hp) st1 := by
  cases hcand : cand with
  | none =>
    rw [hcand] at he
    simp only at he
    rw [he]
    refine closestRec_congr P _ st (fun st0 => ⟨Or.inl, fun h => ?_⟩) hinv
    rcases h with h | ⟨hp, h, -⟩
    · exact h
    · exact absurd h (by simp)
  | some hitPoint =>
    rw [hcand] at he
    simp only at he
    have hd := hb hitPoint hcand
    have hnew : ∀ st0, (∃ hp, some hitPoint = some hp
        ∧ st0 = planeRecord env ray sector part hp) →
        st0 = planeRecord env ray sector part hitPoint := by
      rintro st0 ⟨hp, h1, h2⟩
      rw [h2, Option.some.inj h1]
    rcases hinv with ⟨h1, h2⟩ | ⟨h1, h2, h3⟩
    · rw [h1] at he
      simp only [true_or, if_true] at he
      rw [he]
      refine Or.inr ⟨hd, Or.inr ⟨hitPoint, rfl, rfl⟩, ?_⟩
      intro st0 h4
      rcases h4 with h4 | h4
      · exact absurd h4 (h2 st0)
      · rw [hnew st0 h4]
    · have hcon := hcons hitPoint hcand st h2
      have hne : ¬ st.overallClosestHit = FLT_MAX := ne_of_lt h1
      by_cases hlt : ray.distSq hitPoint < fmul st.overallClosestHit st.overallClosestHit
      · rw [if_pos (Or.inr hlt)] at he
        rw [he]
        have hle : env.sqrtf (ray.distSq hitPoint) ≤ st.overallClosestHit := hcon.1 hlt
        refine Or.inr ⟨hd, Or.inr ⟨hitPoint, rfl, rfl⟩, ?_⟩
        intro st0 h4
        rcases h4 with h4 | h4
        · exact le_trans hle (h3 st0 h4)
        · rw [hnew st0 h4]
      · rw [if_neg (fun h => h.elim hne hlt)] at he
        rw [he]
        refine Or.inr ⟨h1, Or.inl h2, ?_⟩
        intro st0 h4
        rcases h4 with h4 | h4
        · exact h3 st0 h4
        · rw [hnew st0 h4]
          exact hcon.2 hlt

/-- A sector step keeps the closest record, the records of the candidates of the sector now
among the candidates. -/
theorem closestRec_sector (env : TraceEnv) (ray : Ray) (level : EditorLevel)
    (sector : EditorSector) (P : TraceState → Prop) (st st1 : TraceState)
    (hs : sector ∈ level.sectors)
    (hcons : traceConsistent env ray level)
    (hP : ∀ st0, P st0 → ∃ sector0 ∈ level.sectors, recordedBy env ray level sector0 st0)
    (h : traceSector env ray level st sector = some st1)
    (hinv : closestRec P st) :
    closestRec (fun st0 => P st0 ∨ recordedBy env ray level sector st0) st1 := by
  by_cases hl : layerMatches env ray sector
  · obtain ⟨hwc, hpc⟩ := hcons.2 sector hs hl
    obtain ⟨c, st2, hc, hw, e⟩ := traceSector_phases env ray level st st1 sector hl h
    have h2 := closestRec_wall env ray level sector P c st st2 hcons.1 hwc hc hw hinv
    have hP2 : ∀ st0, (P st0
        ∨ ∃ (j : Nat) (wall : EditorWall) (s : ℚ), sector.walls[j]? = some wall
            ∧ wallCandidate env ray level sector wall = some s
            ∧ st0 = wallRecord ray level sector (j : Int) wall s) →
        ∃ sector0 ∈ level.sectors, recordedBy env ray level sector0 st0 := by
      intro st0 h0
      rcases h0 with h0 | h0
      · exact hP st0 h0
      · exact ⟨sector, hs, hl, Or.inl h0⟩
    have hplane : ∀ hp, hp ∈ (floorCandidate env ray sector).toList
          ++ (ceilCandidate env ray sector).toList →
        ∀ st0, (∃ sector0 ∈ level.sectors, recordedBy env ray level sector0 st0) →
        planeConsistent env ray st0.overallClosestHit hp := by
      intro hp hmem st0 h0
      obtain ⟨sector0, hs0, hr0⟩ := h0
      exact (hpc hp hmem).2 sector0 hs0 _ (recordedBy_mem_dists env ray level sector0 st0 hr0)
    have h3 := closestRec_plane env ray sector HitPart.HP_FLOOR _
      (floorCandidate env ray sector) st2 (testFloor env ray sector st2)
      (testFloor_eq env ray sector st2)
      (fun hp hf => (hpc hp (List.mem_append_left _ (by rw [hf]; simp))).1)
      (fun hp hf st0 h0 =>
        hplane hp (List.mem_append_left _ (by rw [hf]; simp)) st0 (hP2 st0 h0))
      h2
    have hP3 : ∀ st0, ((P st0
          ∨ ∃ (j : Nat) (wall : EditorWall) (s : ℚ), sector.walls[j]? = some wall
              ∧ wallCandidate env ray level sector wall = some s
              ∧ st0 = wallRecord ray level sector (j : Int) wall s)
        ∨ ∃ hp, floorCandidate env ray sector = some hp
            ∧ st0 = planeRecord env ray sector HitPart.HP_FLOOR hp) →
        ∃ sector0 ∈ level.sectors, recordedBy env ray level sector0 st0 := by
      intro st0 h0
      rcases h0 with h0 | h0
      · exact hP2 st0 h0
      · exact ⟨sector, hs, hl, Or.inr (Or.inl h0)⟩
    have h4 := closestRec_plane env ray sector HitPart.HP_CEIL _
      (ceilCandidate env ray sector) (testFloor env ray sector st2) st1
      (by rw [e]; exact testCeil_eq env ray sector _)
      (fun hp hf => (hpc hp (List.mem_append_right _ (by rw [hf]; simp))).1)
      (fun hp hf st0 h0 =>
        hplane hp (List.mem_append_right _ (by rw [hf]; simp)) st0 (hP3 st0 h0))
      h3
    refine closestRec_congr _ _ st1 (fun st0 => ?_) h4
    simp only [recordedBy, hl, true_and]
    constructor
    · rintro (((h0 | h0) | h0) | h0)
      · exact Or.inl h0
      · exact Or.inr (Or.inl h0)
      · exact Or.inr (Or.inr (Or.inl h0))
      · exact Or.inr (Or.inr (Or.inr h0))
    · rintro (h0 | h0 | h0 | h0)
      · exact Or.inl (Or.inl (Or.inl h0))
      · exact Or.inl (Or.inl (Or.inr h0))
      · exact Or.inl (Or.inr h0)
      · exact Or.inr h0
  · rw [traceSector_skip env ray level st sector hl] at h
    rw [← Option.some.inj h]
    refine closestRec_congr P _ st (fun st0 => ⟨Or.inl, fun h0 => ?_⟩) hinv
    rcases h0 with h0 | h0
    · exact h0
    · exact absurd h0.1 hl

/-- C1 (as amended): for every level and every ray with `maxDist ≥ 0` on which the
comparisons of `traceRay` are consistent (`traceConsistent`), whenever `traceRay` returns
true the reported hit is the record of a valid candidate of a sector of the level, and its
`dist` is the least of the distances `traceRay` records for the valid candidates of the
level. The candidates are
those of the claim, with the heights and the band as the code computes them; the distance
recorded for a wall is `s * maxDist`, the one recorded for a floor or ceiling is the square
root of the squared distance to the hit point. -/
theorem traceRay_closest_hit (env : TraceEnv) (ray : Ray) (level : EditorLevel)
    (hitInfo hi : RayHitInfo)
    (hcons : traceConsistent env ray level)
    (h : traceRay env ray level hitInfo = some (true, hi)) :
    (∃ sector ∈ level.sectors, ∃ st, recordedBy env ray level sector st ∧ hi = st.hitInfo)
      ∧ ∀ sector ∈ level.sectors, ∀ st, recordedBy env ray level sector st →
          hi.dist ≤ st.hitInfo.dist := by
  have hne : level.sectors ≠ [] := by
    intro he
    unfold traceRay at h
    simp [he] at h
  obtain ⟨st, hl, hhi, hb⟩ := traceRay_eq_some env ray level hitInfo true hi hne h
  have hK := sectorLoop_induct env ray level
    (fun i st => closestRec
      (fun st0 => ∃ sector ∈ level.sectors.take i, recordedBy env ray level sector st0) st)
    (fun i sector st0 st1 hi0 hk ht => by
      have hs : sector ∈ level.sectors := List.getElem?_mem hi0
      have h1 := closestRec_sector env ray level sector _ st0 st1 hs hcons
        (fun st2 h2 => by
          obtain ⟨sector0, hs0, hr0⟩ := h2
          exact ⟨sector0, List.mem_of_mem_take hs0, hr0⟩)
        ht hk
      refine closestRec_congr _ _ st1 (fun st2 => ?_) h1
      have htake : level.sectors.take (i + 1) = level.sectors.take i ++ [sector] := by
        rw [List.take_succ, hi0]
        rfl
      rw [htake]
      constructor
      · rintro (⟨sector0, hs0, hr0⟩ | hr0)
        · exact ⟨sector0, List.mem_append_left _ hs0, hr0⟩
        · exact ⟨sector, List.mem_append_right _ (List.mem_singleton_self _), hr0⟩
      · rintro ⟨sector0, hs0, hr0⟩
        rcases List.mem_append.mp hs0 with h2 | h2
        · exact Or.inl ⟨sector0, h2, hr0⟩
        · rw [List.mem_singleton.mp h2] at hr0
          exact Or.inr hr0)
    ⟨FLT_MAX, noHit⟩ st hl
    (Or.inl ⟨rfl, fun st1 h1 => by
      obtain ⟨sector0, hs0, -⟩ := h1
      simp at hs0⟩)
  simp only [List.take_length] at hK
  rcases hK with ⟨h1, -⟩ | ⟨-, ⟨sector, hs, hr⟩, h3⟩
  · rw [h1] at hb
    exact absurd hb (by decide)
  · refine ⟨⟨sector, hs, st, hr, hhi⟩, fun sector1 hs1 st1 hr1 => ?_⟩
    rw [hhi, recordedBy_dist env ray level sector st hr,
      recordedBy_dist env ray level sector1 st1 hr1]
    exact h3 st1 ⟨sector1, hs1, hr1⟩

/-- Witness of C1 (as amended): the ray from (2, 4, 2) straight down over `exRoom` and a
platform at height 2 above its floor hits the floor of the room, scanned first, at distance
4 and the platform at distance 2, and `traceRay` reports the platform; the ray from the
middle of `exRoom` along `x` crosses wall 2 of the room at distance 2 and the far wall of
`exNextRoom` at distance 6, and `traceRay` reports the wall of the room. -/
theorem traceRay_closest_hit_witness :
    traceRay specEnv (exRay ⟨2, 4, 2⟩ ⟨0, -1, 0⟩ 8)
        (exLevelOf [exRoom 0 (-1) 0 (-1) 0, exBox 1 1 3 1 3 2 8]) exStaleHit
      = some (true, ⟨1, -1, HitPart.HP_FLOOR, ⟨2, 2, 2⟩, 2⟩)
    ∧ floorCandidate specEnv (exRay ⟨2, 4, 2⟩ ⟨0, -1, 0⟩ 8) (exRoom 0 (-1) 0 (-1) 0)
      = some ⟨2, 0, 2⟩
    ∧ ((∃ sector ∈ (exLevelOf [exRoom 0 (-1) 0 (-1) 0, exBox 1 1 3 1 3 2 8]).sectors,
          ∃ st, recordedBy specEnv (exRay ⟨2, 4, 2⟩ ⟨0, -1, 0⟩ 8)
            (exLevelOf [exRoom 0 (-1) 0 (-1) 0, exBox 1 1 3 1 3 2 8]) sector st
          ∧ (⟨1, -1, HitPart.HP_FLOOR, ⟨2, 2, 2⟩, 2⟩ : RayHitInfo) = st.hitInfo)
      ∧ ∀ sector ∈ (exLevelOf [exRoom 0 (-1) 0 (-1) 0, exBox 1 1 3 1 3 2 8]).sectors,
          ∀ st, recordedBy specEnv (exRay ⟨2, 4, 2⟩ ⟨0, -1, 0⟩ 8)
            (exLevelOf [exRoom 0 (-1) 0 (-1) 0, exBox 1 1 3 1 3 2 8]) sector st →
          (⟨1, -1, HitPart.HP_FLOOR, ⟨2, 2, 2⟩, 2⟩ : RayHitInfo).dist ≤ st.hitInfo.dist)
    ∧ traceRay specEnv (exRay ⟨2, 4, 2⟩ ⟨1, 0, 0⟩ 8)
        (exLevelOf [exRoom 0 (-1) 0 (-1) 0, exNextRoom 1 0 8]) exStaleHit
      = some (true, ⟨0, 2, HitPart.HP_MID, ⟨4, 4, 2⟩, 2⟩)
    ∧ wallCandidate specEnv (exRay ⟨2, 4, 2⟩ ⟨1, 0, 0⟩ 8)
        (exLevelOf [exRoom 0 (-1) 0 (-1) 0, exNextRoom 1 0 8]) (exNextRoom 1 0 8)
        (exWall 2 3 (-1) 0) = some (3 / 4)
    ∧ ((∃ sector ∈ (exLevelOf [exRoom 0 (-1) 0 (-1) 0, exNextRoom 1 0 8]).sectors,
          ∃ st, recordedBy specEnv (exRay ⟨2, 4, 2⟩ ⟨1, 0, 0⟩ 8)
            (exLevelOf [exRoom 0 (-1) 0 (-1) 0, exNextRoom 1 0 8]) sector st
          ∧ (⟨0, 2, HitPart.HP_MID, ⟨4, 4, 2⟩, 2⟩ : RayHitInfo) = st.hitInfo)
      ∧ ∀ sector ∈ (exLevelOf [exRoom 0 (-1) 0 (-1) 0, exNextRoom 1 0 8]).sectors,
          ∀ st, recordedBy specEnv (exRay ⟨2, 4, 2⟩ ⟨1, 0, 0⟩ 8)
            (exLevelOf [exRoom 0 (-1) 0 (-1) 0, exNextRoom 1 0 8]) sector st →
          (⟨0, 2, HitPart.HP_MID, ⟨4, 4, 2⟩, 2⟩ : RayHitInfo).dist ≤ st.hitInfo.dist) :=
  ⟨by decide!, by decide!,
    traceRay_closest_hit specEnv (exRay ⟨2, 4, 2⟩ ⟨0, -1, 0⟩ 8)
      (exLevelOf [exRoom 0 (-1) 0 (-1) 0, exBox 1 1 3 1 3 2 8]) exStaleHit
      ⟨1, -1, HitPart.HP_FLOOR, ⟨2, 2, 2⟩, 2⟩ (by decide!) (by decide!),
    by decide!, by decide!,
    traceRay_closest_hit specEnv (exRay ⟨2, 4, 2⟩ ⟨1, 0, 0⟩ 8)
      (exLevelOf [exRoom 0 (-1) 0 (-1) 0, exNextRoom 1 0 8]) exStaleHit
      ⟨0, 2, HitPart.HP_MID, ⟨4, 4, 2⟩, 2⟩ (by decide!) (by decide!)⟩

/-- Counterexample to C1 as stated: with the direction (2, -1, 0), of length √5, the ray
from (0, 2, 0) crosses wall 2 of the first box at (6, -1, 0), which `traceRay` measures as
the distance `s * maxDist = 3`, and hits the floor of the second box at (4, 0, 0), at squared
distance 20; the floor is rejected as not closer than 3, and `traceRay` reports the wall,
whose squared distance from the origin is 45, although the floor candidate is closer. Every
sum and product of this trace is exact in `f32`. -/
theorem traceRay_reports_farther_wall :
    traceRay specEnv (exRay ⟨0, 2, 0⟩ ⟨2, -1, 0⟩ 16)
        (exLevelOf [exBox 0 2 6 (-2) 2 (-4) 8, exBox 1 3 5 (-1) 1 0 8]) noHit
      = some (true, ⟨0, 2, HitPart.HP_MID, ⟨6, -1, 0⟩, 3⟩)
    ∧ layerMatches specEnv (exRay ⟨0, 2, 0⟩ ⟨2, -1, 0⟩ 16) (exBox 1 3 5 (-1) 1 0 8)
    ∧ floorCandidate specEnv (exRay ⟨0, 2, 0⟩ ⟨2, -1, 0⟩ 16) (exBox 1 3 5 (-1) 1 0 8)
      = some ⟨4, 0, 0⟩
    ∧ (exRay ⟨0, 2, 0⟩ ⟨2, -1, 0⟩ 16).distSq ⟨4, 0, 0⟩ = 20
    ∧ (exRay ⟨0, 2, 0⟩ ⟨2, -1, 0⟩ 16).distSq ⟨6, -1, 0⟩ = 45 := by
  decide!

/-! ## Ray tracing: a ray of length zero -/

/-- The helpers modelled from the spec report nothing for a segment of length zero. -/
theorem specEnv_degenerateMiss : degenerateMiss specEnv := by
  constructor
  · intro a b0 b1
    simp [specEnv, TFE_Math.lineSegmentIntersect]
  · intro p h _
    simp [specEnv, TFE_Math.lineYPlaneIntersect]

theorem Ray.pointAt_zero (ray : Ray) : ray.pointAt 0 = ray.origin := by
  simp [Ray.pointAt, fmul_zero_right, fadd_zero_right]

theorem wallCandidate_zero_maxDist (env : TraceEnv) (ray : Ray) (level : EditorLevel)
    (sector : EditorSector) (wall : EditorWall) (hmax : ray.maxDist = 0)
    (hmiss : degenerateMiss env) : wallCandidate env ray level sector wall = none := by
  have hp : ray.p1xz = ray.p0xz := by
    simp [Ray.p1xz, Ray.p0xz, hmax, fmul_zero_right, fadd_zero_right]
  unfold wallCandidate
  rw [hp]
  split
  · split
    · rfl
    · rw [hmiss.1]
  · rfl

theorem floorCandidate_zero_maxDist (env : TraceEnv) (ray : Ray) (sector : EditorSector)
    (hmax : ray.maxDist = 0) (hmiss : degenerateMiss env) :
    floorCandidate env ray sector = none := by
  unfold floorCandidate
  rw [hmax, Ray.pointAt_zero]
  split
  · rename_i h
    rw [hmiss.2 ray.origin sector.floorHeight (ne_of_gt h.1)]
  · rfl

theorem ceilCandidate_zero_maxDist (env : TraceEnv) (ray : Ray) (sector : EditorSector)
    (hmax : ray.maxDist = 0) (hmiss : degenerateMiss env) :
    ceilCandidate env ray sector = none := by
  unfold ceilCandidate
  rw [hmax, Ray.pointAt_zero]
  split
  · rename_i h
    rw [hmiss.2 ray.origin sector.ceilHeight (ne_of_lt h.1)]
  · rfl

/-- C11: for every level, every ray origin and direction, and `maxDist = 0`, `traceRay`
returns false: whenever it returns, the flag is false, and it does return when the wall
indices of the level are in range. Of the helpers the proof uses only that a segment of
length zero crosses nothing (`degenerateMiss`). -/
theorem traceRay_zero_maxDist (env : TraceEnv) (ray : Ray) (level : EditorLevel)
    (hitInfo : RayHitInfo) (hmax : ray.maxDist = 0) (hmiss : degenerateMiss env) :
    (∀ (b : Bool) (hi : RayHitInfo), traceRay env ray level hitInfo = some (b, hi) → b = false)
      ∧ (levelInRange level → ∃ hi, traceRay env ray level hitInfo = some (false, hi)) := by
  have hflag : ∀ (b : Bool) (hi : RayHitInfo),
      traceRay env ray level hitInfo = some (b, hi) → b = false := by
    intro b hi h
    by_cases hne : level.sectors = []
    · unfold traceRay at h
      simp only [hne, List.isEmpty_nil, if_true, Option.some.injEq, Prod.mk.injEq] at h
      exact h.1.symm
    · obtain ⟨st, hl, -, hb⟩ := traceRay_eq_some env ray level hitInfo b hi hne h
      have hK := sectorLoop_induct env ray level
        (fun _ st => st = ⟨FLT_MAX, noHit⟩)
        (fun i sector st0 st1 _ hk ht => by
          rw [← hk]
          exact traceSector_keep env ray level st0 st1 sector ht
            (fun _ j wj s1 _ hc => by
              rw [wallCandidate_zero_maxDist env ray level sector wj hmax hmiss] at hc
              exact absurd hc (by simp))
            (fun _ hp hhp => by
              rw [floorCandidate_zero_maxDist env ray sector hmax hmiss,
                ceilCandidate_zero_maxDist env ray sector hmax hmiss] at hhp
              rcases hhp with h1 | h1 <;> exact absurd h1 (by simp)))
        ⟨FLT_MAX, noHit⟩ st hl rfl
      rw [hb, hK]
      decide
  refine ⟨hflag, fun hr => ?_⟩
  by_cases hne : level.sectors = []
  · exact ⟨hitInfo, by unfold traceRay; simp [hne]⟩
  · obtain ⟨st, hst⟩ := sectorLoop_isSome env ray level level.sectors hr ⟨FLT_MAX, noHit⟩
    have hres : ∃ b hi, traceRay env ray level hitInfo = some (b, hi) := by
      unfold traceRay
      have he : level.sectors.isEmpty = false := by
        cases hs : level.sectors with
        | nil => exact absurd hs hne
        | cons a l => rfl
      rw [he, hst]
      exact ⟨_, _, rfl⟩
    obtain ⟨b, hi, h⟩ := hres
    have := hflag b hi h
    subst this
    exact ⟨hi, h⟩

/-- Witness of C11: the ray from the middle of `exRoom` along `x` with `maxDist = 0`. -/
theorem traceRay_zero_maxDist_witness :
    (exRay ⟨2, 4, 2⟩ ⟨1, 0, 0⟩ 0).maxDist = 0
    ∧ levelInRange (exLevelOf [exRoom 0 (-1) 0 (-1) 0])
    ∧ ∃ hi, traceRay specEnv (exRay ⟨2, 4, 2⟩ ⟨1, 0, 0⟩ 0)
        (exLevelOf [exRoom 0 (-1) 0 (-1) 0]) exStaleHit = some (false, hi) :=
  ⟨rfl, by decide!,
    (traceRay_zero_maxDist specEnv (exRay ⟨2, 4, 2⟩ ⟨1, 0, 0⟩ 0)
      (exLevelOf [exRoom 0 (-1) 0 (-1) 0]) exStaleHit rfl specEnv_degenerateMiss).2
      (by decide!)⟩

/-! ## Ray tracing: what the reported hit is -/

theorem writtenBy_recordedBy (env : TraceEnv) (ray : Ray) (level : EditorLevel)
    (sector : EditorSector) (st : TraceState) (h : writtenBy env ray level sector st) :
    recordedBy env ray level sector st := by
  obtain ⟨hl, hr⟩ := h
  refine ⟨hl, ?_⟩
  rcases hr with ⟨j, wall, s, hj, hc, -, e⟩ | hr | hr
  · exact Or.inl ⟨j, wall, s, hj, hc, e⟩
  · exact Or.inr (Or.inl hr)
  · exact Or.inr (Or.inr hr)

/-- A sector step keeps the state or leaves the record of a hit in the sector. -/
theorem traceSector_written (env : TraceEnv) (ray : Ray) (level : EditorLevel)
    (st st1 : TraceState) (sector : EditorSector)
    (h : traceSector env ray level st sector = some st1) :
    st1 = st ∨ writtenBy env ray level sector st1 := by
  by_cases hl : layerMatches env ray sector
  · obtain ⟨c, st2, hc, hw, e⟩ := traceSector_phases env ray level st st1 sector hl h
    have h2 : st2 = st ∨ writtenBy env ray level sector st2 := by
      rcases wallPhase_spec env ray level sector c st st2 hc hw with
        ⟨e2, -⟩ | ⟨j, wj, hj, hcj, -, -, e2⟩
      · exact Or.inl e2
      · by_cases hlt : fmul c.1 ray.maxDist < st.overallClosestHit
            ∧ wallRecorded env level wj (ray.pointAt (fmul c.1 ray.maxDist)).y
        · rw [if_pos hlt] at e2
          exact Or.inr ⟨hl, Or.inl ⟨j, wj, c.1, hj, hcj, hlt.2, e2⟩⟩
        · rw [if_neg hlt] at e2
          exact Or.inl e2
    have h3 : testFloor env ray sector st2 = st2
        ∨ writtenBy env ray level sector (testFloor env ray sector st2) := by
      rw [testFloor_eq]
      cases hf : floorCandidate env ray sector with
      | none => exact Or.inl rfl
      | some hp =>
        simp only
        split
        · exact Or.inr ⟨hl, Or.inr (Or.inl ⟨hp, hf, rfl⟩)⟩
        · exact Or.inl rfl
    have h4 : st1 = testFloor env ray sector st2 ∨ writtenBy env ray level sector st1 := by
      rw [e, testCeil_eq]
      cases hf : ceilCandidate env ray sector with
      | none => exact Or.inl rfl
      | some hp =>
        simp only
        split
        · exact Or.inr ⟨hl, Or.inr (Or.inr ⟨hp, hf, rfl⟩)⟩
        · exact Or.inl rfl
    rcases h4 with h4 | h4
    · rcases h3 with h3 | h3
      · rcases h2 with h2 | h2
        · exact Or.inl (by rw [h4, h3, h2])
        · exact Or.inr (by rw [h4, h3]; exact h2)
      · exact Or.inr (by rw [h4]; exact h3)
    · exact Or.inr h4
  · rw [traceSector_skip env ray level st sector hl] at h
    exact Or.inl (Option.some.inj h).symm

/-- A sector step keeps the state or leaves the record of a candidate of the sector. -/
theorem traceSector_record (env : TraceEnv) (ray : Ray) (level : EditorLevel)
    (st st1 : TraceState) (sector : EditorSector)
    (h : traceSector env ray level st sector = some st1) :
    st1 = st ∨ recordedBy env ray level sector st1 := by
  rcases traceSector_written env ray level st st1 sector h with e | e
  · exact Or.inl e
  · exact Or.inr (writtenBy_recordedBy env ray level sector st1 e)

/-- The hit `traceRay` ends on, when it ran the sector loop: nothing, or the record written
for a hit in a sector of the level. -/
theorem traceRay_written (env : TraceEnv) (ray : Ray) (level : EditorLevel)
    (hitInfo hi : RayHitInfo) (b : Bool) (hne : level.sectors ≠ [])
    (h : traceRay env ray level hitInfo = some (b, hi)) :
    (b = false ∧ hi = noHit)
      ∨ ∃ sector ∈ level.sectors, ∃ st, writtenBy env ray level sector st
          ∧ hi = st.hitInfo := by
  obtain ⟨st, hl, hhi, hb⟩ := traceRay_eq_some env ray level hitInfo b hi hne h
  have hK := sectorLoop_induct env ray level
    (fun _ st => st = ⟨FLT_MAX, noHit⟩
      ∨ ∃ sector ∈ level.sectors, writtenBy env ray level sector st)
    (fun i sector st0 st1 hi0 hk ht => by
      rcases traceSector_written env ray level st0 st1 sector ht with e | e
      · rw [e]
        exact hk
      · exact Or.inr ⟨sector, List.getElem?_mem hi0, e⟩)
    ⟨FLT_MAX, noHit⟩ st hl (Or.inl rfl)
  rcases hK with hK | ⟨sector, hs, hr⟩
  · left
    rw [hb, hhi, hK]
    exact ⟨by decide, rfl⟩
  · exact Or.inr ⟨sector, hs, st, hr, hhi⟩

/-- The hit `traceRay` ends on, when it ran the sector loop: nothing, or the record of a
candidate of a sector of the level. -/
theorem traceRay_record (env : TraceEnv) (ray : Ray) (level : EditorLevel)
    (hitInfo hi : RayHitInfo) (b : Bool) (hne : level.sectors ≠ [])
    (h : traceRay env ray level hitInfo = some (b, hi)) :
    (b = false ∧ hi = noHit)
      ∨ ∃ sector ∈ level.sectors, ∃ st, recordedBy env ray level sector st
          ∧ hi = st.hitInfo := by
  rcases traceRay_written env ray level hitInfo hi b hne h with e | ⟨sector, hs, st, hr, e⟩
  · exact Or.inl e
  · exact Or.inr ⟨sector, hs, st, writtenBy_recordedBy env ray level sector st hr, e⟩

/-- C12 (as amended): for every ray, whatever the length of its direction, and every hit
`traceRay` reports. A wall hit (`hitWallId ≥ 0`) is a wall candidate crossed at a parameter
`s`: `hitInfo.dist` is the `f32` product `s * maxDist` and `hitInfo.hitPos` is the point
`origin + dir * dist`, computed in `f32`, so `dist` counts the travel in lengths of the
direction. A floor or ceiling hit (`hitWallId = -1`) has for `hitInfo.dist` the `sqrtf` of
the squared distance `dot(offset, offset)` from `ray.origin` to `hitInfo.hitPos`, computed in
`f32`. -/
theorem traceRay_dist_is_distance (env : TraceEnv) (ray : Ray) (level : EditorLevel)
    (hitInfo hi : RayHitInfo)
    (h : traceRay env ray level hitInfo = some (true, hi)) :
    (0 ≤ hi.hitWallId ∨ hi.hitWallId = -1)
      ∧ (0 ≤ hi.hitWallId →
          ∃ sector ∈ level.sectors, ∃ (j : Nat) (wall : EditorWall) (s : ℚ),
            hi.hitSectorId = sector.id
            ∧ sector.walls[j]? = some wall ∧ hi.hitWallId = (j : Int)
            ∧ wallCandidate env ray level sector wall = some s
            ∧ hi.dist = fmul s ray.maxDist ∧ hi.hitPos = ray.pointAt hi.dist)
      ∧ (hi.hitWallId = -1 → hi.dist = env.sqrtf (ray.distSq hi.hitPos)) := by
  have hne : level.sectors ≠ [] := by
    intro he
    unfold traceRay at h
    simp [he] at h
  rcases traceRay_written env ray level hitInfo hi true hne h with ⟨hb, -⟩ |
    ⟨sector, hs, st, ⟨-, hr⟩, hhi⟩
  · exact absurd hb (by decide)
  · rw [hhi]
    rcases hr with ⟨j, wall, s, hj, hc, -, e⟩ | ⟨hp, hf, e⟩ | ⟨hp, hf, e⟩
    · rw [e]
      refine ⟨Or.inl (by simp only [wallRecord]; omega),
        fun _ => ⟨sector, hs, j, wall, s, rfl, hj, rfl, hc, rfl, rfl⟩, fun h1 => ?_⟩
      simp only [wallRecord] at h1
      omega
    · rw [e]
      refine ⟨Or.inr rfl, fun h1 => ?_, fun _ => rfl⟩
      simp only [planeRecord] at h1
      omega
    · rw [e]
      refine ⟨Or.inr rfl, fun h1 => ?_, fun _ => rfl⟩
      simp only [planeRecord] at h1
      omega

/-- Witness of C12 (as amended): the ray of direction (1, 0, 0) from the middle of `exRoom`
hits wall 2 at (4, 4, 2), at the parameter 1/4 of its length 8, with `dist = 2`; the ray
from the same point straight down hits the floor at (2, 0, 2), with `dist = 4`. -/
theorem traceRay_dist_is_distance_witness :
    traceRay specEnv (exRay ⟨2, 4, 2⟩ ⟨1, 0, 0⟩ 8) (exLevelOf [exRoom 0 (-1) 0 (-1) 0])
        exStaleHit = some (true, ⟨0, 2, HitPart.HP_MID, ⟨4, 4, 2⟩, 2⟩)
    ∧ (∃ sector ∈ (exLevelOf [exRoom 0 (-1) 0 (-1) 0]).sectors,
        ∃ (j : Nat) (wall : EditorWall) (s : ℚ),
          (⟨0, 2, HitPart.HP_MID, ⟨4, 4, 2⟩, 2⟩ : RayHitInfo).hitSectorId = sector.id
          ∧ sector.walls[j]? = some wall
          ∧ (⟨0, 2, HitPart.HP_MID, ⟨4, 4, 2⟩, 2⟩ : RayHitInfo).hitWallId = (j : Int)
          ∧ wallCandidate specEnv (exRay ⟨2, 4, 2⟩ ⟨1, 0, 0⟩ 8)
              (exLevelOf [exRoom 0 (-1) 0 (-1) 0]) sector wall = some s
          ∧ (⟨0, 2, HitPart.HP_MID, ⟨4, 4, 2⟩, 2⟩ : RayHitInfo).dist
              = fmul s (exRay ⟨2, 4, 2⟩ ⟨1, 0, 0⟩ 8).maxDist
          ∧ (⟨0, 2, HitPart.HP_MID, ⟨4, 4, 2⟩, 2⟩ : RayHitInfo).hitPos
              = (exRay ⟨2, 4, 2⟩ ⟨1, 0, 0⟩ 8).pointAt
                  (⟨0, 2, HitPart.HP_MID, ⟨4, 4, 2⟩, 2⟩ : RayHitInfo).dist)
    ∧ traceRay specEnv (exRay ⟨2, 4, 2⟩ ⟨0, -1, 0⟩ 8) (exLevelOf [exRoom 0 (-1) 0 (-1) 0])
        exStaleHit = some (true, ⟨0, -1, HitPart.HP_FLOOR, ⟨2, 0, 2⟩, 4⟩)
    ∧ (⟨0, -1, HitPart.HP_FLOOR, ⟨2, 0, 2⟩, 4⟩ : RayHitInfo).dist
        = specEnv.sqrtf ((exRay ⟨2, 4, 2⟩ ⟨0, -1, 0⟩ 8).distSq
            (⟨0, -1, HitPart.HP_FLOOR, ⟨2, 0, 2⟩, 4⟩ : RayHitInfo).hitPos) :=
  ⟨by decide!,
    (traceRay_dist_is_distance specEnv (exRay ⟨2, 4, 2⟩ ⟨1, 0, 0⟩ 8)
      (exLevelOf [exRoom 0 (-1) 0 (-1) 0]) exStaleHit ⟨0, 2, HitPart.HP_MID, ⟨4, 4, 2⟩, 2⟩
      (by decide!)).2.1 (by decide),
    by decide!,
    (traceRay_dist_is_distance specEnv (exRay ⟨2, 4, 2⟩ ⟨0, -1, 0⟩ 8)
      (exLevelOf [exRoom 0 (-1) 0 (-1) 0]) exStaleHit
      ⟨0, -1, HitPart.HP_FLOOR, ⟨2, 0, 2⟩, 4⟩ (by decide!)).2.2 rfl⟩

/-- Counterexample to C12 as stated: with the direction (2, 0, 0), of length 2, the ray from
the middle of `exRoom` hits wall 2 at (4, 4, 2), at distance 2 from the origin, and
`traceRay` reports `dist = 1`, the product `s * maxDist` of the hit. Every sum and product
of this trace is exact in `f32`. -/
theorem traceRay_dist_not_distance :
    traceRay specEnv (exRay ⟨2, 4, 2⟩ ⟨2, 0, 0⟩ 8) (exLevelOf [exRoom 0 (-1) 0 (-1) 0]) noHit
      = some (true, ⟨0, 2, HitPart.HP_MID, ⟨4, 4, 2⟩, 1⟩)
    ∧ (exRay ⟨2, 4, 2⟩ ⟨2, 0, 0⟩ 8).distSq ⟨4, 4, 2⟩ = 2 * 2
    ∧ (1 : ℚ) * 1 ≠ (exRay ⟨2, 4, 2⟩ ⟨2, 0, 0⟩ 8).distSq ⟨4, 4, 2⟩ := by
  decide!

/-! ## The polygon of a sector -/

theorem sectorToPolygon_poly (env : LoaderEnv) (sector : EditorSector) :
    (sectorToPolygon env sector).poly = env.computeTriangulation (ringPolygon sector) := rfl

theorem sectorToPolygon_vtx (env : LoaderEnv) (sector : EditorSector) :
    (sectorToPolygon env sector).vtx = sector.vtx := rfl

theorem sectorToPolygon_walls (env : LoaderEnv) (sector : EditorSector) :
    (sectorToPolygon env sector).walls = sector.walls := rfl

/-- C13: for every sector S, after `sectorToPolygon(S)` the vertex ring of the polygon
equals the vertex list of S element for element, the edge list of the polygon has exactly
as many entries as S has walls, and edge `i` is the pair `(walls[i].idx[0],
walls[i].idx[1])`; the vertex and wall lists of S are as before. Of
`computeTriangulation` the proof uses only that it leaves ring and edges as they are
(`triangulationKeepsRing`). -/
theorem sectorToPolygon_ring_and_edges (env : LoaderEnv) (sector : EditorSector)
    (hkeep : triangulationKeepsRing env) :
    (sectorToPolygon env sector).poly.vtx = sector.vtx
      ∧ (sectorToPolygon env sector).poly.edge.length = sector.walls.length
      ∧ (∀ (i : Nat) (wall : EditorWall), sector.walls[i]? = some wall →
          (sectorToPolygon env sector).poly.edge[i]? = some (wall.idx0, wall.idx1))
      ∧ (sectorToPolygon env sector).vtx = sector.vtx
      ∧ (sectorToPolygon env sector).walls = sector.walls := by
  obtain ⟨h1, h2, -, -⟩ := hkeep (ringPolygon sector)
  rw [sectorToPolygon_poly, h1, h2]
  refine ⟨rfl, by simp [ringPolygon], ?_, rfl, rfl⟩
  intro i wall hi
  simp [ringPolygon, List.getElem?_map, hi]

/-- Witness of C13: `exRoom` with a triangulation that adds no triangles. -/
theorem sectorToPolygon_ring_and_edges_witness :
    triangulationKeepsRing exLoaderEnv
    ∧ (sectorToPolygon exLoaderEnv (exRoom 0 (-1) 0 (-1) 0)).poly.vtx
        = (exRoom 0 (-1) 0 (-1) 0).vtx
    ∧ (sectorToPolygon exLoaderEnv (exRoom 0 (-1) 0 (-1) 0)).poly.edge.length
        = (exRoom 0 (-1) 0 (-1) 0).walls.length :=
  ⟨fun _ => ⟨rfl, rfl, rfl, rfl⟩,
    (sectorToPolygon_ring_and_edges exLoaderEnv (exRoom 0 (-1) 0 (-1) 0)
      (fun _ => ⟨rfl, rfl, rfl, rfl⟩)).1,
    (sectorToPolygon_ring_and_edges exLoaderEnv (exRoom 0 (-1) 0 (-1) 0)
      (fun _ => ⟨rfl, rfl, rfl, rfl⟩)).2.1⟩

/-- What `sectorToPolygon` itself preserves: for a sector both of whose wall vertex indices
lie in `[0, number of vertices)` for every wall, every edge index pair of the polygon is a
valid index into the vertex ring of the polygon. Whether the indices of a loaded sector are
in range is the matter of the loader. -/
theorem sectorToPolygon_edges_in_range (env : LoaderEnv) (sector : EditorSector)
    (hkeep : triangulationKeepsRing env) (hin : wallIndicesInRange sector) :
    edgesInRange (sectorToPolygon env sector).poly := by
  obtain ⟨h1, h2, -, -⟩ := hkeep (ringPolygon sector)
  intro e he
  rw [sectorToPolygon_poly, h2] at he
  rw [sectorToPolygon_poly, h1]
  simp only [ringPolygon, List.mem_map] at he
  obtain ⟨wall, hw, rfl⟩ := he
  exact hin wall hw

/-- The sector `exRoom`, whose four walls join its four vertices, has its edges in range. -/
theorem sectorToPolygon_edges_in_range_witness :
    wallIndicesInRange (exRoom 0 (-1) 0 (-1) 0)
    ∧ edgesInRange (sectorToPolygon exLoaderEnv (exRoom 0 (-1) 0 (-1) 0)).poly :=
  ⟨by decide,
    sectorToPolygon_edges_in_range exLoaderEnv (exRoom 0 (-1) 0 (-1) 0)
      (fun _ => ⟨rfl, rfl, rfl, rfl⟩) (by decide)⟩

/-- C14 (divergence): the wall loop of the loader (lines 306-338) stores the LEFT and RIGHT
numbers of a wall line without comparing them with the vertex count. The level file whose
wall line names the vertices 5 and 7, in a sector of one vertex, loads; the polygon
`sectorToPolygon` derives for the loaded sector has the edge (5, 7) over a vertex ring of
one vertex; and `traceRay` on the loaded level reads the vertex list of the sector at
position 5, outside the list. -/
theorem loadLevelFromAsset_wall_index_out_of_range :
    (loadLevelFromAsset exLoaderEnv exLevel
        (exFileOf 0 0 (-8) (some 0) (exWallLine 5 7 0))).level?.map
        (fun level => level.sectors.map fun sector => (sector.poly.edge, sector.poly.vtx))
      = some [([(5, 7)], [⟨3, 5⟩])]
    ∧ ¬ edgesInRange
        { Polygon.zero with
          edge := [(5, 7)]
          vtx := [⟨3, 5⟩] }
    ∧ (loadLevelFromAsset exLoaderEnv exLevel
        (exFileOf 0 0 (-8) (some 0) (exWallLine 5 7 0))).level?.map
        (fun level => traceRay specEnv (exRay ⟨3, 4, 5⟩ ⟨1, 0, 0⟩ 10) level noHit)
      = some none := by
  decide!

/-- C15: the polygon is regenerable from the vertex and wall lists alone. For two sectors
with equal vertex lists and equal wall lists, whatever their polygons held before,
`sectorToPolygon` leaves both with the same polygon, the triangulation of the polygon of
their vertices, wall index pairs and vertex bounds with no triangles; and applying
`sectorToPolygon` twice gives the same sector as applying it once. -/
theorem sectorToPolygon_regenerable (env : LoaderEnv) (sector1 sector2 : EditorSector)
    (hvtx : sector1.vtx = sector2.vtx) (hwalls : sector1.walls = sector2.walls) :
    (sectorToPolygon env sector1).poly = (sectorToPolygon env sector2).poly
      ∧ (sectorToPolygon env sector1).poly = env.computeTriangulation (ringPolygon sector1)
      ∧ ringPolygon sector1 = ringPolygon sector2
      ∧ sectorToPolygon env (sectorToPolygon env sector1) = sectorToPolygon env sector1 := by
  have h : ringPolygon sector1 = ringPolygon sector2 := by
    simp only [ringPolygon, hvtx, hwalls]
  refine ⟨?_, rfl, h, rfl⟩
  rw [sectorToPolygon_poly, sectorToPolygon_poly, h]

/-- Witness of C15: `exRoom` with its own polygon and `exRoom` with a stale polygon. -/
theorem sectorToPolygon_regenerable_witness :
    (exRoom 0 (-1) 0 (-1) 0).poly ≠ ({ exRoom 0 (-1) 0 (-1) 0 with poly := exStalePolygon }).poly
    ∧ (sectorToPolygon exLoaderEnv (exRoom 0 (-1) 0 (-1) 0)).poly
      = (sectorToPolygon exLoaderEnv { exRoom 0 (-1) 0 (-1) 0 with poly := exStalePolygon }).poly :=
  ⟨by decide,
    (sectorToPolygon_regenerable exLoaderEnv (exRoom 0 (-1) 0 (-1) 0)
      { exRoom 0 (-1) 0 (-1) 0 with poly := exStalePolygon } rfl rfl).1⟩

/-! ## Level loading: lines and conversions -/

theorem readLine_snd (buf : List Line) : (readLine buf).2 = buf.drop 1 := by
  cases buf <;> rfl

theorem readLine_fst (buf : List Line) : (readLine buf).1 = lineAt buf 0 := by
  simp [lineAt]

theorem lineAt_drop (buf : List Line) (a k : Nat) :
    lineAt (buf.drop a) k = lineAt buf (a + k) := by
  simp [lineAt, List.drop_drop, Nat.add_comm]

theorem sscanf_none_line (key : Key) (fmt : List Conv) :
    sscanf ⟨Key.NONE, []⟩ key fmt = [] := by
  unfold sscanf
  split
  · cases fmt <;> rfl
  · rfl

/-- A line on which a pattern converts a field is a line of the buffer. -/
theorem lineAt_mem (buf : List Line) (k : Nat) (key : Key) (fmt : List Conv)
    (h : sscanf (lineAt buf k) key fmt ≠ []) : lineAt buf k ∈ buf := by
  unfold lineAt at h ⊢
  cases hd : buf.drop k with
  | nil =>
    rw [hd] at h
    exact absurd (sscanf_none_line key fmt) h
  | cons line rest =>
    have : line ∈ buf.drop k := by rw [hd]; exact List.mem_cons_self _ _
    exact (List.drop_suffix k buf).mem this

theorem sscanf_f_of_length (line : Line) (key : Key)
    (h : (sscanf line key [Conv.f]).length = 1) :
    ∃ v, sscanf line key [Conv.f] = [Arg.flt v] := by
  unfold sscanf at h ⊢
  split at h
  · rename_i hk
    rw [if_pos hk]
    cases ha : line.args with
    | nil => rw [ha] at h; simp [convert] at h
    | cons a rest =>
      rw [ha] at h
      cases a <;> simp [convert, Arg.accepts] at h ⊢
  · simp at h

theorem sscanf_ddd_of_length (line : Line) (key : Key)
    (h : (sscanf line key [Conv.d, Conv.d, Conv.d]).length = 3) :
    ∃ a b c, sscanf line key [Conv.d, Conv.d, Conv.d] = [Arg.int a, Arg.int b, Arg.int c] := by
  unfold sscanf at h ⊢
  split at h
  · rename_i hk
    rw [if_pos hk]
    cases ha : line.args with
    | nil => rw [ha] at h; simp [convert] at h
    | cons a r1 =>
      cases r1 with
      | nil => rw [ha] at h; cases a <;> simp [convert, Arg.accepts] at h
      | cons b r2 =>
        cases r2 with
        | nil => rw [ha] at h; cases a <;> cases b <;> simp [convert, Arg.accepts] at h
        | cons c r3 =>
          rw [ha] at h
          cases a <;> cases b <;> cases c <;> simp [convert, Arg.accepts] at h ⊢
  · simp at h

theorem negateHeight_eq (h : ℚ) : negateHeight h = -h := by
  unfold negateHeight
  split
  · rfl
  · rename_i h0
    have : h = 0 := not_not.mp h0
    rw [this]
    simp

/-! ## Level loading: the records of a sector -/

theorem sameHeader_refl (a : EditorSector) : sameHeader a a :=
  ⟨rfl, rfl, rfl, rfl, rfl, rfl, rfl, rfl, rfl, rfl, rfl, rfl⟩

theorem sameHeader_trans {a b c : EditorSector} (h1 : sameHeader a b) (h2 : sameHeader b c) :
    sameHeader a c := by
  obtain ⟨a1, a2, a3, a4, a5, a6, a7, a8, a9, a10, a11, a12⟩ := h1
  obtain ⟨b1, b2, b3, b4, b5, b6, b7, b8, b9, b10, b11, b12⟩ := h2
  exact ⟨a1.trans b1, a2.trans b2, a3.trans b3, a4.trans b4, a5.trans b5, a6.trans b6,
    a7.trans b7, a8.trans b8, a9.trans b9, a10.trans b10, a11.trans b11, a12.trans b12⟩

/-- The vertex loop leaves the header and the walls of the sector as they are, and its
cursor is further down the buffer. -/
theorem readVertices_spec : ∀ (n : Nat) (buf : List Line) (sector : EditorSector),
    sameHeader (readVertices n buf sector).1 sector
      ∧ (readVertices n buf sector).1.walls = sector.walls
      ∧ (readVertices n buf sector).2 <:+ buf := by
  intro n
  induction n with
  | zero =>
    intro buf sector
    exact ⟨sameHeader_refl _, rfl, List.suffix_refl _⟩
  | succ n ih =>
    intro buf sector
    simp only [readVertices]
    obtain ⟨h1, h2, h3⟩ := ih (readLine buf).2
      { sector with
        vtx := sector.vtx ++ [⟨argFlt (sscanf (readLine buf).1 Key.VERTEX [Conv.f, Conv.f]) 0 0,
          argFlt (sscanf (readLine buf).1 Key.VERTEX [Conv.f, Conv.f]) 1 0⟩]
        bounds0 := ⟨min sector.bounds0.x
            (argFlt (sscanf (readLine buf).1 Key.VERTEX [Conv.f, Conv.f]) 0 0),
          sector.bounds0.y,
          min sector.bounds0.z (argFlt (sscanf (readLine buf).1 Key.VERTEX [Conv.f, Conv.f]) 1 0)⟩
        bounds1 := ⟨max sector.bounds1.x
            (argFlt (sscanf (readLine buf).1 Key.VERTEX [Conv.f, Conv.f]) 0 0),
          sector.bounds1.y,
          max sector.bounds1.z
            (argFlt (sscanf (readLine buf).1 Key.VERTEX [Conv.f, Conv.f]) 1 0)⟩ }
    refine ⟨sameHeader_trans h1 (sameHeader_refl _), h2, ?_⟩
    exact h3.trans (by rw [readLine_snd]; exact List.drop_suffix 1 buf)

/-- The wall loop, when it ends well, leaves the header, the vertices and the bounds of the
sector as they are, and each of the walls it passes is read from a wall line of the
buffer. -/
theorem readWalls_ok (textureList : List AssetHandle) :
    ∀ (n w : Nat) (buf : List Line) (sector sector1 : EditorSector) (buf1 : List Line),
      readWalls textureList n w buf sector = SectorResult.ok sector1 buf1 →
      w + n ≤ sector.walls.length →
      sameHeader sector1 sector ∧ sector1.vtx = sector.vtx
        ∧ sector1.bounds0 = sector.bounds0 ∧ sector1.bounds1 = sector.bounds1
        ∧ buf1 <:+ buf ∧ sector1.walls.length = sector.walls.length
        ∧ (∀ j, j < w → sector1.walls[j]? = sector.walls[j]?)
        ∧ (∀ k, k < n → ∃ line ∈ buf, ∃ wall, wallRead textureList line wall
            ∧ sector1.walls[w + k]? = some wall) := by
  intro n
  induction n with
  | zero =>
    intro w buf sector sector1 buf1 h _
    simp only [readWalls] at h
    injection h with e1 e2
    subst e1
    subst e2
    exact ⟨sameHeader_refl _, rfl, rfl, rfl, List.suffix_refl _, rfl, fun _ _ => rfl,
      fun k hk => absurd hk (by omega)⟩
  | succ n ih =>
    intro w buf sector sector1 buf1 h hlen
    simp only [readWalls] at h
    split at h
    · exact absurd h (by simp)
    · rename_i h23
      split at h
      · exact absurd h (by simp)
      · rename_i wall hfin
        have hlen1 : w + 1 + n ≤ (sector.walls.set w wall).length := by
          rw [List.length_set]
          omega
        obtain ⟨h1, h2, h3, h4, h5, h6, h7, h8⟩ :=
          ih (w + 1) (readLine buf).2 { sector with walls := sector.walls.set w wall }
            sector1 buf1 h hlen1
        have hsuf : (readLine buf).2 <:+ buf := by
          rw [readLine_snd]
          exact List.drop_suffix 1 buf
        refine ⟨sameHeader_trans h1 (sameHeader_refl _), h2, h3, h4, h5.trans hsuf, ?_, ?_, ?_⟩
        · rw [h6]
          simp
        · intro j hj
          rw [h7 j (by omega)]
          simp only
          rw [List.getElem?_set_ne (by omega)]
        · intro k hk
          cases k with
          | zero =>
            have hne : sscanf (readLine buf).1 Key.WALL wallFmt ≠ [] := by
              intro he
              rw [he] at h23
              simp at h23
            rw [readLine_fst] at hne
            refine ⟨lineAt buf 0, lineAt_mem buf 0 _ _ hne, wall, ?_, ?_⟩
            · rw [← readLine_fst]
              exact ⟨not_lt.mp h23, hfin⟩
            · rw [Nat.add_zero, h7 w (by omega)]
              simp only
              rw [List.getElem?_set_self (by omega)]
          | succ k =>
            obtain ⟨line, hmem, wall1, hr, hget⟩ := h8 k (by omega)
            refine ⟨line, hsuf.mem hmem, wall1, hr, ?_⟩
            rw [← hget]
            congr 1
            omega

theorem loadSectorGeometry_ok (textureList : List AssetHandle) (line : Line) (buf : List Line)
    (sector sector1 : EditorSector) (buf1 : List Line)
    (h : loadSectorGeometry textureList line buf sector = SectorResult.ok sector1 buf1) :
    sameHeader sector1 sector ∧ buf1 <:+ buf ∧ wallsRead textureList buf sector1 := by
  unfold loadSectorGeometry at h
  split at h
  · rename_i vertexCount _
    split at h
    · exact absurd h (by simp)
    · simp only at h
      split at h
      · rename_i wallCount _
        split at h
        · exact absurd h (by simp)
        · generalize hr : readVertices vertexCount.toNat buf
            { sector with
              bounds0 := ⟨FLT_MAX, min sector.floorHeight sector.ceilHeight, FLT_MAX⟩
              bounds1 := ⟨-FLT_MAX, max sector.floorHeight sector.ceilHeight, -FLT_MAX⟩ } = r at h
          have hv := readVertices_spec vertexCount.toNat buf
            { sector with
              bounds0 := ⟨FLT_MAX, min sector.floorHeight sector.ceilHeight, FLT_MAX⟩
              bounds1 := ⟨-FLT_MAX, max sector.floorHeight sector.ceilHeight, -FLT_MAX⟩ }
          rw [hr] at hv
          obtain ⟨hv1, -, hv3⟩ := hv
          obtain ⟨h1, -, -, -, h5, h6, -, h8⟩ :=
            readWalls_ok textureList wallCount.toNat 0 (readLine r.2).2
              { r.1 with walls := List.replicate wallCount.toNat EditorWall.zero }
              sector1 buf1 h (by simp)
          have hsuf : (readLine r.2).2 <:+ buf := by
            rw [readLine_snd]
            exact (List.drop_suffix 1 r.2).trans hv3
          refine ⟨sameHeader_trans h1 (sameHeader_trans (sameHeader_refl _) hv1), h5.trans hsuf, ?_⟩
          intro wall hw
          obtain ⟨j, hj⟩ := List.mem_iff_getElem?.mp hw
          have hjl : j < wallCount.toNat := by
            have := lt_of_getElem?_eq_some hj
            rw [h6] at this
            simpa using this
          obtain ⟨line1, hmem, wall1, hread, hget⟩ := h8 j hjl
          rw [Nat.zero_add, hj] at hget
          rw [Option.some.inj hget]
          exact ⟨line1, hsuf.mem hmem, hread⟩
      · exact absurd h (by simp)
  · exact absurd h (by simp)

theorem sscanf_f_length_le (line : Line) (key : Key) :
    (sscanf line key [Conv.f]).length ≤ 1 := by
  unfold sscanf
  split
  · cases line.args with
    | nil => simp [convert]
    | cons x xs =>
      simp only [convert]
      split <;> simp [convert]
  · simp

theorem argFlt_of_length_ne (line : Line) (key : Key) (cur : ℚ)
    (h : (sscanf line key [Conv.f]).length ≠ 1) :
    argFlt (sscanf line key [Conv.f]) 0 cur = cur := by
  have hle := sscanf_f_length_le line key
  have h0 : sscanf line key [Conv.f] = [] := by
    cases hl : sscanf line key [Conv.f] with
    | nil => rfl
    | cons a rest =>
      rw [hl] at hle h
      simp only [List.length_cons] at hle h
      omega
  rw [h0]
  rfl

theorem loadSectorGeometry_flags (textureList : List AssetHandle) (line flagsLine : Line)
    (bufg buf : List Line) (sector sectorg sector1 : EditorSector) (buf1 : List Line)
    (hsuf : bufg <:+ buf)
    (h : loadSectorGeometry textureList line bufg sectorg = SectorResult.ok sector1 buf1)
    (hfl : (sscanf flagsLine Key.FLAGS [Conv.d, Conv.d, Conv.d]).length = 3)
    (g1 : sectorg.id = sector.id)
    (g2 : sectorg.floorHeight = negateHeight sector.floorHeight)
    (g3 : sectorg.ceilHeight = negateHeight sector.ceilHeight)
    (g5 : sectorg.flags0
      = argInt (sscanf flagsLine Key.FLAGS [Conv.d, Conv.d, Conv.d]) 0 sector.flags0)
    (g6 : sectorg.flags1
      = argInt (sscanf flagsLine Key.FLAGS [Conv.d, Conv.d, Conv.d]) 1 sector.flags1)
    (g7 : sectorg.flags2
      = argInt (sscanf flagsLine Key.FLAGS [Conv.d, Conv.d, Conv.d]) 2 sector.flags2) :
    sector1.id = sector.id ∧ sector1.floorHeight = -sector.floorHeight
      ∧ sector1.ceilHeight = -sector.ceilHeight ∧ sector1.secHeight = sectorg.secHeight
      ∧ flagsRead flagsLine sector1 ∧ buf1 <:+ buf ∧ wallsRead textureList buf sector1 := by
  obtain ⟨hh, hb, hwr⟩ := loadSectorGeometry_ok textureList line bufg sectorg sector1 buf1 h
  obtain ⟨a1, -, -, -, -, a6, a7, a8, a9, a10, a11, -⟩ := hh
  refine ⟨a1.trans g1, by rw [a6, g2, negateHeight_eq], by rw [a7, g3, negateHeight_eq], a8, ?_,
    hb.trans hsuf, fun wall hw => ?_⟩
  · obtain ⟨f0, f1, f2, hf⟩ := sscanf_ddd_of_length _ _ hfl
    unfold flagsRead
    rw [a9, a10, a11, g5, g6, g7, hf]
    rfl
  · obtain ⟨line1, hm, hr⟩ := hwr wall hw
    exact ⟨line1, hsuf.mem hm, hr⟩

theorem loadSectorFlags_ok (textureList : List AssetHandle) (buf : List Line)
    (sector sector1 : EditorSector) (buf1 : List Line) (hsec : sector.secHeight = 0)
    (h : loadSectorFlags textureList buf sector = SectorResult.ok sector1 buf1) :
    sector1.id = sector.id ∧ sector1.floorHeight = -sector.floorHeight
      ∧ sector1.ceilHeight = -sector.ceilHeight ∧ secondAltitudeRead buf 0 sector1
      ∧ buf1 <:+ buf ∧ wallsRead textureList buf sector1 := by
  unfold loadSectorFlags at h
  simp only at h
  by_cases hs : (sscanf (readLine buf).1 Key.SECOND_ALTITUDE [Conv.f]).length = 1
  · simp only [if_pos hs] at h
    by_cases hfl : (sscanf (readLine (readLine buf).2).1 Key.FLAGS
        [Conv.d, Conv.d, Conv.d]).length = 3
    · rw [if_neg (not_not.mpr hfl)] at h
      have key : ∀ line bufg sectorg, bufg <:+ buf →
          loadSectorGeometry textureList line bufg sectorg = SectorResult.ok sector1 buf1 →
          sectorg.id = sector.id → sectorg.floorHeight = negateHeight sector.floorHeight →
          sectorg.ceilHeight = negateHeight sector.ceilHeight →
          sectorg.secHeight = negateHeight
            (argFlt (sscanf (readLine buf).1 Key.SECOND_ALTITUDE [Conv.f]) 0 sector.secHeight) →
          sectorg.flags0 = argInt (sscanf (readLine (readLine buf).2).1 Key.FLAGS
            [Conv.d, Conv.d, Conv.d]) 0 sector.flags0 →
          sectorg.flags1 = argInt (sscanf (readLine (readLine buf).2).1 Key.FLAGS
            [Conv.d, Conv.d, Conv.d]) 1 sector.flags1 →
          sectorg.flags2 = argInt (sscanf (readLine (readLine buf).2).1 Key.FLAGS
            [Conv.d, Conv.d, Conv.d]) 2 sector.flags2 →
          sector1.id = sector.id ∧ sector1.floorHeight = -sector.floorHeight
            ∧ sector1.ceilHeight = -sector.ceilHeight ∧ secondAltitudeRead buf 0 sector1
            ∧ buf1 <:+ buf ∧ wallsRead textureList buf sector1 := by
        intro line bufg sectorg hsuf hg g1 g2 g3 g4 g5 g6 g7
        obtain ⟨r1, r2, r3, r4, r5, r6, r7⟩ := loadSectorGeometry_flags textureList line _
          bufg buf sector sectorg sector1 buf1 hsuf hg hfl g1 g2 g3 g5 g6 g7
        refine ⟨r1, r2, r3, Or.inl ?_, r6, r7⟩
        obtain ⟨v, hv⟩ := sscanf_f_of_length _ _ hs
        refine ⟨v, by rw [← readLine_fst]; exact hv, ?_, ?_⟩
        · rw [r4, g4, hv, negateHeight_eq]
          rfl
        · have : lineAt buf (0 + 1) = (readLine (readLine buf).2).1 := by
            rw [readLine_snd, readLine_fst, lineAt_drop]
          rw [this]
          exact r5
      split at h
      · refine key _ _ _ ?_ h rfl rfl rfl rfl rfl rfl rfl
        simp only [readLine_snd, List.drop_drop]
        exact List.drop_suffix _ buf
      · refine key _ _ _ ?_ h rfl rfl rfl rfl rfl rfl rfl
        simp only [readLine_snd, List.drop_drop]
        exact List.drop_suffix _ buf
    · rw [if_pos hfl] at h
      exact absurd h (by simp)
  · simp only [if_neg hs] at h
    by_cases hfl : (sscanf (readLine buf).1 Key.FLAGS [Conv.d, Conv.d, Conv.d]).length = 3
    · rw [if_neg (not_not.mpr hfl)] at h
      have key : ∀ line bufg sectorg, bufg <:+ buf →
          loadSectorGeometry textureList line bufg sectorg = SectorResult.ok sector1 buf1 →
          sectorg.id = sector.id → sectorg.floorHeight = negateHeight sector.floorHeight →
          sectorg.ceilHeight = negateHeight sector.ceilHeight →
          sectorg.secHeight = negateHeight
            (argFlt (sscanf (readLine buf).1 Key.SECOND_ALTITUDE [Conv.f]) 0 sector.secHeight) →
          sectorg.flags0 = argInt (sscanf (readLine buf).1 Key.FLAGS
            [Conv.d, Conv.d, Conv.d]) 0 sector.flags0 →
          sectorg.flags1 = argInt (sscanf (readLine buf).1 Key.FLAGS
            [Conv.d, Conv.d, Conv.d]) 1 sector.flags1 →
          sectorg.flags2 = argInt (sscanf (readLine buf).1 Key.FLAGS
            [Conv.d, Conv.d, Conv.d]) 2 sector.flags2 →
          sector1.id = sector.id ∧ sector1.floorHeight = -sector.floorHeight
            ∧ sector1.ceilHeight = -sector.ceilHeight ∧ secondAltitudeRead buf 0 sector1
            ∧ buf1 <:+ buf ∧ wallsRead textureList buf sector1 := by
        intro line bufg sectorg hsuf hg g1 g2 g3 g4 g5 g6 g7
        obtain ⟨r1, r2, r3, r4, r5, r6, r7⟩ := loadSectorGeometry_flags textureList line _
          bufg buf sector sectorg sector1 buf1 hsuf hg hfl g1 g2 g3 g5 g6 g7
        refine ⟨r1, r2, r3, Or.inr ?_, r6, r7⟩
        refine ⟨by rw [← readLine_fst]; exact hs, ?_, ?_⟩
        · rw [r4, g4, argFlt_of_length_ne _ _ _ hs, hsec, negateHeight_eq]
          simp
        · rw [← readLine_fst]
          exact r5
      split at h
      · refine key _ _ _ ?_ h rfl rfl rfl rfl rfl rfl rfl
        simp only [readLine_snd, List.drop_drop]
        exact List.drop_suffix _ buf
      · refine key _ _ _ ?_ h rfl rfl rfl rfl rfl rfl rfl
        simp only [readLine_snd, List.drop_drop]
        exact List.drop_suffix _ buf
    · rw [if_pos hfl] at h
      exact absurd h (by simp)

theorem secondAltitudeRead_drop (buf : List Line) (a k : Nat) (sector : EditorSector)
    (h : secondAltitudeRead (buf.drop a) k sector) : secondAltitudeRead buf (a + k) sector := by
  unfold secondAltitudeRead at h ⊢
  simp only [lineAt_drop] at h
  rw [Nat.add_assoc]
  exact h

theorem wallsRead_of_suffix (textureList : List AssetHandle) (buf1 buf : List Line)
    (sector : EditorSector) (hsuf : buf1 <:+ buf) (h : wallsRead textureList buf1 sector) :
    wallsRead textureList buf sector := by
  intro wall hw
  obtain ⟨line, hm, hr⟩ := h wall hw
  exact ⟨line, hsuf.mem hm, hr⟩

theorem loadSectorCeiling_ok (textureList : List AssetHandle) (buf : List Line)
    (sector sector1 : EditorSector) (buf1 : List Line) (hsec : sector.secHeight = 0)
    (h : loadSectorCeiling textureList buf sector = SectorResult.ok sector1 buf1) :
    sector1.id = sector.id ∧ sector1.floorHeight = -sector.floorHeight
      ∧ (∃ v, sscanf (lineAt buf 1) Key.CEILING_ALTITUDE [Conv.f] = [Arg.flt v]
          ∧ sector1.ceilHeight = -v)
      ∧ secondAltitudeRead buf 2 sector1 ∧ buf1 <:+ buf
      ∧ wallsRead textureList buf sector1 := by
  unfold loadSectorCeiling at h
  simp only at h
  split at h
  · exact absurd h (by simp)
  · split at h
    · rename_i ceilHeight hc
      split at h
      · exact absurd h (by simp)
      · obtain ⟨r1, r2, r3, r4, r5, r6⟩ := loadSectorFlags_ok textureList _ _ sector1 buf1 (by exact hsec) h
        have hsuf : (readLine (readLine buf).2).2 <:+ buf := by
          simp only [readLine_snd, List.drop_drop]
          exact List.drop_suffix _ buf
        refine ⟨r1, r2, ⟨ceilHeight, ?_, r3⟩, ?_, r5.trans hsuf,
          wallsRead_of_suffix textureList _ buf sector1 hsuf r6⟩
        · rw [← hc, readLine_snd, readLine_fst, lineAt_drop]
        · have := secondAltitudeRead_drop buf 2 0 sector1
            (by simpa only [readLine_snd, List.drop_drop] using r4)
          exact this
    · exact absurd h (by simp)

theorem loadSectorFloor_ok (textureList : List AssetHandle) (buf : List Line)
    (sector sector1 : EditorSector) (buf1 : List Line) (hsec : sector.secHeight = 0)
    (h : loadSectorFloor textureList buf sector = SectorResult.ok sector1 buf1) :
    sector1.id = sector.id
      ∧ (∃ v, sscanf (lineAt buf 1) Key.FLOOR_ALTITUDE [Conv.f] = [Arg.flt v]
          ∧ sector1.floorHeight = -v)
      ∧ (∃ v, sscanf (lineAt buf 3) Key.CEILING_ALTITUDE [Conv.f] = [Arg.flt v]
          ∧ sector1.ceilHeight = -v)
      ∧ secondAltitudeRead buf 4 sector1 ∧ buf1 <:+ buf
      ∧ wallsRead textureList buf sector1 := by
  unfold loadSectorFloor at h
  simp only at h
  split at h
  · exact absurd h (by simp)
  · split at h
    · rename_i floorHeight hc
      split at h
      · exact absurd h (by simp)
      · obtain ⟨r1, r2, ⟨v, r3, r3b⟩, r4, r5, r6⟩ :=
          loadSectorCeiling_ok textureList _ _ sector1 buf1 (by exact hsec) h
        have hsuf : (readLine (readLine buf).2).2 <:+ buf := by
          simp only [readLine_snd, List.drop_drop]
          exact List.drop_suffix _ buf
        refine ⟨r1, ⟨floorHeight, ?_, r2⟩, ⟨v, ?_, r3b⟩, ?_, r5.trans hsuf,
          wallsRead_of_suffix textureList _ buf sector1 hsuf r6⟩
        · rw [← hc, readLine_snd, readLine_fst, lineAt_drop]
        · rw [← r3]
          simp only [readLine_snd, List.drop_drop, lineAt_drop]
        · have := secondAltitudeRead_drop buf 2 2 sector1
            (by simpa only [readLine_snd, List.drop_drop] using r4)
          exact this
    · exact absurd h (by simp)

theorem loadSector_ok (textureList : List AssetHandle) (buf : List Line)
    (sector1 : EditorSector) (buf1 : List Line)
    (h : loadSector textureList buf = SectorResult.ok sector1 buf1) :
    sscanf (lineAt buf 0) Key.SECTOR [Conv.d] = [Arg.int sector1.id]
      ∧ heightsRead buf sector1 ∧ buf1 <:+ buf ∧ wallsRead textureList buf sector1 := by
  unfold loadSector at h
  split at h
  · rename_i id hid
    simp only at h
    split at h
    · obtain ⟨r1, ⟨v, r2, r2b⟩, ⟨u, r3, r3b⟩, r4, r5, r6⟩ :=
        loadSectorFloor_ok textureList _ _ sector1 buf1 (by rfl) h
      have hsuf : (readLine (readLine (readLine buf).2).2).2 <:+ buf := by
        simp only [readLine_snd, List.drop_drop]
        exact List.drop_suffix _ buf
      refine ⟨?_, ⟨⟨v, ?_, r2b⟩, ⟨u, ?_, r3b⟩, ?_⟩, r5.trans hsuf,
        wallsRead_of_suffix textureList _ buf sector1 hsuf r6⟩
      · rw [← readLine_fst, hid, r1]
      · rw [← r2]
        simp only [readLine_snd, List.drop_drop, lineAt_drop]
      · rw [← r3]
        simp only [readLine_snd, List.drop_drop, lineAt_drop]
      · have := secondAltitudeRead_drop buf 3 4 sector1
          (by simpa only [readLine_snd, List.drop_drop] using r4)
        exact this
    · exact absurd h (by simp)
  · exact absurd h (by simp)

/-! ## Level loading: the sectors of a loaded level -/

theorem loadSectors_ok (textureList : List AssetHandle) :
    ∀ (n i : Nat) (buf : List Line) (sectors sectors1 : List EditorSector),
      loadSectors textureList n i buf sectors = SectorsResult.ok sectors1 →
      i + n ≤ sectors.length →
      sectors1.length = sectors.length
        ∧ (∀ j, j < i → sectors1[j]? = sectors[j]?)
        ∧ (∀ k, k < n → ∃ cursor sector next, cursor <:+ buf
            ∧ loadSector textureList cursor = SectorResult.ok sector next
            ∧ sectors1[i + k]? = some sector) := by
  intro n
  induction n with
  | zero =>
    intro i buf sectors sectors1 h _
    simp only [loadSectors] at h
    injection h with e1
    subst e1
    exact ⟨rfl, fun _ _ => rfl, fun k hk => absurd hk (by omega)⟩
  | succ n ih =>
    intro i buf sectors sectors1 h hlen
    simp only [loadSectors] at h
    split at h
    · exact absurd h (by simp)
    · exact absurd h (by simp)
    · rename_i sector buf1 hs
      have hlen1 : i + 1 + n ≤ (sectors.set i sector).length := by
        rw [List.length_set]
        omega
      obtain ⟨h1, h2, h3⟩ := ih (i + 1) buf1 (sectors.set i sector) sectors1 h hlen1
      have hsuf : buf1 <:+ buf := (loadSector_ok textureList buf sector buf1 hs).2.2.1
      refine ⟨by rw [h1, List.length_set], ?_, ?_⟩
      · intro j hj
        rw [h2 j (by omega), List.getElem?_set_ne (by omega)]
      · intro k hk
        cases k with
        | zero =>
          refine ⟨buf, sector, buf1, List.suffix_refl _, hs, ?_⟩
          rw [Nat.add_zero, h2 i (by omega), List.getElem?_set_self (by omega)]
        | succ k =>
          obtain ⟨cursor, sector2, next, hc, hl, hget⟩ := h3 k (by omega)
          refine ⟨cursor, sector2, next, hc.trans hsuf, hl, ?_⟩
          rw [← hget]
          congr 1
          omega

theorem readTextures_suffix (env : LoaderEnv) :
    ∀ (n : Nat) (line : Line) (buf : List Line) (list : List AssetHandle),
      (readTextures env n line buf list).2.2 <:+ buf := by
  intro n
  induction n with
  | zero =>
    intro line buf list
    exact List.suffix_refl _
  | succ n ih =>
    intro line buf list
    simp only [readTextures]
    refine (ih _ _ _).trans ?_
    rw [readLine_snd]
    exact List.drop_suffix 1 buf

theorem readExtraTextures_suffix (env : LoaderEnv) :
    ∀ (buf : List Line) (line : Line) (list : List AssetHandle) (readNext : Bool),
      (readExtraTextures env line buf list readNext).2.2.1 <:+ buf := by
  intro buf
  induction buf with
  | nil =>
    intro line list readNext
    simp only [readExtraTextures]
    split <;> exact List.suffix_refl _
  | cons next rest ih =>
    intro line list readNext
    simp only [readExtraTextures]
    split
    · exact (ih _ _ _).trans (List.suffix_cons next rest)
    · exact List.suffix_refl _

theorem loadTexturesAndSectors_loaded (env : LoaderEnv) (level level1 : EditorLevel)
    (line : Line) (buf : List Line) (textureList : List AssetHandle)
    (h : loadTexturesAndSectors env level line buf = LoadResult.loaded level1 textureList) :
    ∃ (sectors : List EditorSector),
      level1 = finishLevel env { level with sectors := sectors }
      ∧ ∀ sector ∈ sectors, ∃ cursor next, cursor <:+ buf
          ∧ loadSector textureList cursor = SectorResult.ok sector next := by
  unfold loadTexturesAndSectors at h
  split at h
  · split at h
    · exact absurd h (by simp)
    · simp only at h
      split at h
      · rename_i sectorCount _
        split at h
        · exact absurd h (by simp)
        · split at h
          · exact absurd h (by simp)
          · exact absurd h (by simp)
          · rename_i sectors hl
            injection h with e1 e2
            subst e2
            refine ⟨sectors, e1.symm, ?_⟩
            have hres : (resize level.sectors sectorCount.toNat EditorSector.zero).length
                = sectorCount.toNat := by
              unfold resize
              simp only [List.length_append, List.length_take, List.length_replicate]
              omega
            obtain ⟨h1, -, h3⟩ := loadSectors_ok _ _ _ _ _ _ hl (by rw [hres]; omega)
            intro sector hm
            obtain ⟨j, hj⟩ := List.mem_iff_getElem?.mp hm
            have hjl : j < sectorCount.toNat := by
              have := lt_of_getElem?_eq_some hj
              rw [h1, hres] at this
              exact this
            obtain ⟨cursor, sector2, next, hc, hld, hget⟩ := h3 j hjl
            rw [Nat.zero_add, hj] at hget
            rw [Option.some.inj hget]
            refine ⟨cursor, next, hc.trans ?_, hld⟩
            split
            · rw [readLine_snd]
              refine (List.drop_suffix 1 _).trans ((readExtraTextures_suffix env _ _ _ _).trans ?_)
              exact readTextures_suffix env _ _ _ _
            · exact (readExtraTextures_suffix env _ _ _ _).trans
                (readTextures_suffix env _ _ _ _)
      · exact absurd h (by simp)
  · exact absurd h (by simp)

theorem loadSky_loaded (env : LoaderEnv) (level level1 : EditorLevel) (buf : List Line)
    (textureList : List AssetHandle)
    (h : loadSky env level buf = LoadResult.loaded level1 textureList) :
    ∃ (sectors : List EditorSector) (parallax : Vec2f),
      level1 = finishLevel env { level with parallax := parallax, sectors := sectors }
      ∧ ∀ sector ∈ sectors, ∃ cursor next, cursor <:+ buf
          ∧ loadSector textureList cursor = SectorResult.ok sector next := by
  unfold loadSky at h
  simp only at h
  have hsuf : (if (sscanf (readLine buf).1 Key.MUSIC [Conv.s]).length = 1
      then (readLine (readLine buf).2).2 else (readLine buf).2) <:+ buf := by
    split
    · simp only [readLine_snd, List.drop_drop]
      exact List.drop_suffix _ buf
    · rw [readLine_snd]
      exact List.drop_suffix _ buf
  split at h
  · rename_i x z _
    obtain ⟨sectors, e, hs⟩ := loadTexturesAndSectors_loaded env _ level1 _ _ textureList h
    refine ⟨sectors, ⟨x, z⟩, e, fun sector hm => ?_⟩
    obtain ⟨cursor, next, hc, hl⟩ := hs sector hm
    refine ⟨cursor, next, hc.trans (((?_ : (readLine _).2 <:+ _)).trans hsuf), hl⟩
    rw [readLine_snd]
    exact List.drop_suffix _ _
  · obtain ⟨sectors, e, hs⟩ := loadTexturesAndSectors_loaded env _ level1 _ _ textureList h
    refine ⟨sectors, ⟨1024, 1024⟩, e, fun sector hm => ?_⟩
    obtain ⟨cursor, next, hc, hl⟩ := hs sector hm
    exact ⟨cursor, next, hc.trans hsuf, hl⟩

theorem loadLevelFromAsset_sectors (env : LoaderEnv) (level level1 : EditorLevel)
    (fileData : List Line) (textureList : List AssetHandle)
    (h : loadLevelFromAsset env level fileData = LoadResult.loaded level1 textureList) :
    ∀ sector ∈ level1.sectors, ∃ cursor next sector0, cursor <:+ fileData
      ∧ loadSector textureList cursor = SectorResult.ok sector0 next
      ∧ sector = sectorToPolygon env sector0 := by
  unfold loadLevelFromAsset at h
  split at h
  · exact absurd h (by simp)
  · split at h
    · exact absurd h (by simp)
    · simp only at h
      split at h
      · split at h
        · obtain ⟨sectors, parallax, e, hs⟩ := loadSky_loaded env _ level1 _ textureList h
          intro sector hm
          rw [e] at hm
          simp only [finishLevel, List.mem_map] at hm
          obtain ⟨sector0, hm0, e0⟩ := hm
          obtain ⟨cursor, next, hc, hl⟩ := hs sector0 hm0
          refine ⟨cursor, next, sector0, hc.trans ?_, hl, e0.symm⟩
          simp only [readLine_snd, List.drop_drop]
          exact List.drop_suffix _ fileData
        · exact absurd h (by simp)
      · exact absurd h (by simp)

/-! ## Level loading: the record each sector is read from -/

theorem loadSectors_cursor (textureList : List AssetHandle) :
    ∀ (n i : Nat) (buf : List Line) (sectors sectors1 : List EditorSector),
      loadSectors textureList n i buf sectors = SectorsResult.ok sectors1 →
      i + n ≤ sectors.length →
      ∀ k, k < n → ∃ cursor sector next, sectorCursor textureList k buf = some cursor
        ∧ loadSector textureList cursor = SectorResult.ok sector next
        ∧ sectors1[i + k]? = some sector := by
  intro n
  induction n with
  | zero =>
    intro i buf sectors sectors1 _ _ k hk
    exact absurd hk (by omega)
  | succ n ih =>
    intro i buf sectors sectors1 h hlen
    simp only [loadSectors] at h
    split at h
    · exact absurd h (by simp)
    · exact absurd h (by simp)
    · rename_i sector buf1 hs
      have hlen1 : i + 1 + n ≤ (sectors.set i sector).length := by
        rw [List.length_set]
        omega
      obtain ⟨-, h2, -⟩ := loadSectors_ok textureList n (i + 1) buf1 (sectors.set i sector)
        sectors1 h hlen1
      have h3 := ih (i + 1) buf1 (sectors.set i sector) sectors1 h hlen1
      intro k hk
      cases k with
      | zero =>
        refine ⟨buf, sector, buf1, rfl, hs, ?_⟩
        rw [Nat.add_zero, h2 i (by omega), List.getElem?_set_self (by omega)]
      | succ k =>
        obtain ⟨cursor, sector2, next, hc, hl, hget⟩ := h3 k (by omega)
        refine ⟨cursor, sector2, next, ?_, hl, ?_⟩
        · simp only [sectorCursor, hs]
          exact hc
        · rw [← hget]
          congr 1
          omega

theorem loadSectors_cursor_zero (textureList : List AssetHandle) (n : Nat)
    (start : List Line) (sectors0 sectors : List EditorSector)
    (hl : loadSectors textureList n 0 start sectors0 = SectorsResult.ok sectors)
    (hlen : sectors0.length = n) :
    ∀ (i : Nat) (sector : EditorSector), sectors[i]? = some sector →
      ∃ cursor next, sectorCursor textureList i start = some cursor
        ∧ loadSector textureList cursor = SectorResult.ok sector next := by
  obtain ⟨h1, -, -⟩ := loadSectors_ok _ _ _ _ _ _ hl (by rw [hlen]; omega)
  have h3 := loadSectors_cursor _ _ _ _ _ _ hl (by rw [hlen]; omega)
  intro j sector hj
  have hjl : j < n := by
    have := lt_of_getElem?_eq_some hj
    rw [h1, hlen] at this
    exact this
  obtain ⟨cursor, sector2, next, hc, hld, hget⟩ := h3 j hjl
  rw [Nat.zero_add, hj] at hget
  rw [Option.some.inj hget]
  exact ⟨cursor, next, hc, hld⟩

theorem loadTexturesAndSectors_cursor (env : LoaderEnv) (level level1 : EditorLevel)
    (line : Line) (buf : List Line) (textureList : List AssetHandle)
    (h : loadTexturesAndSectors env level line buf = LoadResult.loaded level1 textureList) :
    ∃ (sectors : List EditorSector) (start : List Line),
      level1 = finishLevel env { level with sectors := sectors }
      ∧ start <:+ buf
      ∧ ∀ (i : Nat) (sector : EditorSector), sectors[i]? = some sector →
          ∃ cursor next, sectorCursor textureList i start = some cursor
            ∧ loadSector textureList cursor = SectorResult.ok sector next := by
  unfold loadTexturesAndSectors at h
  split at h
  · split at h
    · exact absurd h (by simp)
    · simp only at h
      split at h
      · rename_i sectorCount _
        split at h
        · exact absurd h (by simp)
        · split at h
          · exact absurd h (by simp)
          · exact absurd h (by simp)
          · rename_i sectors hl
            injection h with e1 e2
            subst e2
            have hres : (resize level.sectors sectorCount.toNat EditorSector.zero).length
                = sectorCount.toNat := by
              unfold resize
              simp only [List.length_append, List.length_take, List.length_replicate]
              omega
            refine ⟨sectors, _, e1.symm, ?_, loadSectors_cursor_zero _ _ _ _ _ hl hres⟩
            split
            · rw [readLine_snd]
              refine (List.drop_suffix 1 _).trans
                ((readExtraTextures_suffix env _ _ _ _).trans ?_)
              exact readTextures_suffix env _ _ _ _
            · exact (readExtraTextures_suffix env _ _ _ _).trans
                (readTextures_suffix env _ _ _ _)
      · exact absurd h (by simp)
  · exact absurd h (by simp)

theorem loadSky_cursor (env : LoaderEnv) (level level1 : EditorLevel) (buf : List Line)
    (textureList : List AssetHandle)
    (h : loadSky env level buf = LoadResult.loaded level1 textureList) :
    ∃ (sectors : List EditorSector) (parallax : Vec2f) (start : List Line),
      level1 = finishLevel env { level with parallax := parallax, sectors := sectors }
      ∧ start <:+ buf
      ∧ ∀ (i : Nat) (sector : EditorSector), sectors[i]? = some sector →
          ∃ cursor next, sectorCursor textureList i start = some cursor
            ∧ loadSector textureList cursor = SectorResult.ok sector next := by
  unfold loadSky at h
  simp only at h
  have hsuf : (if (sscanf (readLine buf).1 Key.MUSIC [Conv.s]).length = 1
      then (readLine (readLine buf).2).2 else (readLine buf).2) <:+ buf := by
    split
    · simp only [readLine_snd, List.drop_drop]
      exact List.drop_suffix _ buf
    · rw [readLine_snd]
      exact List.drop_suffix _ buf
  split at h
  · rename_i x z _
    obtain ⟨sectors, start, e, hc, hs⟩ :=
      loadTexturesAndSectors_cursor env _ level1 _ _ textureList h
    refine ⟨sectors, ⟨x, z⟩, start, e, ?_, hs⟩
    refine hc.trans (((?_ : (readLine _).2 <:+ _)).trans hsuf)
    rw [readLine_snd]
    exact List.drop_suffix _ _
  · obtain ⟨sectors, start, e, hc, hs⟩ :=
      loadTexturesAndSectors_cursor env _ level1 _ _ textureList h
    exact ⟨sectors, ⟨1024, 1024⟩, start, e, hc.trans hsuf, hs⟩

theorem loadLevelFromAsset_cursor (env : LoaderEnv) (level level1 : EditorLevel)
    (fileData : List Line) (textureList : List AssetHandle)
    (h : loadLevelFromAsset env level fileData = LoadResult.loaded level1 textureList) :
    ∃ start, start <:+ fileData
      ∧ ∀ (i : Nat) (sector : EditorSector), level1.sectors[i]? = some sector →
          ∃ cursor next sector0, sectorCursor textureList i start = some cursor
            ∧ loadSector textureList cursor = SectorResult.ok sector0 next
            ∧ sector = sectorToPolygon env sector0 := by
  unfold loadLevelFromAsset at h
  split at h
  · exact absurd h (by simp)
  · split at h
    · exact absurd h (by simp)
    · simp only at h
      split at h
      · split at h
        · obtain ⟨sectors, parallax, start, e, hc, hs⟩ :=
            loadSky_cursor env _ level1 _ textureList h
          refine ⟨start, hc.trans ?_, ?_⟩
          · simp only [readLine_snd, List.drop_drop]
            exact List.drop_suffix _ fileData
          · intro i sector hi
            rw [e] at hi
            simp only [finishLevel, List.getElem?_map] at hi
            cases hi0 : sectors[i]? with
            | none => rw [hi0] at hi; exact absurd hi (by simp)
            | some sector0 =>
              rw [hi0] at hi
              obtain ⟨cursor, next, hcur, hl⟩ := hs i sector0 hi0
              exact ⟨cursor, next, sector0, hcur, hl, (Option.some.inj hi).symm⟩
        · exact absurd h (by simp)
      · exact absurd h (by simp)

/-! ## Level loading: sector ids, heights and wall lights -/

theorem sectorToPolygon_header (env : LoaderEnv) (sector : EditorSector) :
    sameHeader (sectorToPolygon env sector) sector :=
  ⟨rfl, rfl, rfl, rfl, rfl, rfl, rfl, rfl, rfl, rfl, rfl, rfl⟩

theorem heightsRead_congr (buf : List Line) (a b : EditorSector) (hab : sameHeader a b)
    (h : heightsRead buf b) : heightsRead buf a := by
  obtain ⟨-, -, -, -, -, a6, a7, a8, a9, a10, a11, -⟩ := hab
  unfold heightsRead secondAltitudeRead flagsRead at h ⊢
  rw [a6, a7, a8, a9, a10, a11]
  exact h

theorem finishWall_wallLight (textureList : List AssetHandle) (a : List Arg)
    (wall0 wall : EditorWall) (h : finishWall textureList a wall0 = some wall) :
    wall.wallLight = if wall0.wallLight ≥ 32768 then wrap32 (wall0.wallLight - 65536)
      else wall0.wallLight := by
  unfold finishWall at h
  split at h
  · injection h with e
    rw [← e]
  · exact absurd h (by simp)

/-- Counterexample to C16 as stated: the level file whose only SECTOR record has the number
7 loads, and the sector at position 0 of the loaded level has the id 7. -/
theorem loadLevelFromAsset_sector_id_from_file :
    (loadLevelFromAsset exLoaderEnv exLevel
        (exFileOf 7 0 (-8) (some 0) (exWallLine 0 0 0))).level?.map
        (fun level => level.sectors.map fun sector => sector.id) = some [7] := by
  decide!

theorem sectorCursor_id (textureList : List AssetHandle) (cursor next : List Line)
    (sector0 : EditorSector)
    (hl : loadSector textureList cursor = SectorResult.ok sector0 next) :
    sscanf (lineAt cursor 0) Key.SECTOR [Conv.d] = [Arg.int sector0.id] :=
  (loadSector_ok textureList cursor sector0 next hl).1

/-- C16 (amended): for every level that `loadLevelFromAsset` loads, the sector records are
read one after the other from a cursor `start` into the file, and for every position `i` of
the sector list the sector at position `i` is the one read from the record number `i` in
that order: it is `sectorToPolygon` of what the loop body reads at the cursor where the
record number `i` starts, and its id is the number in the `SECTOR <id>` line the record
starts with. The loader compares that number with nothing, so every sector has its position
as its id exactly when the file numbers its sector records by position. -/
theorem loadLevelFromAsset_sector_id_is_record_number (env : LoaderEnv)
    (level level1 : EditorLevel) (fileData : List Line) (textureList : List AssetHandle)
    (h : loadLevelFromAsset env level fileData = LoadResult.loaded level1 textureList) :
    ∃ start, start <:+ fileData
      ∧ (∀ (i : Nat) (sector : EditorSector), level1.sectors[i]? = some sector →
          ∃ cursor sector0 next, sectorCursor textureList i start = some cursor
            ∧ loadSector textureList cursor = SectorResult.ok sector0 next
            ∧ sector = sectorToPolygon env sector0
            ∧ sscanf (lineAt cursor 0) Key.SECTOR [Conv.d] = [Arg.int sector.id])
      ∧ ((∀ (i : Nat) (cursor : List Line), i < level1.sectors.length →
            sectorCursor textureList i start = some cursor →
            sscanf (lineAt cursor 0) Key.SECTOR [Conv.d] = [Arg.int (i : Int)])
          ↔ ∀ (i : Nat) (sector : EditorSector), level1.sectors[i]? = some sector →
              sector.id = (i : Int)) := by
  obtain ⟨start, hsuf, hrec⟩ :=
    loadLevelFromAsset_cursor env level level1 fileData textureList h
  have hall : ∀ (i : Nat) (sector : EditorSector), level1.sectors[i]? = some sector →
      ∃ cursor sector0 next, sectorCursor textureList i start = some cursor
        ∧ loadSector textureList cursor = SectorResult.ok sector0 next
        ∧ sector = sectorToPolygon env sector0
        ∧ sscanf (lineAt cursor 0) Key.SECTOR [Conv.d] = [Arg.int sector.id] := by
    intro i sector hi
    obtain ⟨cursor, next, sector0, hc, hl, e⟩ := hrec i sector hi
    refine ⟨cursor, sector0, next, hc, hl, e, ?_⟩
    have hid : sector.id = sector0.id := by rw [e]; rfl
    rw [hid]
    exact sectorCursor_id textureList cursor next sector0 hl
  refine ⟨start, hsuf, hall, ?_, ?_⟩
  · intro hnum i sector hi
    obtain ⟨cursor, sector0, next, hc, -, -, hs⟩ := hall i sector hi
    have := hnum i cursor (lt_of_getElem?_eq_some hi) hc
    rw [hs] at this
    simpa using this
  · intro hid i cursor hlt hc
    have hget : level1.sectors[i]? = some (level1.sectors[i]) := List.getElem?_eq_getElem hlt
    obtain ⟨cursor1, sector0, next, hc1, -, -, hs⟩ := hall i _ hget
    rw [hc] at hc1
    rw [Option.some.inj hc1, hs, hid i _ hget]

/-- Witness of C16 (amended): the level file whose SECTOR record has the number 7. It loads
with one sector, whose id is 7. -/
theorem loadLevelFromAsset_sector_id_is_record_number_witness :
    (loadLevelFromAsset exLoaderEnv exLevel
        (exFileOf 7 0 (-8) (some 0) (exWallLine 0 0 0))).level?.map
        (fun level => level.sectors.map fun sector => sector.id) = some [7]
    ∧ ∃ level1 textureList,
      loadLevelFromAsset exLoaderEnv exLevel (exFileOf 7 0 (-8) (some 0) (exWallLine 0 0 0))
        = LoadResult.loaded level1 textureList
      ∧ ∃ start, start <:+ exFileOf 7 0 (-8) (some 0) (exWallLine 0 0 0)
        ∧ (∀ (i : Nat) (sector : EditorSector), level1.sectors[i]? = some sector →
            ∃ cursor sector0 next, sectorCursor textureList i start = some cursor
              ∧ loadSector textureList cursor = SectorResult.ok sector0 next
              ∧ sector = sectorToPolygon exLoaderEnv sector0
              ∧ sscanf (lineAt cursor 0) Key.SECTOR [Conv.d] = [Arg.int sector.id])
        ∧ ((∀ (i : Nat) (cursor : List Line), i < level1.sectors.length →
              sectorCursor textureList i start = some cursor →
              sscanf (lineAt cursor 0) Key.SECTOR [Conv.d] = [Arg.int (i : Int)])
            ↔ ∀ (i : Nat) (sector : EditorSector), level1.sectors[i]? = some sector →
                sector.id = (i : Int)) := by
  refine ⟨by decide!, ?_⟩
  cases h : loadLevelFromAsset exLoaderEnv exLevel
      (exFileOf 7 0 (-8) (some 0) (exWallLine 0 0 0)) with
  | loaded level1 textureList =>
    exact ⟨level1, textureList, rfl,
      loadLevelFromAsset_sector_id_is_record_number exLoaderEnv exLevel level1 _ textureList h⟩
  | failed level1 =>
    have hl : (loadLevelFromAsset exLoaderEnv exLevel
        (exFileOf 7 0 (-8) (some 0) (exWallLine 0 0 0))).isLoaded = true := by decide!
    rw [h] at hl
    exact absurd hl (by simp [LoadResult.isLoaded])
  | fault =>
    have hl : (loadLevelFromAsset exLoaderEnv exLevel
        (exFileOf 7 0 (-8) (some 0) (exWallLine 0 0 0))).isLoaded = true := by decide!
    rw [h] at hl
    exact absurd hl (by simp [LoadResult.isLoaded])

/-- C19: for every sector of a level that `loadLevelFromAsset` loads, the sector record
starts at a cursor into the file, and the floor height, the ceiling height and the second
height of the sector are the negations of the values of its FLOOR ALTITUDE, CEILING ALTITUDE
and SECOND ALTITUDE records (so a value of zero loads as zero); when the line after the
CEILING ALTITUDE record is no SECOND ALTITUDE record, the second height is zero and that line
is the FLAGS record of the sector. -/
theorem loadLevelFromAsset_heights_negated (env : LoaderEnv)
    (level level1 : EditorLevel) (fileData : List Line) (textureList : List AssetHandle)
    (h : loadLevelFromAsset env level fileData = LoadResult.loaded level1 textureList) :
    ∀ sector ∈ level1.sectors, ∃ cursor, cursor <:+ fileData
      ∧ (sscanf (lineAt cursor 0) Key.SECTOR [Conv.d]).length = 1
      ∧ heightsRead cursor sector := by
  intro sector hm
  obtain ⟨cursor, next, sector0, hc, hl, e⟩ :=
    loadLevelFromAsset_sectors env level level1 fileData textureList h sector hm
  obtain ⟨h1, h2, -, -⟩ := loadSector_ok textureList cursor sector0 next hl
  refine ⟨cursor, hc, by rw [h1]; rfl, ?_⟩
  rw [e]
  exact heightsRead_congr cursor _ sector0 (sectorToPolygon_header env sector0) h2

/-- Witness of C19: the level file with the floor altitude 4, the ceiling altitude -8 and
the second altitude 2, which loads with the heights -4, 8 and -2. -/
theorem loadLevelFromAsset_heights_negated_witness :
    (loadLevelFromAsset exLoaderEnv exLevel
        (exFileOf 0 4 (-8) (some 2) (exWallLine 0 0 0))).level?.map
        (fun level => level.sectors.map fun sector =>
          (sector.floorHeight, sector.ceilHeight, sector.secHeight)) = some [(-4, 8, -2)]
    ∧ ∃ level1 textureList,
      loadLevelFromAsset exLoaderEnv exLevel (exFileOf 0 4 (-8) (some 2) (exWallLine 0 0 0))
        = LoadResult.loaded level1 textureList
      ∧ ∀ sector ∈ level1.sectors, ∃ cursor,
          cursor <:+ exFileOf 0 4 (-8) (some 2) (exWallLine 0 0 0)
          ∧ (sscanf (lineAt cursor 0) Key.SECTOR [Conv.d]).length = 1
          ∧ heightsRead cursor sector := by
  refine ⟨by decide!, ?_⟩
  cases h : loadLevelFromAsset exLoaderEnv exLevel
      (exFileOf 0 4 (-8) (some 2) (exWallLine 0 0 0)) with
  | loaded level1 textureList =>
    exact ⟨level1, textureList, rfl,
      loadLevelFromAsset_heights_negated exLoaderEnv exLevel level1 _ textureList h⟩
  | failed level1 =>
    have hl : (loadLevelFromAsset exLoaderEnv exLevel
        (exFileOf 0 4 (-8) (some 2) (exWallLine 0 0 0))).isLoaded = true := by decide!
    rw [h] at hl
    exact absurd hl (by simp [LoadResult.isLoaded])
  | fault =>
    have hl : (loadLevelFromAsset exLoaderEnv exLevel
        (exFileOf 0 4 (-8) (some 2) (exWallLine 0 0 0))).isLoaded = true := by decide!
    rw [h] at hl
    exact absurd hl (by simp [LoadResult.isLoaded])

/-- C20: every wall of every sector of a level that `loadLevelFromAsset` loads is read from
a wall line of the file, and when the LIGHT field of that line is an integer `v` with
`0 ≤ v ≤ 65535` the light of the wall is the signed 16-bit reading of `v`: `v` when
`v < 32768` and `v - 65536` otherwise, a value of [-32768, 32767]. -/
theorem loadLevelFromAsset_wall_light_int16 (env : LoaderEnv)
    (level level1 : EditorLevel) (fileData : List Line) (textureList : List AssetHandle)
    (h : loadLevelFromAsset env level fileData = LoadResult.loaded level1 textureList) :
    ∀ sector ∈ level1.sectors, ∀ wall ∈ sector.walls, ∃ line ∈ fileData,
      wallRead textureList line wall
      ∧ ∀ v, (sscanf line Key.WALL wallFmt)[23]? = some (Arg.int v) → 0 ≤ v → v ≤ 65535 →
          wall.wallLight = asInt16 v
            ∧ wall.wallLight = (if v < 32768 then v else v - 65536)
            ∧ -32768 ≤ wall.wallLight ∧ wall.wallLight ≤ 32767 := by
  intro sector hm wall hw
  obtain ⟨cursor, next, sector0, hc, hl, e⟩ :=
    loadLevelFromAsset_sectors env level level1 fileData textureList h sector hm
  obtain ⟨-, -, -, h4⟩ := loadSector_ok textureList cursor sector0 next hl
  rw [e, sectorToPolygon_walls] at hw
  obtain ⟨line, hmem, hr⟩ := h4 wall hw
  refine ⟨line, hc.mem hmem, hr, ?_⟩
  intro v hv hv0 hv1
  have hlight := finishWall_wallLight textureList _ _ wall hr.2
  have harg : (wallOfArgs (sscanf line Key.WALL wallFmt)).wallLight = v := by
    simp only [wallOfArgs, argInt, hv]
  rw [harg] at hlight
  have hval : wall.wallLight = if v < 32768 then v else v - 65536 := by
    rw [hlight]
    by_cases hlt : v < 32768
    · rw [if_neg (by omega), if_pos hlt]
    · rw [if_pos (by omega), if_neg hlt]
      unfold wrap32
      omega
  refine ⟨hval, hval, ?_, ?_⟩
  · rw [hval]
    split <;> omega
  · rw [hval]
    split <;> omega

/-- Witness of C20: the level file whose wall line has the light 40000, which loads with the
wall light -25536. -/
theorem loadLevelFromAsset_wall_light_int16_witness :
    (loadLevelFromAsset exLoaderEnv exLevel
        (exFileOf 0 0 (-8) (some 0) (exWallLine 0 0 40000))).level?.map
        (fun level => level.sectors.map fun sector =>
          sector.walls.map fun wall => wall.wallLight) = some [[-25536]]
    ∧ ∃ level1 textureList,
      loadLevelFromAsset exLoaderEnv exLevel (exFileOf 0 0 (-8) (some 0) (exWallLine 0 0 40000))
        = LoadResult.loaded level1 textureList
      ∧ ∀ sector ∈ level1.sectors, ∀ wall ∈ sector.walls,
          ∃ line ∈ exFileOf 0 0 (-8) (some 0) (exWallLine 0 0 40000),
            wallRead textureList line wall
            ∧ ∀ v, (sscanf line Key.WALL wallFmt)[23]? = some (Arg.int v) → 0 ≤ v →
                v ≤ 65535 →
                wall.wallLight = asInt16 v
                  ∧ wall.wallLight = (if v < 32768 then v else v - 65536)
                  ∧ -32768 ≤ wall.wallLight ∧ wall.wallLight ≤ 32767 := by
  refine ⟨by decide!, ?_⟩
  cases h : loadLevelFromAsset exLoaderEnv exLevel
      (exFileOf 0 0 (-8) (some 0) (exWallLine 0 0 40000)) with
  | loaded level1 textureList =>
    exact ⟨level1, textureList, rfl,
      loadLevelFromAsset_wall_light_int16 exLoaderEnv exLevel level1 _ textureList h⟩
  | failed level1 =>
    have hl : (loadLevelFromAsset exLoaderEnv exLevel
        (exFileOf 0 0 (-8) (some 0) (exWallLine 0 0 40000))).isLoaded = true := by decide!
    rw [h] at hl
    exact absurd hl (by simp [LoadResult.isLoaded])
  | fault =>
    have hl : (loadLevelFromAsset exLoaderEnv exLevel
        (exFileOf 0 0 (-8) (some 0) (exWallLine 0 0 40000))).isLoaded = true := by decide!
    rw [h] at hl
    exact absurd hl (by simp [LoadResult.isLoaded])

/-! ## Level loading: the optional PARALLAX record -/

theorem sscanf_parallaxDefault :
    sscanf parallaxDefault Key.PARALLAX [Conv.f, Conv.f] = [Arg.flt 1024, Arg.flt 1024] := rfl

theorem sscanf_parallaxDefault_music :
    sscanf parallaxDefault Key.MUSIC [Conv.s] = [] := rfl

theorem loadSky_fallback (env : LoaderEnv) (level : EditorLevel) (buf : List Line)
    (h : (sscanf (lineAt buf (skyLineFrom buf 0)) Key.PARALLAX [Conv.f, Conv.f]).length ≠ 2) :
    loadSky env level buf
      = loadTexturesAndSectors env { level with parallax := ⟨1024, 1024⟩ }
          (lineAt buf (skyLineFrom buf 0)) (buf.drop (skyLineFrom buf 0 + 1)) := by
  unfold loadSky
  simp only
  by_cases hm : (sscanf (lineAt buf 0) Key.MUSIC [Conv.s]).length = 1
  · have hk : skyLineFrom buf 0 = 1 := by simp [skyLineFrom, hm]
    rw [hk] at h ⊢
    have hm1 : (sscanf (readLine buf).1 Key.MUSIC [Conv.s]).length = 1 := by
      rw [readLine_fst]; exact hm
    simp only [if_pos hm1]
    have hl : (readLine (readLine buf).2).1 = lineAt buf 1 := by
      rw [readLine_snd, readLine_fst, lineAt_drop]
    have hb : (readLine (readLine buf).2).2 = buf.drop 2 := by
      simp only [readLine_snd, List.drop_drop]
    rw [hl, hb]
    split
    · rename_i x z hp
      rw [hp] at h
      exact absurd rfl h
    · rfl
  · have hk : skyLineFrom buf 0 = 0 := by simp [skyLineFrom, hm]
    rw [hk] at h ⊢
    have hm1 : ¬ (sscanf (readLine buf).1 Key.MUSIC [Conv.s]).length = 1 := by
      rw [readLine_fst]; exact hm
    simp only [if_neg hm1]
    rw [readLine_fst, readLine_snd]
    split
    · rename_i x z hp
      rw [hp] at h
      exact absurd rfl h
    · rfl

theorem loadSky_insertLine (env : LoaderEnv) (level : EditorLevel) (buf : List Line)
    (h : (sscanf (lineAt buf (skyLineFrom buf 0)) Key.PARALLAX [Conv.f, Conv.f]).length ≠ 2) :
    loadSky env level (insertLine buf (skyLineFrom buf 0) parallaxDefault)
      = loadSky env level buf := by
  rw [loadSky_fallback env level buf h]
  by_cases hm : (sscanf (lineAt buf 0) Key.MUSIC [Conv.s]).length = 1
  · have hk : skyLineFrom buf 0 = 1 := by simp [skyLineFrom, hm]
    rw [hk]
    cases buf with
    | nil =>
      exfalso
      simp [lineAt, readLine, sscanf] at hm
    | cons m rest =>
      have hm1 : (sscanf m Key.MUSIC [Conv.s]).length = 1 := by
        simpa [lineAt, readLine] using hm
      simp only [insertLine, loadSky, List.take_succ_cons, List.take_zero, List.drop_succ_cons,
        List.drop_zero, List.cons_append, List.nil_append, readLine, hm1, if_true,
        sscanf_parallaxDefault]
      cases rest <;> simp [lineAt, readLine]
  · have hk : skyLineFrom buf 0 = 0 := by simp [skyLineFrom, hm]
    rw [hk]
    simp only [insertLine, loadSky, List.take_zero, List.drop_zero, List.nil_append, readLine,
      sscanf_parallaxDefault_music, List.length_nil, Nat.zero_ne_one, if_false,
      sscanf_parallaxDefault]
    cases buf <;> simp [lineAt, readLine]

theorem loadSky_loaded_parallax (env : LoaderEnv) (level level1 : EditorLevel)
    (buf : List Line) (textureList : List AssetHandle)
    (h : (sscanf (lineAt buf (skyLineFrom buf 0)) Key.PARALLAX [Conv.f, Conv.f]).length ≠ 2)
    (hl : loadSky env level buf = LoadResult.loaded level1 textureList) :
    level1.parallax = ⟨1024, 1024⟩ := by
  rw [loadSky_fallback env level buf h] at hl
  obtain ⟨sectors, e, -⟩ := loadTexturesAndSectors_loaded env _ level1 _ _ textureList hl
  rw [e]
  rfl

theorem skyLineFrom_drop (buf : List Line) (a : Nat) :
    skyLineFrom buf a = a + skyLineFrom (buf.drop a) 0 := by
  unfold skyLineFrom
  simp only [lineAt_drop, Nat.add_zero, Nat.zero_add]
  split <;> rfl

/-- C17: when the line that follows the PALETTE record and the optional MUSIC record does
not match `PARALLAX <x> <z>`, `loadLevelFromAsset` gives the same result, the same level
and the same texture list or the same failure, as on the file with the line
`PARALLAX 1024 1024` inserted at that place; a level it loads has the parallax (1024, 1024);
and the records after the PALETTE record are read as the fallback pair followed by the
TEXTURES record on that same line, the cursor being right after it. -/
theorem loadLevelFromAsset_parallax_fallback (env : LoaderEnv) (level : EditorLevel)
    (fileData : List Line)
    (h : (sscanf (lineAt fileData (skyLineFrom fileData 3)) Key.PARALLAX
      [Conv.f, Conv.f]).length ≠ 2) :
    loadLevelFromAsset env level fileData
        = loadLevelFromAsset env level
            (insertLine fileData (skyLineFrom fileData 3) parallaxDefault)
      ∧ (∀ level1 textureList,
          loadLevelFromAsset env level fileData = LoadResult.loaded level1 textureList →
          level1.parallax = ⟨1024, 1024⟩)
      ∧ (∀ level0, loadSky env level0 (fileData.drop 3)
          = loadTexturesAndSectors env { level0 with parallax := ⟨1024, 1024⟩ }
              (lineAt fileData (skyLineFrom fileData 3))
              (fileData.drop (skyLineFrom fileData 3 + 1))) := by
  have hk := skyLineFrom_drop fileData 3
  have h3 : (sscanf (lineAt (fileData.drop 3) (skyLineFrom (fileData.drop 3) 0)) Key.PARALLAX
      [Conv.f, Conv.f]).length ≠ 2 := by
    rw [lineAt_drop, ← hk]
    exact h
  refine ⟨?_, ?_, ?_⟩
  · rcases fileData with _ | ⟨a, _ | ⟨b, _ | ⟨c, rest⟩⟩⟩
    · simp [loadLevelFromAsset, insertLine, skyLineFrom, lineAt, readLine, sscanf,
        parallaxDefault, headerPasses]
    · simp [loadLevelFromAsset, insertLine, skyLineFrom, lineAt, readLine, sscanf,
        parallaxDefault]
    · simp [loadLevelFromAsset, insertLine, skyLineFrom, lineAt, readLine, sscanf,
        parallaxDefault]
    · have hins : insertLine (a :: b :: c :: rest) (skyLineFrom (a :: b :: c :: rest) 3)
          parallaxDefault
          = a :: b :: c :: insertLine rest (skyLineFrom rest 0) parallaxDefault := by
        have e : 3 + skyLineFrom rest 0 = skyLineFrom rest 0 + 1 + 1 + 1 := by omega
        rw [hk]
        simp only [List.drop_succ_cons, List.drop_zero]
        rw [e]
        simp [insertLine]
      rw [hins]
      simp only [List.drop_succ_cons, List.drop_zero] at h3
      simp only [loadLevelFromAsset, readLine, List.isEmpty_cons, loadSky_insertLine _ _ _ h3]
  · intro level1 textureList hl
    unfold loadLevelFromAsset at hl
    split at hl
    · exact absurd hl (by simp)
    · split at hl
      · exact absurd hl (by simp)
      · simp only at hl
        split at hl
        · split at hl
          · have e : (readLine (readLine (readLine fileData).2).2).2 = fileData.drop 3 := by
              simp only [readLine_snd, List.drop_drop]
            rw [e] at hl
            exact loadSky_loaded_parallax env _ level1 _ textureList h3 hl
          · exact absurd hl (by simp)
        · exact absurd hl (by simp)
  · intro level0
    rw [loadSky_fallback env level0 _ h3, lineAt_drop, ← hk, List.drop_drop]
    congr 2
    omega

/-- Witness of C17: the example level file without its PARALLAX line, which loads; with the
line `PARALLAX 1024 1024` inserted after the MUSIC record it is the example level file. -/
theorem loadLevelFromAsset_parallax_fallback_witness :
    (sscanf (lineAt ((exFileOf 0 0 (-8) (some 0) (exWallLine 0 0 0)).eraseIdx 4)
        (skyLineFrom ((exFileOf 0 0 (-8) (some 0) (exWallLine 0 0 0)).eraseIdx 4) 3))
        Key.PARALLAX [Conv.f, Conv.f]).length ≠ 2
    ∧ insertLine ((exFileOf 0 0 (-8) (some 0) (exWallLine 0 0 0)).eraseIdx 4)
        (skyLineFrom ((exFileOf 0 0 (-8) (some 0) (exWallLine 0 0 0)).eraseIdx 4) 3)
        parallaxDefault = exFileOf 0 0 (-8) (some 0) (exWallLine 0 0 0)
    ∧ (loadLevelFromAsset exLoaderEnv exLevel
        ((exFileOf 0 0 (-8) (some 0) (exWallLine 0 0 0)).eraseIdx 4)).level?.map
        (fun level => level.parallax) = some ⟨1024, 1024⟩
    ∧ loadLevelFromAsset exLoaderEnv exLevel
        ((exFileOf 0 0 (-8) (some 0) (exWallLine 0 0 0)).eraseIdx 4)
      = loadLevelFromAsset exLoaderEnv exLevel
          (insertLine ((exFileOf 0 0 (-8) (some 0) (exWallLine 0 0 0)).eraseIdx 4)
            (skyLineFrom ((exFileOf 0 0 (-8) (some 0) (exWallLine 0 0 0)).eraseIdx 4) 3)
            parallaxDefault) :=
  ⟨by decide!, by decide!, by decide!,
    (loadLevelFromAsset_parallax_fallback exLoaderEnv exLevel
      ((exFileOf 0 0 (-8) (some 0) (exWallLine 0 0 0)).eraseIdx 4) (by decide!)).1⟩

/-! ## Level loading: the texture records -/

theorem sscanf_textureLine (name : String) :
    sscanf (textureLine name) Key.TEXTURE [Conv.s] = [Arg.str name] := rfl

theorem readTextures_succ (env : LoaderEnv) (n : Nat) (line : Line) (buf : List Line)
    (list : List AssetHandle) :
    readTextures env (n + 1) line buf list
      = readTextures env n (readLine buf).1 (readLine buf).2
          (list ++ [env.loadTexture (env.replaceExtension
            (argStr (sscanf (readLine buf).1 Key.TEXTURE [Conv.s]) 0 "DEFAULT.BM") "BM")]) :=
  rfl

theorem readTextures_lines (env : LoaderEnv) :
    ∀ (declared : List String) (last : String) (line : Line) (rest : List Line)
      (list : List AssetHandle),
      readTextures env (declared.length + 1) line
          ((declared ++ [last]).map textureLine ++ rest) list
        = (list ++ (declared ++ [last]).map (textureHandle env), textureLine last, rest) := by
  intro declared
  induction declared with
  | nil =>
    intro last line rest list
    simp [readTextures, readLine, sscanf_textureLine, argStr, textureHandle]
  | cons name declared ih =>
    intro last line rest list
    rw [List.length_cons, readTextures_succ]
    simp only [List.cons_append, List.map_cons, readLine, sscanf_textureLine]
    rw [ih]
    simp [argStr, textureHandle]

theorem readExtraTextures_stop (env : LoaderEnv) (line : Line) (buf : List Line)
    (list : List AssetHandle) (readNext : Bool)
    (h : sscanf line Key.TEXTURE [Conv.s] = []) :
    readExtraTextures env line buf list readNext = (list, line, buf, readNext) := by
  cases buf <;> simp [readExtraTextures, h]

theorem readExtraTextures_lines (env : LoaderEnv) :
    ∀ (extra : List String) (name : String) (next : Line) (rest : List Line)
      (list : List AssetHandle) (readNext : Bool),
      sscanf next Key.TEXTURE [Conv.s] = [] →
      readExtraTextures env (textureLine name) (extra.map textureLine ++ next :: rest) list
          readNext
        = (list ++ textureHandle env name :: extra.map (textureHandle env), next, rest,
            false) := by
  intro extra
  induction extra with
  | nil =>
    intro name next rest list readNext h
    simp only [List.map_nil, List.nil_append, readExtraTextures, sscanf_textureLine]
    rw [readExtraTextures_stop env next rest _ false h]
    rfl
  | cons name1 extra ih =>
    intro name next rest list readNext h
    simp only [List.map_cons, List.cons_append, readExtraTextures, sscanf_textureLine]
    rw [List.append_eq, ih name1 next rest _ false h]
    simp [textureHandle]

theorem loadTexturesAndSectors_textures (env : LoaderEnv) (level : EditorLevel)
    (declared : List String) (last : String) (extra : List String) (rest : List Line) :
    loadTexturesAndSectors env level ⟨Key.TEXTURES, [Arg.int (declared.length + 1)]⟩
        ((declared ++ [last]).map textureLine
          ++ (extra.map textureLine ++ ⟨Key.NUMSECTORS, [Arg.int 0]⟩ :: rest))
      = LoadResult.loaded (finishLevel env { level with sectors := [] })
          ((declared ++ [last]).map (textureHandle env)
            ++ textureHandle env last :: extra.map (textureHandle env)) := by
  have hn : ((declared.length : Int) + 1).toNat = declared.length + 1 := by omega
  have hneg : ¬ ((declared.length : Int) + 1 < 0) := by omega
  have hs : sscanf (⟨Key.TEXTURES, [Arg.int (declared.length + 1)]⟩ : Line) Key.TEXTURES
      [Conv.d] = [Arg.int (declared.length + 1)] := rfl
  have hnum : sscanf (⟨Key.NUMSECTORS, [Arg.int 0]⟩ : Line) Key.NUMSECTORS [Conv.d]
      = [Arg.int 0] := rfl
  unfold loadTexturesAndSectors
  rw [hs]
  simp only [if_neg hneg, hn, readTextures_lines, List.nil_append]
  rw [readExtraTextures_lines env extra last ⟨Key.NUMSECTORS, [Arg.int 0]⟩ rest _ true rfl]
  simp only [Bool.false_eq_true, if_false, hnum]
  simp [loadSectors, resize]

/-- C18 (divergence): for every level file with no sectors whose TEXTURES record declares
N = `declared.length + 1` textures and that has N texture lines followed by K =
`extra.length` further texture lines and the NUMSECTORS record, `loadLevelFromAsset` loads
the level with a texture list of N + K + 1 entries: the last declared texture is entered a
second time, before the extra textures. -/
theorem loadLevelFromAsset_texture_list_repeats_last (env : LoaderEnv) (level : EditorLevel)
    (declared : List String) (last : String) (extra : List String) (rest : List Line) :
    loadLevelFromAsset env level (textureFile declared last extra rest)
        = LoadResult.loaded
            (finishLevel env
              { level with
                name := "SECBASE"
                palette := env.getFileNameFromPath "SECBASE.PAL"
                parallax := ⟨1024, 1024⟩
                sectors := [] })
            ((declared ++ [last]).map (textureHandle env)
              ++ textureHandle env last :: extra.map (textureHandle env))
      ∧ (loadLevelFromAsset env level (textureFile declared last extra rest)).textureList?.map
          List.length = some (declared.length + 1 + extra.length + 1)
      ∧ (loadLevelFromAsset exLoaderEnv exLevel (textureFile [] "A.BM" [] [])).textureList?
          = some [textureHandle exLoaderEnv "A.BM", textureHandle exLoaderEnv "A.BM"] := by
  have h : loadLevelFromAsset env level (textureFile declared last extra rest)
      = LoadResult.loaded
          (finishLevel env
            { level with
              name := "SECBASE"
              palette := env.getFileNameFromPath "SECBASE.PAL"
              parallax := ⟨1024, 1024⟩
              sectors := [] })
          ((declared ++ [last]).map (textureHandle env)
            ++ textureHandle env last :: extra.map (textureHandle env)) := by
    have hh : headerPasses (levLine 2 1) = true := by decide
    have e : textureFile declared last extra rest
        = levLine 2 1 :: ⟨Key.LEVELNAME, [Arg.str "SECBASE"]⟩
          :: ⟨Key.PALETTE, [Arg.str "SECBASE.PAL"]⟩
          :: ⟨Key.PARALLAX, [Arg.flt 1024, Arg.flt 1024]⟩
          :: ⟨Key.TEXTURES, [Arg.int (declared.length + 1)]⟩
          :: ((declared ++ [last]).map textureLine
            ++ (extra.map textureLine ++ ⟨Key.NUMSECTORS, [Arg.int 0]⟩ :: rest)) := by
      simp [textureFile]
    rw [e]
    have hname : sscanf (⟨Key.LEVELNAME, [Arg.str "SECBASE"]⟩ : Line) Key.LEVELNAME [Conv.s]
        = [Arg.str "SECBASE"] := rfl
    have hpal : sscanf (⟨Key.PALETTE, [Arg.str "SECBASE.PAL"]⟩ : Line) Key.PALETTE [Conv.s]
        = [Arg.str "SECBASE.PAL"] := rfl
    have hmus : sscanf (⟨Key.PARALLAX, [Arg.flt 1024, Arg.flt 1024]⟩ : Line) Key.MUSIC
        [Conv.s] = [] := rfl
    have hpar : sscanf (⟨Key.PARALLAX, [Arg.flt 1024, Arg.flt 1024]⟩ : Line) Key.PARALLAX
        [Conv.f, Conv.f] = [Arg.flt 1024, Arg.flt 1024] := rfl
    simp only [loadLevelFromAsset, List.isEmpty_cons, readLine, hh, hname, hpal, loadSky, hmus,
      hpar, List.length_nil, Nat.zero_ne_one, if_false, Bool.false_eq_true, Bool.true_eq_false,
      loadTexturesAndSectors_textures]
  refine ⟨h, ?_, by decide⟩
  rw [h]
  simp [LoadResult.textureList?]
  omega

/-! ## Cutscene frame rate -/

/-- C30: for every fps value, `cutscenePlayer_setFramerate` reads `c_frameRateDelay` at an
index inside the table: the clamped fps is in [4, 20], the index `fps - 4` is in [0, 16],
the table has exactly 17 entries, and the frame delay is the entry for the clamped fps, 42
for every fps of at most 4 and 12 for every fps of at least 20. Of `clamp` the proof uses
that it limits its argument to the given range (`clampsToRange`). -/
theorem cutscenePlayer_setFramerate_in_table (clamp : Int → Int → Int → Int)
    (hclamp : clampsToRange clamp) (fps : Int) :
    c_frameRateDelay.length = 17
      ∧ MIN_FPS ≤ clamp fps MIN_FPS MAX_FPS ∧ clamp fps MIN_FPS MAX_FPS ≤ MAX_FPS
      ∧ 0 ≤ clamp fps MIN_FPS MAX_FPS - MIN_FPS ∧ clamp fps MIN_FPS MAX_FPS - MIN_FPS ≤ 16
      ∧ (∃ delay, cutscenePlayer_setFramerate clamp fps = some delay
          ∧ c_frameRateDelay[(clamp fps MIN_FPS MAX_FPS - MIN_FPS).toNat]? = some delay)
      ∧ (fps ≤ 4 → cutscenePlayer_setFramerate clamp fps = some 42)
      ∧ (20 ≤ fps → cutscenePlayer_setFramerate clamp fps = some 12) := by
  obtain ⟨h1, h2, h3⟩ := hclamp fps MIN_FPS MAX_FPS (by decide)
  have hr : MIN_FPS ≤ clamp fps MIN_FPS MAX_FPS ∧ clamp fps MIN_FPS MAX_FPS ≤ MAX_FPS := by
    by_cases ha : fps < MIN_FPS
    · rw [h1 ha]
      decide
    · by_cases hb : MAX_FPS < fps
      · rw [h2 hb]
        decide
      · rw [h3 (not_lt.mp ha) (not_lt.mp hb)]
        exact ⟨not_lt.mp ha, not_lt.mp hb⟩
  have hlo : 0 ≤ clamp fps MIN_FPS MAX_FPS - MIN_FPS := by
    have := hr.1
    omega
  have hhi : clamp fps MIN_FPS MAX_FPS - MIN_FPS ≤ 16 := by
    have := hr.2
    unfold MIN_FPS MAX_FPS at this ⊢
    omega
  have hw : wrap32 (clamp fps MIN_FPS MAX_FPS - MIN_FPS) = clamp fps MIN_FPS MAX_FPS - MIN_FPS := by
    unfold wrap32
    omega
  have hset : cutscenePlayer_setFramerate clamp fps
      = c_frameRateDelay[(clamp fps MIN_FPS MAX_FPS - MIN_FPS).toNat]? := by
    unfold cutscenePlayer_setFramerate vecAt
    rw [hw, if_pos hlo]
  have hlt : (clamp fps MIN_FPS MAX_FPS - MIN_FPS).toNat < c_frameRateDelay.length := by
    have : c_frameRateDelay.length = 17 := rfl
    omega
  refine ⟨rfl, hr.1, hr.2, hlo, hhi, ?_, ?_, ?_⟩
  · refine ⟨c_frameRateDelay.get ⟨_, hlt⟩, ?_, ?_⟩
    · rw [hset]
      exact List.getElem?_eq_getElem hlt
    · exact List.getElem?_eq_getElem hlt
  · intro h4
    rw [hset]
    by_cases ha : fps < MIN_FPS
    · rw [h1 ha]
      rfl
    · have e : fps = MIN_FPS := by
        have := not_lt.mp ha
        unfold MIN_FPS at this ⊢
        omega
      rw [h3 (not_lt.mp ha) (by rw [e]; decide), e]
      rfl
  · intro h20
    rw [hset]
    by_cases hb : MAX_FPS < fps
    · rw [h2 hb]
      rfl
    · have e : fps = MAX_FPS := by
        have := not_lt.mp hb
        unfold MAX_FPS at this ⊢
        omega
      rw [h3 (by rw [e]; decide) (not_lt.mp hb), e]
      rfl

theorem clampInt_clampsToRange : clampsToRange clampInt := by
  intro x lo hi hle
  unfold clampInt
  refine ⟨fun h => ?_, fun h => ?_, fun h1 h2 => ?_⟩
  · rw [min_eq_left (by omega), max_eq_left (by omega)]
  · rw [min_eq_right (by omega), max_eq_right hle]
  · rw [min_eq_left h2, max_eq_right h1]

/-- Witness of C30: the fps value 100, clamped to 20, sets the delay 12, the entry 16 of the
table. -/
theorem cutscenePlayer_setFramerate_in_table_witness :
    clampsToRange clampInt
    ∧ cutscenePlayer_setFramerate clampInt 100 = some 12
    ∧ clampInt 100 MIN_FPS MAX_FPS - MIN_FPS = 16 :=
  ⟨clampInt_clampsToRange,
    (cutscenePlayer_setFramerate_in_table clampInt clampInt_clampsToRange 100).2.2.2.2.2.2.2
      (by decide),
    by decide⟩

/-! ## Sector lookup by position -/

theorem findSectorLoop_spec (env : TraceEnv) (layer : Int) (pos : Vec2f) :
    ∀ (sectors : List EditorSector) (i : Nat),
      (findSectorLoop env layer pos i sectors = -1
          ∧ ∀ sector ∈ sectors, ¬ containsOnLayer env layer pos sector)
        ∨ ∃ (k : Nat) (sector : EditorSector),
            findSectorLoop env layer pos i sectors = ((i + k : Nat) : Int)
            ∧ sectors[k]? = some sector ∧ containsOnLayer env layer pos sector
            ∧ ∀ j, j < k → ∀ sj, sectors[j]? = some sj →
                ¬ containsOnLayer env layer pos sj := by
  intro sectors
  induction sectors with
  | nil =>
    intro i
    left
    exact ⟨rfl, fun _ h => absurd h (List.not_mem_nil _)⟩
  | cons sector rest ih =>
    intro i
    by_cases hc : containsOnLayer env layer pos sector
    · right
      refine ⟨0, sector, ?_, by simp, hc, fun j hj => absurd hj (by omega)⟩
      simp only [findSectorLoop, hc.1, ne_eq, not_true_eq_false, if_false, hc.2, if_true,
        Nat.add_zero]
    · have hstep : findSectorLoop env layer pos i (sector :: rest)
          = findSectorLoop env layer pos (i + 1) rest := by
        simp only [findSectorLoop]
        by_cases hl : sector.layer = layer
        · have hp : ¬ env.pointInsidePolygon sector.poly pos = true := fun hp => hc ⟨hl, hp⟩
          simp [hl, hp]
        · simp only [ne_eq, hl, not_false_eq_true, if_true]
      rw [hstep]
      rcases ih (i + 1) with ⟨e, hall⟩ | ⟨k, sk, e, hk, hck, hmin⟩
      · left
        refine ⟨e, fun s hs => ?_⟩
        rcases List.mem_cons.mp hs with rfl | hs
        · exact hc
        · exact hall s hs
      · right
        refine ⟨k + 1, sk, ?_, by simpa using hk, hck, fun j hj sj hsj => ?_⟩
        · rw [e]
          congr 1
          omega
        · cases j with
          | zero =>
            simp only [List.getElem?_cons_zero, Option.some.injEq] at hsj
            rw [← hsj]
            exact hc
          | succ j =>
            simp only [List.getElem?_cons_succ] at hsj
            exact hmin j (by omega) sj hsj

/-- C28: for every level, layer and point, `findSector2d` returns either -1 or the
smallest position `i` of the sector list whose sector is on the layer and whose polygon
contains the point; it returns -1 exactly when no sector on the layer contains the point,
in particular on an empty level. The value is the position in the list, whatever the sector
has as its id. The sector count is read as an `s32`, so the list has at most `INT_MAX`
sectors. -/
theorem findSector2d_first_position (env : TraceEnv) (level : EditorLevel) (layer : Int)
    (pos : Vec2f) (hlen : (level.sectors.length : Int) ≤ INT_MAX) :
    ((findSector2d env level layer pos = -1
          ∧ ∀ sector ∈ level.sectors, ¬ containsOnLayer env layer pos sector)
        ∨ ∃ (i : Nat) (sector : EditorSector),
            findSector2d env level layer pos = (i : Int)
            ∧ level.sectors[i]? = some sector ∧ containsOnLayer env layer pos sector
            ∧ ∀ j, j < i → ∀ sj, level.sectors[j]? = some sj →
                ¬ containsOnLayer env layer pos sj)
      ∧ (level.sectors = [] → findSector2d env level layer pos = -1) := by
  have hw : (wrap32 (level.sectors.length : Int)).toNat = level.sectors.length := by
    unfold wrap32
    unfold INT_MAX at hlen
    omega
  have hf : findSector2d env level layer pos
      = findSectorLoop env layer pos 0 level.sectors := by
    unfold findSector2d
    rw [hw, List.take_length]
    cases hs : level.sectors with
    | nil => rfl
    | cons a l => rfl
  rw [hf]
  refine ⟨?_, fun he => by rw [he]; rfl⟩
  rcases findSectorLoop_spec env layer pos level.sectors 0 with h | ⟨k, sector, e, hk, hc, hmin⟩
  · exact Or.inl h
  · exact Or.inr ⟨k, sector, by rw [e, Nat.zero_add], hk, hc, hmin⟩

/-- Witness of C28: in the level of two rooms over the same square with the ids 7 and 9,
the point (2, 2) is found in the sector at position 0. -/
theorem findSector2d_first_position_witness :
    findSector2d specEnv (exLevelOf [exRoom 7 (-1) 0 (-1) 0, exRoom 9 (-1) 0 (-1) 0]) 0 ⟨2, 2⟩
      = 0
    ∧ (∃ (i : Nat) (sector : EditorSector),
        findSector2d specEnv (exLevelOf [exRoom 7 (-1) 0 (-1) 0, exRoom 9 (-1) 0 (-1) 0]) 0
          ⟨2, 2⟩ = (i : Int)
        ∧ (exLevelOf [exRoom 7 (-1) 0 (-1) 0, exRoom 9 (-1) 0 (-1) 0]).sectors[i]?
          = some sector
        ∧ containsOnLayer specEnv 0 ⟨2, 2⟩ sector
        ∧ ∀ j, j < i → ∀ sj,
            (exLevelOf [exRoom 7 (-1) 0 (-1) 0, exRoom 9 (-1) 0 (-1) 0]).sectors[j]? = some sj →
            ¬ containsOnLayer specEnv 0 ⟨2, 2⟩ sj) := by
  have h0 : findSector2d specEnv
      (exLevelOf [exRoom 7 (-1) 0 (-1) 0, exRoom 9 (-1) 0 (-1) 0]) 0 ⟨2, 2⟩ = 0 := by decide!
  refine ⟨h0, ?_⟩
  rcases (findSector2d_first_position specEnv
      (exLevelOf [exRoom 7 (-1) 0 (-1) 0, exRoom 9 (-1) 0 (-1) 0]) 0 ⟨2, 2⟩
      (by decide)).1 with ⟨e, -⟩ | h
  · rw [h0] at e
    exact absurd e (by decide)
  · exact h

/-! ## The box pretest -/

/-- C26 (divergence): the ray from (1, 1, 1), the centre of the box from (0, 0, 0) to
(2, 2, 2), along (-1, 0, 0) has its origin in the box and `rayHitAABB` returns false: each
axis is classed RIGHT, because the origin is above `bounds[0]`, and the distance to the
plane `x = 2` is negative. The early return for an origin inside the box is taken only
when the origin is the corner `bounds[0]`. -/
theorem rayHitAABB_origin_inside_returns_false :
    inBox ⟨0, 0, 0⟩ ⟨2, 2, 2⟩ (exRay ⟨1, 1, 1⟩ ⟨-1, 0, 0⟩ 10).origin
    ∧ quadrant (exRay ⟨1, 1, 1⟩ ⟨-1, 0, 0⟩ 10) ⟨0, 0, 0⟩ 0 = Quadrant.RIGHT
    ∧ maxT (exRay ⟨1, 1, 1⟩ ⟨-1, 0, 0⟩ 10) ⟨0, 0, 0⟩ ⟨2, 2, 2⟩ 0 = -1
    ∧ rayHitAABB (exRay ⟨1, 1, 1⟩ ⟨-1, 0, 0⟩ 10) ⟨0, 0, 0⟩ ⟨2, 2, 2⟩ = false
    ∧ rayHitAABB (exRay ⟨0, 0, 0⟩ ⟨-1, 0, 0⟩ 10) ⟨0, 0, 0⟩ ⟨2, 2, 2⟩ = true := by
  decide!

/-! ## Ray tracing: the layer filter and the part of a hit -/

theorem sectorLoop_all_skipped (env : TraceEnv) (ray : Ray) (level : EditorLevel) :
    ∀ (rest : List EditorSector) (st : TraceState),
      (∀ sector ∈ rest, ¬ layerMatches env ray sector) →
      sectorLoop env ray level rest st = some st := by
  intro rest
  induction rest with
  | nil => intro st _; rfl
  | cons sector rest ih =>
    intro st h
    simp only [sectorLoop,
      traceSector_skip env ray level st sector (h sector (List.mem_cons_self _ _))]
    exact ih st (fun s hs => h s (List.mem_cons_of_mem _ hs))

theorem recordedBy_hitSectorId (env : TraceEnv) (ray : Ray) (level : EditorLevel)
    (sector : EditorSector) (st : TraceState) (h : recordedBy env ray level sector st) :
    st.hitInfo.hitSectorId = sector.id := by
  rcases h.2 with ⟨j, wall, s, -, -, e⟩ | ⟨hp, -, e⟩ | ⟨hp, -, e⟩ <;> rw [e] <;> rfl

/-- C23: for every ray with an exact layer filter L (not `LAYER_ANY`), every hit `traceRay`
reports is the record of a wall, floor or ceiling candidate of a sector of the level whose
layer is L, with the id of that sector; a sector on another layer leaves the state of the
trace as it is, whatever the closest hit so far; and when no sector has the layer L
`traceRay` returns false. -/
theorem traceRay_layer_filter (env : TraceEnv) (ray : Ray) (level : EditorLevel)
    (hitInfo : RayHitInfo) (hL : ray.layer ≠ env.LAYER_ANY) :
    (∀ hi, traceRay env ray level hitInfo = some (true, hi) →
        ∃ sector ∈ level.sectors, sector.layer = ray.layer ∧ hi.hitSectorId = sector.id
          ∧ ∃ st, recordedBy env ray level sector st ∧ hi = st.hitInfo)
      ∧ (∀ (sector : EditorSector) (st : TraceState), sector.layer ≠ ray.layer →
          traceSector env ray level st sector = some st)
      ∧ ((∀ sector ∈ level.sectors, sector.layer ≠ ray.layer) →
          traceRay env ray level hitInfo
            = some (false, if level.sectors.isEmpty then hitInfo else noHit)) := by
  have hskip : ∀ sector : EditorSector, sector.layer ≠ ray.layer →
      ¬ layerMatches env ray sector := by
    intro sector hs hm
    rcases hm with hm | hm
    · exact hL hm
    · exact hs hm.symm
  refine ⟨?_, fun sector st hs => traceSector_skip env ray level st sector (hskip sector hs),
    ?_⟩
  · intro hi h
    have hne : level.sectors ≠ [] := by
      intro he
      unfold traceRay at h
      simp [he] at h
    rcases traceRay_record env ray level hitInfo hi true hne h with ⟨hb, -⟩ |
      ⟨sector, hs, st, hr, hhi⟩
    · exact absurd hb (by decide)
    · have hlay : sector.layer = ray.layer := by
        rcases hr.1 with hm | hm
        · exact absurd hm hL
        · exact hm.symm
      refine ⟨sector, hs, hlay, ?_, st, hr, hhi⟩
      rw [hhi]
      exact recordedBy_hitSectorId env ray level sector st hr
  · intro hall
    unfold traceRay
    cases hs : level.sectors with
    | nil => rfl
    | cons a l =>
      rw [← hs, sectorLoop_all_skipped env ray level level.sectors _
        (fun s hm => hskip s (hall s hm)), hs]
      rfl

/-- Witness of C23: a ray with the layer filter 1 in the level of `exRoom`, which is on
layer 0, reports nothing; with the layer filter 0 it hits wall 2 of the room. -/
theorem traceRay_layer_filter_witness :
    (exLayerRay ⟨2, 4, 2⟩ ⟨1, 0, 0⟩ 10 1).layer ≠ specEnv.LAYER_ANY
    ∧ traceRay specEnv (exLayerRay ⟨2, 4, 2⟩ ⟨1, 0, 0⟩ 10 1)
        (exLevelOf [exRoom 0 (-1) 0 (-1) 0]) exStaleHit = some (false, noHit)
    ∧ traceRay specEnv (exLayerRay ⟨2, 4, 2⟩ ⟨1, 0, 0⟩ 10 0)
        (exLevelOf [exRoom 0 (-1) 0 (-1) 0]) exStaleHit
      = some (true, ⟨0, 2, HitPart.HP_MID, ⟨4, 4, 2⟩, 2⟩) :=
  ⟨by decide,
    (traceRay_layer_filter specEnv (exLayerRay ⟨2, 4, 2⟩ ⟨1, 0, 0⟩ 10 1)
      (exLevelOf [exRoom 0 (-1) 0 (-1) 0]) exStaleHit (by decide)).2.2 (by decide),
    by decide!⟩

/-- C24: for every wall hit `traceRay` reports, the hit is that of a wall of a sector of
the level, and: if the wall is not adjoined the part is mid; if it is adjoined, the part is
bottom exactly when the hit height is at or below the floor of the adjoining sector, top
exactly when it is at or above its ceiling and not at or below its floor, and mid exactly
when it is strictly between the two, which happens only for a wall flagged opaque-mid. -/
theorem traceRay_wall_hit_part (env : TraceEnv) (ray : Ray) (level : EditorLevel)
    (hitInfo hi : RayHitInfo) (h : traceRay env ray level hitInfo = some (true, hi))
    (hw : 0 ≤ hi.hitWallId) :
    ∃ sector ∈ level.sectors, ∃ (j : Nat) (wall : EditorWall),
      sector.walls[j]? = some wall ∧ hi.hitSectorId = sector.id ∧ hi.hitWallId = (j : Int)
      ∧ (wall.adjoinId < 0 → hi.hitPart = HitPart.HP_MID)
      ∧ (0 ≤ wall.adjoinId → ∃ next, vecAt level.sectors wall.adjoinId = some next
          ∧ (hi.hitPart = HitPart.HP_BOT ↔ hi.hitPos.y ≤ next.floorHeight)
          ∧ (hi.hitPart = HitPart.HP_TOP ↔
              ¬ hi.hitPos.y ≤ next.floorHeight ∧ hi.hitPos.y ≥ next.ceilHeight)
          ∧ (hi.hitPart = HitPart.HP_MID ↔
              next.floorHeight < hi.hitPos.y ∧ hi.hitPos.y < next.ceilHeight)
          ∧ (hi.hitPart = HitPart.HP_MID → adjMidTex env wall = true)) := by
  have hne : level.sectors ≠ [] := by
    intro he
    unfold traceRay at h
    simp [he] at h
  rcases traceRay_written env ray level hitInfo hi true hne h with ⟨hb, -⟩ |
    ⟨sector, hs, st, hr, hhi⟩
  · exact absurd hb (by decide)
  · rcases hr.2 with ⟨j, wall, s, hj, hc, hrec, e⟩ | ⟨hp, -, e⟩ | ⟨hp, -, e⟩
    · obtain ⟨v0, v1, t, -, -, -, -, -, ha⟩ := wallCandidate_some env ray level sector wall s hc
      refine ⟨sector, hs, j, wall, hj, by rw [hhi, e]; rfl, by rw [hhi, e]; rfl, ?_, ?_⟩
      · intro hneg
        rw [hhi, e]
        simp only [wallRecord, wallHitPart, if_neg (not_le.mpr hneg)]
      · intro hadj
        obtain ⟨next, hn, -⟩ := ha hadj
        have hcan : adjMidTex env wall = true
            ∨ (ray.pointAt (fmul s ray.maxDist)).y ≤ next.floorHeight
            ∨ (ray.pointAt (fmul s ray.maxDist)).y ≥ next.ceilHeight := by
          rcases hrec hadj with h1 | h1
          · exact Or.inl h1
          · exact Or.inr (h1 next (by rw [hn]; rfl))
        have hpart : hi.hitPart = if hi.hitPos.y ≤ next.floorHeight then HitPart.HP_BOT
            else if hi.hitPos.y ≥ next.ceilHeight then HitPart.HP_TOP else HitPart.HP_MID := by
          rw [hhi, e]
          simp only [wallRecord, wallHitPart, hn, ge_iff_le, hadj, if_true]
        have hpos : hi.hitPos.y = (ray.pointAt (fmul s ray.maxDist)).y := by
          rw [hhi, e]
          rfl
        rw [← hpos] at hcan
        refine ⟨next, hn, ?_, ?_, ?_, ?_⟩
        · rw [hpart]
          by_cases h1 : hi.hitPos.y ≤ next.floorHeight
          · simp [h1]
          · by_cases h2 : hi.hitPos.y ≥ next.ceilHeight
            · simp [h1, h2]
            · simp [h1, h2]
        · rw [hpart]
          by_cases h1 : hi.hitPos.y ≤ next.floorHeight
          · simp [h1]
          · by_cases h2 : hi.hitPos.y ≥ next.ceilHeight
            · simp [h1, h2]
            · simp [h1, h2]
        · rw [hpart]
          by_cases h1 : hi.hitPos.y ≤ next.floorHeight
          · have h3 : ¬ next.floorHeight < hi.hitPos.y := not_lt.mpr h1
            simp [h1, h3]
          · by_cases h2 : hi.hitPos.y ≥ next.ceilHeight
            · have h3 : ¬ hi.hitPos.y < next.ceilHeight := not_lt.mpr h2
              simp [h1, h2, h3]
            · have h3 : next.floorHeight < hi.hitPos.y := not_le.mp h1
              have h4 : hi.hitPos.y < next.ceilHeight := not_le.mp h2
              simp [h1, h2, h3, h4]
        · intro hmid
          rw [hpart] at hmid
          by_cases h1 : hi.hitPos.y ≤ next.floorHeight
          · simp [h1] at hmid
          · by_cases h2 : hi.hitPos.y ≥ next.ceilHeight
            · simp [h1, h2] at hmid
            · rcases hcan with h3 | h3 | h3
              · exact h3
              · exact absurd h3 h1
              · exact absurd h3 h2
    · rw [hhi, e] at hw
      exact absurd hw (by simp [planeRecord])
    · rw [hhi, e] at hw
      exact absurd hw (by simp [planeRecord])

/-- Witness of C24: wall 2 of `exRoom` is adjoined to `exNextRoom`, whose floor is at
height 3; the ray along `x` at height 2 hits the wall below that floor, on its bottom
part. -/
theorem traceRay_wall_hit_part_witness :
    traceRay specEnv (exRay ⟨2, 2, 2⟩ ⟨1, 0, 0⟩ 10)
        (exLevelOf [exRoom 0 1 0 (-1) 0, exNextRoom 1 3 8]) exStaleHit
      = some (true, ⟨0, 2, HitPart.HP_BOT, ⟨4, 2, 2⟩, 2⟩)
    ∧ ∃ sector ∈ (exLevelOf [exRoom 0 1 0 (-1) 0, exNextRoom 1 3 8]).sectors,
        ∃ (j : Nat) (wall : EditorWall),
          sector.walls[j]? = some wall
          ∧ (⟨0, 2, HitPart.HP_BOT, ⟨4, 2, 2⟩, 2⟩ : RayHitInfo).hitSectorId = sector.id
          ∧ (⟨0, 2, HitPart.HP_BOT, ⟨4, 2, 2⟩, 2⟩ : RayHitInfo).hitWallId = (j : Int)
          ∧ (wall.adjoinId < 0 →
              (⟨0, 2, HitPart.HP_BOT, ⟨4, 2, 2⟩, 2⟩ : RayHitInfo).hitPart = HitPart.HP_MID)
          ∧ (0 ≤ wall.adjoinId → ∃ next,
              vecAt (exLevelOf [exRoom 0 1 0 (-1) 0, exNextRoom 1 3 8]).sectors wall.adjoinId
                = some next
              ∧ ((⟨0, 2, HitPart.HP_BOT, ⟨4, 2, 2⟩, 2⟩ : RayHitInfo).hitPart = HitPart.HP_BOT
                  ↔ (⟨0, 2, HitPart.HP_BOT, ⟨4, 2, 2⟩, 2⟩ : RayHitInfo).hitPos.y
                    ≤ next.floorHeight)
              ∧ ((⟨0, 2, HitPart.HP_BOT, ⟨4, 2, 2⟩, 2⟩ : RayHitInfo).hitPart = HitPart.HP_TOP
                  ↔ ¬ (⟨0, 2, HitPart.HP_BOT, ⟨4, 2, 2⟩, 2⟩ : RayHitInfo).hitPos.y
                      ≤ next.floorHeight
                    ∧ (⟨0, 2, HitPart.HP_BOT, ⟨4, 2, 2⟩, 2⟩ : RayHitInfo).hitPos.y
                      ≥ next.ceilHeight)
              ∧ ((⟨0, 2, HitPart.HP_BOT, ⟨4, 2, 2⟩, 2⟩ : RayHitInfo).hitPart = HitPart.HP_MID
                  ↔ next.floorHeight
                      < (⟨0, 2, HitPart.HP_BOT, ⟨4, 2, 2⟩, 2⟩ : RayHitInfo).hitPos.y
                    ∧ (⟨0, 2, HitPart.HP_BOT, ⟨4, 2, 2⟩, 2⟩ : RayHitInfo).hitPos.y
                      < next.ceilHeight)
              ∧ ((⟨0, 2, HitPart.HP_BOT, ⟨4, 2, 2⟩, 2⟩ : RayHitInfo).hitPart = HitPart.HP_MID
                  → adjMidTex specEnv wall = true)) :=
  ⟨by decide!,
    traceRay_wall_hit_part specEnv (exRay ⟨2, 2, 2⟩ ⟨1, 0, 0⟩ 10)
      (exLevelOf [exRoom 0 1 0 (-1) 0, exNextRoom 1 3 8]) exStaleHit
      ⟨0, 2, HitPart.HP_BOT, ⟨4, 2, 2⟩, 2⟩ (by decide!) (by decide)⟩

theorem floorCandidate_some (env : TraceEnv) (ray : Ray) (sector : EditorSector)
    (hitPoint : Vec3f) (h : floorCandidate env ray sector = some hitPoint) :
    ray.origin.y > sector.floorHeight ∧ ray.dir.y < 0
      ∧ env.lineYPlaneIntersect ray.origin (ray.pointAt ray.maxDist) sector.floorHeight
        = some hitPoint
      ∧ env.pointInsidePolygon sector.poly ⟨hitPoint.x, hitPoint.z⟩ = true := by
  unfold floorCandidate at h
  split at h
  · rename_i hc
    split at h
    · rename_i p hp
      split at h
      · rename_i hin
        injection h with e
        subst e
        exact ⟨hc.1, hc.2, hp, hin⟩
      · exact absurd h (by simp)
    · exact absurd h (by simp)
  · exact absurd h (by simp)

theorem ceilCandidate_some (env : TraceEnv) (ray : Ray) (sector : EditorSector)
    (hitPoint : Vec3f) (h : ceilCandidate env ray sector = some hitPoint) :
    ray.origin.y < sector.ceilHeight ∧ ray.dir.y > 0
      ∧ env.lineYPlaneIntersect ray.origin (ray.pointAt ray.maxDist) sector.ceilHeight
        = some hitPoint
      ∧ env.pointInsidePolygon sector.poly ⟨hitPoint.x, hitPoint.z⟩ = true := by
  unfold ceilCandidate at h
  split at h
  · rename_i hc
    split at h
    · rename_i p hp
      split at h
      · rename_i hin
        injection h with e
        subst e
        exact ⟨hc.1, hc.2, hp, hin⟩
      · exact absurd h (by simp)
    · exact absurd h (by simp)
  · exact absurd h (by simp)

theorem wallHitPart_ne_plane (level : EditorLevel) (wall : EditorWall) (y : ℚ) :
    wallHitPart level wall y ≠ HitPart.HP_FLOOR ∧ wallHitPart level wall y ≠ HitPart.HP_CEIL := by
  unfold wallHitPart
  constructor <;> (repeat' split) <;> simp

/-- C25: whenever `traceRay` reports a hit with `hitPart` floor, `hitWallId` is -1, the
vertical component of the direction is negative, and the hit is that of a sector of the
level, with its id, above whose floor height the origin strictly is, on whose floor plane
the ray ends at `hitPos`, and for whose polygon `pointInsidePolygon` holds at the (x, z)
projection of `hitPos`; and the same for `hitPart` ceiling with a positive vertical
component and an origin strictly below the ceiling height. -/
theorem traceRay_plane_hit (env : TraceEnv) (ray : Ray) (level : EditorLevel)
    (hitInfo hi : RayHitInfo) (h : traceRay env ray level hitInfo = some (true, hi)) :
    (hi.hitPart = HitPart.HP_FLOOR →
        hi.hitWallId = -1 ∧ ray.dir.y < 0
        ∧ ∃ sector ∈ level.sectors, hi.hitSectorId = sector.id
            ∧ ray.origin.y > sector.floorHeight
            ∧ env.lineYPlaneIntersect ray.origin (ray.pointAt ray.maxDist) sector.floorHeight
              = some hi.hitPos
            ∧ env.pointInsidePolygon sector.poly ⟨hi.hitPos.x, hi.hitPos.z⟩ = true)
      ∧ (hi.hitPart = HitPart.HP_CEIL →
        hi.hitWallId = -1 ∧ ray.dir.y > 0
        ∧ ∃ sector ∈ level.sectors, hi.hitSectorId = sector.id
            ∧ ray.origin.y < sector.ceilHeight
            ∧ env.lineYPlaneIntersect ray.origin (ray.pointAt ray.maxDist) sector.ceilHeight
              = some hi.hitPos
            ∧ env.pointInsidePolygon sector.poly ⟨hi.hitPos.x, hi.hitPos.z⟩ = true) := by
  have hne : level.sectors ≠ [] := by
    intro he
    unfold traceRay at h
    simp [he] at h
  rcases traceRay_record env ray level hitInfo hi true hne h with ⟨hb, -⟩ |
    ⟨sector, hs, st, hr, hhi⟩
  · exact absurd hb (by decide)
  · rcases hr.2 with ⟨j, wall, s, hj, hc, e⟩ | ⟨hp, hf, e⟩ | ⟨hp, hf, e⟩
    · have hpart : hi.hitPart
          = wallHitPart level wall (ray.pointAt (fmul s ray.maxDist)).y := by
        rw [hhi, e]
        rfl
      have hno := wallHitPart_ne_plane level wall (ray.pointAt (fmul s ray.maxDist)).y
      rw [← hpart] at hno
      exact ⟨fun hf => absurd hf hno.1, fun hc => absurd hc hno.2⟩
    · obtain ⟨h1, h2, h3, h4⟩ := floorCandidate_some env ray sector hp hf
      have hi_eq : hi = ⟨sector.id, -1, HitPart.HP_FLOOR, hp,
          env.sqrtf (ray.distSq hp)⟩ := by
        rw [hhi, e]
        rfl
      rw [hi_eq]
      exact ⟨fun _ => ⟨rfl, h2, sector, hs, rfl, h1, h3, h4⟩,
        fun hc => absurd hc (by simp)⟩
    · obtain ⟨h1, h2, h3, h4⟩ := ceilCandidate_some env ray sector hp hf
      have hi_eq : hi = ⟨sector.id, -1, HitPart.HP_CEIL, hp,
          env.sqrtf (ray.distSq hp)⟩ := by
        rw [hhi, e]
        rfl
      rw [hi_eq]
      exact ⟨fun hc => absurd hc (by simp),
        fun _ => ⟨rfl, h2, sector, hs, rfl, h1, h3, h4⟩⟩

/-- Witness of C25: the ray from the middle of `exRoom` straight down hits its floor at
(2, 0, 2), at distance 4. -/
theorem traceRay_plane_hit_witness :
    traceRay specEnv (exRay ⟨2, 4, 2⟩ ⟨0, -1, 0⟩ 10) (exLevelOf [exRoom 0 (-1) 0 (-1) 0])
        exStaleHit = some (true, ⟨0, -1, HitPart.HP_FLOOR, ⟨2, 0, 2⟩, 4⟩)
    ∧ (exRay ⟨2, 4, 2⟩ ⟨0, -1, 0⟩ 10).dir.y < 0
    ∧ ∃ sector ∈ (exLevelOf [exRoom 0 (-1) 0 (-1) 0]).sectors,
        (⟨0, -1, HitPart.HP_FLOOR, ⟨2, 0, 2⟩, 4⟩ : RayHitInfo).hitSectorId = sector.id
        ∧ (exRay ⟨2, 4, 2⟩ ⟨0, -1, 0⟩ 10).origin.y > sector.floorHeight
        ∧ specEnv.lineYPlaneIntersect (exRay ⟨2, 4, 2⟩ ⟨0, -1, 0⟩ 10).origin
            ((exRay ⟨2, 4, 2⟩ ⟨0, -1, 0⟩ 10).pointAt (exRay ⟨2, 4, 2⟩ ⟨0, -1, 0⟩ 10).maxDist)
            sector.floorHeight
          = some (⟨0, -1, HitPart.HP_FLOOR, ⟨2, 0, 2⟩, 4⟩ : RayHitInfo).hitPos
        ∧ specEnv.pointInsidePolygon sector.poly
            ⟨(⟨0, -1, HitPart.HP_FLOOR, ⟨2, 0, 2⟩, 4⟩ : RayHitInfo).hitPos.x,
              (⟨0, -1, HitPart.HP_FLOOR, ⟨2, 0, 2⟩, 4⟩ : RayHitInfo).hitPos.z⟩ = true :=
  ⟨by decide!,
    ((traceRay_plane_hit specEnv (exRay ⟨2, 4, 2⟩ ⟨0, -1, 0⟩ 10)
      (exLevelOf [exRoom 0 (-1) 0 (-1) 0]) exStaleHit
      ⟨0, -1, HitPart.HP_FLOOR, ⟨2, 0, 2⟩, 4⟩ (by decide!)).1 rfl).2⟩

/-! ## Ray tracing on a loaded level -/

/-- C27 (divergence): the level file of one room whose wall 2 has `ADJOIN: 5` loads, with
one sector and the adjoin 5 stored for the wall; on the loaded level the ray from the middle
of the room along `x` crosses that wall and `traceRay` reads the sector list at position 5,
outside the list. -/
theorem traceRay_loaded_adjoin_out_of_range :
    (loadLevelFromAsset exLoaderEnv exLevel (exRoomFile 5 0)).level?.map
        (fun level => level.sectors.map fun sector =>
          sector.walls.map fun wall => wall.adjoinId) = some [[-1, -1, 5, -1]]
    ∧ (loadLevelFromAsset exLoaderEnv exLevel (exRoomFile 5 0)).level?.map
        (fun level => decide (levelInRange level)) = some false
    ∧ (loadLevelFromAsset exLoaderEnv exLevel (exRoomFile 5 0)).level?.map
        (fun level => traceRay specEnv (exRay ⟨2, 4, 2⟩ ⟨1, 0, 0⟩ 10) level noHit)
      = some none
    ∧ (loadLevelFromAsset exLoaderEnv exLevel (exRoomFile (-1) 0)).level?.map
        (fun level => traceRay specEnv (exRay ⟨2, 4, 2⟩ ⟨1, 0, 0⟩ 10) level noHit)
      = some (some (true, ⟨0, 2, HitPart.HP_MID, ⟨4, 4, 2⟩, 2⟩)) := by
  decide!

/-! ## Running minimum and maximum -/

theorem foldl_min_le_init {α β : Type} [LinearOrder α] (f : β → α) :
    ∀ (l : List β) (init : α), l.foldl (fun b x => min b (f x)) init ≤ init := by
  intro l
  induction l with
  | nil => intro init; exact le_refl _
  | cons a l ih =>
    intro init
    exact (ih _).trans (min_le_left _ _)

theorem foldl_min_le_mem {α β : Type} [LinearOrder α] (f : β → α) :
    ∀ (l : List β) (init : α), ∀ x ∈ l, l.foldl (fun b x => min b (f x)) init ≤ f x := by
  intro l
  induction l with
  | nil => intro init x hx; exact absurd hx (List.not_mem_nil _)
  | cons a l ih =>
    intro init x hx
    rcases List.mem_cons.mp hx with rfl | hx
    · exact (foldl_min_le_init f l _).trans (min_le_right _ _)
    · exact ih _ x hx

theorem foldl_min_eq {α β : Type} [LinearOrder α] (f : β → α) :
    ∀ (l : List β) (init : α),
      l.foldl (fun b x => min b (f x)) init = init
        ∨ ∃ x ∈ l, l.foldl (fun b x => min b (f x)) init = f x := by
  intro l
  induction l with
  | nil => intro init; exact Or.inl rfl
  | cons a l ih =>
    intro init
    rcases ih (min init (f a)) with h | ⟨x, hx, h⟩
    · rcases min_choice init (f a) with hm | hm
      · left
        simp only [List.foldl_cons]
        rw [h, hm]
      · right
        refine ⟨a, List.mem_cons_self _ _, ?_⟩
        simp only [List.foldl_cons]
        rw [h, hm]
    · exact Or.inr ⟨x, List.mem_cons_of_mem _ hx, h⟩

theorem foldl_min_attained {α β : Type} [LinearOrder α] (f : β → α) (l : List β) (init : α)
    (hne : l ≠ []) (hle : ∀ x ∈ l, f x ≤ init) :
    ∃ x ∈ l, l.foldl (fun b x => min b (f x)) init = f x := by
  rcases foldl_min_eq f l init with h | h
  · obtain ⟨a, ha⟩ := List.exists_mem_of_ne_nil l hne
    refine ⟨a, ha, le_antisymm (foldl_min_le_mem f l init a ha) ?_⟩
    rw [h]
    exact hle a ha
  · exact h

theorem foldl_max_ge_init {α β : Type} [LinearOrder α] (f : β → α) :
    ∀ (l : List β) (init : α), init ≤ l.foldl (fun b x => max b (f x)) init := by
  intro l
  induction l with
  | nil => intro init; exact le_refl _
  | cons a l ih =>
    intro init
    exact (le_max_left _ _).trans (ih _)

theorem foldl_max_ge_mem {α β : Type} [LinearOrder α] (f : β → α) :
    ∀ (l : List β) (init : α), ∀ x ∈ l, f x ≤ l.foldl (fun b x => max b (f x)) init := by
  intro l
  induction l with
  | nil => intro init x hx; exact absurd hx (List.not_mem_nil _)
  | cons a l ih =>
    intro init x hx
    rcases List.mem_cons.mp hx with rfl | hx
    · exact (le_max_right _ _).trans (foldl_max_ge_init f l _)
    · exact ih _ x hx

theorem foldl_max_eq {α β : Type} [LinearOrder α] (f : β → α) :
    ∀ (l : List β) (init : α),
      l.foldl (fun b x => max b (f x)) init = init
        ∨ ∃ x ∈ l, l.foldl (fun b x => max b (f x)) init = f x := by
  intro l
  induction l with
  | nil => intro init; exact Or.inl rfl
  | cons a l ih =>
    intro init
    rcases ih (max init (f a)) with h | ⟨x, hx, h⟩
    · rcases max_choice init (f a) with hm | hm
      · left
        simp only [List.foldl_cons]
        rw [h, hm]
      · right
        refine ⟨a, List.mem_cons_self _ _, ?_⟩
        simp only [List.foldl_cons]
        rw [h, hm]
    · exact Or.inr ⟨x, List.mem_cons_of_mem _ hx, h⟩

theorem foldl_max_attained {α β : Type} [LinearOrder α] (f : β → α) (l : List β) (init : α)
    (hne : l ≠ []) (hle : ∀ x ∈ l, init ≤ f x) :
    ∃ x ∈ l, l.foldl (fun b x => max b (f x)) init = f x := by
  rcases foldl_max_eq f l init with h | h
  · obtain ⟨a, ha⟩ := List.exists_mem_of_ne_nil l hne
    refine ⟨a, ha, le_antisymm ?_ (foldl_max_ge_mem f l init a ha)⟩
    rw [h]
    exact hle a ha
  · exact h

/-! ## Level loading: the bounds of a sector -/

theorem readVertices_bounds : ∀ (n : Nat) (buf : List Line) (sector : EditorSector)
    (y0 y1 : ℚ), boundsAccumulated sector y0 y1 →
    boundsAccumulated (readVertices n buf sector).1 y0 y1 := by
  intro n
  induction n with
  | zero => intro buf sector y0 y1 h; exact h
  | succ n ih =>
    intro buf sector y0 y1 h
    simp only [readVertices]
    apply ih
    obtain ⟨h0, h1⟩ := h
    unfold boundsAccumulated
    simp only [List.foldl_append, List.foldl_cons, List.foldl_nil, h0, h1, and_self]

theorem loadSectorGeometry_bounds (textureList : List AssetHandle) (line : Line)
    (buf : List Line) (sector sector1 : EditorSector) (buf1 : List Line)
    (hv : sector.vtx = [])
    (h : loadSectorGeometry textureList line buf sector = SectorResult.ok sector1 buf1) :
    boundsAccumulated sector1 (min sector1.floorHeight sector1.ceilHeight)
      (max sector1.floorHeight sector1.ceilHeight) := by
  unfold loadSectorGeometry at h
  split at h
  · rename_i vertexCount _
    split at h
    · exact absurd h (by simp)
    · simp only at h
      split at h
      · rename_i wallCount _
        split at h
        · exact absurd h (by simp)
        · generalize hr : readVertices vertexCount.toNat buf
            { sector with
              bounds0 := ⟨FLT_MAX, min sector.floorHeight sector.ceilHeight, FLT_MAX⟩
              bounds1 := ⟨-FLT_MAX, max sector.floorHeight sector.ceilHeight, -FLT_MAX⟩ } = r at h
          have hb := readVertices_bounds vertexCount.toNat buf
            { sector with
              bounds0 := ⟨FLT_MAX, min sector.floorHeight sector.ceilHeight, FLT_MAX⟩
              bounds1 := ⟨-FLT_MAX, max sector.floorHeight sector.ceilHeight, -FLT_MAX⟩ }
            (min sector.floorHeight sector.ceilHeight)
            (max sector.floorHeight sector.ceilHeight)
            (by simp [boundsAccumulated, hv])
          have hs := readVertices_spec vertexCount.toNat buf
            { sector with
              bounds0 := ⟨FLT_MAX, min sector.floorHeight sector.ceilHeight, FLT_MAX⟩
              bounds1 := ⟨-FLT_MAX, max sector.floorHeight sector.ceilHeight, -FLT_MAX⟩ }
          rw [hr] at hb hs
          obtain ⟨hs1, -, -⟩ := hs
          obtain ⟨h1, h2, h3, h4, -, -, -, -⟩ :=
            readWalls_ok textureList wallCount.toNat 0 (readLine r.2).2
              { r.1 with walls := List.replicate wallCount.toNat EditorWall.zero }
              sector1 buf1 h (by simp)
          obtain ⟨-, -, -, -, -, a6, a7, -⟩ := h1
          obtain ⟨-, -, -, -, -, b6, b7, -⟩ := hs1
          simp only at a6 a7 b6 b7 h2 h3 h4
          unfold boundsAccumulated
          rw [h2, h3, h4, a6, a7, b6, b7]
          exact hb
      · exact absurd h (by simp)
  · exact absurd h (by simp)

theorem loadSectorFlags_bounds (textureList : List AssetHandle) (buf : List Line)
    (sector sector1 : EditorSector) (buf1 : List Line) (hv : sector.vtx = [])
    (h : loadSectorFlags textureList buf sector = SectorResult.ok sector1 buf1) :
    boundsAccumulated sector1 (min sector1.floorHeight sector1.ceilHeight)
      (max sector1.floorHeight sector1.ceilHeight) := by
  unfold loadSectorFlags at h
  simp only at h
  repeat' split at h
  all_goals first
    | exact absurd h (by simp)
    | exact loadSectorGeometry_bounds textureList _ _ _ sector1 buf1 (by exact hv) h

theorem loadSectorCeiling_bounds (textureList : List AssetHandle) (buf : List Line)
    (sector sector1 : EditorSector) (buf1 : List Line) (hv : sector.vtx = [])
    (h : loadSectorCeiling textureList buf sector = SectorResult.ok sector1 buf1) :
    boundsAccumulated sector1 (min sector1.floorHeight sector1.ceilHeight)
      (max sector1.floorHeight sector1.ceilHeight) := by
  unfold loadSectorCeiling at h
  simp only at h
  split at h
  · exact absurd h (by simp)
  · split at h
    · split at h
      · exact absurd h (by simp)
      · exact loadSectorFlags_bounds textureList _ _ sector1 buf1 (by exact hv) h
    · exact absurd h (by simp)

theorem loadSectorFloor_bounds (textureList : List AssetHandle) (buf : List Line)
    (sector sector1 : EditorSector) (buf1 : List Line) (hv : sector.vtx = [])
    (h : loadSectorFloor textureList buf sector = SectorResult.ok sector1 buf1) :
    boundsAccumulated sector1 (min sector1.floorHeight sector1.ceilHeight)
      (max sector1.floorHeight sector1.ceilHeight) := by
  unfold loadSectorFloor at h
  simp only at h
  split at h
  · exact absurd h (by simp)
  · split at h
    · split at h
      · exact absurd h (by simp)
      · exact loadSectorCeiling_bounds textureList _ _ sector1 buf1 (by exact hv) h
    · exact absurd h (by simp)

theorem loadSector_bounds (textureList : List AssetHandle) (buf : List Line)
    (sector1 : EditorSector) (buf1 : List Line)
    (h : loadSector textureList buf = SectorResult.ok sector1 buf1) :
    boundsAccumulated sector1 (min sector1.floorHeight sector1.ceilHeight)
      (max sector1.floorHeight sector1.ceilHeight) := by
  unfold loadSector at h
  split at h
  · simp only at h
    split at h
    · exact loadSectorFloor_bounds textureList _ _ sector1 buf1 (by rfl) h
    · exact absurd h (by simp)
  · exact absurd h (by simp)

theorem loadLevelFromAsset_boundsAccumulated (env : LoaderEnv) (level level1 : EditorLevel)
    (fileData : List Line) (textureList : List AssetHandle)
    (h : loadLevelFromAsset env level fileData = LoadResult.loaded level1 textureList) :
    ∀ sector ∈ level1.sectors,
      boundsAccumulated sector (min sector.floorHeight sector.ceilHeight)
        (max sector.floorHeight sector.ceilHeight) := by
  intro sector hm
  obtain ⟨cursor, next, sector0, -, hl, e⟩ :=
    loadLevelFromAsset_sectors env level level1 fileData textureList h sector hm
  rw [e]
  exact loadSector_bounds textureList cursor sector0 next hl

/-- Counterexample to C21 as stated: a vertex line whose `X` is beyond the finite range of
`f32` (as `X: 1e39`, which `%f` stores as infinity; here the value `2 * FLT_MAX`). The file
loads, the sector has that one vertex, and `bounds[0].x` is `FLT_MAX`, the start value of
the running minimum, which is the `x` of no vertex of the sector. -/
theorem loadLevelFromAsset_sector_bound_not_attained :
    (loadLevelFromAsset exLoaderEnv exLevel
        (exFile (levLine 2 1) (vertexLine (2 * FLT_MAX) 0) 0)).level?.map
        (fun level => level.sectors.map fun sector =>
          (sector.vtx, sector.bounds0.x, sector.bounds1.x))
      = some [([⟨2 * FLT_MAX, 0⟩], FLT_MAX, 2 * FLT_MAX)]
    ∧ ¬ ∃ v ∈ [(⟨2 * FLT_MAX, 0⟩ : Vec2f)], FLT_MAX = v.x := by
  decide!

/-- C21 (amended): for every sector of a level that `loadLevelFromAsset` loads,
`bounds[0].y` is the minimum and `bounds[1].y` the maximum of the floor and ceiling heights
of the sector, as loaded; every vertex of the sector lies between `bounds[0]` and
`bounds[1]` in `x` and in `z`; and when the sector has at least one vertex and all its
vertex coordinates are finite, between `-FLT_MAX` and `FLT_MAX`, each of `bounds[0].x`,
`bounds[0].z`, `bounds[1].x` and `bounds[1].z` is attained by a vertex, so that they are the
minimum and the maximum of the coordinates. -/
theorem loadLevelFromAsset_sector_bounds (env : LoaderEnv) (level level1 : EditorLevel)
    (fileData : List Line) (textureList : List AssetHandle)
    (h : loadLevelFromAsset env level fileData = LoadResult.loaded level1 textureList) :
    ∀ sector ∈ level1.sectors,
      sector.bounds0.y = min sector.floorHeight sector.ceilHeight
      ∧ sector.bounds1.y = max sector.floorHeight sector.ceilHeight
      ∧ (∀ v ∈ sector.vtx, sector.bounds0.x ≤ v.x ∧ v.x ≤ sector.bounds1.x
          ∧ sector.bounds0.z ≤ v.z ∧ v.z ≤ sector.bounds1.z)
      ∧ (sector.vtx ≠ [] → (∀ v ∈ sector.vtx, isF32 v.x ∧ isF32 v.z) →
          (∃ v ∈ sector.vtx, sector.bounds0.x = v.x)
          ∧ (∃ v ∈ sector.vtx, sector.bounds0.z = v.z)
          ∧ (∃ v ∈ sector.vtx, sector.bounds1.x = v.x)
          ∧ (∃ v ∈ sector.vtx, sector.bounds1.z = v.z)) := by
  intro sector hm
  obtain ⟨h0, h1⟩ :=
    loadLevelFromAsset_boundsAccumulated env level level1 fileData textureList h sector hm
  rw [h0, h1]
  refine ⟨rfl, rfl, fun v hv => ⟨?_, ?_, ?_, ?_⟩, fun hne hfin => ⟨?_, ?_, ?_, ?_⟩⟩
  · exact foldl_min_le_mem (fun v : Vec2f => v.x) sector.vtx FLT_MAX v hv
  · exact foldl_max_ge_mem (fun v : Vec2f => v.x) sector.vtx (-FLT_MAX) v hv
  · exact foldl_min_le_mem (fun v : Vec2f => v.z) sector.vtx FLT_MAX v hv
  · exact foldl_max_ge_mem (fun v : Vec2f => v.z) sector.vtx (-FLT_MAX) v hv
  · exact foldl_min_attained (fun v : Vec2f => v.x) sector.vtx FLT_MAX hne
      (fun v hv => (hfin v hv).1.2)
  · exact foldl_min_attained (fun v : Vec2f => v.z) sector.vtx FLT_MAX hne
      (fun v hv => (hfin v hv).2.2)
  · exact foldl_max_attained (fun v : Vec2f => v.x) sector.vtx (-FLT_MAX) hne
      (fun v hv => (hfin v hv).1.1)
  · exact foldl_max_attained (fun v : Vec2f => v.z) sector.vtx (-FLT_MAX) hne
      (fun v hv => (hfin v hv).2.1)

/-- Witness of C21 (amended): the level file of the square room, which loads with the bounds
(0, 0, 0) and (4, 8, 4) for its sector. -/
theorem loadLevelFromAsset_sector_bounds_witness :
    (loadLevelFromAsset exLoaderEnv exLevel (exRoomFile (-1) 0)).level?.map
        (fun level => level.sectors.map fun sector => (sector.bounds0, sector.bounds1))
      = some [(⟨0, 0, 0⟩, ⟨4, 8, 4⟩)]
    ∧ ∃ level1 textureList,
      loadLevelFromAsset exLoaderEnv exLevel (exRoomFile (-1) 0)
        = LoadResult.loaded level1 textureList
      ∧ ∀ sector ∈ level1.sectors,
          sector.bounds0.y = min sector.floorHeight sector.ceilHeight
          ∧ sector.bounds1.y = max sector.floorHeight sector.ceilHeight
          ∧ (∀ v ∈ sector.vtx, sector.bounds0.x ≤ v.x ∧ v.x ≤ sector.bounds1.x
              ∧ sector.bounds0.z ≤ v.z ∧ v.z ≤ sector.bounds1.z)
          ∧ (sector.vtx ≠ [] → (∀ v ∈ sector.vtx, isF32 v.x ∧ isF32 v.z) →
              (∃ v ∈ sector.vtx, sector.bounds0.x = v.x)
              ∧ (∃ v ∈ sector.vtx, sector.bounds0.z = v.z)
              ∧ (∃ v ∈ sector.vtx, sector.bounds1.x = v.x)
              ∧ (∃ v ∈ sector.vtx, sector.bounds1.z = v.z)) := by
  refine ⟨by decide!, ?_⟩
  cases h : loadLevelFromAsset exLoaderEnv exLevel (exRoomFile (-1) 0) with
  | loaded level1 textureList =>
    exact ⟨level1, textureList, rfl,
      loadLevelFromAsset_sector_bounds exLoaderEnv exLevel level1 _ textureList h⟩
  | failed level1 =>
    have hl : (loadLevelFromAsset exLoaderEnv exLevel
        (exRoomFile (-1) 0)).isLoaded = true := by decide!
    rw [h] at hl
    exact absurd hl (by simp [LoadResult.isLoaded])
  | fault =>
    have hl : (loadLevelFromAsset exLoaderEnv exLevel
        (exRoomFile (-1) 0)).isLoaded = true := by decide!
    rw [h] at hl
    exact absurd hl (by simp [LoadResult.isLoaded])

/-! ## Level loading: the bounds and the layer range of the level -/

theorem foldl_bounds0 (f : EditorSector → Vec3f) :
    ∀ (l : List EditorSector) (init : Vec3f),
      l.foldl (fun b sector => (⟨min b.x (f sector).x, min b.y (f sector).y,
          min b.z (f sector).z⟩ : Vec3f)) init
        = ⟨l.foldl (fun b sector => min b (f sector).x) init.x,
            l.foldl (fun b sector => min b (f sector).y) init.y,
            l.foldl (fun b sector => min b (f sector).z) init.z⟩ := by
  intro l
  induction l with
  | nil => intro init; rfl
  | cons a l ih =>
    intro init
    simp only [List.foldl_cons, ih]

theorem foldl_bounds1 (f : EditorSector → Vec3f) :
    ∀ (l : List EditorSector) (init : Vec3f),
      l.foldl (fun b sector => (⟨max b.x (f sector).x, max b.y (f sector).y,
          max b.z (f sector).z⟩ : Vec3f)) init
        = ⟨l.foldl (fun b sector => max b (f sector).x) init.x,
            l.foldl (fun b sector => max b (f sector).y) init.y,
            l.foldl (fun b sector => max b (f sector).z) init.z⟩ := by
  intro l
  induction l with
  | nil => intro init; rfl
  | cons a l ih =>
    intro init
    simp only [List.foldl_cons, ih]

theorem finishLevel_extent (env : LoaderEnv) (level : EditorLevel) :
    extentAccumulated (finishLevel env level) := by
  unfold extentAccumulated finishLevel
  simp only [List.foldl_map]
  refine ⟨?_, ?_, rfl, rfl⟩
  · exact foldl_bounds0 (fun sector => sector.bounds0) level.sectors ⟨FLT_MAX, FLT_MAX, FLT_MAX⟩
  · exact foldl_bounds1 (fun sector => sector.bounds1) level.sectors
      ⟨-FLT_MAX, -FLT_MAX, -FLT_MAX⟩

theorem loadLevelFromAsset_extent (env : LoaderEnv) (level level1 : EditorLevel)
    (fileData : List Line) (textureList : List AssetHandle)
    (h : loadLevelFromAsset env level fileData = LoadResult.loaded level1 textureList) :
    extentAccumulated level1 := by
  unfold loadLevelFromAsset at h
  split at h
  · exact absurd h (by simp)
  · split at h
    · exact absurd h (by simp)
    · simp only at h
      split at h
      · split at h
        · obtain ⟨sectors, parallax, e, -⟩ := loadSky_loaded env _ level1 _ textureList h
          rw [e]
          exact finishLevel_extent env _
        · exact absurd h (by simp)
      · exact absurd h (by simp)

/-- C22 (divergence): line 348 starts the running maximum of the layers at `-INT_MAX`, one
above the least `s32`. The level file of the square room on the layer -2147483648, the least
`s32`, loads, and the layer range of the level ends at -2147483647 = `-INT_MAX`, the value
the maximum starts from, which is the layer of no sector. -/
theorem loadLevelFromAsset_layer_range_not_attained :
    (loadLevelFromAsset exLoaderEnv exLevel (exRoomFile (-1) (-2147483648))).level?.map
        (fun level => (level.layerRange0, level.layerRange1,
          level.sectors.map fun sector => sector.layer))
      = some (-2147483648, -2147483647, [-2147483648]) := by
  decide!

/-- Away from the start values of the running minima and maxima the extent of a loaded level
is exact: for every level that `loadLevelFromAsset` loads with at least one sector, whose
sectors have floor and ceiling heights in the range of `f32` and layers from `-INT_MAX` to
`INT_MAX`, the box of every sector lies inside the bounds of the level and every layer
inside its layer range, and each of the six bounds and of the two ends of the layer range is
attained by a sector. -/
theorem loadLevelFromAsset_level_extent (env : LoaderEnv) (level level1 : EditorLevel)
    (fileData : List Line) (textureList : List AssetHandle)
    (h : loadLevelFromAsset env level fileData = LoadResult.loaded level1 textureList)
    (hne : level1.sectors ≠ [])
    (hheights : ∀ sector ∈ level1.sectors,
      isF32 sector.floorHeight ∧ isF32 sector.ceilHeight)
    (hlayers : ∀ sector ∈ level1.sectors, -INT_MAX ≤ sector.layer ∧ sector.layer ≤ INT_MAX) :
    (∀ sector ∈ level1.sectors,
        level1.bounds0.x ≤ sector.bounds0.x ∧ level1.bounds0.y ≤ sector.bounds0.y
        ∧ level1.bounds0.z ≤ sector.bounds0.z ∧ sector.bounds1.x ≤ level1.bounds1.x
        ∧ sector.bounds1.y ≤ level1.bounds1.y ∧ sector.bounds1.z ≤ level1.bounds1.z
        ∧ level1.layerRange0 ≤ sector.layer ∧ sector.layer ≤ level1.layerRange1)
      ∧ (∃ sector ∈ level1.sectors, level1.bounds0.x = sector.bounds0.x)
      ∧ (∃ sector ∈ level1.sectors, level1.bounds0.y = sector.bounds0.y)
      ∧ (∃ sector ∈ level1.sectors, level1.bounds0.z = sector.bounds0.z)
      ∧ (∃ sector ∈ level1.sectors, level1.bounds1.x = sector.bounds1.x)
      ∧ (∃ sector ∈ level1.sectors, level1.bounds1.y = sector.bounds1.y)
      ∧ (∃ sector ∈ level1.sectors, level1.bounds1.z = sector.bounds1.z)
      ∧ (∃ sector ∈ level1.sectors, level1.layerRange0 = sector.layer)
      ∧ (∃ sector ∈ level1.sectors, level1.layerRange1 = sector.layer) := by
  obtain ⟨e0, e1, e2, e3⟩ := loadLevelFromAsset_extent env level level1 fileData textureList h
  have hacc := loadLevelFromAsset_boundsAccumulated env level level1 fileData textureList h
  rw [e0, e1, e2, e3]
  refine ⟨fun sector hs => ⟨?_, ?_, ?_, ?_, ?_, ?_, ?_, ?_⟩, ?_, ?_, ?_, ?_, ?_, ?_, ?_, ?_⟩
  · exact foldl_min_le_mem (fun s : EditorSector => s.bounds0.x) _ _ sector hs
  · exact foldl_min_le_mem (fun s : EditorSector => s.bounds0.y) _ _ sector hs
  · exact foldl_min_le_mem (fun s : EditorSector => s.bounds0.z) _ _ sector hs
  · exact foldl_max_ge_mem (fun s : EditorSector => s.bounds1.x) _ _ sector hs
  · exact foldl_max_ge_mem (fun s : EditorSector => s.bounds1.y) _ _ sector hs
  · exact foldl_max_ge_mem (fun s : EditorSector => s.bounds1.z) _ _ sector hs
  · exact foldl_min_le_mem (fun s : EditorSector => s.layer) _ _ sector hs
  · exact foldl_max_ge_mem (fun s : EditorSector => s.layer) _ _ sector hs
  · refine foldl_min_attained (fun s : EditorSector => s.bounds0.x) _ _ hne (fun s hs => ?_)
    simp only
    rw [(hacc s hs).1]
    exact foldl_min_le_init (fun v : Vec2f => v.x) s.vtx FLT_MAX
  · refine foldl_min_attained (fun s : EditorSector => s.bounds0.y) _ _ hne (fun s hs => ?_)
    simp only
    rw [(hacc s hs).1]
    exact (min_le_left _ _).trans (hheights s hs).1.2
  · refine foldl_min_attained (fun s : EditorSector => s.bounds0.z) _ _ hne (fun s hs => ?_)
    simp only
    rw [(hacc s hs).1]
    exact foldl_min_le_init (fun v : Vec2f => v.z) s.vtx FLT_MAX
  · refine foldl_max_attained (fun s : EditorSector => s.bounds1.x) _ _ hne (fun s hs => ?_)
    simp only
    rw [(hacc s hs).2]
    exact foldl_max_ge_init (fun v : Vec2f => v.x) s.vtx (-FLT_MAX)
  · refine foldl_max_attained (fun s : EditorSector => s.bounds1.y) _ _ hne (fun s hs => ?_)
    simp only
    rw [(hacc s hs).2]
    exact (hheights s hs).1.1.trans (le_max_left _ _)
  · refine foldl_max_attained (fun s : EditorSector => s.bounds1.z) _ _ hne (fun s hs => ?_)
    simp only
    rw [(hacc s hs).2]
    exact foldl_max_ge_init (fun v : Vec2f => v.z) s.vtx (-FLT_MAX)
  · exact foldl_min_attained (fun s : EditorSector => s.layer) _ _ hne
      (fun s hs => (hlayers s hs).2)
  · exact foldl_max_attained (fun s : EditorSector => s.layer) _ _ hne
      (fun s hs => (hlayers s hs).1)

/-- The level file of the square room on layer 0 loads with the level bounds (0, 0, 0) and
(4, 8, 4) and the layer range [0, 0]. -/
theorem loadLevelFromAsset_level_extent_witness :
    (loadLevelFromAsset exLoaderEnv exLevel (exRoomFile (-1) 0)).level?.map
        (fun level => (level.bounds0, level.bounds1, level.layerRange0, level.layerRange1))
      = some (⟨0, 0, 0⟩, ⟨4, 8, 4⟩, 0, 0)
    ∧ ∃ level1 textureList,
      loadLevelFromAsset exLoaderEnv exLevel (exRoomFile (-1) 0)
        = LoadResult.loaded level1 textureList
      ∧ level1.sectors ≠ []
      ∧ (∀ sector ∈ level1.sectors, isF32 sector.floorHeight ∧ isF32 sector.ceilHeight)
      ∧ (∀ sector ∈ level1.sectors, -INT_MAX ≤ sector.layer ∧ sector.layer ≤ INT_MAX)
      ∧ (∀ sector ∈ level1.sectors,
          level1.bounds0.x ≤ sector.bounds0.x ∧ level1.bounds0.y ≤ sector.bounds0.y
          ∧ level1.bounds0.z ≤ sector.bounds0.z ∧ sector.bounds1.x ≤ level1.bounds1.x
          ∧ sector.bounds1.y ≤ level1.bounds1.y ∧ sector.bounds1.z ≤ level1.bounds1.z
          ∧ level1.layerRange0 ≤ sector.layer ∧ sector.layer ≤ level1.layerRange1)
      ∧ (∃ sector ∈ level1.sectors, level1.layerRange1 = sector.layer) := by
  refine ⟨by decide!, ?_⟩
  have hev : (loadLevelFromAsset exLoaderEnv exLevel (exRoomFile (-1) 0)).level?.map
      (fun level => level.sectors.map fun sector =>
        (sector.floorHeight, sector.ceilHeight, sector.layer)) = some [(0, 8, 0)] := by
    decide!
  cases h : loadLevelFromAsset exLoaderEnv exLevel (exRoomFile (-1) 0) with
  | loaded level1 textureList =>
    rw [h] at hev
    simp only [LoadResult.level?, Option.map_some', Option.some.injEq] at hev
    have hall : ∀ sector ∈ level1.sectors,
        sector.floorHeight = 0 ∧ sector.ceilHeight = 8 ∧ sector.layer = 0 := by
      intro sector hs
      have hm : (sector.floorHeight, sector.ceilHeight, sector.layer)
          ∈ level1.sectors.map fun sector =>
            (sector.floorHeight, sector.ceilHeight, sector.layer) :=
        List.mem_map.mpr ⟨sector, hs, rfl⟩
      rw [hev] at hm
      simp only [List.mem_singleton, Prod.mk.injEq] at hm
      exact hm
    have hne : level1.sectors ≠ [] := by
      intro he
      rw [he] at hev
      simp at hev
    have hheights : ∀ sector ∈ level1.sectors,
        isF32 sector.floorHeight ∧ isF32 sector.ceilHeight := by
      intro sector hs
      obtain ⟨h1, h2, -⟩ := hall sector hs
      rw [h1, h2]
      exact ⟨by decide!, by decide!⟩
    have hlayers : ∀ sector ∈ level1.sectors,
        -INT_MAX ≤ sector.layer ∧ sector.layer ≤ INT_MAX := by
      intro sector hs
      obtain ⟨-, -, h3⟩ := hall sector hs
      rw [h3]
      exact ⟨by decide, by decide⟩
    have hthm := loadLevelFromAsset_level_extent exLoaderEnv exLevel level1 _ textureList h
      hne hheights hlayers
    exact ⟨level1, textureList, rfl, hne, hheights, hlayers, hthm.1, hthm.2.2.2.2.2.2.2.2⟩
  | failed level1 =>
    rw [h] at hev
    simp [LoadResult.level?] at hev
  | fault =>
    rw [h] at hev
    simp [LoadResult.level?] at hev

/-! ## Delta images: the unclipped drawing draws the pixels of the image -/

theorem plotAll_append (stride : Int) :
    ∀ (a b : List Pixel) (fb : List Nat),
      plotAll stride (a ++ b) fb = (plotAll stride a fb).bind (plotAll stride b) := by
  intro a
  induction a with
  | nil => intro b fb; rfl
  | cons p a ih =>
    intro b fb
    simp only [List.cons_append, plotAll]
    cases writePixel fb (p.y * stride + p.x) p.color with
    | none => rfl
    | some fb1 => exact ih b fb1

theorem copyPixels_run (stride py : Int) :
    ∀ (n : Nat) (src : List Nat) (px : Int) (fb src1 : List Nat) (run : List Pixel),
      runDirect py n src px = some (src1, run) →
      copyPixels n src (py * stride + px) fb
        = (plotAll stride run fb).map fun fb1 => (src1, fb1) := by
  intro n
  induction n with
  | zero =>
    intro src px fb src1 run h
    simp only [runDirect, Option.some.injEq, Prod.mk.injEq] at h
    obtain ⟨rfl, rfl⟩ := h
    rfl
  | succ n ih =>
    intro src px fb src1 run h
    cases src with
    | nil => simp [runDirect] at h
    | cons b src =>
      simp only [runDirect] at h
      cases hr : runDirect py n src (px + 1) with
      | none => rw [hr] at h; simp at h
      | some r =>
        obtain ⟨src2, pixels⟩ := r
        rw [hr] at h
        simp only [Option.some.injEq, Prod.mk.injEq] at h
        obtain ⟨rfl, rfl⟩ := h
        simp only [copyPixels, plotAll]
        cases writePixel fb (py * stride + px) b with
        | none => rfl
        | some fb1 =>
          simp only
          rw [add_assoc]
          exact ih src (px + 1) fb1 src2 pixels hr

theorem fillPixels_run (stride py : Int) (pixel : Nat) :
    ∀ (n : Nat) (px : Int) (fb : List Nat),
      fillPixels n pixel (py * stride + px) fb
        = plotAll stride (runFill py pixel n px) fb := by
  intro n
  induction n with
  | zero => intro px fb; rfl
  | succ n ih =>
    intro px fb
    simp only [fillPixels, runFill, plotAll]
    cases writePixel fb (py * stride + px) pixel with
    | none => rfl
    | some fb1 =>
      simp only
      rw [add_assoc]
      exact ih (px + 1) fb1

theorem drawLine_pixels (stride py : Int) (rle : Bool) :
    ∀ (fuel : Nat) (pixelCount : Int) (src : List Nat) (px : Int) (fb src1 : List Nat)
      (line : List Pixel),
      linePixels py rle fuel pixelCount src px = some (src1, line) →
      drawLine rle fuel pixelCount src (py * stride + px) fb
        = (plotAll stride line fb).map fun fb1 => (src1, fb1) := by
  intro fuel
  induction fuel with
  | zero =>
    intro pixelCount src px fb src1 line h
    simp [linePixels] at h
  | succ fuel ih =>
    intro pixelCount src px fb src1 line h
    simp only [linePixels] at h
    simp only [drawLine]
    by_cases hp : pixelCount > 0
    · rw [if_pos hp] at h
      rw [if_pos hp]
      by_cases hr : rle = true
      · rw [if_pos hr] at h
        rw [if_pos hr]
        cases src with
        | nil => simp at h
        | cons count src0 =>
          simp only at h ⊢
          by_cases he : count % 2 = 0
          · rw [if_pos he] at h
            rw [if_pos he]
            cases hd : runDirect py (count / 2) src0 px with
            | none => rw [hd] at h; simp at h
            | some r =>
              obtain ⟨src2, run⟩ := r
              rw [hd] at h
              simp only at h
              cases hl : linePixels py rle fuel (pixelCount - ((count / 2 : Nat) : Int)) src2
                  (px + ((count / 2 : Nat) : Int)) with
              | none => rw [hl] at h; simp at h
              | some r2 =>
                obtain ⟨src3, pixels⟩ := r2
                rw [hl] at h
                simp only [Option.some.injEq, Prod.mk.injEq] at h
                obtain ⟨rfl, rfl⟩ := h
                rw [copyPixels_run stride py (count / 2) src0 px fb src2 run hd, plotAll_append]
                cases plotAll stride run fb with
                | none => rfl
                | some fb1 =>
                  simp only [Option.map_some', Option.some_bind]
                  rw [add_assoc]
                  exact ih _ src2 _ fb1 _ pixels hl
          · rw [if_neg he] at h
            rw [if_neg he]
            cases src0 with
            | nil => simp at h
            | cons pixel src2 =>
              simp only at h ⊢
              cases hl : linePixels py rle fuel (pixelCount - ((count / 2 : Nat) : Int)) src2
                  (px + ((count / 2 : Nat) : Int)) with
              | none => rw [hl] at h; simp at h
              | some r2 =>
                obtain ⟨src3, pixels⟩ := r2
                rw [hl] at h
                simp only [Option.some.injEq, Prod.mk.injEq] at h
                obtain ⟨rfl, rfl⟩ := h
                rw [fillPixels_run, plotAll_append]
                cases plotAll stride (runFill py pixel (count / 2) px) fb with
                | none => rfl
                | some fb1 =>
                  simp only [Option.some_bind]
                  rw [add_assoc]
                  exact ih _ src2 _ fb1 _ pixels hl
      · rw [if_neg hr] at h
        rw [if_neg hr]
        exact copyPixels_run stride py _ src px fb src1 line h
    · rw [if_neg hp] at h
      rw [if_neg hp]
      simp only [Option.some.injEq, Prod.mk.injEq] at h
      obtain ⟨rfl, rfl⟩ := h
      rfl

theorem drawDeltaLoop_pixels (x y stride : Int) :
    ∀ (fuel : Nat) (src fb : List Nat) (pixels : List Pixel) (rest : List Nat),
      imagePixels x y fuel src = some (pixels, rest) →
      drawDeltaLoop x y stride fuel src fb = plotAll stride pixels fb := by
  intro fuel
  induction fuel with
  | zero =>
    intro src fb pixels rest h
    simp [imagePixels] at h
  | succ fuel ih =>
    intro src fb pixels rest h
    simp only [imagePixels] at h
    simp only [drawDeltaLoop]
    cases h0 : readS16 src 0 with
    | none => rw [h0] at h; simp at h
    | some sizeAndType =>
      rw [h0] at h
      simp only at h ⊢
      by_cases hz : sizeAndType = 0
      · rw [if_pos hz] at h
        rw [if_pos hz]
        simp only [Option.some.injEq, Prod.mk.injEq] at h
        obtain ⟨rfl, -⟩ := h
        rfl
      · rw [if_neg hz] at h
        rw [if_neg hz]
        cases h2 : readS16 src 2 with
        | none => rw [h2] at h; simp at h
        | some dx =>
          cases h4 : readS16 src 4 with
          | none => rw [h2, h4] at h; simp at h
          | some dy =>
            rw [h2, h4] at h
            simp only at h ⊢
            cases hl : linePixels (wrap16 (dy + y)) (deltaRle sizeAndType) fuel
                (deltaPixelCount sizeAndType) (src.drop 6) (wrap16 (dx + x)) with
            | none => rw [hl] at h; simp at h
            | some r =>
              obtain ⟨src1, line⟩ := r
              rw [hl] at h
              simp only at h
              cases hi : imagePixels x y fuel src1 with
              | none => rw [hi] at h; simp at h
              | some r2 =>
                obtain ⟨pixels1, rest1⟩ := r2
                rw [hi] at h
                simp only [Option.some.injEq, Prod.mk.injEq] at h
                obtain ⟨rfl, rfl⟩ := h
                rw [drawLine_pixels stride _ _ fuel _ _ _ fb src1 line hl, plotAll_append]
                cases plotAll stride line fb with
                | none => rfl
                | some fb1 =>
                  simp only [Option.map_some', Option.some_bind]
                  exact ih src1 fb1 pixels1 _ hi

/-! ## Delta images: the clipped drawing draws the pixels of the image in the clip -/

theorem wrap16_eq (v : Int) (h0 : -32768 ≤ v) (h1 : v ≤ 32767) : wrap16 v = v := by
  unfold wrap16
  omega

theorem readS16_isSome (src : List Nat) (pos : Nat) (h : pos + 1 < src.length) :
    ∃ v, readS16 src pos = some v := by
  unfold readS16
  rw [List.getElem?_eq_getElem (by omega : pos < src.length), List.getElem?_eq_getElem h]
  exact ⟨_, rfl⟩

theorem plotClip_append (clipRect : LRect) (stride : Int) :
    ∀ (a b : List Pixel) (fb : List Nat),
      plotClip clipRect stride (a ++ b) fb
        = (plotClip clipRect stride a fb).bind (plotClip clipRect stride b) := by
  intro a
  induction a with
  | nil => intro b fb; rfl
  | cons p a ih =>
    intro b fb
    simp only [List.cons_append, plotClip]
    split
    · cases writePixel fb (p.y * stride % 4294967296 + p.x) p.color with
      | none => rfl
      | some fb1 => exact ih b fb1
    · exact ih b fb

theorem copyPixelsClip_run (clipRect : LRect) (stride py : Int) :
    ∀ (n : Nat) (src : List Nat) (px : Int) (fb src1 : List Nat) (run : List Pixel),
      runDirect py n src px = some (src1, run) →
      (∀ p ∈ run, -32768 ≤ p.x ∧ p.x < 32767) →
      copyPixelsClip clipRect
          (decide (py ≥ clipRect.top) && decide (py < clipRect.bottom))
          (py * stride % 4294967296) n src px fb
        = (plotClip clipRect stride run fb).map fun fb1 => (src1, px + (n : Int), fb1) := by
  intro n
  induction n with
  | zero =>
    intro src px fb src1 run h _
    simp only [runDirect, Option.some.injEq, Prod.mk.injEq] at h
    obtain ⟨rfl, rfl⟩ := h
    simp [copyPixelsClip, plotClip]
  | succ n ih =>
    intro src px fb src1 run h hb
    cases src with
    | nil => simp [runDirect] at h
    | cons b src =>
      simp only [runDirect] at h
      cases hr : runDirect py n src (px + 1) with
      | none => rw [hr] at h; simp at h
      | some r =>
        obtain ⟨src2, pixels⟩ := r
        rw [hr] at h
        simp only [Option.some.injEq, Prod.mk.injEq] at h
        obtain ⟨rfl, rfl⟩ := h
        have hpx := hb ⟨px, py, b⟩ (List.mem_cons_self _ _)
        simp only at hpx
        have hw : wrap16 (px + 1) = px + 1 := wrap16_eq _ (by omega) (by omega)
        have hrec := fun fb1 => ih src (px + 1) fb1 src2 pixels hr
          (fun p hp => hb p (List.mem_cons_of_mem _ hp))
        have hcast : px + ((n + 1 : Nat) : Int) = px + 1 + (n : Int) := by
          push_cast
          ring
        simp only [copyPixelsClip, plotClip, List.drop_succ_cons, List.drop_zero, hw, hcast]
        split
        · cases writePixel fb (py * stride % 4294967296 + px) b with
          | none => rfl
          | some fb1 => exact hrec fb1
        · exact hrec fb

theorem runFill_mem_tail (py : Int) (pixel : Nat) (n : Nat) (px : Int) (p : Pixel)
    (h : p ∈ runFill py pixel n (px + 1)) : p ∈ runFill py pixel (n + 1) px := by
  simp only [runFill]
  exact List.mem_cons_of_mem _ h

theorem fillPixelsClip_run (clipRect : LRect) (stride py : Int) (pixel : Nat) :
    ∀ (n : Nat) (px : Int) (fb : List Nat),
      (∀ p ∈ runFill py pixel n px, -32768 ≤ p.x ∧ p.x < 32767) →
      fillPixelsClip clipRect
          (decide (py ≥ clipRect.top) && decide (py < clipRect.bottom))
          (py * stride % 4294967296) pixel n px fb
        = (plotClip clipRect stride (runFill py pixel n px) fb).map
            fun fb1 => (px + (n : Int), fb1) := by
  intro n
  induction n with
  | zero =>
    intro px fb _
    simp [fillPixelsClip, runFill, plotClip]
  | succ n ih =>
    intro px fb hb
    have hpx := hb ⟨px, py, pixel⟩ (by simp [runFill])
    simp only at hpx
    have hw : wrap16 (px + 1) = px + 1 := wrap16_eq _ (by omega) (by omega)
    have hrec := fun fb1 => ih (px + 1) fb1
      (fun p hp => hb p (runFill_mem_tail py pixel n px p hp))
    have hcast : px + ((n + 1 : Nat) : Int) = px + 1 + (n : Int) := by
      push_cast
      ring
    simp only [fillPixelsClip, runFill, plotClip, hw, hcast]
    split
    · cases writePixel fb (py * stride % 4294967296 + px) pixel with
      | none => rfl
      | some fb1 => exact hrec fb1
    · exact hrec fb

theorem clipLine_pixels (clipRect : LRect) (stride py : Int) (rle : Bool) :
    ∀ (fuel : Nat) (pixelCount : Int) (src : List Nat) (px : Int) (fb src1 : List Nat)
      (line : List Pixel),
      linePixels py rle fuel pixelCount src px = some (src1, line) →
      (∀ p ∈ line, -32768 ≤ p.x ∧ p.x < 32767) →
      clipLine clipRect (decide (py ≥ clipRect.top) && decide (py < clipRect.bottom))
          (py * stride % 4294967296) rle fuel pixelCount src px fb
        = (plotClip clipRect stride line fb).map fun fb1 => (src1, fb1) := by
  intro fuel
  induction fuel with
  | zero =>
    intro pixelCount src px fb src1 line h _
    simp [linePixels] at h
  | succ fuel ih =>
    intro pixelCount src px fb src1 line h hb
    simp only [linePixels] at h
    simp only [clipLine]
    by_cases hp : pixelCount > 0
    · rw [if_pos hp] at h
      rw [if_pos hp]
      by_cases hr : rle = true
      · rw [if_pos hr] at h
        rw [if_pos hr]
        cases src with
        | nil => simp at h
        | cons count src0 =>
          simp only at h ⊢
          by_cases he : count % 2 = 0
          · rw [if_pos he] at h
            rw [if_pos he]
            cases hd : runDirect py (count / 2) src0 px with
            | none => rw [hd] at h; simp at h
            | some r =>
              obtain ⟨src2, run⟩ := r
              rw [hd] at h
              simp only at h
              cases hl : linePixels py rle fuel (pixelCount - ((count / 2 : Nat) : Int)) src2
                  (px + ((count / 2 : Nat) : Int)) with
              | none => rw [hl] at h; simp at h
              | some r2 =>
                obtain ⟨src3, pixels⟩ := r2
                rw [hl] at h
                simp only [Option.some.injEq, Prod.mk.injEq] at h
                obtain ⟨rfl, rfl⟩ := h
                rw [copyPixelsClip_run clipRect stride py (count / 2) src0 px fb src2 run hd
                  (fun p hp => hb p (List.mem_append_left _ hp)), plotClip_append]
                cases plotClip clipRect stride run fb with
                | none => rfl
                | some fb1 =>
                  simp only [Option.map_some', Option.some_bind]
                  exact ih _ src2 _ fb1 _ pixels hl
                    (fun p hp => hb p (List.mem_append_right _ hp))
          · rw [if_neg he] at h
            rw [if_neg he]
            cases src0 with
            | nil => simp at h
            | cons pixel src2 =>
              simp only at h ⊢
              cases hl : linePixels py rle fuel (pixelCount - ((count / 2 : Nat) : Int)) src2
                  (px + ((count / 2 : Nat) : Int)) with
              | none => rw [hl] at h; simp at h
              | some r2 =>
                obtain ⟨src3, pixels⟩ := r2
                rw [hl] at h
                simp only [Option.some.injEq, Prod.mk.injEq] at h
                obtain ⟨rfl, rfl⟩ := h
                rw [fillPixelsClip_run clipRect stride py pixel (count / 2) px fb
                  (fun p hp => hb p (List.mem_append_left _ hp)), plotClip_append]
                cases plotClip clipRect stride (runFill py pixel (count / 2) px) fb with
                | none => rfl
                | some fb1 =>
                  simp only [Option.map_some', Option.some_bind]
                  exact ih _ src2 _ fb1 _ pixels hl
                    (fun p hp => hb p (List.mem_append_right _ hp))
      · rw [if_neg hr] at h
        rw [if_neg hr]
        rw [copyPixelsClip_run clipRect stride py _ src px fb src1 line h hb]
        cases plotClip clipRect stride line fb with
        | none => rfl
        | some fb1 => rfl
    · rw [if_neg hp] at h
      rw [if_neg hp]
      simp only [Option.some.injEq, Prod.mk.injEq] at h
      obtain ⟨rfl, rfl⟩ := h
      rfl

theorem deltaClipLoop_pixels (clipRect : LRect) (x y stride : Int) :
    ∀ (fuel : Nat) (src fb : List Nat) (pixels : List Pixel) (rest : List Nat),
      imagePixels x y fuel src = some (pixels, rest) → 4 ≤ rest.length →
      (∀ p ∈ pixels, -32768 ≤ p.x ∧ p.x < 32767) →
      deltaClipLoop clipRect x y stride fuel src fb = plotClip clipRect stride pixels fb := by
  intro fuel
  induction fuel with
  | zero =>
    intro src fb pixels rest h _ _
    simp [imagePixels] at h
  | succ fuel ih =>
    intro src fb pixels rest h hrest hb
    simp only [imagePixels] at h
    simp only [deltaClipLoop]
    cases h0 : readS16 src 0 with
    | none => rw [h0] at h; simp at h
    | some sizeAndType =>
      rw [h0] at h
      simp only at h
      by_cases hz : sizeAndType = 0
      · rw [if_pos hz] at h
        simp only [Option.some.injEq, Prod.mk.injEq] at h
        obtain ⟨rfl, rfl⟩ := h
        have hlen : 6 ≤ src.length := by
          rw [List.length_drop] at hrest
          omega
        obtain ⟨dx, h2⟩ := readS16_isSome src 2 (by omega)
        obtain ⟨dy, h4⟩ := readS16_isSome src 4 (by omega)
        rw [h2, h4]
        simp only [hz, if_true]
        rfl
      · rw [if_neg hz] at h
        cases h2 : readS16 src 2 with
        | none => rw [h2] at h; simp at h
        | some dx =>
          cases h4 : readS16 src 4 with
          | none => rw [h2, h4] at h; simp at h
          | some dy =>
            rw [h2, h4] at h
            simp only at h ⊢
            rw [if_neg hz]
            cases hl : linePixels (wrap16 (dy + y)) (deltaRle sizeAndType) fuel
                (deltaPixelCount sizeAndType) (src.drop 6) (wrap16 (dx + x)) with
            | none => rw [hl] at h; simp at h
            | some r =>
              obtain ⟨src1, line⟩ := r
              rw [hl] at h
              simp only at h
              cases hi : imagePixels x y fuel src1 with
              | none => rw [hi] at h; simp at h
              | some r2 =>
                obtain ⟨pixels1, rest1⟩ := r2
                rw [hi] at h
                simp only [Option.some.injEq, Prod.mk.injEq] at h
                obtain ⟨rfl, rfl⟩ := h
                rw [clipLine_pixels clipRect stride _ _ fuel _ _ _ fb src1 line hl
                  (fun p hp => hb p (List.mem_append_left _ hp)), plotClip_append]
                cases plotClip clipRect stride line fb with
                | none => rfl
                | some fb1 =>
                  simp only [Option.map_some', Option.some_bind]
                  exact ih src1 fb1 pixels1 _ hi hrest
                    (fun p hp => hb p (List.mem_append_right _ hp))

/-! ## Delta images: clipping masks the drawing -/

theorem clipTest_iff (clipRect : LRect) (px py : Int) :
    clipTest clipRect (decide (py ≥ clipRect.top) && decide (py < clipRect.bottom)) px = true
      ↔ inClip clipRect px py := by
  unfold clipTest inClip
  simp only [Bool.and_eq_true, decide_eq_true_eq, ge_iff_le]
  constructor
  · rintro ⟨⟨⟨h1, h2⟩, h3⟩, h4⟩
    exact ⟨h3, h4, h1, h2⟩
  · rintro ⟨h3, h4, h1, h2⟩
    exact ⟨⟨⟨h1, h2⟩, h3⟩, h4⟩

theorem pixel_index (stride height px py : Int) (hstride : 0 < stride)
    (hx0 : 0 ≤ px) (hx1 : px < stride) (hy0 : 0 ≤ py) (hy1 : py < height) :
    0 ≤ py * stride + px ∧ py * stride + px < stride * height
      ∧ (py * stride + px) % stride = px ∧ (py * stride + px) / stride = py := by
  have h1 : 0 ≤ py * stride := mul_nonneg hy0 (le_of_lt hstride)
  have h2 : (py + 1) * stride ≤ height * stride :=
    mul_le_mul_of_nonneg_right (by omega) (le_of_lt hstride)
  have h3 : (py + 1) * stride = py * stride + stride := by ring
  have h4 : height * stride = stride * height := by ring
  refine ⟨by omega, by omega, ?_, ?_⟩
  · rw [add_comm, Int.add_mul_emod_self]
    exact Int.emod_eq_of_lt hx0 hx1
  · rw [add_comm, Int.add_mul_ediv_right _ _ (ne_of_gt hstride), Int.ediv_eq_zero_of_lt hx0 hx1]
    simp

theorem plot_masked (clipRect : LRect) (stride height : Int) (fb : List Nat)
    (hstride : 0 < stride ∧ stride ≤ 32767) (hheight : height ≤ 32767)
    (hsize : (fb.length : Int) = stride * height) :
    ∀ (pixels : List Pixel) (fbI fbC : List Nat),
      pixelsInBitmap stride height pixels → maskedBy clipRect stride fb fbI fbC →
      ∃ fbI1 fbC1, plotAll stride pixels fbI = some fbI1
        ∧ plotClip clipRect stride pixels fbC = some fbC1
        ∧ maskedBy clipRect stride fb fbI1 fbC1 := by
  intro pixels
  induction pixels with
  | nil =>
    intro fbI fbC _ hm
    exact ⟨fbI, fbC, rfl, rfl, hm⟩
  | cons p pixels ih =>
    intro fbI fbC hin hm
    obtain ⟨hx0, hx1, hy0, hy1⟩ := hin p (List.mem_cons_self _ _)
    obtain ⟨hi0, hi1, hmod, hdiv⟩ :=
      pixel_index stride height p.x p.y hstride.1 hx0 hx1 hy0 hy1
    obtain ⟨hlI, hlC, hrel⟩ := hm
    have hnat : ((p.y * stride + p.x).toNat : Int) = p.y * stride + p.x :=
      Int.toNat_of_nonneg hi0
    have hlt : (p.y * stride + p.x).toNat < fb.length := by
      have : ((p.y * stride + p.x).toNat : Int) < (fb.length : Int) := by
        rw [hnat, hsize]
        exact hi1
      exact_mod_cast this
    have hwI : writePixel fbI (p.y * stride + p.x) p.color
        = some (fbI.set (p.y * stride + p.x).toNat p.color) := by
      unfold writePixel
      rw [if_pos ⟨hi0, by rw [hlI, hsize]; exact hi1⟩]
    have hu32 : p.y * stride % 4294967296 = p.y * stride := by
      apply Int.emod_eq_of_lt (mul_nonneg hy0 (le_of_lt hstride.1))
      have h1 : p.y * stride ≤ 32767 * stride :=
        mul_le_mul_of_nonneg_right (by omega) (le_of_lt hstride.1)
      omega
    have hwC : writePixel fbC (p.y * stride % 4294967296 + p.x) p.color
        = some (fbC.set (p.y * stride + p.x).toNat p.color) := by
      unfold writePixel
      rw [hu32, if_pos ⟨hi0, by rw [hlC, hsize]; exact hi1⟩]
    have hrest : pixelsInBitmap stride height pixels :=
      fun q hq => hin q (List.mem_cons_of_mem _ hq)
    by_cases hc : inClip clipRect p.x p.y
    · have hm1 : maskedBy clipRect stride fb (fbI.set (p.y * stride + p.x).toNat p.color)
          (fbC.set (p.y * stride + p.x).toNat p.color) := by
        refine ⟨by rw [List.length_set, hlI], by rw [List.length_set, hlC], ?_⟩
        intro idx hidx
        by_cases he : (p.y * stride + p.x).toNat = idx
        · subst he
          refine ⟨fun _ => ?_, fun hn => ?_⟩
          · rw [List.getElem?_set_self (by rw [hlC]; exact hlt),
              List.getElem?_set_self (by rw [hlI]; exact hlt)]
          · rw [hnat, hmod, hdiv] at hn
            exact absurd hc hn
        · rw [List.getElem?_set_ne he, List.getElem?_set_ne he]
          exact hrel idx hidx
      obtain ⟨fbI1, fbC1, h1, h2, h3⟩ := ih _ _ hrest hm1
      refine ⟨fbI1, fbC1, ?_, ?_, h3⟩
      · simp only [plotAll, hwI]
        exact h1
      · simp only [plotClip, (clipTest_iff clipRect p.x p.y).mpr hc, if_true, hwC]
        exact h2
    · have hm1 : maskedBy clipRect stride fb (fbI.set (p.y * stride + p.x).toNat p.color)
          fbC := by
        refine ⟨by rw [List.length_set, hlI], hlC, ?_⟩
        intro idx hidx
        by_cases he : (p.y * stride + p.x).toNat = idx
        · subst he
          refine ⟨fun hy => ?_, fun _ => ?_⟩
          · rw [hnat, hmod, hdiv] at hy
            exact absurd hy hc
          · exact (hrel _ hidx).2 (by rw [hnat, hmod, hdiv]; exact hc)
        · rw [List.getElem?_set_ne he]
          exact hrel idx hidx
      obtain ⟨fbI1, fbC1, h1, h2, h3⟩ := ih _ _ hrest hm1
      refine ⟨fbI1, fbC1, ?_, ?_, h3⟩
      · simp only [plotAll, hwI]
        exact h1
      · have hf : ¬ clipTest clipRect
            (decide (p.y ≥ clipRect.top) && decide (p.y < clipRect.bottom)) p.x = true :=
          fun ht => hc ((clipTest_iff clipRect p.x p.y).mp ht)
        simp only [plotClip, hf, if_false]
        exact h2

/-- Apart from the reads past the terminating word, clipped delta drawing is the unclipped
drawing masked by the clip rectangle. For every bitmap of width `stride` and height `height`, both at most 32767,
every delta image that is well formed up to its terminating zero word, with at least four
more bytes after that word, and whose pixels at the offset `(x, y)` all lie in the bitmap,
so that every run stays within one row, and for every clip rectangle: `deltaImage` and
`deltaClip` both return, and the bitmap after `deltaClip` equals the bitmap after
`deltaImage` at every pixel inside the clip rectangle and the bitmap before the call at
every pixel outside it. -/
theorem deltaClip_masks_deltaImage (s_bitmap : List Nat) (stride height : Int)
    (clipRect : LRect) (data : List Nat) (x y : Int) (pixels : List Pixel) (rest : List Nat)
    (hstride : 0 < stride ∧ stride ≤ 32767) (hheight : height ≤ 32767)
    (hsize : (s_bitmap.length : Int) = stride * height)
    (hpix : deltaPixels data x y = some (pixels, rest)) (hrest : 4 ≤ rest.length)
    (hrow : pixelsInBitmap stride height pixels) :
    ∃ fbImage fbClip, deltaImage s_bitmap stride data x y = some fbImage
      ∧ deltaClip s_bitmap stride clipRect data x y = some fbClip
      ∧ maskedBy clipRect stride s_bitmap fbImage fbClip := by
  have hm0 : maskedBy clipRect stride s_bitmap s_bitmap s_bitmap :=
    ⟨rfl, rfl, fun _ _ => ⟨fun _ => rfl, fun _ => rfl⟩⟩
  obtain ⟨fbI, fbC, h1, h2, h3⟩ :=
    plot_masked clipRect stride height s_bitmap hstride hheight hsize pixels s_bitmap s_bitmap
      hrow hm0
  refine ⟨fbI, fbC, ?_, ?_, h3⟩
  · unfold deltaImage drawDeltaIntoBitmap
    rw [drawDeltaLoop_pixels x y stride _ data s_bitmap pixels rest hpix]
    exact h1
  · unfold deltaClip
    rw [deltaClipLoop_pixels clipRect x y stride _ data s_bitmap pixels rest hpix hrest
      (fun p hp => by
        obtain ⟨a, b, -, -⟩ := hrow p hp
        exact ⟨by omega, by omega⟩)]
    exact h2

/-- The delta image `exDelta` drawn into the empty bitmap of 4 by 2 pixels with the clip
rectangle of its two middle columns. -/
theorem deltaClip_masks_deltaImage_witness :
    deltaPixels exDelta 0 0
      = some ([⟨0, 1, 7⟩, ⟨1, 1, 8⟩, ⟨2, 1, 9⟩, ⟨0, 0, 3⟩, ⟨1, 0, 3⟩, ⟨2, 0, 1⟩, ⟨3, 0, 2⟩],
          [0, 0, 0, 0])
    ∧ deltaImage (List.replicate 8 0) 4 exDelta 0 0 = some [3, 3, 1, 2, 7, 8, 9, 0]
    ∧ deltaClip (List.replicate 8 0) 4 exClip exDelta 0 0 = some [0, 3, 1, 0, 0, 8, 9, 0]
    ∧ ∃ fbImage fbClip, deltaImage (List.replicate 8 0) 4 exDelta 0 0 = some fbImage
        ∧ deltaClip (List.replicate 8 0) 4 exClip exDelta 0 0 = some fbClip
        ∧ maskedBy exClip 4 (List.replicate 8 0) fbImage fbClip :=
  ⟨by decide, by decide, by decide,
    deltaClip_masks_deltaImage (List.replicate 8 0) 4 2 exClip exDelta 0 0
      [⟨0, 1, 7⟩, ⟨1, 1, 8⟩, ⟨2, 1, 9⟩, ⟨0, 0, 3⟩, ⟨1, 0, 3⟩, ⟨2, 0, 1⟩, ⟨3, 0, 2⟩]
      [0, 0, 0, 0] (by decide) (by decide) (by decide) (by decide) (by decide) (by decide)⟩

/-- C29 (divergence): `deltaClip` (lines 142-147) reads the second and third word of a delta
line before it tests the first for the terminating zero, where `drawDeltaIntoBitmap` (lines
73-80) tests first. The delta image that is its terminating zero word alone is well formed
and draws nothing: `deltaImage` returns with the bitmap as it was, and `deltaClip` reads
four bytes past the end of the image; with four more bytes after the zero word it returns
with the bitmap as it was. -/
theorem deltaClip_reads_past_terminator :
    deltaPixels [0, 0] 0 0 = some ([], [])
    ∧ deltaImage (List.replicate 8 0) 4 [0, 0] 0 0 = some (List.replicate 8 0)
    ∧ deltaClip (List.replicate 8 0) 4 exClip [0, 0] 0 0 = none
    ∧ deltaClip (List.replicate 8 0) 4 exClip [0, 0, 0, 0, 0, 0] 0 0
      = some (List.replicate 8 0) := by
  decide

/-! ## Delta images: the fuel of the model is enough

More fuel than the bytes of the image changes nothing, so `deltaPixels` is `none` only for an
image that is cut off. -/

theorem runDirect_length (py : Int) :
    ∀ (n : Nat) (src : List Nat) (px : Int) (src1 : List Nat) (run : List Pixel),
      runDirect py n src px = some (src1, run) → src1.length ≤ src.length := by
  intro n
  induction n with
  | zero =>
    intro src px src1 run h
    simp only [runDirect, Option.some.injEq, Prod.mk.injEq] at h
    rw [h.1]
  | succ n ih =>
    intro src px src1 run h
    cases src with
    | nil => simp [runDirect] at h
    | cons b src =>
      simp only [runDirect] at h
      cases hr : runDirect py n src (px + 1) with
      | none => rw [hr] at h; simp at h
      | some r =>
        obtain ⟨src2, pixels⟩ := r
        rw [hr] at h
        simp only [Option.some.injEq, Prod.mk.injEq] at h
        have := ih src (px + 1) src2 pixels hr
        rw [← h.1, List.length_cons]
        omega

theorem linePixels_length (py : Int) (rle : Bool) :
    ∀ (fuel : Nat) (pixelCount : Int) (src : List Nat) (px : Int) (src1 : List Nat)
      (line : List Pixel),
      linePixels py rle fuel pixelCount src px = some (src1, line) →
      src1.length ≤ src.length := by
  intro fuel
  induction fuel with
  | zero =>
    intro pixelCount src px src1 line h
    simp [linePixels] at h
  | succ fuel ih =>
    intro pixelCount src px src1 line h
    simp only [linePixels] at h
    split at h
    · split at h
      · split at h
        · exact absurd h (by simp)
        · rename_i count src0
          split at h
          · split at h
            · exact absurd h (by simp)
            · rename_i src2 run hd
              split at h
              · exact absurd h (by simp)
              · rename_i src3 pixels hl
                simp only [Option.some.injEq, Prod.mk.injEq] at h
                have h1 := runDirect_length py _ _ _ _ _ hd
                have h2 := ih _ _ _ _ _ hl
                rw [← h.1, List.length_cons]
                omega
          · split at h
            · exact absurd h (by simp)
            · rename_i pixel src2
              split at h
              · exact absurd h (by simp)
              · rename_i src3 pixels hl
                simp only [Option.some.injEq, Prod.mk.injEq] at h
                have h2 := ih _ _ _ _ _ hl
                rw [← h.1]
                simp only [List.length_cons]
                omega
      · exact runDirect_length py _ _ _ _ _ h
    · simp only [Option.some.injEq, Prod.mk.injEq] at h
      rw [h.1]

theorem linePixels_fuel (py : Int) (rle : Bool) :
    ∀ (fuel more : Nat) (pixelCount : Int) (src : List Nat) (px : Int),
      src.length < fuel → fuel ≤ more →
      linePixels py rle more pixelCount src px
        = linePixels py rle fuel pixelCount src px := by
  intro fuel
  induction fuel with
  | zero =>
    intro more pixelCount src px h _
    exact absurd h (by omega)
  | succ fuel ih =>
    intro more pixelCount src px h hm
    cases more with
    | zero => exact absurd hm (by omega)
    | succ more =>
      simp only [linePixels]
      split
      · split
        · cases src with
          | nil => rfl
          | cons count src0 =>
            simp only [List.length_cons] at h
            simp only
            split
            · cases hd : runDirect py (count / 2) src0 px with
              | none => rfl
              | some r =>
                obtain ⟨src2, run⟩ := r
                simp only
                have h1 := runDirect_length py _ _ _ _ _ hd
                rw [ih more _ src2 _ (by omega) (by omega)]
            · cases src0 with
              | nil => rfl
              | cons pixel src2 =>
                simp only [List.length_cons] at h
                simp only
                rw [ih more _ src2 _ (by omega) (by omega)]
        · rfl
      · rfl

theorem readS16_length (src : List Nat) (pos : Nat) (v : Int)
    (h : readS16 src pos = some v) : pos + 1 < src.length := by
  unfold readS16 at h
  cases h1 : src[pos + 1]? with
  | none =>
    rw [h1] at h
    cases src[pos]? <;> simp at h
  | some hi => exact lt_of_getElem?_eq_some h1

theorem imagePixels_fuel (x y : Int) :
    ∀ (fuel more : Nat) (src : List Nat), src.length < fuel → fuel ≤ more →
      imagePixels x y more src = imagePixels x y fuel src := by
  intro fuel
  induction fuel with
  | zero =>
    intro more src h _
    exact absurd h (by omega)
  | succ fuel ih =>
    intro more src h hm
    cases more with
    | zero => exact absurd hm (by omega)
    | succ more =>
      simp only [imagePixels]
      cases h0 : readS16 src 0 with
      | none => rfl
      | some sizeAndType =>
        simp only
        split
        · rfl
        · cases h2 : readS16 src 2 with
          | none => rfl
          | some dx =>
            cases h4 : readS16 src 4 with
            | none => rfl
            | some dy =>
              simp only
              have hlen := readS16_length src 4 dy h4
              have hdrop : (src.drop 6).length < fuel := by
                rw [List.length_drop]
                omega
              rw [linePixels_fuel _ _ fuel more _ _ _ hdrop (by omega)]
              cases hl : linePixels (wrap16 (dy + y)) (deltaRle sizeAndType) fuel
                  (deltaPixelCount sizeAndType) (src.drop 6) (wrap16 (dx + x)) with
              | none => rfl
              | some r =>
                obtain ⟨src1, line⟩ := r
                simp only
                have h1 := linePixels_length _ _ _ _ _ _ _ _ hl
                rw [ih more src1 (by omega) (by omega)]

theorem deltaPixels_fuel (data : List Nat) (x y : Int) (k : Nat) :
    imagePixels x y (data.length + 1 + k) data = deltaPixels data x y :=
  imagePixels_fuel x y (data.length + 1) _ data (by omega) (by omega)

end LevelEditor
